import Mathlib

/-!
# Hash joiner (`pkg/sql/distsqlrun/hashjoiner.go`)

A shallow embedding of the hash-join processor: the key encoder
`encodeColumnsOfRow`, the bucket table, `buildPhase`, the seen-flag
allocation of `Run`, and `probePhase`.

Conventions of the embedding.

* A byte is a `Nat`; a `[]byte` is a `List Nat` (a nil slice is `[]`).
* An `EncDatumRow` is a `List D` for a datum type `D` (the type `EncDatum`
  lives in `sqlbase`); what the joiner asks of a datum, `IsNull` and `Encode`,
  is a field of `Env`.
* A Go `error` is an `Err`; `nil` is `none`.
* A `RowSource` is the list of the `(row, meta)` pairs its `Next` will return;
  an exhausted list keeps returning `(nil, empty)`.
* The Go map `map[string]bucket` is an association list with distinct keys;
  a `range` over it visits a permutation of the entries chosen by
  `Env.rangeOrder`.
* An index out of range is a Go run-time panic, kept as `Panic`.
* `renderLog` and `closeLog` are ghost fields: they record the calls of
  `render` and of the closing/draining helpers and are never read by the
  code.
-/

namespace HashJoiner

/-- A Go `error` value. -/
abbrev Err := String

/-- The four join types of `joinerBase.joinType`. -/
inductive JoinType where
  | innerJoin
  | leftOuter
  | rightOuter
  | fullOuter
deriving DecidableEq, Repr

/-- The record `ProducerMetadata`: ranges information or an error. -/
structure ProducerMetadata where
  Ranges : List Nat
  Err : Option Err
deriving DecidableEq, Repr

/-- The method `ProducerMetadata.Empty`. -/
def ProducerMetadata.Empty (m : ProducerMetadata) : Bool :=
  m.Ranges.isEmpty && m.Err.isNone

/-- The zero value `ProducerMetadata{}`. -/
def ProducerMetadata.zero : ProducerMetadata := ⟨[], none⟩

/-- What is pushed to the output receiver: a row or a metadata record. -/
inductive OutItem (D : Type) where
  | row (r : List D)
  | meta (m : ProducerMetadata)
deriving DecidableEq, Repr

/-- The rows of an output, metadata dropped. -/
def outRows {D : Type} (out : List (OutItem D)) : List (List D) :=
  out.filterMap (fun it => match it with
    | .row r => some r
    | .meta _ => none)

/-- The two inputs of the joiner. -/
inductive Side where
  | left
  | right
deriving DecidableEq, Repr

/-- Ghost record of the closing and draining calls. -/
inductive CloseEvent where
  /-- `emitHelper` saw the consumer decline: it drained `inputs` and closed. -/
  | emitStop (inputs : List Side)
  /-- `DrainAndClose(ctx, output, cause, inputs...)`. -/
  | drainAndClose (cause : Option Err) (inputs : List Side)
  /-- `h.out.close()`. -/
  | outClose
  /-- The deferred `h.rows.Close(ctx)`. -/
  | rowsClose
  /-- The deferred `h.bucketsAcc.Close(ctx)`. -/
  | accClose
deriving DecidableEq, Repr

/-- Run-time panics of the joiner: an index out of range at one of its four
indexing sites. -/
inductive Panic where
  /-- `row[colIdx]` in `encodeColumnsOfRow`. -/
  | colIdx
  /-- `h.rows.EncRow(idx)`. -/
  | rowIdx
  /-- `b.seen[i]`. -/
  | seenIdx
  /-- `b.rows[i]` in the unmatched sweep. -/
  | bucketRowsIdx
deriving DecidableEq, Repr

/-- The struct `bucket`: the rows of one group key, as indices into the row
container, and for outer joins one seen flag per row. -/
structure bucket where
  rows : List Nat
  seen : List Bool
deriving DecidableEq, Repr

/-- The three results of `joinerBase.render`. -/
structure RenderResult (D : Type) where
  row : Option (List D)
  failedOnCond : Bool
  err : Option Err

/-- The collaborators of the joiner that live outside `hashjoiner.go`. -/
structure Env (D : Type) where
  /-- `EncDatum.IsNull`. -/
  IsNull : D → Bool
  /-- `EncDatum.Encode(da, DatumEncoding_ASCENDING_KEY, appendTo)`: the new
  buffer and the error. -/
  Encode : D → List Nat → List Nat × Option Err
  /-- `joinerBase.render(lrow, rrow)`. -/
  render : Option (List D) → Option (List D) → RenderResult D
  /-- The error of `rowContainer.AddRow`, given the rows already stored. -/
  AddRow : List (List D) → List D → Option Err
  /-- The error of `mon.BoundAccount.Grow`, given the bytes already charged and
  the bytes asked for. -/
  Grow : Nat → Nat → Option Err
  /-- Whether the consumer still needs rows after the given pushes. -/
  consumerMore : List (OutItem D) → Bool
  /-- The order in which the `range` loop at a site (0: `Run`, 1: `probePhase`)
  visits the entries of the map. -/
  rangeOrder : Nat → List (List Nat × bucket) → List (List Nat × bucket)
  /-- A `range` visits every entry of the map exactly once. -/
  rangeOrder_perm : ∀ site m, (rangeOrder site m).Perm m
  /-- Constant `sizeOfBucket`. -/
  sizeOfBucket : Nat
  /-- Constant `sizeOfRowIdx`. -/
  sizeOfRowIdx : Nat
  /-- Constant `sizeOfBoolSlice`. -/
  sizeOfBoolSlice : Nat
  /-- Constant `sizeOfBool`. -/
  sizeOfBool : Nat

/-- The result of `encodeColumnsOfRow`: its three return values, or the panic of
`row[colIdx]`. -/
inductive EncodeResult where
  | ret (encoding : List Nat) (hasNull : Bool) (err : Option Err)
  | panic
deriving DecidableEq, Repr

/-- The function `encodeColumnsOfRow(da, appendTo, row, cols, encodeNull)`. -/
def encodeColumnsOfRow {D : Type} (env : Env D) (appendTo : List Nat) (row : List D)
    (cols : List Nat) (encodeNull : Bool) : EncodeResult :=
  match cols with
  | [] => .ret appendTo false none
  | colIdx :: rest =>
    match row[colIdx]? with
    | none => .panic
    | some d =>
      if env.IsNull d && !encodeNull then .ret [] true none
      else
        match env.Encode d appendTo with
        | (buf, some e) => .ret buf false (some e)
        | (buf, none) => encodeColumnsOfRow env buf row rest encodeNull

/-- The map lookup `h.buckets[string(key)]`. -/
def mapGet (m : List (List Nat × bucket)) (key : List Nat) : Option bucket :=
  match m with
  | [] => none
  | (k, b) :: rest => if k = key then some b else mapGet rest key

/-- The map store `h.buckets[string(key)] = b`. -/
def mapSet (m : List (List Nat × bucket)) (key : List Nat) (b : bucket) :
    List (List Nat × bucket) :=
  match m with
  | [] => [(key, b)]
  | (k, b') :: rest => if k = key then (key, b) :: rest else (k, b') :: mapSet rest key b

/-- The struct `hashJoiner`, with the fields of `joinerBase` it uses, the pushes
received by its output, and the two ghost logs. -/
structure hashJoiner (D : Type) where
  joinType : JoinType
  leftSource : List (Option (List D) × ProducerMetadata)
  rightSource : List (Option (List D) × ProducerMetadata)
  out : List (OutItem D)
  rows : List (List D)
  bucketsAcc : Nat
  leftEqCols : List Nat
  rightEqCols : List Nat
  buckets : List (List Nat × bucket)
  renderLog : List (Option (List D) × Option (List D))
  closeLog : List CloseEvent

/-- The constructor `newHashJoiner`: an empty table, an empty row container and
a fresh memory account. -/
def newHashJoiner {D : Type} (joinType : JoinType) (leftEqCols rightEqCols : List Nat)
    (leftSource rightSource : List (Option (List D) × ProducerMetadata)) : hashJoiner D :=
  { joinType := joinType, leftSource := leftSource, rightSource := rightSource,
    out := [], rows := [], bucketsAcc := 0,
    leftEqCols := leftEqCols, rightEqCols := rightEqCols,
    buckets := [], renderLog := [], closeLog := [] }

/-- What a phase returns: `(moreRows, err)`, or a panic. -/
inductive PhaseResult where
  | ret (moreRows : Bool) (err : Option Err)
  | panic (p : Panic)
deriving DecidableEq, Repr

/-- The test `h.joinType == rightOuter || h.joinType == fullOuter`. -/
def JoinType.rightSide (t : JoinType) : Bool :=
  t == .rightOuter || t == .fullOuter

/-- The test `h.joinType == leftOuter || h.joinType == fullOuter`. -/
def JoinType.leftSide (t : JoinType) : Bool :=
  t == .leftOuter || t == .fullOuter

/-- Modelled from the spec: `emitHelper`, which is not in `hashjoiner.go`. It
pushes the row or the metadata to the output and returns false iff the
consumer has signalled stop, in which case it has drained the given inputs and
closed the output. -/
def emitHelper {D : Type} (env : Env D) (h : hashJoiner D) (item : OutItem D)
    (inputs : List Side) : hashJoiner D × Bool :=
  let h1 := { h with out := h.out ++ [item] }
  if env.consumerMore h1.out then (h1, true)
  else ({ h1 with closeLog := h1.closeLog ++ [.emitStop inputs] }, false)

/-- Modelled from the spec: `DrainAndClose`, which is not in `hashjoiner.go`. It
drains the given inputs and closes the output with the cause. -/
def DrainAndClose {D : Type} (h : hashJoiner D) (cause : Option Err) (inputs : List Side) :
    hashJoiner D :=
  { h with closeLog := h.closeLog ++ [.drainAndClose cause inputs] }

/-- The call `h.render(lrow, rrow)`, logged. -/
def render {D : Type} (env : Env D) (h : hashJoiner D) (lrow rrow : Option (List D)) :
    hashJoiner D × RenderResult D :=
  ({ h with renderLog := h.renderLog ++ [(lrow, rrow)] }, env.render lrow rrow)

/-- One iteration of the loop of `buildPhase` on a row of the right input.
`none` is `continue`. -/
def buildRow {D : Type} (env : Env D) (h : hashJoiner D) (rrow : List D) :
    hashJoiner D × Option PhaseResult :=
  match encodeColumnsOfRow env [] rrow h.rightEqCols false with
  | .panic => (h, some (.panic .colIdx))
  | .ret _ _ (some e) => (h, some (.ret false (some e)))
  | .ret encoded hasNull none =>
    if hasNull then
      if h.joinType.rightSide then
        match render env h none (some rrow) with
        | (h, res) =>
          match res.err with
          | some e => (h, some (.ret false (some e)))
          | none =>
            match res.row with
            | none => (h, none)
            | some row =>
              match emitHelper env h (.row row) [.left, .right] with
              | (h, true) => (h, none)
              | (h, false) => (h, some (.ret false none))
      else (h, none)
    else
      let rowIdx := h.rows.length
      match env.AddRow h.rows rrow with
      | some e => (h, some (.ret false (some e)))
      | none =>
        let h := { h with rows := h.rows ++ [rrow] }
        let usage := match mapGet h.buckets encoded with
          | some _ => env.sizeOfRowIdx
          | none => env.sizeOfRowIdx + encoded.length + env.sizeOfBucket
        match env.Grow h.bucketsAcc usage with
        | some e => (h, some (.ret false (some e)))
        | none =>
          let b := (mapGet h.buckets encoded).getD ⟨[], []⟩
          let b := { b with rows := b.rows ++ [rowIdx] }
          ({ h with bucketsAcc := h.bucketsAcc + usage,
                    buckets := mapSet h.buckets encoded b }, none)

/-- One iteration of the loop of `buildPhase` on the pair `(rrow, meta)` that
`h.rightSource.Next()` returned. `none` is `continue`. -/
def buildItem {D : Type} (env : Env D) (h : hashJoiner D)
    (item : Option (List D) × ProducerMetadata) : hashJoiner D × Option PhaseResult :=
  if !item.2.Empty then
    match item.2.Err with
    | some e => (h, some (.ret true (some e)))
    | none =>
      let r := emitHelper env h (.meta item.2) [.left, .right]
      if r.2 then (r.1, none) else (r.1, some (.ret false none))
  else
    match item.1 with
    | none => (h, some (.ret true none))
    | some rrow => buildRow env h rrow

/-- The loop of `buildPhase` over what `h.rightSource.Next()` returns; an
exhausted source returns `(nil, empty)`. -/
def buildLoop {D : Type} (env : Env D) (h : hashJoiner D)
    (src : List (Option (List D) × ProducerMetadata)) : hashJoiner D × PhaseResult :=
  match src with
  | [] => ({ h with rightSource := [] }, .ret true none)
  | item :: rest =>
    let r := buildItem env { h with rightSource := rest } item
    match r.2 with
    | some res => (r.1, res)
    | none => buildLoop env r.1 rest

/-- The method `hashJoiner.buildPhase`. -/
def buildPhase {D : Type} (env : Env D) (h : hashJoiner D) : hashJoiner D × PhaseResult :=
  buildLoop env h h.rightSource

/-- The loop of `Run` that allocates the seen flags, over the entries the
`range` visits: the state and the error of `Grow`, if any. -/
def allocSeen {D : Type} (env : Env D) (h : hashJoiner D)
    (entries : List (List Nat × bucket)) : hashJoiner D × Option Err :=
  match entries with
  | [] => (h, none)
  | (k, bucket) :: rest =>
    let usage := env.sizeOfBoolSlice + bucket.rows.length * env.sizeOfBool
    match env.Grow h.bucketsAcc usage with
    | some e => (h, some e)
    | none =>
      let bucket := { bucket with seen := List.replicate bucket.rows.length false }
      allocSeen env { h with bucketsAcc := h.bucketsAcc + usage,
                             buckets := mapSet h.buckets k bucket } rest

/-- The joiner after a call of `renderAndEmit` and the three values returned. -/
structure Emitted (D : Type) where
  h : hashJoiner D
  moreRowsNeeded : Bool
  failedOnCond : Bool
  err : Option Err

/-- The closure `renderAndEmit` of `probePhase`. -/
def renderAndEmit {D : Type} (env : Env D) (h : hashJoiner D) (lrow rrow : Option (List D)) :
    Emitted D :=
  let r := render env h lrow rrow
  match r.2.err with
  | some e => ⟨r.1, false, false, some e⟩
  | none =>
    match r.2.row with
    | some row =>
      let e := emitHelper env r.1 (.row row) [.left]
      ⟨e.1, e.2, r.2.failedOnCond, none⟩
    | none => ⟨r.1, true, r.2.failedOnCond, none⟩

/-- The loop `for i, rrowIdx := range b.rows` of `probePhase`, from position
`i`. The local `b` shares its `seen` slice with the entry of the map, so a
write to `b.seen[i]` is a write to both. `none` is the normal end of the
loop. -/
def probeBucket {D : Type} (env : Env D) (h : hashJoiner D) (lrow : List D)
    (key : List Nat) (b : bucket) (i : Nat) (rrowIdxs : List Nat) :
    hashJoiner D × Option PhaseResult :=
  match rrowIdxs with
  | [] => (h, none)
  | rrowIdx :: rest =>
    match h.rows[rrowIdx]? with
    | none => (h, some (.panic .rowIdx))
    | some rrow =>
      let r := renderAndEmit env h (some lrow) (some rrow)
      if !r.moreRowsNeeded || r.err.isSome then (r.h, some (.ret r.moreRowsNeeded r.err))
      else if !r.failedOnCond && h.joinType.rightSide then
        if i < b.seen.length then
          let b := { b with seen := b.seen.set i true }
          probeBucket env { r.h with buckets := mapSet r.h.buckets key b } lrow key b (i + 1) rest
        else (r.h, some (.panic .seenIdx))
      else probeBucket env r.h lrow key b (i + 1) rest

/-- One iteration of the main loop of `probePhase` on a row of the left input.
`none` is `continue`. -/
def probeRow {D : Type} (env : Env D) (h : hashJoiner D) (lrow : List D) :
    hashJoiner D × Option PhaseResult :=
  match encodeColumnsOfRow env [] lrow h.leftEqCols false with
  | .panic => (h, some (.panic .colIdx))
  | .ret _ _ (some e) => (h, some (.ret true (some e)))
  | .ret encoded hasNull none =>
    if hasNull then
      if h.joinType.leftSide then
        let r := renderAndEmit env h (some lrow) none
        if !r.moreRowsNeeded || r.err.isSome then (r.h, some (.ret r.moreRowsNeeded r.err))
        else (r.h, none)
      else (h, none)
    else
      match mapGet h.buckets encoded with
      | some b => probeBucket env h lrow encoded b 0 b.rows
      | none =>
        if h.joinType.leftSide then
          let r := renderAndEmit env h (some lrow) none
          if !r.moreRowsNeeded || r.err.isSome then (r.h, some (.ret r.moreRowsNeeded r.err))
          else (r.h, none)
        else (h, none)

/-- How an iteration of the main loop of `probePhase` ends: `next` is
`continue`, `stop` is `break`, `ret` is a `return`. -/
inductive LoopStep where
  | next
  | stop
  | ret (r : PhaseResult)
deriving DecidableEq, Repr

/-- One iteration of the main loop of `probePhase` on the pair `(lrow, meta)`
that `h.leftSource.Next()` returned. -/
def probeItem {D : Type} (env : Env D) (h : hashJoiner D)
    (item : Option (List D) × ProducerMetadata) : hashJoiner D × LoopStep :=
  if !item.2.Empty then
    match item.2.Err with
    | some e => (h, .ret (.ret true (some e)))
    | none =>
      let r := emitHelper env h (.meta item.2) [.left, .right]
      if r.2 then (r.1, .next) else (r.1, .ret (.ret false none))
  else
    match item.1 with
    | none => (h, .stop)
    | some lrow =>
      let r := probeRow env h lrow
      match r.2 with
      | some res => (r.1, .ret res)
      | none => (r.1, .next)

/-- The main loop of `probePhase` over what `h.leftSource.Next()` returns; an
exhausted source returns `(nil, empty)`. `none` is the end of the loop by
`break`. -/
def probeLoop {D : Type} (env : Env D) (h : hashJoiner D)
    (src : List (Option (List D) × ProducerMetadata)) : hashJoiner D × Option PhaseResult :=
  match src with
  | [] => ({ h with leftSource := [] }, none)
  | item :: rest =>
    let r := probeItem env { h with leftSource := rest } item
    match r.2 with
    | .ret res => (r.1, some res)
    | .stop => (r.1, none)
    | .next => probeLoop env r.1 rest

/-- The loop `for i, seen := range b.seen` of the unmatched sweep, from
position `i`. `none` is the normal end of the loop. -/
def sweepBucket {D : Type} (env : Env D) (h : hashJoiner D) (b : bucket) (i : Nat)
    (seens : List Bool) : hashJoiner D × Option PhaseResult :=
  match seens with
  | [] => (h, none)
  | seen :: rest =>
    if !seen then
      match b.rows[i]? with
      | none => (h, some (.panic .bucketRowsIdx))
      | some idx =>
        match h.rows[idx]? with
        | none => (h, some (.panic .rowIdx))
        | some rrow =>
          let r := renderAndEmit env h none (some rrow)
          if !r.moreRowsNeeded || r.err.isSome then (r.h, some (.ret r.moreRowsNeeded r.err))
          else sweepBucket env r.h b (i + 1) rest
    else sweepBucket env h b (i + 1) rest

/-- The loop `for _, b := range h.buckets` of the unmatched sweep. -/
def sweepLoop {D : Type} (env : Env D) (h : hashJoiner D)
    (entries : List (List Nat × bucket)) : hashJoiner D × Option PhaseResult :=
  match entries with
  | [] => (h, none)
  | (_, b) :: rest =>
    let r := sweepBucket env h b 0 b.seen
    match r.2 with
    | some res => (r.1, some res)
    | none => sweepLoop env r.1 rest

/-- The unmatched sweep of `probePhase` and its closing `h.out.close()`. -/
def probeSweep {D : Type} (env : Env D) (h : hashJoiner D) : hashJoiner D × PhaseResult :=
  if h.joinType.rightSide then
    let r := sweepLoop env h (env.rangeOrder 1 h.buckets)
    match r.2 with
    | some res => (r.1, res)
    | none => ({ r.1 with closeLog := r.1.closeLog ++ [.outClose] }, .ret false none)
  else ({ h with closeLog := h.closeLog ++ [.outClose] }, .ret false none)

/-- The method `hashJoiner.probePhase`. -/
def probePhase {D : Type} (env : Env D) (h : hashJoiner D) : hashJoiner D × PhaseResult :=
  let r := probeLoop env h h.leftSource
  match r.2 with
  | some res => (r.1, res)
  | none => probeSweep env r.1

/-- The part of `Run` between the two phases and the probe phase: the seen
allocation for right and full outer joins, then `probePhase`. -/
def runProbe {D : Type} (env : Env D) (h : hashJoiner D) : hashJoiner D × Option Panic :=
  match (if h.joinType.rightSide then allocSeen env h (env.rangeOrder 0 h.buckets)
         else (h, none)) with
  | (h, some e) => (DrainAndClose h (some e) [.left], none)
  | (h, none) =>
    match probePhase env h with
    | (h, .panic p) => (h, some p)
    | (h, .ret moreRows err) =>
      if moreRows || err.isSome then (DrainAndClose h err [.left], none)
      else (h, none)

/-- The body of `Run`, before its deferred calls. -/
def runBody {D : Type} (env : Env D) (h : hashJoiner D) : hashJoiner D × Option Panic :=
  match buildPhase env h with
  | (h, .panic p) => (h, some p)
  | (h, .ret _ (some e)) => (DrainAndClose h (some e) [.left, .right], none)
  | (h, .ret false none) => (h, none)
  | (h, .ret true none) => runProbe env h

/-- The method `hashJoiner.Run`: the body, then the deferred `h.rows.Close` and
`h.bucketsAcc.Close`, which release the container and the account. -/
def Run {D : Type} (env : Env D) (h : hashJoiner D) : hashJoiner D × Option Panic :=
  match runBody env h with
  | (h, p) =>
    ({ h with rows := [], bucketsAcc := 0,
              closeLog := h.closeLog ++ [.rowsClose, .accClose] }, p)

/-! ## A sample instance: the schema of the seed scenarios

Left `L(a int, b text)`, right `R(c int, d text)`, equality on `L.a = R.c`. -/

/-- A sample datum: NULL, an integer or a text. -/
inductive Datum where
  | null
  | int (v : Nat)
  | text (s : List Nat)
deriving DecidableEq, Repr

/-- A sample key encoding of a datum: a tag byte, then the payload; a text is
closed by a zero byte. -/
def sampleEncode (d : Datum) (appendTo : List Nat) : List Nat × Option Err :=
  match d with
  | .null => (appendTo ++ [0], none)
  | .int v => (appendTo ++ [1, v], none)
  | .text s => (appendTo ++ [2] ++ s.map (· + 1) ++ [0], none)

/-- A sample `render`: the left row (or two NULLs) followed by the right row (or
two NULLs); a pair of two rows is kept when the ON condition `onCond` holds of
it, a padded row always (as in seed scenario 5). -/
def sampleRender (onCond : List Datum → Bool) (lrow rrow : Option (List Datum)) :
    RenderResult Datum :=
  let combined := lrow.getD [.null, .null] ++ rrow.getD [.null, .null]
  if lrow.isNone || rrow.isNone || onCond combined then ⟨some combined, false, none⟩
  else ⟨none, true, none⟩

/-- A sample environment: nothing fails, the consumer never declines, a `range`
visits the map in insertion order. -/
def sampleEnv (onCond : List Datum → Bool) : Env Datum :=
  { IsNull := fun d => d == .null,
    Encode := sampleEncode,
    render := sampleRender onCond,
    AddRow := fun _ _ => none,
    Grow := fun _ _ => none,
    consumerMore := fun _ => true,
    rangeOrder := fun _ m => m,
    rangeOrder_perm := fun _ _ => List.Perm.refl _,
    sizeOfBucket := 48,
    sizeOfRowIdx := 8,
    sizeOfBoolSlice := 24,
    sizeOfBool := 1 }

/-- A source that delivers the given rows and no metadata. -/
def rowsSource {D : Type} (rs : List (List D)) : List (Option (List D) × ProducerMetadata) :=
  rs.map (fun r => (some r, ProducerMetadata.zero))

/-- The texts `x`, `y`, `z`, `foo`, `bar`, `baz` of the seed scenarios. -/
def tx : Datum := .text [120]

/-- The text `y`. -/
def ty : Datum := .text [121]

/-- The text `z`. -/
def tz : Datum := .text [122]

/-- The text `foo`. -/
def tfoo : Datum := .text [102, 111, 111]

/-- The text `bar`. -/
def tbar : Datum := .text [98, 97, 114]

/-- The text `baz`. -/
def tbaz : Datum := .text [98, 97, 122]

/-- The ON condition `R.d = 'foo'` of seed scenario 5, on a combined row. -/
def onFoo (row : List Datum) : Bool :=
  row[3]? == some tfoo

/-- The ON condition `true`. -/
def onTrue (_ : List Datum) : Bool := true

/-- Left input of seed scenario 1. -/
def seed1L : List (List Datum) := [[.int 1, tx], [.int 2, ty]]

/-- Right input of seed scenario 1. -/
def seed1R : List (List Datum) := [[.int 1, tfoo], [.int 1, tbar], [.int 3, tbaz]]

/-- Left input of seed scenario 2. -/
def seed2L : List (List Datum) := [[.null, tz], [.int 1, tx]]

/-- Right input of seed scenario 2. -/
def seed2R : List (List Datum) := [[.int 1, tfoo]]

/-- Left input of seed scenario 5. -/
def seed5L : List (List Datum) := [[.int 1, tx]]

/-- Right input of seed scenario 5. -/
def seed5R : List (List Datum) := [[.int 1, tfoo], [.int 1, tbar]]

/-! ## Reference definitions -/

/-- Some listed column of the row is NULL. -/
def hasNullIn {D : Type} (env : Env D) (cols : List Nat) (row : List D) : Prop :=
  ∃ c ∈ cols, ∃ d, row[c]? = some d ∧ env.IsNull d = true

/-- Some listed column of the row is NULL, as a test. -/
def hasNullB {D : Type} (env : Env D) (cols : List Nat) (row : List D) : Bool :=
  cols.any (fun c => match row[c]? with
    | some d => env.IsNull d
    | none => false)

/-- The group key of a row under a column list: the bytes the key encoder
returns from an empty buffer when it reports neither a NULL nor an error. -/
def keyOf {D : Type} (env : Env D) (cols : List Nat) (row : List D) : Option (List Nat) :=
  match encodeColumnsOfRow env [] row cols false with
  | .ret enc false none => some enc
  | _ => none

/-- The positions, counted from `off`, of the rows whose group key is `k`. -/
def idxOfKey {D : Type} (env : Env D) (cols : List Nat) (k : List Nat) (off : Nat)
    (rows : List (List D)) : List Nat :=
  match rows with
  | [] => []
  | r :: rs =>
    if keyOf env cols r = some k then off :: idxOfKey env cols k (off + 1) rs
    else idxOfKey env cols k (off + 1) rs

/-- The rows among the pairs pulled from a source: a pair with metadata carries
no row. -/
def pulledRows {D : Type} (items : List (Option (List D) × ProducerMetadata)) :
    List (List D) :=
  items.filterMap (fun it => if it.2.Empty then it.1 else none)

/-- The joiner differs from another one in its mutable state only. -/
def SameConfig {D : Type} (h h' : hashJoiner D) : Prop :=
  h'.joinType = h.joinType ∧ h'.leftEqCols = h.leftEqCols ∧ h'.rightEqCols = h.rightEqCols

/-- The table after a build without error: distinct keys, and the bucket of a
key lists exactly the positions of the stored rows with that key, and is not
empty. -/
structure TableInv {D : Type} (env : Env D) (h : hashJoiner D) : Prop where
  nodup : (h.buckets.map Prod.fst).Nodup
  rows_eq : ∀ k b, mapGet h.buckets k = some b →
    b.rows = idxOfKey env h.rightEqCols k 0 h.rows ∧ b.rows ≠ []
  absent : ∀ k, mapGet h.buckets k = none → idxOfKey env h.rightEqCols k 0 h.rows = []
  keyed : ∀ r ∈ h.rows, (keyOf env h.rightEqCols r).isSome = true

/-- Every row index stored in a bucket is a valid index into the row
container. -/
def IdxValid {D : Type} (h : hashJoiner D) : Prop :=
  ∀ kb ∈ h.buckets, ∀ i ∈ kb.2.rows, i < h.rows.length

/-- No bucket has seen flags (the `seen` slices are nil). -/
def SeenNil {D : Type} (h : hashJoiner D) : Prop :=
  ∀ kb ∈ h.buckets, kb.2.seen = []

/-- Every bucket has one seen flag per row index. -/
def SeenLen {D : Type} (h : hashJoiner D) : Prop :=
  ∀ kb ∈ h.buckets, kb.2.seen.length = kb.2.rows.length

/-- The phase did not panic at `EncRow(idx)`, `b.seen[i]` or `b.rows[i]`. -/
def NoIndexPanic (r : PhaseResult) : Prop :=
  ∀ p, r = .panic p → p = .colIdx

/-- An entry of the map after the seen allocation: the same rows, one false
flag per row. -/
def allocEntry (kb : List Nat × bucket) : List Nat × bucket :=
  (kb.1, { kb.2 with seen := List.replicate kb.2.rows.length false })

/-- The buckets are well formed for the probe phase: valid row indices, one
seen flag per row index for right and full outer joins, no seen flags
otherwise. -/
def ProbeWF {D : Type} (h : hashJoiner D) : Prop :=
  IdxValid h ∧ (h.joinType.rightSide = true → SeenLen h) ∧
    (h.joinType.rightSide = false → SeenNil h)

/-- Nothing fails and the consumer never declines: no datum encoding, render,
`AddRow` or `Grow` returns an error, and the consumer always needs more
rows. -/
structure Quiet {D : Type} (env : Env D) : Prop where
  encode : ∀ d buf, (env.Encode d buf).2 = none
  render : ∀ l r, (env.render l r).err = none
  addRow : ∀ c r, env.AddRow c r = none
  grow : ∀ u n, env.Grow u n = none
  more : ∀ out, env.consumerMore out = true

/-- The equality columns are in range for every row of the input. -/
def ColsInRange {D : Type} (cols : List Nat) (rs : List (List D)) : Prop :=
  ∀ r ∈ rs, ∀ c ∈ cols, c < r.length

/-- What a call of `render` contributes to the output: its row, if any. -/
def emitted {D : Type} (env : Env D) (lrow rrow : Option (List D)) : List (OutItem D) :=
  (env.render lrow rrow).row.toList.map OutItem.row

/-- The output of the build phase of a quiet run: for right and full outer
joins the rendering, with a nil left row, of every right row with a NULL
equality column, in arrival order; nothing otherwise. -/
def buildOut {D : Type} (env : Env D) (jt : JoinType) (rightEqCols : List Nat)
    (R : List (List D)) : List (OutItem D) :=
  if jt.rightSide then
    (R.filter (hasNullB env rightEqCols)).flatMap (fun r => emitted env none (some r))
  else []

/-- The calls of `render` in the build phase of a quiet run. -/
def buildLog {D : Type} (env : Env D) (jt : JoinType) (rightEqCols : List Nat)
    (R : List (List D)) : List (Option (List D) × Option (List D)) :=
  if jt.rightSide then
    (R.filter (hasNullB env rightEqCols)).map (fun r => (none, some r))
  else []

/-- The left row matches the stored right row at a position: `render` does not
report `failedOnCond`. -/
def hit {D : Type} (env : Env D) (lrow : List D) (rows : List (List D)) (idx : Nat) : Bool :=
  match rows[idx]? with
  | some r => !(env.render (some lrow) (some r)).failedOnCond
  | none => false

/-- The stored right rows whose group key is `k`, in arrival order. -/
def matchesOf {D : Type} (env : Env D) (rightEqCols : List Nat) (stored : List (List D))
    (k : List Nat) : List (List D) :=
  stored.filter (fun r => decide (keyOf env rightEqCols r = some k))

/-- The calls of `render` the probe loop makes for one left row, given the
stored right rows: one call per stored row with the key of the left row, in
arrival order, when the left row has a key and some stored row has it too;
otherwise one call with a nil right row for left and full outer joins and
none for the other join types. -/
def leftCalls {D : Type} (env : Env D) (jt : JoinType) (leftEqCols rightEqCols : List Nat)
    (stored : List (List D)) (l : List D) : List (Option (List D) × Option (List D)) :=
  match keyOf env leftEqCols l with
  | none => if jt.leftSide then [(some l, none)] else []
  | some k =>
    if (matchesOf env rightEqCols stored k).isEmpty then
      if jt.leftSide then [(some l, none)] else []
    else (matchesOf env rightEqCols stored k).map (fun r => (some l, some r))

/-- The output the probe loop produces for one left row: the rows of its calls
of `render`, in order. -/
def leftBlock {D : Type} (env : Env D) (jt : JoinType) (leftEqCols rightEqCols : List Nat)
    (stored : List (List D)) (l : List D) : List (OutItem D) :=
  (leftCalls env jt leftEqCols rightEqCols stored l).flatMap (fun c => emitted env c.1 c.2)

/-- Some left row of `ls` has the key `k` and matches the stored right row at
position `idx`. -/
def matchedAt {D : Type} (env : Env D) (leftEqCols : List Nat) (ls : List (List D))
    (k : List Nat) (rows : List (List D)) (idx : Nat) : Bool :=
  ls.any (fun l => decide (keyOf env leftEqCols l = some k) && hit env l rows idx)

/-- The seen flags after the probe loop has processed the left rows `ls`: the
flag of a position is set iff some left row of `ls` hit the bucket and
matched the row at that position. -/
def SeenInv {D : Type} (env : Env D) (ls : List (List D)) (h : hashJoiner D) : Prop :=
  ∀ k b, mapGet h.buckets k = some b →
    b.seen = b.rows.map (fun idx => matchedAt env h.leftEqCols ls k h.rows idx)

/-- The row indices of a bucket whose seen flag is false, in bucket order. -/
def unseen (seens : List Bool) (idxs : List Nat) : List Nat :=
  ((seens.zip idxs).filter (fun p => !p.1)).map Prod.snd

/-- The row indices the unmatched sweep visits, for the entries in the order of
the `range`. -/
def sweepIdxs (entries : List (List Nat × bucket)) : List Nat :=
  entries.flatMap (fun kb => unseen kb.2.seen kb.2.rows)

/-- The right rows a quiet build stores: those without a NULL equality column,
in arrival order. -/
def stored {D : Type} (env : Env D) (rightEqCols : List Nat) (R : List (List D)) :
    List (List D) :=
  R.filter (fun r => !hasNullB env rightEqCols r)

/-- The states of a quiet run of the joiner on inputs of rows only: `h1` after
`buildPhase`, `h2` after the seen allocation of `Run`, `hp` after the main
loop of `probePhase`, `h3` after `probePhase`. -/
structure QuietRun {D : Type} (env : Env D) (jt : JoinType) (lc rc : List Nat)
    (L R : List (List D)) (h1 h2 hp h3 : hashJoiner D) : Prop where
  build : buildPhase env (newHashJoiner jt lc rc (rowsSource L) (rowsSource R))
    = (h1, .ret true none)
  alloc : jt.rightSide = true → allocSeen env h1 (env.rangeOrder 0 h1.buckets) = (h2, none)
  noAlloc : jt.rightSide = false → h2 = h1
  loop : probeLoop env h2 (rowsSource L) = (hp, none)
  probe : probePhase env h2 = (h3, .ret false none)
  body : runBody env (newHashJoiner jt lc rc (rowsSource L) (rowsSource R)) = (h3, none)
  table1 : TableInv env h1
  table2 : TableInv env h2
  tableP : TableInv env hp
  seen2 : h2.joinType.rightSide = true → SeenInv env [] h2
  cfg2 : h2.joinType = jt ∧ h2.leftEqCols = lc ∧ h2.rightEqCols = rc
  out2 : h2.out = h1.out
  log2 : h2.renderLog = h1.renderLog
  rows1 : h1.rows = stored env rc R
  rows2 : h2.rows = stored env rc R
  rowsP : hp.rows = stored env rc R
  rows3 : h3.rows = stored env rc R
  cfgP : hp.joinType = jt ∧ hp.leftEqCols = lc ∧ hp.rightEqCols = rc
  seenP : jt.rightSide = true → SeenInv env L hp
  buckets3 : h3.buckets = hp.buckets
  out1 : h1.out = buildOut env jt rc R
  log1 : h1.renderLog = buildLog env jt rc R
  outP : hp.out = h1.out ++ L.flatMap (leftBlock env jt lc rc (stored env rc R))
  logP : hp.renderLog = h1.renderLog ++ L.flatMap (leftCalls env jt lc rc (stored env rc R))
  out3 : h3.out = hp.out ++
    (if jt.rightSide then sweepIdxs (env.rangeOrder 1 hp.buckets) else []).flatMap
      (fun idx => emitted env none (stored env rc R)[idx]?)
  log3 : h3.renderLog = hp.renderLog ++
    (if jt.rightSide then sweepIdxs (env.rangeOrder 1 hp.buckets) else []).map
      (fun idx => (none, (stored env rc R)[idx]?))
  close3 : h3.closeLog = [.outClose]

/-- The bytes `encodeColumnsOfRow(row, cols)` returns from an empty buffer. -/
def encodingOf {D : Type} (env : Env D) (cols : List Nat) (row : List D) : List Nat :=
  match encodeColumnsOfRow env [] row cols false with
  | .ret enc _ _ => enc
  | .panic => []

/-- The nested-loop reference of the inner join: for every left row in order and
every right row in order, the non-nil result of `render(l, r)` when `l` has no
NULL in the left equality columns, `r` has no NULL in the right equality
columns, and the two key encodings are bytewise equal. -/
def nestedLoopJoin {D : Type} (env : Env D) (leftEqCols rightEqCols : List Nat)
    (L R : List (List D)) : List (List D) :=
  L.flatMap (fun l => R.filterMap (fun r =>
    if !hasNullB env leftEqCols l && !hasNullB env rightEqCols r &&
        decide (encodingOf env leftEqCols l = encodingOf env rightEqCols r)
    then (env.render (some l) (some r)).row else none))

/-- Every bucket lists its row indices in strictly increasing order. -/
def RowsSorted {D : Type} (h : hashJoiner D) : Prop :=
  ∀ kb ∈ h.buckets, kb.2.rows.Pairwise (· < ·)

/-- Some left row with the same key encoding as the right row `r` had
`render(l, r)` report `failedOnCond = false`. -/
def matchedRow {D : Type} (env : Env D) (leftEqCols rightEqCols : List Nat)
    (L : List (List D)) (r : List D) : Bool :=
  L.any (fun l => decide (keyOf env leftEqCols l = keyOf env rightEqCols r) &&
    !(env.render (some l) (some r)).failedOnCond)

/-- The stored right rows that no left row matched, in arrival order. -/
def unmatchedRight {D : Type} (env : Env D) (leftEqCols rightEqCols : List Nat)
    (L R : List (List D)) : List (List D) :=
  (stored env rightEqCols R).filter (fun r => !matchedRow env leftEqCols rightEqCols L r)

/-- A test on the elements of a list, as a test on its positions; false out of
range. -/
def atIdx {α : Type} (p : α → Bool) (S : List α) (i : Nat) : Bool :=
  match S[i]? with
  | some r => p r
  | none => false

/-- Every call of `render` on a right row with a NULL equality column had a nil
left row and was made under a right or full outer join. -/
def LogInv {D : Type} (env : Env D) (h : hashJoiner D) : Prop :=
  ∀ c ∈ h.renderLog, ∀ r, c.2 = some r → hasNullB env h.rightEqCols r = true →
    c.1 = none ∧ h.joinType.rightSide = true

/-- No stored row has a NULL equality column. -/
def RowsKeyed {D : Type} (env : Env D) (h : hashJoiner D) : Prop :=
  ∀ r ∈ h.rows, hasNullB env h.rightEqCols r = false

/-- From `h` to `h'` the row container and the configuration are unchanged and
the new calls of `render` have a nil right row or a stored right row. -/
def LogExt {D : Type} (h h' : hashJoiner D) : Prop :=
  h'.rows = h.rows ∧ SameConfig h h' ∧
    ∃ ext, h'.renderLog = h.renderLog ++ ext ∧
      ∀ c ∈ ext, c.2 = none ∨ ∃ r ∈ h.rows, c.2 = some r

/-- The bytes a listed column contributes to a key: the encoding of its datum;
nothing when the index is out of range. -/
def colBytes {D : Type} (keyBytes : D → List Nat) (row : List D) (c : Nat) : List Nat :=
  match row[c]? with
  | some d => keyBytes d
  | none => []

/-- The datum tuple a column list selects from a row, column by column. -/
def tupleOf {D : Type} (row : List D) (cols : List Nat) : List (Option D) :=
  cols.map (fun c => row[c]?)

/-- The bytes the sample encoding appends for a datum. -/
def sampleKeyBytes (d : Datum) : List Nat :=
  (sampleEncode d []).1

/-- The consumer accepted every push of the output: after each of them it
still needed rows. -/
def AllAccepted {D : Type} (env : Env D) (out : List (OutItem D)) : Prop :=
  ∀ k, 0 < k → k ≤ out.length → env.consumerMore (out.take k) = true

/-- The joiner is live: no closing or draining call has been made and the
consumer has accepted every push. -/
def Live {D : Type} (env : Env D) (h : hashJoiner D) : Prop :=
  h.closeLog = [] ∧ AllAccepted env h.out

/-- The state is the one a declined emission left: `emitHelper` returned false
and left this state, and the joiner was live before. -/
def Declined {D : Type} (env : Env D) (h' : hashJoiner D) : Prop :=
  ∃ hpre item inputs, Live env hpre ∧ emitHelper env hpre item inputs = (h', false)

/-- The error is one that a collaborator of the joiner returned: a datum
encoding, `render`, `AddRow` or `Grow`. -/
def EnvErr {D : Type} (env : Env D) (e : Err) : Prop :=
  (∃ d buf, (env.Encode d buf).2 = some e) ∨ (∃ l r, (env.render l r).err = some e) ∨
    (∃ c r, env.AddRow c r = some e) ∨ (∃ u n, env.Grow u n = some e)

/-- The error is the one of a metadata record of the source, or one that a
collaborator returned. -/
def ErrFrom {D : Type} (env : Env D) (src : List (Option (List D) × ProducerMetadata))
    (e : Err) : Prop :=
  (∃ item ∈ src, item.2.Err = some e) ∨ EnvErr env e

/-- How a loop of a phase stands after a step that started live: either the joiner
is still live and the step does not return `(false, nil)`, or the step returns `(false, nil)` in the state a declined
emission left; and an error it returns satisfies `ok`. -/
def StopInv {D : Type} (env : Env D) (ok : Err → Prop) (h' : hashJoiner D)
    (res : Option PhaseResult) : Prop :=
  ((Live env h' ∧ res ≠ some (.ret false none)) ∨
    (Declined env h' ∧ res = some (.ret false none))) ∧
  ∀ m e, res = some (.ret m (some e)) → ok e

/-- How `renderAndEmit` stands when called live: either the joiner is still
live and it asks for more rows or reports an error, or
it reports no error and no need of rows in the state a declined emission
left; and its error is the one of `render`. -/
def EmitInv {D : Type} (env : Env D) (r : Emitted D) : Prop :=
  ((Live env r.h ∧ (r.moreRowsNeeded = true ∨ r.err ≠ none)) ∨
    (Declined env r.h ∧ r.moreRowsNeeded = false ∧ r.err = none)) ∧
  ∀ e, r.err = some e → EnvErr env e

/-- How `probePhase` ends: as a loop step does, or by closing the output and
returning `(false, nil)`. -/
def PhaseEnd {D : Type} (env : Env D) (ok : Err → Prop) (h' : hashJoiner D)
    (res : PhaseResult) : Prop :=
  StopInv env ok h' (some res) ∨
    (h'.closeLog = [.outClose] ∧ AllAccepted env h'.out ∧ res = .ret false none)

/-- A sample environment whose consumer declines at the `k`-th push. -/
def sampleEnvStop (onCond : List Datum → Bool) (k : Nat) : Env Datum :=
  { sampleEnv onCond with consumerMore := fun out => decide (out.length < k) }

/-- What an iteration of the main loop of `probePhase` returns, if it
returns. -/
def LoopStep.result (s : LoopStep) : Option PhaseResult :=
  match s with
  | .ret r => some r
  | .next => none
  | .stop => none

/-- The number of row indices the buckets hold: the rows inserted into the
table. -/
def rowsIn (m : List (List Nat × bucket)) : Nat :=
  (m.map (fun kb => kb.2.rows.length)).sum

/-- The bytes charged for the keys of the table: for every key, its length and
`sizeOfBucket`. -/
def keyCharge {D : Type} (env : Env D) (m : List (List Nat × bucket)) : Nat :=
  (m.map (fun kb => kb.1.length + env.sizeOfBucket)).sum

/-- The bytes the seen allocation asks for: for every bucket `sizeOfBoolSlice`
and `sizeOfBool` per row. -/
def seenCharge {D : Type} (env : Env D) (m : List (List Nat × bucket)) : Nat :=
  (m.map (fun kb => env.sizeOfBoolSlice + kb.2.rows.length * env.sizeOfBool)).sum

/-- The account holds exactly the charge of the table: `sizeOfRowIdx` for every
row inserted, and for every key its length and `sizeOfBucket`. -/
def AccInv {D : Type} (env : Env D) (h : hashJoiner D) : Prop :=
  h.bucketsAcc = rowsIn h.buckets * env.sizeOfRowIdx + keyCharge env h.buckets

end HashJoiner

/-!
# Hash router (`sql/distsql/routers.go`)

A shallow embedding of `hashRouter` and its method `PushRow`.

* A downstream `RowReceiver` is a state of a type `S`; its methods are fields
  of `Router.Env`, as are the datum encoding and the checksum of the library
  `hash/crc32`.
* A `uint32` is a `Nat` below `2 ^ 32`; the conversion `uint32(n)` is
  `n % 2 ^ 32`.
* An integer division by zero and an index out of range are Go run-time
  panics.
-/

namespace Router

/-- The collaborators of the router that live outside `routers.go`. -/
structure Env (D S : Type) where
  /-- `EncDatum.Encode(&hr.alloc, preferredEncoding, appendTo)`: the new buffer
  and the error. -/
  Encode : D → List Nat → List Nat × Option HashJoiner.Err
  /-- `crc32.Update(crc, crc32Table, p)` of `hash/crc32`, with the table of the
  Castagnoli polynomial. -/
  crc32Update : Nat → List Nat → Nat
  /-- `RowReceiver.PushRow` of a downstream stream: its new state and its
  answer. -/
  PushRow : S → List D → S × Bool
  /-- `RowReceiver.Close` of a downstream stream: its new state. -/
  Close : S → Option HashJoiner.Err → S

/-- The error `errors.Errorf("hash column %d, stream with only %d columns", col,
len(row))`. -/
def colError (col n : Nat) : HashJoiner.Err :=
  "hash column " ++ toString col ++ ", stream with only " ++ toString n ++ " columns"

/-- The struct `hashRouter`; the field `alloc` is an allocation helper of the
datum encoding and is left out. -/
structure hashRouter (S : Type) where
  hashCols : List Nat
  streams : List S
  buffer : List Nat
  err : Option HashJoiner.Err

/-- What `PushRow` returns, or a run-time panic. -/
inductive PushResult where
  | ret (more : Bool)
  | panic
deriving DecidableEq, Repr

/-- The loop `for _, col := range hr.hashCols` of `PushRow`: the values of
`hr.buffer` and `hr.err` when it ends or returns. The test
`int(col) >= len(row)` is the case `none` of the lookup. -/
def hashLoop {D S : Type} (env : Env D S) (row : List D) (buffer : List Nat)
    (cols : List Nat) : List Nat × Option HashJoiner.Err :=
  match cols with
  | [] => (buffer, none)
  | col :: rest =>
    match row[col]? with
    | none => (buffer, some (colError col row.length))
    | some d =>
      match env.Encode d buffer with
      | (buf, some e) => (buf, some e)
      | (buf, none) => hashLoop env row buf rest

/-- The method `hashRouter.PushRow`. -/
def PushRow {D S : Type} (env : Env D S) (hr : hashRouter S) (row : List D) :
    hashRouter S × PushResult :=
  match hr.err with
  | some _ => (hr, .ret false)
  | none =>
    match hashLoop env row [] hr.hashCols with
    | (buf, some e) => ({ hr with buffer := buf, err := some e }, .ret false)
    | (buf, none) =>
      let hr := { hr with buffer := buf }
      let n := hr.streams.length % 2 ^ 32
      if n = 0 then (hr, .panic)
      else
        let streamIdx := (env.crc32Update 0 hr.buffer % 2 ^ 32) % n
        match hr.streams[streamIdx]? with
        | none => (hr, .panic)
        | some s =>
          ({ hr with streams := hr.streams.set streamIdx (env.PushRow s row).1 }, .ret true)

/-- A sequence of calls of `PushRow`: the router after them and what each
returned. -/
def pushAll {D S : Type} (env : Env D S) (hr : hashRouter S) (rows : List (List D)) :
    hashRouter S × List PushResult :=
  match rows with
  | [] => (hr, [])
  | row :: rest =>
    let p := PushRow env hr row
    let q := pushAll env p.1 rest
    (q.1, p.2 :: q.2)

/-- The loop `for _, s := range hr.streams { s.Close(err) }` of `Close`, from
position `i`: the streams after the calls and, as a ghost record, the calls
made, in order, each with the position of its stream and its argument. -/
def closeLoop {D S : Type} (env : Env D S) (err : Option HashJoiner.Err) (i : Nat)
    (streams : List S) : List S × List (Nat × Option HashJoiner.Err) :=
  match streams with
  | [] => ([], [])
  | s :: rest =>
    let r := closeLoop env err (i + 1) rest
    (env.Close s err :: r.1, (i, err) :: r.2)

/-- The method `hashRouter.Close`, with the ghost record of the calls of
`Close` on the downstream streams. -/
def Close {D S : Type} (env : Env D S) (hr : hashRouter S) (err : Option HashJoiner.Err) :
    hashRouter S × List (Nat × Option HashJoiner.Err) :=
  let err := match hr.err with
    | some e => some e
    | none => err
  let r := closeLoop env err 0 hr.streams
  ({ hr with streams := r.1 }, r.2)

/-- The enum type `OutputRouterSpec_Type`, declared outside `routers.go`: the
value `OutputRouterSpec_BY_HASH`, or another value. -/
inductive RouterType where
  | BY_HASH
  | other (code : Nat)
deriving DecidableEq, Repr

/-- The fields of `OutputRouterSpec` that `makeRouter` reads. -/
structure OutputRouterSpec where
  Type_ : RouterType
  HashColumns : List Nat
deriving DecidableEq, Repr

/-- A value of the interface `RowReceiver` as `makeRouter` returns it: one of
the given streams, or a `*hashRouter`, which may be the nil pointer. -/
inductive Receiver (S : Type) where
  | stream (s : S)
  | router (hr : Option (hashRouter S))

/-- The function `makeHashRouter`. -/
def makeHashRouter {S : Type} (hashCols : List Nat) (streams : List S) :
    Option (hashRouter S) × Option HashJoiner.Err :=
  if hashCols.length = 0 then (none, some "no hash columns for BY_HASH router")
  else (some { hashCols := hashCols, streams := streams, buffer := [], err := none }, none)

/-- The function `makeRouter`; `typeString` is the method `String` of the enum.
The `switch` on `len(streams)` is the match on the shape of the list. In the
case `BY_HASH` the pointer that `makeHashRouter` returns becomes the interface
value, also when it is nil. -/
def makeRouter {S : Type} (typeString : RouterType → String) (spec : OutputRouterSpec)
    (streams : List S) : Option (Receiver S) × Option HashJoiner.Err :=
  match streams with
  | [] => (none, some "no streams in router")
  | [s] => (some (.stream s), none)
  | _ :: _ :: _ =>
    match spec.Type_ with
    | .BY_HASH =>
      let r := makeHashRouter spec.HashColumns streams
      (some (.router r.1), r.2)
    | .other code =>
      (none, some ("router type " ++ typeString (.other code) ++ " not supported"))

/-! ## A sample instance -/

/-- One step of the bitwise CRC-32C: the reflected Castagnoli polynomial
`0x82F63B78`. -/
def crcStep (crc : Nat) : Nat :=
  if crc % 2 = 1 then (crc / 2) ^^^ 0x82F63B78 else crc / 2

/-- The CRC-32C register after one more byte. -/
def crcByte (crc b : Nat) : Nat :=
  crcStep (crcStep (crcStep (crcStep (crcStep (crcStep (crcStep (crcStep (crc ^^^ b))))))))

/-- The checksum `crc32.Update(crc, crc32.MakeTable(crc32.Castagnoli), p)`,
computed bit by bit. -/
def crc32cUpdate (crc : Nat) (p : List Nat) : Nat :=
  (p.foldl crcByte (crc ^^^ 0xFFFFFFFF)) ^^^ 0xFFFFFFFF

/-- A sample downstream receiver: the rows pushed to it and the errors it was
closed with. -/
structure sampleStream where
  rows : List (List HashJoiner.Datum)
  closed : List (Option HashJoiner.Err)
deriving DecidableEq, Repr

/-- A sample environment: the sample key encoding, CRC-32C, and downstream
receivers that record what they get and need no more rows after the first
one. -/
def sampleEnv : Env HashJoiner.Datum sampleStream :=
  { Encode := HashJoiner.sampleEncode,
    crc32Update := crc32cUpdate,
    PushRow := fun s row => (⟨s.rows ++ [row], s.closed⟩, decide (s.rows.length < 1)),
    Close := fun s err => ⟨s.rows, s.closed ++ [err]⟩ }

/-- A sample router on the first column over four empty streams. -/
def sampleRouter : hashRouter sampleStream :=
  ⟨[0], [⟨[], []⟩, ⟨[], []⟩, ⟨[], []⟩, ⟨[], []⟩], [], none⟩

/-- A router on the first column over `n` empty streams. -/
def wideRouter (n : Nat) : hashRouter sampleStream :=
  ⟨[0], List.replicate n ⟨[], []⟩, [], none⟩

/-- A second sample router on the first column over four streams, with a
scratch buffer left by earlier calls and a first stream that has a row. -/
def sampleRouter2 : hashRouter sampleStream :=
  ⟨[0], [⟨[[.int 9, HashJoiner.ty]], []⟩, ⟨[], []⟩, ⟨[], []⟩, ⟨[], []⟩], [7, 7, 7], none⟩

/-- A sample sequence of valid rows: `(1, 'x')`, `(3, 'x')`, `(1, 'z')`. -/
def sampleRows : List (List HashJoiner.Datum) :=
  [[.int 1, HashJoiner.tx], [.int 3, HashJoiner.tx], [.int 1, HashJoiner.tz]]

/-! ## Reference definitions -/

/-- The value `crc32c(bytes) mod N` for the concatenated encodings of the hash
columns of the row, in configured order. -/
def streamIndex {D S : Type} (env : Env D S) (keyBytes : D → List Nat) (hashCols : List Nat)
    (row : List D) (N : Nat) : Nat :=
  (env.crc32Update 0 (hashCols.flatMap (HashJoiner.colBytes keyBytes row)) % 2 ^ 32) % N

/-- The stream `PushRow` selects for a row, as a function of the hash columns,
the number of streams and the row: the checksum of the encodings of the hash
columns, modulo `uint32(N)`; none when `uint32(N)` is zero. -/
def routeIdx {D S : Type} (env : Env D S) (hashCols : List Nat) (N : Nat) (row : List D) :
    Option Nat :=
  if N % 2 ^ 32 = 0 then none
  else some ((env.crc32Update 0 (hashLoop env row [] hashCols).1 % 2 ^ 32) % (N % 2 ^ 32))

/-- The streams after each row of a list has been pushed to the stream at its
target position, in order. -/
def deliver {D S : Type} (env : Env D S) (streams : List S)
    (targets : List (Option Nat × List D)) : List S :=
  match targets with
  | [] => streams
  | (none, _) :: rest => deliver env streams rest
  | (some i, row) :: rest =>
    match streams[i]? with
    | none => deliver env streams rest
    | some s => deliver env (streams.set i (env.PushRow s row).1) rest

end Router

/-!
# UPSERT desugaring (`sql/upsert.go`)

A shallow embedding of `upsertExprsAndIndex`.

* A `parser.Name` and a column or index name are a `String`; a
  `sqlbase.ColumnID` is a `Nat`.
* Of the descriptors and syntax nodes only the fields that the function reads
  or writes are kept; a `parser.Expr` is a `ColumnItem` or some other
  expression.
* The set `map[sqlbase.ColumnID]struct{}` is the list of its keys.
-/

namespace Upsert

/-- The fields of `sqlbase.ColumnDescriptor` that the function reads. -/
structure ColumnDescriptor where
  Name : String
  ID : Nat
deriving DecidableEq, Repr

/-- The fields of `sqlbase.IndexDescriptor` that the function reads. -/
structure IndexDescriptor where
  Unique : Bool
  ColumnNames : List String
  ColumnIDs : List Nat
deriving DecidableEq, Repr

/-- The fields of `sqlbase.TableDescriptor` that the function reads. -/
structure TableDescriptor where
  PrimaryIndex : IndexDescriptor
  Indexes : List IndexDescriptor
deriving DecidableEq, Repr

set_option linter.dupNamespace false in
/-- The struct `parser.TableName`, with the field the source sets. -/
structure TableName where
  TableName : String
deriving DecidableEq, Repr

/-- The struct `parser.ColumnItem`, with the fields the source sets. -/
structure ColumnItem where
  TableName : TableName
  ColumnName : String
deriving DecidableEq, Repr

/-- A `parser.Expr`: a `*parser.ColumnItem`, or another expression. -/
inductive Expr where
  | columnItem (c : ColumnItem)
  | other (code : Nat)
deriving DecidableEq, Repr

/-- The struct `parser.UpdateExpr`: `Names` is a `parser.UnresolvedNames`, a
list of names of several parts. -/
structure UpdateExpr where
  Tuple : Bool
  Names : List (List String)
  Expr : Expr
deriving DecidableEq, Repr

/-- The fields of `parser.OnConflict` that the function reads. -/
structure OnConflict where
  Columns : List String
  Exprs : List UpdateExpr
deriving DecidableEq, Repr

/-- The helpers of the function that live outside `upsert.go`. -/
structure Env where
  /-- `parser.OnConflict.IsUpsertAlias`. -/
  IsUpsertAlias : OnConflict → Bool
  /-- `sqlbase.NormalizeName`. -/
  NormalizeName : String → String
  /-- `sqlbase.ReNormalizeName`. -/
  ReNormalizeName : String → String

/-- The variable `upsertExcludedTable`. -/
def upsertExcludedTable : TableName := { TableName := "excluded" }

/-- The loop `for _, colID := range conflictIndex.ColumnIDs` that fills
`indexColSet`. -/
def fillColSet (set : List Nat) (colIDs : List Nat) : List Nat :=
  match colIDs with
  | [] => set
  | colID :: rest => fillColSet (if set.contains colID then set else set ++ [colID]) rest

/-- The loop `for _, c := range insertCols` that appends the SET
expressions. -/
def appendExprs (indexColSet : List Nat) (updateExprs : List UpdateExpr)
    (insertCols : List ColumnDescriptor) : List UpdateExpr :=
  match insertCols with
  | [] => updateExprs
  | c :: rest =>
    if !indexColSet.contains c.ID then
      let names := [[c.Name]]
      let expr := Expr.columnItem { TableName := upsertExcludedTable, ColumnName := c.Name }
      appendExprs indexColSet (updateExprs ++ [{ Tuple := false, Names := names, Expr := expr }])
        rest
    else appendExprs indexColSet updateExprs rest

/-- The loop `for i, colName := range index.ColumnNames` of `indexMatch`, over
the two lists of names, which have the same length. -/
def namesMatch (env : Env) (columnNames columns : List String) : Bool :=
  match columnNames, columns with
  | colName :: rest, col :: cols =>
    if env.ReNormalizeName colName != env.NormalizeName col then false
    else namesMatch env rest cols
  | _, _ => true

/-- The closure `indexMatch`. -/
def indexMatch (env : Env) (onConflict : OnConflict) (index : IndexDescriptor) : Bool :=
  if !index.Unique then false
  else if index.ColumnNames.length != onConflict.Columns.length then false
  else namesMatch env index.ColumnNames onConflict.Columns

/-- The loop `for _, index := range tableDesc.Indexes`: the first index that
matches. -/
def firstMatch (env : Env) (onConflict : OnConflict) (indexes : List IndexDescriptor) :
    Option IndexDescriptor :=
  match indexes with
  | [] => none
  | index :: rest =>
    if indexMatch env onConflict index then some index else firstMatch env onConflict rest

/-- The function `upsertExprsAndIndex`: the SET expressions, the conflict index
and the error. -/
def upsertExprsAndIndex (env : Env) (tableDesc : TableDescriptor) (onConflict : OnConflict)
    (insertCols : List ColumnDescriptor) :
    List UpdateExpr × Option IndexDescriptor × Option String :=
  if env.IsUpsertAlias onConflict then
    let conflictIndex := tableDesc.PrimaryIndex
    let indexColSet := fillColSet [] conflictIndex.ColumnIDs
    let updateExprs := appendExprs indexColSet [] insertCols
    (updateExprs, some conflictIndex, none)
  else if indexMatch env onConflict tableDesc.PrimaryIndex then
    (onConflict.Exprs, some tableDesc.PrimaryIndex, none)
  else
    match firstMatch env onConflict tableDesc.Indexes with
    | some index => (onConflict.Exprs, some index, none)
    | none =>
      ([], none, some
        "there is no unique or exclusion constraint matching the ON CONFLICT specification")

/-! ## A sample instance: the table `abc` with primary key `a` -/

/-- A sample environment: an `OnConflict` without columns and expressions is
the UPSERT alias; names are normalized as they are. -/
def sampleEnv : Env :=
  { IsUpsertAlias := fun oc => oc.Columns.isEmpty && oc.Exprs.isEmpty,
    NormalizeName := fun n => n,
    ReNormalizeName := fun n => n }

/-- The columns `a`, `b`, `c` of the table `abc`. -/
def abcCols : List ColumnDescriptor := [⟨"a", 1⟩, ⟨"b", 2⟩, ⟨"c", 3⟩]

/-- The table `abc` with primary key `a`. -/
def abcTable : TableDescriptor :=
  { PrimaryIndex := ⟨true, ["a"], [1]⟩, Indexes := [] }

/-! ## Reference definitions -/

/-- The SET expression `c = excluded.c` for a column `c`. -/
def setExcluded (c : ColumnDescriptor) : UpdateExpr :=
  { Tuple := false, Names := [[c.Name]],
    Expr := .columnItem { TableName := upsertExcludedTable, ColumnName := c.Name } }

end Upsert

namespace HashJoiner

/-- The pair is the end-of-input signal of `Next`: no row and empty metadata. -/
def isEnd {D : Type} (item : Option (List D) × ProducerMetadata) : Bool :=
  item.2.Empty && item.1.isNone

/-- The pairs a loop over `Next` processes before it meets the end of the
input: those before the first end-of-input signal. -/
def taken {D : Type} (src : List (Option (List D) × ProducerMetadata)) :
    List (Option (List D) × ProducerMetadata) :=
  src.takeWhile (fun it => !isEnd it)

/-- What a loop over `Next` that ran to the end of the input has pulled: the
pairs before the first end-of-input signal, and that signal if the list holds
one. -/
def consumed {D : Type} (src : List (Option (List D) × ProducerMetadata)) :
    List (Option (List D) × ProducerMetadata) :=
  taken src ++ (src.dropWhile (fun it => !isEnd it)).take 1

/-- What such a loop leaves in the source: the pairs after the first
end-of-input signal. -/
def afterEnd {D : Type} (src : List (Option (List D) × ProducerMetadata)) :
    List (Option (List D) × ProducerMetadata) :=
  (src.dropWhile (fun it => !isEnd it)).drop 1

/-- No pair of the list carries an error in its metadata. -/
def NoErrMeta {D : Type} (items : List (Option (List D) × ProducerMetadata)) : Prop :=
  ∀ it ∈ items, it.2.Err = none

/-- What the build loop of a quiet run pushes for the pairs it pulls: a
metadata record is forwarded, a row contributes what `buildOut` says. -/
def buildPushes {D : Type} (env : Env D) (jt : JoinType) (rightEqCols : List Nat)
    (items : List (Option (List D) × ProducerMetadata)) : List (OutItem D) :=
  items.flatMap (fun it =>
    if it.2.Empty then buildOut env jt rightEqCols (pulledRows [it]) else [OutItem.meta it.2])

/-- What the main loop of the probe phase of a quiet run pushes for the pairs
it pulls: a metadata record is forwarded, a row contributes its block. -/
def probePushes {D : Type} (env : Env D) (jt : JoinType) (leftEqCols rightEqCols : List Nat)
    (stored : List (List D)) (items : List (Option (List D) × ProducerMetadata)) :
    List (OutItem D) :=
  items.flatMap (fun it =>
    if it.2.Empty then
      (pulledRows [it]).flatMap (leftBlock env jt leftEqCols rightEqCols stored)
    else [OutItem.meta it.2])

/-- The states of a quiet run of the joiner on two sources that deliver rows
and metadata without error: `h1` after `buildPhase`, `h2` after the seen
allocation of `Run`, `hp` after the main loop of `probePhase`, `h3` after
`probePhase`. The left rows are `L`, the right rows `R`. -/
structure QuietRunOn {D : Type} (env : Env D) (jt : JoinType) (lc rc : List Nat)
    (leftSource rightSource : List (Option (List D) × ProducerMetadata))
    (L R : List (List D)) (h1 h2 hp h3 : hashJoiner D) : Prop where
  left : L = pulledRows (taken leftSource)
  right : R = pulledRows (taken rightSource)
  build : buildPhase env (newHashJoiner jt lc rc leftSource rightSource) = (h1, .ret true none)
  alloc : jt.rightSide = true → allocSeen env h1 (env.rangeOrder 0 h1.buckets) = (h2, none)
  noAlloc : jt.rightSide = false → h2 = h1
  loop : probeLoop env h2 leftSource = (hp, none)
  probe : probePhase env h2 = (h3, .ret false none)
  body : runBody env (newHashJoiner jt lc rc leftSource rightSource) = (h3, none)
  table1 : TableInv env h1
  table2 : TableInv env h2
  tableP : TableInv env hp
  seen2 : h2.joinType.rightSide = true → SeenInv env [] h2
  cfg2 : h2.joinType = jt ∧ h2.leftEqCols = lc ∧ h2.rightEqCols = rc
  out2 : h2.out = h1.out
  log2 : h2.renderLog = h1.renderLog
  rows1 : h1.rows = stored env rc R
  rows2 : h2.rows = stored env rc R
  rowsP : hp.rows = stored env rc R
  rows3 : h3.rows = stored env rc R
  cfgP : hp.joinType = jt ∧ hp.leftEqCols = lc ∧ hp.rightEqCols = rc
  seenP : jt.rightSide = true → SeenInv env L hp
  buckets3 : h3.buckets = hp.buckets
  out1 : h1.out = buildPushes env jt rc (taken rightSource)
  log1 : h1.renderLog = buildLog env jt rc R
  outP : hp.out = h1.out ++ probePushes env jt lc rc (stored env rc R) (taken leftSource)
  logP : hp.renderLog = h1.renderLog ++ L.flatMap (leftCalls env jt lc rc (stored env rc R))
  out3 : h3.out = hp.out ++
    (if jt.rightSide then sweepIdxs (env.rangeOrder 1 hp.buckets) else []).flatMap
      (fun idx => emitted env none (stored env rc R)[idx]?)
  log3 : h3.renderLog = hp.renderLog ++
    (if jt.rightSide then sweepIdxs (env.rangeOrder 1 hp.buckets) else []).map
      (fun idx => (none, (stored env rc R)[idx]?))
  close3 : h3.closeLog = [.outClose]
  left3 : h3.leftSource = afterEnd leftSource
  right3 : h3.rightSource = afterEnd rightSource

/-- A metadata record without error: it carries ranges information only. -/
def sampleMeta : ProducerMetadata := ⟨[7], none⟩

/-- The left input of seed scenario 5 as a source: a metadata record, the row,
the end-of-input signal. -/
def seed5LeftSrc : List (Option (List Datum) × ProducerMetadata) :=
  [(none, sampleMeta), (some [.int 1, tx], ProducerMetadata.zero), (none, ProducerMetadata.zero)]

/-- The right input of seed scenario 5 as a source: a metadata record between
the two rows, and no end-of-input signal before the source is exhausted. -/
def seed5RightSrc : List (Option (List Datum) × ProducerMetadata) :=
  [(some [.int 1, tfoo], ProducerMetadata.zero), (none, sampleMeta),
    (some [.int 1, tbar], ProducerMetadata.zero)]

/-- A left source that delivers a metadata record and no row. -/
def metaOnlySrc : List (Option (List Datum) × ProducerMetadata) :=
  [(none, sampleMeta), (none, ProducerMetadata.zero)]

/-- A right source with two rows with a NULL key and two rows with a key, a
metadata record among them, closed by the end-of-input signal. -/
def nullKeysSrc : List (Option (List Datum) × ProducerMetadata) :=
  [(some [.null, tfoo], ProducerMetadata.zero), (some [.int 1, tbar], ProducerMetadata.zero),
    (none, sampleMeta), (some [.null, tbaz], ProducerMetadata.zero),
    (some [.int 3, tx], ProducerMetadata.zero), (none, ProducerMetadata.zero)]

/-- The contract of `render` that the left side of an outer join rests on: when
`render(l, r)` reports that the ON condition rejected the pair, the row it
returns is the one `render(l, nil)` returns, the left row padded with NULLs.
`joinerBase.render` is not in `hashjoiner.go`. -/
def PadsLeft {D : Type} (env : Env D) : Prop :=
  ∀ l r, (env.render (some l) (some r)).failedOnCond = true →
    (env.render (some l) (some r)).row = (env.render (some l) none).row

/-- A sample `render` that pads: as `sampleRender`, but a pair that fails the ON
condition gives the left row followed by two NULLs, with `failedOnCond`. -/
def sampleRenderPad (onCond : List Datum → Bool) (lrow rrow : Option (List Datum)) :
    RenderResult Datum :=
  let combined := lrow.getD [.null, .null] ++ rrow.getD [.null, .null]
  if lrow.isNone || rrow.isNone || onCond combined then ⟨some combined, false, none⟩
  else ⟨some (lrow.getD [.null, .null] ++ [.null, .null]), true, none⟩

/-- The sample environment with the padding `render`. -/
def sampleEnvPad (onCond : List Datum → Bool) : Env Datum :=
  { sampleEnv onCond with render := sampleRenderPad onCond }

/-- A right source with the row `(1,bar)` and a metadata record. -/
def barSrc : List (Option (List Datum) × ProducerMetadata) :=
  [(none, sampleMeta), (some [.int 1, tbar], ProducerMetadata.zero),
    (none, ProducerMetadata.zero)]

/-- The iterations of the loop of `buildPhase` on the pairs `items`, as long as
each of them ends in `continue`; `tail` is what the right source holds after
`items`. The state after the last of them, or `none` when an iteration
returns. -/
def buildSteps {D : Type} (env : Env D) (h : hashJoiner D)
    (items tail : List (Option (List D) × ProducerMetadata)) : Option (hashJoiner D) :=
  match items with
  | [] => some h
  | item :: rest =>
    let r := buildItem env { h with rightSource := rest ++ tail } item
    match r.2 with
    | none => buildSteps env r.1 rest tail
    | some _ => none

/-- The iterations of the main loop of `probePhase` on the pairs `items`, as long
as each of them ends in `continue`; `tail` is what the left source holds after
`items`. The state after the last of them, or `none` when an iteration returns
or breaks. -/
def probeSteps {D : Type} (env : Env D) (h : hashJoiner D)
    (items tail : List (Option (List D) × ProducerMetadata)) : Option (hashJoiner D) :=
  match items with
  | [] => some h
  | item :: rest =>
    let r := probeItem env { h with leftSource := rest ++ tail } item
    match r.2 with
    | .next => probeSteps env r.1 rest tail
    | .stop => none
    | .ret _ => none

/-- A right source with a row with a NULL key, three rows with a key, a metadata
record among them, the end-of-input signal, and a pair after it that is never
pulled. -/
def mixedSrc : List (Option (List Datum) × ProducerMetadata) :=
  [(some [.null, tx], ProducerMetadata.zero), (some [.int 1, tfoo], ProducerMetadata.zero),
    (none, sampleMeta), (some [.int 2, tbar], ProducerMetadata.zero),
    (some [.int 1, tbaz], ProducerMetadata.zero), (none, ProducerMetadata.zero),
    (some [.int 9, tx], ProducerMetadata.zero)]

/-- No call of the log of `render` calls returned an error. -/
def RenderClean {D : Type} (env : Env D) (log : List (Option (List D) × Option (List D))) :
    Prop :=
  ∀ c ∈ log, (env.render c.1 c.2).err = none

/-- How a step stands with the errors of `render`: either no call of `render`
so far returned an error, or the last call did, no call before it did, and the
step returns that error. -/
def CleanInv {D : Type} (env : Env D) (h' : hashJoiner D) (res : Option PhaseResult) : Prop :=
  RenderClean env h'.renderLog ∨
    ∃ pre c e m, h'.renderLog = pre ++ [c] ∧ RenderClean env pre ∧
      (env.render c.1 c.2).err = some e ∧ res = some (.ret m (some e))

/-- A sample environment with a memory budget: `Grow` refuses with the error
`budget` when the account would exceed `cap` bytes. -/
def sampleEnvBudget (onCond : List Datum → Bool) (cap : Nat) : Env Datum :=
  { sampleEnv onCond with
    Grow := fun used n => if used + n > cap then some "budget" else none }

/-- The iteration of the build loop on a row in the state `h` meets the error
`e` and leaves the state `h'`: the first of the key encoder, `render` on a row
with a NULL equality column under a right or full outer join, `AddRow` and
`Grow` to return an error returns `e`. -/
def BuildRowErrAt {D : Type} (env : Env D) (h : hashJoiner D) (rrow : List D)
    (h' : hashJoiner D) (e : Err) : Prop :=
  (∃ enc hn, encodeColumnsOfRow env [] rrow h.rightEqCols false = .ret enc hn (some e) ∧
    h' = h) ∨
  (∃ enc, encodeColumnsOfRow env [] rrow h.rightEqCols false = .ret enc true none ∧
    h.joinType.rightSide = true ∧ (env.render none (some rrow)).err = some e ∧
    h' = { h with renderLog := h.renderLog ++ [(none, some rrow)] }) ∨
  (∃ enc, encodeColumnsOfRow env [] rrow h.rightEqCols false = .ret enc false none ∧
    env.AddRow h.rows rrow = some e ∧ h' = h) ∨
  (∃ enc, encodeColumnsOfRow env [] rrow h.rightEqCols false = .ret enc false none ∧
    env.AddRow h.rows rrow = none ∧
    env.Grow h.bucketsAcc (match mapGet h.buckets enc with
      | some _ => env.sizeOfRowIdx
      | none => env.sizeOfRowIdx + enc.length + env.sizeOfBucket) = some e ∧
    h' = { h with rows := h.rows ++ [rrow] })

/-- The iteration of the build loop on the pair `item` in the state `h` meets
the error `e`: the metadata of the pair carries it, and then the iteration
returns with `moreRows` set, or the pair is a row whose processing meets it,
and then `moreRows` is not set. -/
def BuildErrAt {D : Type} (env : Env D) (h : hashJoiner D)
    (item : Option (List D) × ProducerMetadata) (h' : hashJoiner D) (more : Bool) (e : Err) :
    Prop :=
  (item.2.Err = some e ∧ more = true ∧ h' = h) ∨
  (∃ rrow, item.1 = some rrow ∧ item.2.Empty = true ∧ more = false ∧
    BuildRowErrAt env h rrow h' e)

/-- A right source with two rows and then metadata that carries the error
`boom`. -/
def budgetSrc : List (Option (List Datum) × ProducerMetadata) :=
  [(some [.int 1, tfoo], ProducerMetadata.zero), (some [.int 2, tbar], ProducerMetadata.zero),
    (none, ⟨[], some "boom"⟩)]

/-- The joiner of the sample run on `budgetSrc` after the iteration on the first
row: the row is stored under a new key and 58 bytes are charged. -/
def budgetMid : hashJoiner Datum :=
  { joinType := .fullOuter, leftSource := rowsSource seed1L,
    rightSource := [(some [.int 2, tbar], ProducerMetadata.zero), (none, ⟨[], some "boom"⟩)],
    out := [], rows := [[.int 1, tfoo]], bucketsAcc := 58,
    leftEqCols := [0], rightEqCols := [0],
    buckets := [([1, 1], ⟨[0], []⟩)], renderLog := [], closeLog := [] }

/-- The joiner of the sample run on `budgetSrc` when the iteration on the second
row returns: the row is in the container, and `Grow` has refused. -/
def budgetEnd : hashJoiner Datum :=
  { budgetMid with rightSource := [(none, ⟨[], some "boom"⟩)],
                   rows := [[.int 1, tfoo], [.int 2, tbar]] }

/-! ## The key encoder -/

/-- A key encoder that returns without error has detected exactly the NULLs, and
returns no bytes when it has. -/
theorem encode_ret_hasNull {D : Type} (env : Env D) (row : List D) (cols : List Nat) :
    ∀ (appendTo enc : List Nat) (hn : Bool),
      encodeColumnsOfRow env appendTo row cols false = .ret enc hn none →
      (hn = true ↔ hasNullIn env cols row) ∧ (hn = true → enc = []) := by
  induction cols with
  | nil =>
    intro appendTo enc hn h
    simp only [encodeColumnsOfRow, EncodeResult.ret.injEq] at h
    obtain ⟨-, rfl, -⟩ := h
    simp [hasNullIn]
  | cons c rest ih =>
    intro appendTo enc hn h
    unfold encodeColumnsOfRow at h
    cases hd : row[c]? with
    | none => simp [hd] at h
    | some d =>
      simp only [hd] at h
      by_cases hnull : env.IsNull d = true
      · simp only [hnull, Bool.not_false, Bool.and_self, if_true, EncodeResult.ret.injEq] at h
        obtain ⟨rfl, rfl, -⟩ := h
        exact ⟨⟨fun _ => ⟨c, List.mem_cons_self _ _, d, hd, hnull⟩, fun _ => rfl⟩, fun _ => rfl⟩
      · have hnull' : env.IsNull d = false := by simpa using hnull
        simp only [hnull', Bool.false_and, Bool.false_eq_true, if_false] at h
        rcases he : env.Encode d appendTo with ⟨buf, _ | e⟩
        · rw [he] at h
          obtain ⟨h1, h2⟩ := ih buf enc hn h
          refine ⟨⟨fun hh => ?_, fun hh => ?_⟩, h2⟩
          · obtain ⟨c', hc', d', hd', hn'⟩ := h1.mp hh
            exact ⟨c', List.mem_cons_of_mem _ hc', d', hd', hn'⟩
          · obtain ⟨c', hc', d', hd', hn'⟩ := hh
            rcases List.mem_cons.mp hc' with rfl | hc'
            · rw [hd] at hd'
              cases hd'
              exact absurd hn' hnull
            · exact h1.mpr ⟨c', hc', d', hd', hn'⟩
        · rw [he] at h
          simp at h

/-- With the listed columns in range and no failing datum encoding, the key
encoder returns, and without error. -/
theorem encode_returns {D : Type} (env : Env D) (row : List D) (cols : List Nat)
    (hcols : ∀ c ∈ cols, c < row.length)
    (henc : ∀ c ∈ cols, ∀ d, row[c]? = some d → ∀ buf, (env.Encode d buf).2 = none) :
    ∀ appendTo : List Nat, ∃ enc hn,
      encodeColumnsOfRow env appendTo row cols false = .ret enc hn none := by
  induction cols with
  | nil => intro appendTo; exact ⟨appendTo, false, rfl⟩
  | cons c rest ih =>
    intro appendTo
    have hc : c < row.length := hcols c (List.mem_cons_self _ _)
    obtain ⟨d, hd⟩ : ∃ d, row[c]? = some d := ⟨row[c], List.getElem?_eq_getElem hc⟩
    unfold encodeColumnsOfRow
    simp only [hd]
    by_cases hnull : env.IsNull d = true
    · exact ⟨[], true, by simp [hnull]⟩
    · have hnull' : env.IsNull d = false := by simpa using hnull
      simp only [hnull', Bool.false_and, Bool.false_eq_true, if_false]
      have he := henc c (List.mem_cons_self _ _) d hd appendTo
      rcases hE : env.Encode d appendTo with ⟨buf, e⟩
      rw [hE] at he
      simp only at he
      subst he
      exact ih (fun c' hc' => hcols c' (List.mem_cons_of_mem _ hc'))
        (fun c' hc' => henc c' (List.mem_cons_of_mem _ hc')) buf

/-- C10. Key encoder NULL detection: for every row, column list with indices in
range and scratch buffer, when `encodeNull` is false and no datum encoding
fails, `encodeColumnsOfRow` returns `hasNull = true` if and only if at least one
listed column of the row is NULL, and whenever `hasNull` is true the returned
encoding is empty and the error is nil, whatever the scratch buffer held. -/
theorem encodeColumnsOfRow_null_detection {D : Type} (env : Env D) (appendTo : List Nat)
    (row : List D) (cols : List Nat)
    (hcols : ∀ c ∈ cols, c < row.length)
    (henc : ∀ c ∈ cols, ∀ d, row[c]? = some d → ∀ buf, (env.Encode d buf).2 = none) :
    ∃ enc hasNull, encodeColumnsOfRow env appendTo row cols false = .ret enc hasNull none ∧
      (hasNull = true ↔ ∃ c ∈ cols, ∃ d, row[c]? = some d ∧ env.IsNull d = true) ∧
      (hasNull = true → enc = []) := by
  obtain ⟨enc, hn, h⟩ := encode_returns env row cols hcols henc appendTo
  exact ⟨enc, hn, h, encode_ret_hasNull env row cols appendTo enc hn h⟩

/-- Witness of C10: the row `(NULL, z)` of seed scenario 2, column list `[0]`, a
scratch buffer that still holds bytes. -/
theorem encodeColumnsOfRow_null_detection_witness :
    ∃ enc hasNull,
      encodeColumnsOfRow (sampleEnv (fun _ => true)) [7, 7] [Datum.null, tz] [0] false
        = .ret enc hasNull none ∧
      (hasNull = true ↔ ∃ c ∈ [0], ∃ d, [Datum.null, tz][c]? = some d ∧
        (sampleEnv (fun _ => true)).IsNull d = true) ∧
      (hasNull = true → enc = []) :=
  encodeColumnsOfRow_null_detection (sampleEnv (fun _ => true)) [7, 7] [Datum.null, tz] [0]
    (by decide) (by intro c _ d _ buf; cases d <;> rfl)

/-! ## The map of buckets -/

theorem mapGet_mapSet_same (m : List (List Nat × bucket)) (k : List Nat) (b : bucket) :
    mapGet (mapSet m k b) k = some b := by
  induction m with
  | nil => simp [mapSet, mapGet]
  | cons kb rest ih =>
    obtain ⟨k', b'⟩ := kb
    by_cases hk : k' = k
    · simp [mapSet, mapGet, hk]
    · simp [mapSet, mapGet, hk, ih]

theorem mapGet_mapSet_other (m : List (List Nat × bucket)) (k k' : List Nat) (b : bucket)
    (hne : k ≠ k') : mapGet (mapSet m k b) k' = mapGet m k' := by
  induction m with
  | nil => simp [mapSet, mapGet, hne]
  | cons kb rest ih =>
    obtain ⟨k0, b0⟩ := kb
    by_cases hk : k0 = k
    · subst hk
      simp [mapSet, mapGet, hne]
    · by_cases hk' : k0 = k'
      · subst hk'
        simp [mapSet, mapGet, hk]
      · simp [mapSet, mapGet, hk, hk', ih]

theorem mapSet_keys (m : List (List Nat × bucket)) (k : List Nat) (b : bucket) :
    (mapSet m k b).map Prod.fst =
      if k ∈ m.map Prod.fst then m.map Prod.fst else m.map Prod.fst ++ [k] := by
  induction m with
  | nil => simp [mapSet]
  | cons kb rest ih =>
    obtain ⟨k0, b0⟩ := kb
    by_cases hk : k0 = k
    · subst hk
      simp [mapSet]
    · have hk' : ¬ k = k0 := fun h => hk h.symm
      simp only [mapSet, hk, if_false, List.map_cons, ih, List.mem_cons, hk', false_or]
      split <;> simp

theorem mapSet_nodup (m : List (List Nat × bucket)) (k : List Nat) (b : bucket)
    (h : (m.map Prod.fst).Nodup) : ((mapSet m k b).map Prod.fst).Nodup := by
  rw [mapSet_keys]
  split
  · exact h
  · rename_i hk
    exact List.Nodup.append h (List.nodup_singleton k) (by simpa using hk)

theorem mapGet_none_iff (m : List (List Nat × bucket)) (k : List Nat) :
    mapGet m k = none ↔ k ∉ m.map Prod.fst := by
  induction m with
  | nil => simp [mapGet]
  | cons kb rest ih =>
    obtain ⟨k0, b0⟩ := kb
    by_cases hk : k0 = k
    · simp [mapGet, hk]
    · have hk' : ¬ k = k0 := fun h => hk h.symm
      simp [mapGet, hk, hk', ih]

theorem mapGet_of_mem (m : List (List Nat × bucket)) (k : List Nat) (b : bucket)
    (hnd : (m.map Prod.fst).Nodup) (hmem : (k, b) ∈ m) : mapGet m k = some b := by
  induction m with
  | nil => simp at hmem
  | cons kb rest ih =>
    obtain ⟨k0, b0⟩ := kb
    rw [List.map_cons, List.nodup_cons] at hnd
    rcases List.mem_cons.mp hmem with heq | hmem'
    · cases heq
      simp [mapGet]
    · have hk : k0 ≠ k := by
        rintro rfl
        exact hnd.1 (List.mem_map.mpr ⟨(k0, b), hmem', rfl⟩)
      simp [mapGet, hk, ih hnd.2 hmem']

theorem mem_of_mapGet (m : List (List Nat × bucket)) (k : List Nat) (b : bucket)
    (h : mapGet m k = some b) : (k, b) ∈ m := by
  induction m with
  | nil => simp [mapGet] at h
  | cons kb rest ih =>
    obtain ⟨k0, b0⟩ := kb
    by_cases hk : k0 = k
    · simp only [mapGet, hk, if_true, Option.some.injEq] at h
      subst h; subst hk
      exact List.mem_cons_self _ _
    · simp only [mapGet, hk, if_false] at h
      exact List.mem_cons_of_mem _ (ih h)

theorem mem_mapSet (m : List (List Nat × bucket)) (k : List Nat) (b : bucket)
    (kb : List Nat × bucket) (h : kb ∈ mapSet m k b) : kb = (k, b) ∨ kb ∈ m := by
  induction m with
  | nil => simpa [mapSet] using h
  | cons kb0 rest ih =>
    obtain ⟨k0, b0⟩ := kb0
    by_cases hk : k0 = k
    · simp only [mapSet, hk, if_true, List.mem_cons] at h
      rcases h with h | h
      · exact Or.inl h
      · exact Or.inr (List.mem_cons_of_mem _ h)
    · simp only [mapSet, hk, if_false, List.mem_cons] at h
      rcases h with h | h
      · exact Or.inr (h ▸ List.mem_cons_self _ _)
      · rcases ih h with h' | h'
        · exact Or.inl h'
        · exact Or.inr (List.mem_cons_of_mem _ h')

/-! ## The build phase -/

theorem keyOf_eq_some {D : Type} (env : Env D) (cols : List Nat) (row : List D) (enc : List Nat) :
    keyOf env cols row = some enc ↔
      encodeColumnsOfRow env [] row cols false = .ret enc false none := by
  unfold keyOf
  split
  · rename_i e he
    simp [he]
  · rename_i hne
    constructor
    · intro h; cases h
    · intro h; exact absurd h (hne enc)

theorem hasNullB_iff {D : Type} (env : Env D) (cols : List Nat) (row : List D) :
    hasNullB env cols row = true ↔ hasNullIn env cols row := by
  unfold hasNullB hasNullIn
  rw [List.any_eq_true]
  constructor
  · rintro ⟨c, hc, h⟩
    rcases hd : row[c]? with _ | d
    · simp [hd] at h
    · exact ⟨c, hc, d, hd, by simpa [hd] using h⟩
  · rintro ⟨c, hc, d, hd, h⟩
    exact ⟨c, hc, by simp [hd, h]⟩

theorem keyOf_some_hasNullB {D : Type} (env : Env D) (cols : List Nat) (row : List D)
    (enc : List Nat) (h : keyOf env cols row = some enc) : hasNullB env cols row = false := by
  rw [keyOf_eq_some] at h
  have := (encode_ret_hasNull env row cols [] enc false h).1
  cases hb : hasNullB env cols row with
  | false => rfl
  | true => exact absurd (this.mpr ((hasNullB_iff env cols row).mp hb)) (by simp)

/-- What one iteration of the build loop does to the container and the table. -/
theorem buildRow_inv {D : Type} (env : Env D) (h h' : hashJoiner D) (rrow : List D)
    (res : Option PhaseResult) (hb : buildRow env h rrow = (h', res)) :
    SameConfig h h' ∧ (h'.rightSource = h.rightSource ∧ h'.leftSource = h.leftSource) ∧
    (∀ p, res = some (.panic p) → p = .colIdx) ∧
    ((h'.rows = h.rows ∧ h'.buckets = h.buckets ∧
        ((res = none ∨ ∃ m, res = some (.ret m none)) →
          hasNullB env h.rightEqCols rrow = true)) ∨
     (h'.rows = h.rows ++ [rrow] ∧ h'.buckets = h.buckets ∧
        ∃ e, res = some (.ret false (some e))) ∨
     (∃ enc, keyOf env h.rightEqCols rrow = some enc ∧ h'.rows = h.rows ++ [rrow] ∧
        res = none ∧
        h'.buckets = mapSet h.buckets enc
          ⟨((mapGet h.buckets enc).getD ⟨[], []⟩).rows ++ [h.rows.length],
           ((mapGet h.buckets enc).getD ⟨[], []⟩).seen⟩)) := by
  unfold buildRow at hb
  rcases henc : encodeColumnsOfRow env [] rrow h.rightEqCols false with ⟨enc, hn, _ | e⟩ | _
  · rw [henc] at hb
    simp only at hb
    cases hn
    · simp only [Bool.false_eq_true, if_false] at hb
      have hkey : keyOf env h.rightEqCols rrow = some enc := (keyOf_eq_some _ _ _ _).mpr henc
      cases hadd : env.AddRow h.rows rrow with
      | some e =>
        rw [hadd] at hb
        cases hb
        exact ⟨⟨rfl, rfl, rfl⟩, ⟨rfl, rfl⟩, by simp, Or.inl ⟨rfl, rfl, by simp⟩⟩
      | none =>
        rw [hadd] at hb
        simp only at hb
        split at hb
        · cases hb
          exact ⟨⟨rfl, rfl, rfl⟩, ⟨rfl, rfl⟩, by simp, Or.inr (Or.inl ⟨rfl, rfl, _, rfl⟩)⟩
        · cases hb
          exact ⟨⟨rfl, rfl, rfl⟩, ⟨rfl, rfl⟩, by simp, Or.inr (Or.inr ⟨enc, hkey, rfl, rfl, rfl⟩)⟩
    · have hkey : hasNullB env h.rightEqCols rrow = true :=
        (hasNullB_iff _ _ _).mpr ((encode_ret_hasNull env rrow _ [] enc true henc).1.mp rfl)
      simp only [if_true] at hb
      split at hb
      · simp only [render] at hb
        split at hb
        · cases hb
          exact ⟨⟨rfl, rfl, rfl⟩, ⟨rfl, rfl⟩, by simp, Or.inl ⟨rfl, rfl, fun _ => hkey⟩⟩
        · split at hb
          · cases hb
            exact ⟨⟨rfl, rfl, rfl⟩, ⟨rfl, rfl⟩, by simp, Or.inl ⟨rfl, rfl, fun _ => hkey⟩⟩
          · simp only [emitHelper] at hb
            split at hb
            · rename_i heq
              split at heq
              · cases heq; cases hb
                exact ⟨⟨rfl, rfl, rfl⟩, ⟨rfl, rfl⟩, by simp, Or.inl ⟨rfl, rfl, fun _ => hkey⟩⟩
              · cases heq
            · rename_i heq
              split at heq
              · cases heq
              · cases heq; cases hb
                exact ⟨⟨rfl, rfl, rfl⟩, ⟨rfl, rfl⟩, by simp, Or.inl ⟨rfl, rfl, fun _ => hkey⟩⟩
      · cases hb
        exact ⟨⟨rfl, rfl, rfl⟩, ⟨rfl, rfl⟩, by simp, Or.inl ⟨rfl, rfl, fun _ => hkey⟩⟩
  · rw [henc] at hb
    cases hb
    exact ⟨⟨rfl, rfl, rfl⟩, ⟨rfl, rfl⟩, by simp, Or.inl ⟨rfl, rfl, by simp⟩⟩
  · rw [henc] at hb
    cases hb
    exact ⟨⟨rfl, rfl, rfl⟩, ⟨rfl, rfl⟩, by simp, Or.inl ⟨rfl, rfl, by simp⟩⟩

theorem idxOfKey_append {D : Type} (env : Env D) (cols k : List Nat) (r : List D) :
    ∀ (rs : List (List D)) (off : Nat),
      idxOfKey env cols k off (rs ++ [r]) =
        idxOfKey env cols k off rs ++
          (if keyOf env cols r = some k then [off + rs.length] else []) := by
  intro rs
  induction rs with
  | nil => intro off; simp [idxOfKey]
  | cons r0 rs ih =>
    intro off
    have hlen : off + 1 + rs.length = off + (rs.length + 1) := by omega
    simp only [List.cons_append, idxOfKey, List.length_cons]
    split <;> simp [ih, hlen]

theorem mem_idxOfKey {D : Type} (env : Env D) (cols k : List Nat) :
    ∀ (rs : List (List D)) (off i : Nat),
      i ∈ idxOfKey env cols k off rs ↔
        off ≤ i ∧ ∃ r, rs[i - off]? = some r ∧ keyOf env cols r = some k := by
  intro rs
  induction rs with
  | nil => intro off i; simp [idxOfKey]
  | cons r0 rs ih =>
    intro off i
    have hstep : i ∈ idxOfKey env cols k (off + 1) rs ↔
        off + 1 ≤ i ∧ ∃ r, rs[i - (off + 1)]? = some r ∧ keyOf env cols r = some k := ih _ _
    by_cases hi : i = off
    · subst hi
      have hno : ¬ (i + 1 ≤ i) := by omega
      by_cases hk : keyOf env cols r0 = some k
      · simp [idxOfKey, hk]
      · simp [idxOfKey, hk, hstep, hno]
    · have hsub : off ≤ i → i - off = (i - (off + 1)) + 1 := by omega
      have hiff : off + 1 ≤ i ↔ off ≤ i := by omega
      have key : (off ≤ i ∧ ∃ r, (r0 :: rs)[i - off]? = some r ∧ keyOf env cols r = some k) ↔
          (off + 1 ≤ i ∧ ∃ r, rs[i - (off + 1)]? = some r ∧ keyOf env cols r = some k) := by
        constructor
        · rintro ⟨h1, r, h2, h3⟩
          rw [hsub h1, List.getElem?_cons_succ] at h2
          exact ⟨hiff.mpr h1, r, h2, h3⟩
        · rintro ⟨h1, r, h2, h3⟩
          refine ⟨hiff.mp h1, r, ?_, h3⟩
          rw [hsub (hiff.mp h1), List.getElem?_cons_succ]
          exact h2
      rw [key, ← hstep]
      by_cases hk : keyOf env cols r0 = some k
      · simp [idxOfKey, hk, hi]
      · simp [idxOfKey, hk]

theorem idxOfKey_sorted {D : Type} (env : Env D) (cols k : List Nat) :
    ∀ (rs : List (List D)) (off : Nat), (idxOfKey env cols k off rs).Pairwise (· < ·) := by
  intro rs
  induction rs with
  | nil => intro off; simp [idxOfKey]
  | cons r0 rs ih =>
    intro off
    unfold idxOfKey
    split
    · refine List.Pairwise.cons ?_ (ih _)
      intro j hj
      have := ((mem_idxOfKey env cols k rs (off + 1) j).mp hj).1
      omega
    · exact ih _

theorem TableInv_congr {D : Type} (env : Env D) (h h' : hashJoiner D)
    (hr : h'.rows = h.rows) (hb : h'.buckets = h.buckets) (hc : h'.rightEqCols = h.rightEqCols)
    (hinv : TableInv env h) : TableInv env h' := by
  constructor
  · rw [hb]; exact hinv.nodup
  · rw [hb, hr, hc]; exact hinv.rows_eq
  · rw [hb, hr, hc]; exact hinv.absent
  · rw [hr, hc]; exact hinv.keyed

/-- A build iteration that does not fail keeps the table invariant and stores
the row iff none of its equality columns is NULL. -/
theorem buildRow_table {D : Type} (env : Env D) (h h' : hashJoiner D) (rrow : List D)
    (res : Option PhaseResult) (hb : buildRow env h rrow = (h', res))
    (hres : res = none ∨ ∃ m, res = some (.ret m none)) (hinv : TableInv env h) :
    TableInv env h' ∧ SameConfig h h' ∧
      h'.rows = h.rows ++ [rrow].filter (fun r => !hasNullB env h.rightEqCols r) := by
  obtain ⟨hcfg, -, -, hcase⟩ := buildRow_inv env h h' rrow res hb
  refine ⟨?_, hcfg, ?_⟩
  · rcases hcase with ⟨hr, hbk, -⟩ | ⟨-, -, e, he⟩ | ⟨enc, hkey, hr, -, hbk⟩
    · exact TableInv_congr env h h' hr hbk hcfg.2.2 hinv
    · rcases hres with h0 | ⟨m, h0⟩ <;> rw [h0] at he <;> cases he
    · have hold : ((mapGet h.buckets enc).getD ⟨[], []⟩).rows =
          idxOfKey env h.rightEqCols enc 0 h.rows := by
        cases hg : mapGet h.buckets enc with
        | none => simpa using (hinv.absent enc hg).symm
        | some b => simpa using (hinv.rows_eq enc b hg).1
      constructor
      · rw [hbk]; exact mapSet_nodup _ _ _ hinv.nodup
      · intro k b hg
        rw [hbk] at hg
        rw [hr, hcfg.2.2, idxOfKey_append]
        by_cases hk : enc = k
        · subst hk
          rw [mapGet_mapSet_same] at hg
          cases hg
          simp [hkey, hold]
        · rw [mapGet_mapSet_other _ _ _ _ hk] at hg
          have hk' : ¬ keyOf env h.rightEqCols rrow = some k := by
            rw [hkey]; simpa using hk
          simpa [hk'] using hinv.rows_eq k b hg
      · intro k hg
        rw [hbk] at hg
        have hk : enc ≠ k := by
          rintro rfl
          rw [mapGet_mapSet_same] at hg
          cases hg
        rw [mapGet_mapSet_other _ _ _ _ hk] at hg
        have hk' : ¬ keyOf env h.rightEqCols rrow = some k := by
          rw [hkey]; simpa using hk
        rw [hr, hcfg.2.2, idxOfKey_append]
        simpa [hk'] using hinv.absent k hg
      · intro r hmem
        rw [hr] at hmem
        rw [hcfg.2.2]
        rcases List.mem_append.mp hmem with hm | hm
        · exact hinv.keyed r hm
        · have : r = rrow := by simpa using hm
          subst this
          simp [hkey]
  · rcases hcase with ⟨hr, -, hnull⟩ | ⟨-, -, e, he⟩ | ⟨enc, hkey, hr, -, -⟩
    · simp [hr, hnull hres]
    · rcases hres with h0 | ⟨m, h0⟩ <;> rw [h0] at he <;> cases he
    · simp [hr, keyOf_some_hasNullB env _ _ enc hkey]

theorem sameConfig_trans {D : Type} {h1 h2 h3 : hashJoiner D} (a : SameConfig h1 h2)
    (b : SameConfig h2 h3) : SameConfig h1 h3 :=
  ⟨b.1.trans a.1, b.2.1.trans a.2.1, b.2.2.trans a.2.2⟩

/-- The emit helper only appends to the output and, on a decline, to the close
log. -/
theorem emitHelper_frame {D : Type} (env : Env D) (h : hashJoiner D) (item : OutItem D)
    (inputs : List Side) :
    (emitHelper env h item inputs).1.rows = h.rows ∧
    (emitHelper env h item inputs).1.buckets = h.buckets ∧
    SameConfig h (emitHelper env h item inputs).1 ∧
    (emitHelper env h item inputs).1.rightSource = h.rightSource ∧
    (emitHelper env h item inputs).1.leftSource = h.leftSource ∧
    (emitHelper env h item inputs).1.bucketsAcc = h.bucketsAcc ∧
    (emitHelper env h item inputs).1.renderLog = h.renderLog ∧
    (emitHelper env h item inputs).1.out = h.out ++ [item] := by
  by_cases hc : env.consumerMore (h.out ++ [item]) = true <;>
    simp [emitHelper, hc, SameConfig]

/-- A build iteration on a pulled pair that does not fail keeps the table
invariant and stores the row, if the pair carries one, iff none of its equality
columns is NULL. -/
theorem buildItem_table {D : Type} (env : Env D) (h h' : hashJoiner D)
    (item : Option (List D) × ProducerMetadata)
    (res : Option PhaseResult) (hb : buildItem env h item = (h', res))
    (hres : res = none ∨ ∃ m, res = some (.ret m none)) (hinv : TableInv env h) :
    TableInv env h' ∧ SameConfig h h' ∧ h'.rightSource = h.rightSource ∧
      h'.rows = h.rows ++ (pulledRows [item]).filter (fun r => !hasNullB env h.rightEqCols r) := by
  obtain ⟨rrow, meta⟩ := item
  unfold buildItem at hb
  simp only at hb
  cases hE : meta.Empty with
  | false =>
    simp only [hE, Bool.not_false, if_true] at hb
    cases hme : meta.Err with
    | some e =>
      rw [hme] at hb
      simp only [Prod.mk.injEq] at hb
      obtain ⟨-, rfl⟩ := hb
      simp at hres
    | none =>
      rw [hme] at hb
      simp only at hb
      obtain ⟨f1, f2, f3, f4, -⟩ := emitHelper_frame env h (.meta meta) [.left, .right]
      have hh : h' = (emitHelper env h (.meta meta) [.left, .right]).1 := by
        split at hb <;> (cases hb; rfl)
      subst hh
      exact ⟨TableInv_congr env h _ f1 f2 f3.2.2 hinv, f3, f4, by simp [pulledRows, hE, f1]⟩
  | true =>
    simp only [hE, Bool.not_true, Bool.false_eq_true, if_false] at hb
    cases rrow with
    | none =>
      simp only [Prod.mk.injEq] at hb
      obtain ⟨rfl, -⟩ := hb
      exact ⟨hinv, ⟨rfl, rfl, rfl⟩, rfl, by simp [pulledRows, hE]⟩
    | some rrow =>
      simp only at hb
      obtain ⟨t1, t2, t3⟩ := buildRow_table env h h' rrow res hb hres hinv
      obtain ⟨-, ⟨s1, -⟩, -⟩ := buildRow_inv env h h' rrow res hb
      exact ⟨t1, t2, s1, by rw [t3]; simp [pulledRows, hE]⟩

/-- A build phase that returns without error leaves the table invariant, has
pulled a prefix of the right input, and has stored exactly the pulled rows
without a NULL equality column, in arrival order. -/
theorem buildLoop_table {D : Type} (env : Env D) :
    ∀ (src : List (Option (List D) × ProducerMetadata)) (h h' : hashJoiner D) (more : Bool),
      TableInv env h → buildLoop env h src = (h', .ret more none) →
      TableInv env h' ∧ SameConfig h h' ∧
      ∃ pre, src = pre ++ h'.rightSource ∧
        h'.rows = h.rows ++ (pulledRows pre).filter (fun r => !hasNullB env h.rightEqCols r) := by
  intro src
  induction src with
  | nil =>
    intro h h' more hinv hb
    simp only [buildLoop, Prod.mk.injEq] at hb
    obtain ⟨rfl, -⟩ := hb
    exact ⟨TableInv_congr env h _ rfl rfl rfl hinv, ⟨rfl, rfl, rfl⟩, [], by simp [pulledRows]⟩
  | cons item rest ih =>
    intro h h' more hinv hb
    rw [buildLoop] at hb
    rcases hbi : buildItem env { h with rightSource := rest } item with ⟨h1, res⟩
    rw [hbi] at hb
    have hinv0 : TableInv env { h with rightSource := rest } :=
      TableInv_congr env h _ rfl rfl rfl hinv
    cases res with
    | some r =>
      simp only [Prod.mk.injEq] at hb
      obtain ⟨rfl, rfl⟩ := hb
      obtain ⟨t1, t2, t3, t4⟩ := buildItem_table env _ h1 item _ hbi (Or.inr ⟨more, rfl⟩) hinv0
      exact ⟨t1, t2, [item], by simp [t3], by rw [t4]⟩
    | none =>
      simp only at hb
      obtain ⟨t1, t2, t3, t4⟩ := buildItem_table env _ h1 item _ hbi (Or.inl rfl) hinv0
      obtain ⟨i1, i2, pre, i3, i4⟩ := ih h1 h' more t1 hb
      refine ⟨i1, sameConfig_trans t2 i2, item :: pre, by simp [i3], ?_⟩
      have hcons : pulledRows (item :: pre) = pulledRows [item] ++ pulledRows pre := by
        unfold pulledRows
        rw [← List.filterMap_append]
        rfl
      rw [i4, t4, t2.2.2, hcons, List.filter_append, List.append_assoc]

theorem TableInv_new {D : Type} (env : Env D) (joinType : JoinType)
    (leftEqCols rightEqCols : List Nat)
    (leftSource rightSource : List (Option (List D) × ProducerMetadata)) :
    TableInv env (newHashJoiner joinType leftEqCols rightEqCols leftSource rightSource) := by
  constructor <;> simp [newHashJoiner, mapGet, idxOfKey]

/-- Under the table invariant every stored row has its position exactly once in
the bucket of its key and in no bucket of another key, and the buckets hold
positions of stored rows only. -/
theorem TableInv.placement {D : Type} {env : Env D} {h : hashJoiner D} (hinv : TableInv env h) :
    (∀ k b, (k, b) ∈ h.buckets → ∀ i ∈ b.rows, i < h.rows.length) ∧
    (∀ i r, h.rows[i]? = some r →
      ∃ k b, encodeColumnsOfRow env [] r h.rightEqCols false = .ret k false none ∧
        mapGet h.buckets k = some b ∧ b.rows.count i = 1 ∧
        ∀ k' b', (k', b') ∈ h.buckets → i ∈ b'.rows → k' = k) := by
  constructor
  · intro k b hmem i hi
    have hg := mapGet_of_mem _ _ _ hinv.nodup hmem
    rw [(hinv.rows_eq k b hg).1] at hi
    obtain ⟨-, r, hr, -⟩ := (mem_idxOfKey env _ k h.rows 0 i).mp hi
    obtain ⟨hlt, -⟩ := List.getElem?_eq_some.mp hr
    simpa using hlt
  · intro i r hr
    have hkeyed := hinv.keyed r (List.getElem?_mem hr)
    obtain ⟨k, hk⟩ := Option.isSome_iff_exists.mp hkeyed
    have himem : i ∈ idxOfKey env h.rightEqCols k 0 h.rows :=
      (mem_idxOfKey env _ k h.rows 0 i).mpr ⟨Nat.zero_le _, r, by simpa using hr, hk⟩
    rcases hg : mapGet h.buckets k with _ | b
    · rw [hinv.absent k hg] at himem
      simp at himem
    · refine ⟨k, b, (keyOf_eq_some _ _ _ _).mp hk, hg, ?_, ?_⟩
      · rw [(hinv.rows_eq k b hg).1]
        exact List.count_eq_one_of_mem
          ((idxOfKey_sorted env _ k h.rows 0).imp (fun hlt => Nat.ne_of_lt hlt)) himem
      · intro k' b' hmem hi
        have hg' := mapGet_of_mem _ _ _ hinv.nodup hmem
        rw [(hinv.rows_eq k' b' hg').1] at hi
        obtain ⟨-, r', hr', hk'⟩ := (mem_idxOfKey env _ k' h.rows 0 i).mp hi
        have : r' = r := by
          have h1 : h.rows[i]? = some r' := by simpa using hr'
          rw [hr] at h1
          exact (Option.some.inj h1).symm
        subst this
        rw [hk] at hk'
        exact (Option.some.inj hk').symm

/-! ## Well-formedness of the buckets, for every environment -/

theorem buildRow_wf {D : Type} (env : Env D) (h h' : hashJoiner D) (rrow : List D)
    (res : Option PhaseResult) (hb : buildRow env h rrow = (h', res))
    (hv : IdxValid h) (hs : SeenNil h) :
    IdxValid h' ∧ SeenNil h' ∧ (∀ r, res = some r → NoIndexPanic r) ∧
      ((h.buckets.map Prod.fst).Nodup → (h'.buckets.map Prod.fst).Nodup) := by
  obtain ⟨-, -, hp, hcase⟩ := buildRow_inv env h h' rrow res hb
  have hp' : ∀ r, res = some r → NoIndexPanic r := by
    intro r hr p hpan
    subst hpan
    exact hp p hr
  rcases hcase with ⟨hr, hbk, -⟩ | ⟨hr, hbk, -⟩ | ⟨enc, -, hr, -, hbk⟩
  · refine ⟨?_, ?_, hp', fun hn => hbk ▸ hn⟩
    · intro kb hkb i hi
      rw [hr]
      exact hv kb (hbk ▸ hkb) i hi
    · intro kb hkb
      exact hs kb (hbk ▸ hkb)
  · refine ⟨?_, ?_, hp', fun hn => hbk ▸ hn⟩
    · intro kb hkb i hi
      rw [hr, List.length_append]
      have := hv kb (hbk ▸ hkb) i hi
      omega
    · intro kb hkb
      exact hs kb (hbk ▸ hkb)
  · have hold : ∀ i ∈ ((mapGet h.buckets enc).getD ⟨[], []⟩).rows, i < h.rows.length := by
      intro i hi
      cases hg : mapGet h.buckets enc with
      | none => simp [hg] at hi
      | some b =>
        rw [hg] at hi
        exact hv (enc, b) (mem_of_mapGet _ _ _ hg) i hi
    have hsold : ((mapGet h.buckets enc).getD ⟨[], []⟩).seen = [] := by
      cases hg : mapGet h.buckets enc with
      | none => rfl
      | some b => exact hs (enc, b) (mem_of_mapGet _ _ _ hg)
    refine ⟨?_, ?_, hp', fun hn => hbk ▸ mapSet_nodup _ _ _ hn⟩
    · intro kb hkb i hi
      rw [hr, List.length_append]
      rw [hbk] at hkb
      rcases mem_mapSet _ _ _ _ hkb with heq | hmem
      · subst heq
        rcases List.mem_append.mp hi with h1 | h1
        · have := hold i h1
          omega
        · have : i = h.rows.length := by simpa using h1
          subst this
          simp
      · have := hv kb hmem i hi
        omega
    · intro kb hkb
      rw [hbk] at hkb
      rcases mem_mapSet _ _ _ _ hkb with heq | hmem
      · subst heq
        exact hsold
      · exact hs kb hmem

theorem buildItem_wf {D : Type} (env : Env D) (h h' : hashJoiner D)
    (item : Option (List D) × ProducerMetadata)
    (res : Option PhaseResult) (hb : buildItem env h item = (h', res))
    (hv : IdxValid h) (hs : SeenNil h) :
    IdxValid h' ∧ SeenNil h' ∧ (∀ r, res = some r → NoIndexPanic r) ∧
      ((h.buckets.map Prod.fst).Nodup → (h'.buckets.map Prod.fst).Nodup) := by
  unfold buildItem at hb
  split at hb
  · split at hb
    · cases hb
      exact ⟨hv, hs, (by intro r hr; cases hr; intro p hp; cases hp), id⟩
    · obtain ⟨f1, f2, -⟩ := emitHelper_frame env h (.meta item.2) [.left, .right]
      have hh : h' = (emitHelper env h (.meta item.2) [.left, .right]).1 ∧
          (res = none ∨ res = some (.ret false none)) := by
        simp only at hb
        split at hb <;> (cases hb; simp)
      obtain ⟨rfl, hres⟩ := hh
      refine ⟨?_, ?_, ?_, fun hn => f2 ▸ hn⟩
      · intro kb hkb i hi
        rw [f1]
        exact hv kb (f2 ▸ hkb) i hi
      · intro kb hkb
        exact hs kb (f2 ▸ hkb)
      · intro r hr p hp
        subst hp
        rcases hres with h0 | h0 <;> rw [h0] at hr <;> cases hr
  · split at hb
    · cases hb
      exact ⟨hv, hs, (by intro r hr; cases hr; intro p hp; cases hp), id⟩
    · exact buildRow_wf env h h' _ res hb hv hs

/-- The build phase keeps the row indices valid, allocates no seen flags, keeps
the keys of the map distinct and can only panic in the key encoder, whatever
the environment does. -/
theorem buildLoop_wf {D : Type} (env : Env D) :
    ∀ (src : List (Option (List D) × ProducerMetadata)) (h : hashJoiner D),
      IdxValid h → SeenNil h → (h.buckets.map Prod.fst).Nodup →
      IdxValid (buildLoop env h src).1 ∧ SeenNil (buildLoop env h src).1 ∧
        NoIndexPanic (buildLoop env h src).2 ∧
        ((buildLoop env h src).1.buckets.map Prod.fst).Nodup ∧
        (buildLoop env h src).1.joinType = h.joinType := by
  intro src
  induction src with
  | nil =>
    intro h hv hs hn
    rw [buildLoop]
    exact ⟨hv, hs, (by intro p hp; cases hp), hn, rfl⟩
  | cons item rest ih =>
    intro h hv hs hn
    rw [buildLoop]
    rcases hbi : buildItem env { h with rightSource := rest } item with ⟨h1, res⟩
    obtain ⟨w1, w2, w3, w4⟩ := buildItem_wf env _ h1 item res hbi hv hs
    have hjt : h1.joinType = h.joinType := by
      unfold buildItem at hbi
      split at hbi
      · split at hbi
        · cases hbi; rfl
        · obtain ⟨-, -, f3, -⟩ :=
            emitHelper_frame env { h with rightSource := rest } (.meta item.2) [.left, .right]
          simp only at hbi
          split at hbi <;> (cases hbi; exact f3.1)
      · split at hbi
        · cases hbi; rfl
        · exact (buildRow_inv env _ h1 _ res hbi).1.1
    cases res with
    | some r => exact ⟨w1, w2, w3 r rfl, w4 hn, hjt⟩
    | none =>
      obtain ⟨i1, i2, i3, i4, i5⟩ := ih h1 w1 w2 (w4 hn)
      exact ⟨i1, i2, i3, i4, i5.trans hjt⟩

theorem mapSet_eq_map (m : List (List Nat × bucket)) (k : List Nat) (b : bucket)
    (hk : k ∈ m.map Prod.fst) (hnd : (m.map Prod.fst).Nodup) :
    mapSet m k b = m.map (fun kb => if kb.1 = k then (k, b) else kb) := by
  induction m with
  | nil => simp at hk
  | cons kb0 rest ih =>
    obtain ⟨k0, b0⟩ := kb0
    rw [List.map_cons, List.nodup_cons] at hnd
    by_cases h0 : k0 = k
    · subst h0
      simp only [mapSet, if_true, List.map_cons, List.cons.injEq, true_and]
      symm
      calc rest.map (fun kb => if kb.1 = k0 then (k0, b) else kb)
          = rest.map id := by
            apply List.map_congr_left
            intro kb hkb
            have : kb.1 ≠ k0 := by
              intro heq
              have hm : kb.1 ∈ rest.map Prod.fst := List.mem_map_of_mem Prod.fst hkb
              rw [heq] at hm
              exact hnd.1 hm
            simp [this]
        _ = rest := List.map_id _
    · have hk' : k ∈ rest.map Prod.fst := by
        rw [List.map_cons, List.mem_cons] at hk
        rcases hk with h1 | h1
        · exact absurd h1.symm h0
        · exact h1
      simp [mapSet, h0, ih hk' hnd.2]

theorem allocSeen_frame {D : Type} (env : Env D) :
    ∀ (es : List (List Nat × bucket)) (h : hashJoiner D),
      (allocSeen env h es).1.rows = h.rows ∧ SameConfig h (allocSeen env h es).1 ∧
      (allocSeen env h es).1.out = h.out ∧ (allocSeen env h es).1.renderLog = h.renderLog ∧
      (allocSeen env h es).1.leftSource = h.leftSource ∧
      (allocSeen env h es).1.rightSource = h.rightSource ∧
      (allocSeen env h es).1.closeLog = h.closeLog := by
  intro es
  induction es with
  | nil => intro h; exact ⟨rfl, ⟨rfl, rfl, rfl⟩, rfl, rfl, rfl, rfl, rfl⟩
  | cons e rest ih =>
    intro h
    obtain ⟨k, b⟩ := e
    rw [allocSeen]
    simp only
    split
    · exact ⟨rfl, ⟨rfl, rfl, rfl⟩, rfl, rfl, rfl, rfl, rfl⟩
    · exact ih _

/-- Whatever `Grow` answers, the allocation loop leaves every entry of the map
either as it was or with one false flag per row of an entry it visited. -/
theorem allocSeen_entries {D : Type} (env : Env D) :
    ∀ (es : List (List Nat × bucket)) (h : hashJoiner D),
      ∀ kb ∈ (allocSeen env h es).1.buckets,
        kb ∈ h.buckets ∨ ∃ e ∈ es, kb = allocEntry e := by
  intro es
  induction es with
  | nil => intro h kb hkb; exact Or.inl hkb
  | cons e rest ih =>
    intro h kb hkb
    obtain ⟨k, b⟩ := e
    rw [allocSeen] at hkb
    simp only at hkb
    split at hkb
    · exact Or.inl hkb
    · rcases ih _ kb hkb with h1 | ⟨e, he, h1⟩
      · rcases mem_mapSet _ _ _ _ h1 with h2 | h2
        · exact Or.inr ⟨(k, b), List.mem_cons_self _ _, h2⟩
        · exact Or.inl h2
      · exact Or.inr ⟨e, List.mem_cons_of_mem _ he, h1⟩

theorem mem_mapSet_of_ne (m : List (List Nat × bucket)) (k : List Nat) (b : bucket)
    (kb : List Nat × bucket) (hmem : kb ∈ m) (hne : kb.1 ≠ k) : kb ∈ mapSet m k b := by
  induction m with
  | nil => simp at hmem
  | cons kb0 rest ih =>
    obtain ⟨k0, b0⟩ := kb0
    by_cases h0 : k0 = k
    · rcases List.mem_cons.mp hmem with h1 | h1
      · subst h1
        exact absurd h0 hne
      · simp only [mapSet, h0, if_true]
        exact List.mem_cons_of_mem _ h1
    · simp only [mapSet, h0, if_false]
      rcases List.mem_cons.mp hmem with h1 | h1
      · subst h1
        exact List.mem_cons_self _ _
      · exact List.mem_cons_of_mem _ (ih h1)

/-- When every `Grow` succeeds, the allocation loop over distinct entries of the
map gives exactly the visited entries one false flag per row. -/
theorem allocSeen_exact {D : Type} (env : Env D) :
    ∀ (es : List (List Nat × bucket)) (h h' : hashJoiner D),
      (es.map Prod.fst).Nodup → (∀ kb ∈ es, kb ∈ h.buckets) → (h.buckets.map Prod.fst).Nodup →
      allocSeen env h es = (h', none) →
      h'.buckets = h.buckets.map (fun kb => if kb.1 ∈ es.map Prod.fst then allocEntry kb else kb) := by
  intro es
  induction es with
  | nil =>
    intro h h' _ _ _ ha
    simp only [allocSeen, Prod.mk.injEq] at ha
    obtain ⟨rfl, -⟩ := ha
    simp
  | cons e rest ih =>
    intro h h' hnd hsub hmnd ha
    obtain ⟨k, b⟩ := e
    rw [allocSeen] at ha
    simp only at ha
    split at ha
    · simp at ha
    · rw [List.map_cons, List.nodup_cons] at hnd
      have hkb : (k, b) ∈ h.buckets := hsub _ (List.mem_cons_self _ _)
      have hkmem : k ∈ h.buckets.map Prod.fst := List.mem_map_of_mem Prod.fst hkb
      have hrest : ∀ kb ∈ rest, kb ∈ mapSet h.buckets k
          { b with seen := List.replicate b.rows.length false } := by
        intro kb hkb'
        apply mem_mapSet_of_ne _ _ _ _ (hsub kb (List.mem_cons_of_mem _ hkb'))
        intro heq
        have hm : kb.1 ∈ rest.map Prod.fst := List.mem_map_of_mem Prod.fst hkb'
        rw [heq] at hm
        exact hnd.1 hm
      have := ih _ h' hnd.2 hrest (mapSet_nodup _ _ _ hmnd) ha
      rw [this]
      simp only
      rw [mapSet_eq_map _ _ _ hkmem hmnd, List.map_map]
      apply List.map_congr_left
      intro kb hkb'
      simp only [Function.comp, List.map_cons, List.mem_cons]
      by_cases h0 : kb.1 = k
      · have hkeq : kb = (k, b) := by
          have h1 := mapGet_of_mem _ _ _ hmnd hkb
          have h2 := mapGet_of_mem _ kb.1 kb.2 hmnd hkb'
          rw [h0, h1] at h2
          cases kb
          simp only at h0 h2
          subst h0
          cases h2
          rfl
        subst hkeq
        simp [hnd.1, allocEntry]
      · rw [if_neg h0]
        by_cases h1 : kb.1 ∈ rest.map Prod.fst
        · rw [if_pos h1, if_pos (Or.inr h1)]
        · rw [if_neg h1, if_neg (by rintro (h2 | h2); exact h0 h2; exact h1 h2)]

theorem mapSet_mapSet (m : List (List Nat × bucket)) (k : List Nat) (b1 b2 : bucket) :
    mapSet (mapSet m k b1) k b2 = mapSet m k b2 := by
  induction m with
  | nil => simp [mapSet]
  | cons kb0 rest ih =>
    obtain ⟨k0, b0⟩ := kb0
    by_cases h0 : k0 = k
    · simp [mapSet, h0]
    · simp [mapSet, h0, ih]

theorem mapSet_self (m : List (List Nat × bucket)) (k : List Nat) (b : bucket)
    (h : mapGet m k = some b) : mapSet m k b = m := by
  induction m with
  | nil => simp [mapGet] at h
  | cons kb0 rest ih =>
    obtain ⟨k0, b0⟩ := kb0
    by_cases h0 : k0 = k
    · simp only [mapGet, h0, if_true, Option.some.injEq] at h
      simp [mapSet, h0, h]
    · simp only [mapGet, h0, if_false] at h
      simp [mapSet, h0, ih h]

theorem render_frame {D : Type} (env : Env D) (h : hashJoiner D) (lrow rrow : Option (List D)) :
    (render env h lrow rrow).1 = { h with renderLog := h.renderLog ++ [(lrow, rrow)] } ∧
    (render env h lrow rrow).2 = env.render lrow rrow := ⟨rfl, rfl⟩

/-- The closure `renderAndEmit` touches the output and the two logs only. -/
theorem renderAndEmit_frame {D : Type} (env : Env D) (h : hashJoiner D)
    (lrow rrow : Option (List D)) :
    (renderAndEmit env h lrow rrow).h.rows = h.rows ∧
    (renderAndEmit env h lrow rrow).h.buckets = h.buckets ∧
    SameConfig h (renderAndEmit env h lrow rrow).h ∧
    (renderAndEmit env h lrow rrow).h.leftSource = h.leftSource ∧
    (renderAndEmit env h lrow rrow).h.rightSource = h.rightSource ∧
    (renderAndEmit env h lrow rrow).h.bucketsAcc = h.bucketsAcc := by
  unfold renderAndEmit
  simp only [render]
  split
  · exact ⟨rfl, rfl, ⟨rfl, rfl, rfl⟩, rfl, rfl, rfl⟩
  · split
    · rename_i row _
      obtain ⟨f1, f2, f3, f4, f5, f6, -⟩ :=
        emitHelper_frame env { h with renderLog := h.renderLog ++ [(lrow, rrow)] } (.row row) [.left]
      exact ⟨f1, f2, f3, f5, f4, f6⟩
    · exact ⟨rfl, rfl, ⟨rfl, rfl, rfl⟩, rfl, rfl, rfl⟩

/-- The loop over the rows of a hit bucket never indexes out of range when the
row indices are valid and, for right and full outer joins, there is a seen
flag for every position; it changes at most the seen flags of that bucket,
keeping their number. -/
theorem probeBucket_wf {D : Type} (env : Env D) (lrow : List D) (key : List Nat) :
    ∀ (idxs : List Nat) (h : hashJoiner D) (b : bucket) (i : Nat) (h' : hashJoiner D)
      (res : Option PhaseResult),
      (∀ idx ∈ idxs, idx < h.rows.length) →
      (h.joinType.rightSide = true → i + idxs.length ≤ b.seen.length) →
      probeBucket env h lrow key b i idxs = (h', res) →
      h'.rows = h.rows ∧ SameConfig h h' ∧ (∀ p, res ≠ some (.panic p)) ∧
      (h'.buckets = h.buckets ∨
        (h.joinType.rightSide = true ∧ ∃ s', s'.length = b.seen.length ∧
          h'.buckets = mapSet h.buckets key ⟨b.rows, s'⟩)) := by
  intro idxs
  induction idxs with
  | nil =>
    intro h b i h' res _ _ hp
    simp only [probeBucket, Prod.mk.injEq] at hp
    obtain ⟨rfl, rfl⟩ := hp
    exact ⟨rfl, ⟨rfl, rfl, rfl⟩, by simp, Or.inl rfl⟩
  | cons idx rest ih =>
    intro h b i h' res hv hlen hp
    rw [probeBucket] at hp
    have hidx : idx < h.rows.length := hv idx (List.mem_cons_self _ _)
    rw [List.getElem?_eq_getElem hidx] at hp
    simp only at hp
    obtain ⟨f1, f2, f3, -⟩ := renderAndEmit_frame env h (some lrow) (some h.rows[idx])
    generalize renderAndEmit env h (some lrow) (some h.rows[idx]) = r at hp f1 f2 f3
    split at hp
    · cases hp
      exact ⟨f1, f3, by simp, Or.inl f2⟩
    · split at hp
      · rename_i hcond
        have hrs : h.joinType.rightSide = true := by
          simp only [Bool.and_eq_true] at hcond
          exact hcond.2
        have hl := hlen hrs
        simp only [List.length_cons] at hl
        have hi : i < b.seen.length := by omega
        rw [if_pos hi] at hp
        have hv' : ∀ idx ∈ rest, idx < r.h.rows.length := by
          intro j hj
          rw [f1]
          exact hv j (List.mem_cons_of_mem _ hj)
        have ihh := fun a c => ih _ _ _ h' res a c hp
        obtain ⟨g1, g2, g3, g4⟩ := ihh hv'
          (by intro _; simp only [List.length_set]; omega)
        refine ⟨g1.trans f1, sameConfig_trans f3 ⟨g2.1, g2.2.1, g2.2.2⟩, g3, Or.inr ⟨hrs, ?_⟩⟩
        rcases g4 with g4 | ⟨-, s', hs', g4⟩
        · exact ⟨b.seen.set i true, by simp, by rw [g4]; simp [f2]⟩
        · refine ⟨s', by simpa using hs', ?_⟩
          rw [g4]
          simp [mapSet_mapSet, f2]
      · have hv' : ∀ idx ∈ rest, idx < r.h.rows.length := by
          intro j hj
          rw [f1]
          exact hv j (List.mem_cons_of_mem _ hj)
        have hjt : r.h.joinType = h.joinType := f3.1
        obtain ⟨g1, g2, g3, g4⟩ := ih r.h b (i + 1) h' res hv'
          (by intro hrs; rw [hjt] at hrs; have := hlen hrs; simp only [List.length_cons] at this; omega)
          hp
        refine ⟨g1.trans f1, sameConfig_trans f3 g2, g3, ?_⟩
        rcases g4 with g4 | ⟨hrs, s', hs', g4⟩
        · exact Or.inl (g4.trans f2)
        · exact Or.inr ⟨hjt ▸ hrs, s', hs', by rw [g4, f2]⟩

theorem ProbeWF_congr {D : Type} (h h' : hashJoiner D) (hr : h'.rows = h.rows)
    (hc : SameConfig h h') (hb : h'.buckets = h.buckets) (hw : ProbeWF h) : ProbeWF h' := by
  obtain ⟨w1, w2, w3⟩ := hw
  refine ⟨?_, ?_, ?_⟩
  · intro kb hkb i hi
    rw [hr]
    exact w1 kb (hb ▸ hkb) i hi
  · intro hrs kb hkb
    exact w2 (hc.1 ▸ hrs) kb (hb ▸ hkb)
  · intro hrs kb hkb
    exact w3 (hc.1 ▸ hrs) kb (hb ▸ hkb)

theorem ProbeWF_mapSet {D : Type} (h h' : hashJoiner D) (k : List Nat) (b : bucket)
    (s' : List Bool) (hr : h'.rows = h.rows) (hc : SameConfig h h')
    (hrs : h.joinType.rightSide = true) (hg : mapGet h.buckets k = some b)
    (hs : s'.length = b.seen.length) (hb : h'.buckets = mapSet h.buckets k ⟨b.rows, s'⟩)
    (hw : ProbeWF h) : ProbeWF h' := by
  obtain ⟨w1, w2, -⟩ := hw
  have hmem := mem_of_mapGet _ _ _ hg
  refine ⟨?_, ?_, ?_⟩
  · intro kb hkb i hi
    rw [hr]
    rw [hb] at hkb
    rcases mem_mapSet _ _ _ _ hkb with heq | hm
    · subst heq
      exact w1 (k, b) hmem i hi
    · exact w1 kb hm i hi
  · intro _ kb hkb
    rw [hb] at hkb
    rcases mem_mapSet _ _ _ _ hkb with heq | hm
    · subst heq
      simpa [hs] using w2 hrs (k, b) hmem
    · exact w2 hrs kb hm
  · intro hrs'
    rw [hc.1, hrs] at hrs'
    cases hrs'

/-- One iteration of the probe loop on a left row keeps the buckets well formed
and can only panic in the key encoder. -/
theorem probeRow_wf {D : Type} (env : Env D) (h h' : hashJoiner D) (lrow : List D)
    (res : Option PhaseResult) (hw : ProbeWF h) (hp : probeRow env h lrow = (h', res)) :
    ProbeWF h' ∧ SameConfig h h' ∧ (∀ r, res = some r → NoIndexPanic r) := by
  have hemit : ∀ (h' : hashJoiner D) (res : Option PhaseResult),
      (if (!(renderAndEmit env h (some lrow) none).moreRowsNeeded ||
            (renderAndEmit env h (some lrow) none).err.isSome) = true
        then ((renderAndEmit env h (some lrow) none).h,
          some (PhaseResult.ret (renderAndEmit env h (some lrow) none).moreRowsNeeded
            (renderAndEmit env h (some lrow) none).err))
        else ((renderAndEmit env h (some lrow) none).h, none)) = (h', res) →
      ProbeWF h' ∧ SameConfig h h' ∧ (∀ r, res = some r → NoIndexPanic r) := by
    intro h' res hp
    obtain ⟨f1, f2, f3, -⟩ := renderAndEmit_frame env h (some lrow) none
    generalize renderAndEmit env h (some lrow) none = r at hp f1 f2 f3
    split at hp <;> cases hp
    · exact ⟨ProbeWF_congr h _ f1 f3 f2 hw, f3, by intro r hr; cases hr; intro p hp; cases hp⟩
    · exact ⟨ProbeWF_congr h _ f1 f3 f2 hw, f3, by intro r hr; cases hr⟩
  unfold probeRow at hp
  rcases henc : encodeColumnsOfRow env [] lrow h.leftEqCols false with ⟨enc, hn, _ | e⟩ | _
  · rw [henc] at hp
    simp only at hp
    split at hp
    · split at hp
      · exact hemit h' res hp
      · cases hp
        exact ⟨hw, ⟨rfl, rfl, rfl⟩, by intro r hr; cases hr⟩
    · split at hp
      · rename_i b hg
        have hmem := mem_of_mapGet _ _ _ hg
        obtain ⟨g1, g2, g3, g4⟩ := probeBucket_wf env lrow enc b.rows h b 0 h' res
          (fun idx hidx => hw.1 (enc, b) hmem idx hidx)
          (fun hrs => by have := hw.2.1 hrs (enc, b) hmem; simp only at this; omega) hp
        refine ⟨?_, g2, ?_⟩
        · rcases g4 with g4 | ⟨hrs, s', hs', g4⟩
          · exact ProbeWF_congr h h' g1 g2 g4 hw
          · exact ProbeWF_mapSet h h' enc b s' g1 g2 hrs hg hs' g4 hw
        · intro r hr p hpan
          subst hpan
          exact absurd hr (g3 p)
      · split at hp
        · exact hemit h' res hp
        · cases hp
          exact ⟨hw, ⟨rfl, rfl, rfl⟩, by intro r hr; cases hr⟩
  · rw [henc] at hp
    cases hp
    exact ⟨hw, ⟨rfl, rfl, rfl⟩, by intro r hr; cases hr; intro p hp; cases hp⟩
  · rw [henc] at hp
    cases hp
    exact ⟨hw, ⟨rfl, rfl, rfl⟩, by intro r hr; cases hr; intro p hp; cases hp; rfl⟩

theorem probeItem_wf {D : Type} (env : Env D) (h h' : hashJoiner D)
    (item : Option (List D) × ProducerMetadata) (res : LoopStep) (hw : ProbeWF h)
    (hp : probeItem env h item = (h', res)) :
    ProbeWF h' ∧ SameConfig h h' ∧ (∀ r, res = .ret r → NoIndexPanic r) := by
  unfold probeItem at hp
  split at hp
  · split at hp
    · cases hp
      exact ⟨hw, ⟨rfl, rfl, rfl⟩, by intro r hr; cases hr; intro p hp; cases hp⟩
    · obtain ⟨f1, f2, f3, -⟩ := emitHelper_frame env h (.meta item.2) [.left, .right]
      have hh : h' = (emitHelper env h (.meta item.2) [.left, .right]).1 ∧
          (res = .next ∨ res = .ret (.ret false none)) := by
        simp only at hp
        split at hp <;> (cases hp; simp)
      obtain ⟨rfl, hres⟩ := hh
      refine ⟨ProbeWF_congr h _ f1 f3 f2 hw, f3, ?_⟩
      intro r hr p hpan
      subst hpan
      rcases hres with h0 | h0 <;> rw [h0] at hr <;> cases hr
  · split at hp
    · cases hp
      exact ⟨hw, ⟨rfl, rfl, rfl⟩, by intro r hr; cases hr⟩
    · rename_i lrow _
      simp only at hp
      rcases hpr : probeRow env h lrow with ⟨h1, res1⟩
      rw [hpr] at hp
      obtain ⟨g1, g2, g3⟩ := probeRow_wf env h h1 lrow res1 hw hpr
      cases res1 with
      | some r1 =>
        cases hp
        exact ⟨g1, g2, by intro r hr; cases hr; exact g3 r1 rfl⟩
      | none =>
        cases hp
        exact ⟨g1, g2, by intro r hr; cases hr⟩

theorem probeLoop_wf {D : Type} (env : Env D) :
    ∀ (src : List (Option (List D) × ProducerMetadata)) (h : hashJoiner D), ProbeWF h →
      ProbeWF (probeLoop env h src).1 ∧ SameConfig h (probeLoop env h src).1 ∧
        (∀ r, (probeLoop env h src).2 = some r → NoIndexPanic r) := by
  intro src
  induction src with
  | nil =>
    intro h hw
    simp only [probeLoop]
    exact ⟨ProbeWF_congr h _ rfl ⟨rfl, rfl, rfl⟩ rfl hw, ⟨rfl, rfl, rfl⟩, by intro r hr; cases hr⟩
  | cons item rest ih =>
    intro h hw
    rw [probeLoop]
    rcases hpi : probeItem env { h with leftSource := rest } item with ⟨h1, res⟩
    have hw0 : ProbeWF { h with leftSource := rest } :=
      ProbeWF_congr h _ rfl ⟨rfl, rfl, rfl⟩ rfl hw
    obtain ⟨g1, g2, g3⟩ := probeItem_wf env _ h1 item res hw0 hpi
    have g2' : SameConfig h h1 := g2
    cases res with
    | ret r => exact ⟨g1, g2', by intro r' hr; cases hr; exact g3 r rfl⟩
    | stop => exact ⟨g1, g2', by intro r' hr; cases hr⟩
    | next =>
      obtain ⟨i1, i2, i3⟩ := ih h1 g1
      exact ⟨i1, sameConfig_trans g2' i2, i3⟩

theorem sweepBucket_wf {D : Type} (env : Env D) (b : bucket) :
    ∀ (seens : List Bool) (h : hashJoiner D) (i : Nat),
      (∀ idx ∈ b.rows, idx < h.rows.length) → i + seens.length ≤ b.rows.length →
      (sweepBucket env h b i seens).1.rows = h.rows ∧
      (sweepBucket env h b i seens).1.buckets = h.buckets ∧
      SameConfig h (sweepBucket env h b i seens).1 ∧
      (∀ p, (sweepBucket env h b i seens).2 ≠ some (.panic p)) := by
  intro seens
  induction seens with
  | nil =>
    intro h i _ _
    rw [sweepBucket]
    exact ⟨rfl, rfl, ⟨rfl, rfl, rfl⟩, by simp⟩
  | cons seen rest ih =>
    intro h i hv hlen
    simp only [List.length_cons] at hlen
    rw [sweepBucket]
    cases seen with
    | true =>
      simp only [Bool.not_true, Bool.false_eq_true, if_false]
      exact ih h (i + 1) hv (by omega)
    | false =>
      simp only [Bool.not_false, if_true]
      have hi : i < b.rows.length := by omega
      rw [List.getElem?_eq_getElem hi]
      simp only
      have hidx : b.rows[i] < h.rows.length := hv _ (List.getElem_mem _)
      rw [List.getElem?_eq_getElem hidx]
      simp only
      obtain ⟨f1, f2, f3, -⟩ := renderAndEmit_frame env h none (some h.rows[b.rows[i]])
      generalize renderAndEmit env h none (some h.rows[b.rows[i]]) = r at f1 f2 f3
      split
      · exact ⟨f1, f2, f3, by simp⟩
      · obtain ⟨g1, g2, g3, g4⟩ := ih r.h (i + 1) (by rw [f1]; exact hv) (by omega)
        exact ⟨g1.trans f1, g2.trans f2, sameConfig_trans f3 g3, g4⟩

theorem sweepLoop_wf {D : Type} (env : Env D) :
    ∀ (es : List (List Nat × bucket)) (h : hashJoiner D),
      (∀ kb ∈ es, (∀ idx ∈ kb.2.rows, idx < h.rows.length) ∧
        kb.2.seen.length ≤ kb.2.rows.length) →
      (sweepLoop env h es).1.rows = h.rows ∧
      (sweepLoop env h es).1.buckets = h.buckets ∧
      SameConfig h (sweepLoop env h es).1 ∧
      (∀ p, (sweepLoop env h es).2 ≠ some (.panic p)) := by
  intro es
  induction es with
  | nil =>
    intro h _
    rw [sweepLoop]
    exact ⟨rfl, rfl, ⟨rfl, rfl, rfl⟩, by simp⟩
  | cons e rest ih =>
    intro h hes
    obtain ⟨k, b⟩ := e
    rw [sweepLoop]
    obtain ⟨hv, hl⟩ := hes (k, b) (List.mem_cons_self _ _)
    obtain ⟨f1, f2, f3, f4⟩ := sweepBucket_wf env b b.seen h 0 hv (by simpa using hl)
    rcases hsb : sweepBucket env h b 0 b.seen with ⟨h1, res⟩
    rw [hsb] at f1 f2 f3 f4
    simp only at f1 f2 f3 f4
    cases res with
    | some r => exact ⟨f1, f2, f3, by intro p hp; exact f4 p (by simpa using hp)⟩
    | none =>
      simp only
      obtain ⟨g1, g2, g3, g4⟩ := ih h1 (by
        intro kb hkb
        rw [f1]
        exact hes kb (List.mem_cons_of_mem _ hkb))
      exact ⟨g1.trans f1, g2.trans f2, sameConfig_trans f3 g3, g4⟩

theorem probeSweep_wf {D : Type} (env : Env D) (h : hashJoiner D) (hw : ProbeWF h) :
    ProbeWF (probeSweep env h).1 ∧ SameConfig h (probeSweep env h).1 ∧
      NoIndexPanic (probeSweep env h).2 := by
  unfold probeSweep
  split
  · rename_i hrs
    have hes : ∀ kb ∈ env.rangeOrder 1 h.buckets,
        (∀ idx ∈ kb.2.rows, idx < h.rows.length) ∧ kb.2.seen.length ≤ kb.2.rows.length := by
      intro kb hkb
      have hmem : kb ∈ h.buckets := (env.rangeOrder_perm 1 h.buckets).subset hkb
      exact ⟨hw.1 kb hmem, le_of_eq (hw.2.1 hrs kb hmem)⟩
    obtain ⟨f1, f2, f3, f4⟩ := sweepLoop_wf env (env.rangeOrder 1 h.buckets) h hes
    simp only
    rcases hsl : sweepLoop env h (env.rangeOrder 1 h.buckets) with ⟨h1, res⟩
    rw [hsl] at f1 f2 f3 f4
    simp only at f1 f2 f3 f4
    cases res with
    | some r =>
      refine ⟨ProbeWF_congr h h1 f1 f3 f2 hw, f3, ?_⟩
      intro p hp
      simp only at hp
      subst hp
      exact absurd rfl (f4 p)
    | none =>
      exact ⟨ProbeWF_congr h _ f1 f3 f2 hw, f3, by intro p hp; cases hp⟩
  · exact ⟨ProbeWF_congr h _ rfl ⟨rfl, rfl, rfl⟩ rfl hw, ⟨rfl, rfl, rfl⟩, by intro p hp; cases hp⟩

/-- The probe phase keeps the buckets well formed and can only panic in the key
encoder, whatever the environment does. -/
theorem probePhase_wf {D : Type} (env : Env D) (h : hashJoiner D) (hw : ProbeWF h) :
    ProbeWF (probePhase env h).1 ∧ SameConfig h (probePhase env h).1 ∧
      NoIndexPanic (probePhase env h).2 := by
  unfold probePhase
  obtain ⟨f1, f2, f3⟩ := probeLoop_wf env h.leftSource h hw
  simp only
  rcases hpl : probeLoop env h h.leftSource with ⟨h1, res⟩
  rw [hpl] at f1 f2 f3
  simp only at f1 f2 f3
  cases res with
  | some r => exact ⟨f1, f2, f3 r rfl⟩
  | none =>
    obtain ⟨g1, g2, g3⟩ := probeSweep_wf env h1 f1
    exact ⟨g1, sameConfig_trans f2 g2, g3⟩

/-- After a build, a seen allocation in which every `Grow` succeeds gives every
bucket one false flag per row: the table is ready for the probe phase of a
right or full outer join. -/
theorem allocSeen_ready {D : Type} (env : Env D) (h h' : hashJoiner D)
    (hv : IdxValid h) (hn : (h.buckets.map Prod.fst).Nodup)
    (hrs : h.joinType.rightSide = true)
    (ha : allocSeen env h (env.rangeOrder 0 h.buckets) = (h', none)) :
    h'.buckets = h.buckets.map allocEntry ∧ ProbeWF h' := by
  have hperm := env.rangeOrder_perm 0 h.buckets
  have hexact := allocSeen_exact env (env.rangeOrder 0 h.buckets) h h'
    ((hperm.map Prod.fst).nodup_iff.mpr hn) (fun kb hkb => hperm.subset hkb) hn ha
  have hb : h'.buckets = h.buckets.map allocEntry := by
    rw [hexact]
    apply List.map_congr_left
    intro kb hkb
    rw [if_pos ((hperm.map Prod.fst).mem_iff.mpr (List.mem_map_of_mem Prod.fst hkb))]
  obtain ⟨f1, f2, -⟩ := allocSeen_frame env (env.rangeOrder 0 h.buckets) h
  rw [ha] at f1 f2
  simp only at f1 f2
  refine ⟨hb, ?_, ?_, ?_⟩
  · intro kb hkb i hi
    rw [hb] at hkb
    obtain ⟨kb0, hkb0, rfl⟩ := List.mem_map.mp hkb
    rw [f1]
    exact hv kb0 hkb0 i hi
  · intro _ kb hkb
    rw [hb] at hkb
    obtain ⟨kb0, hkb0, rfl⟩ := List.mem_map.mp hkb
    simp [allocEntry]
  · intro hrs'
    rw [f2.1, hrs] at hrs'
    cases hrs'

theorem ProbeWF_of_seenNil {D : Type} (h : hashJoiner D) (hv : IdxValid h) (hs : SeenNil h)
    (hrs : h.joinType.rightSide = false) : ProbeWF h :=
  ⟨hv, (fun h1 => by rw [hrs] at h1; cases h1), fun _ => hs⟩

/-- C9. Bucket well-formedness invariant. For every environment (errors and
declines included), every join type and every pair of inputs (so also for
every prefix of them, that is at every loop boundary): after `buildPhase`
every row index stored in a bucket is smaller than the length of the row
container and no bucket has seen flags; after the seen allocation of `Run`
the row indices are still valid and every bucket has either no flags yet or
one false flag per row index, the latter for all buckets when no `Grow`
failed; after `probePhase`, for right and full outer joins every bucket still
has valid indices and as many seen flags as row indices, and for inner and
left outer joins every `seen` is still empty; and neither a phase nor `Run`
panics at `rows.EncRow(idx)`, `b.seen[i]` or `b.rows[i]` (with every `seen`
empty, any indexing of it would panic, so inner and left outer joins never
index it). -/
theorem bucket_wellformedness {D : Type} (env : Env D) (joinType : JoinType)
    (leftEqCols rightEqCols : List Nat)
    (leftSource rightSource : List (Option (List D) × ProducerMetadata)) :
    (IdxValid (buildPhase env
        (newHashJoiner joinType leftEqCols rightEqCols leftSource rightSource)).1 ∧
      SeenNil (buildPhase env
        (newHashJoiner joinType leftEqCols rightEqCols leftSource rightSource)).1 ∧
      NoIndexPanic (buildPhase env
        (newHashJoiner joinType leftEqCols rightEqCols leftSource rightSource)).2) ∧
    (∀ h1, h1 = (buildPhase env
        (newHashJoiner joinType leftEqCols rightEqCols leftSource rightSource)).1 →
      (IdxValid (allocSeen env h1 (env.rangeOrder 0 h1.buckets)).1 ∧
        (∀ kb ∈ (allocSeen env h1 (env.rangeOrder 0 h1.buckets)).1.buckets,
          kb.2.seen = [] ∨ kb.2.seen = List.replicate kb.2.rows.length false)) ∧
      (∀ h2, joinType.rightSide = true →
        allocSeen env h1 (env.rangeOrder 0 h1.buckets) = (h2, none) →
        (∀ kb ∈ h2.buckets, kb.2.seen = List.replicate kb.2.rows.length false) ∧
        IdxValid (probePhase env h2).1 ∧ SeenLen (probePhase env h2).1 ∧
        NoIndexPanic (probePhase env h2).2) ∧
      (joinType.rightSide = false →
        IdxValid (probePhase env h1).1 ∧ SeenNil (probePhase env h1).1 ∧
        NoIndexPanic (probePhase env h1).2)) ∧
    ((runBody env (newHashJoiner joinType leftEqCols rightEqCols leftSource rightSource)).2 = none ∨
      (runBody env (newHashJoiner joinType leftEqCols rightEqCols leftSource rightSource)).2
        = some .colIdx) := by
  have h0v : IdxValid (newHashJoiner joinType leftEqCols rightEqCols leftSource rightSource) := by
    intro kb hkb; simp [newHashJoiner] at hkb
  have h0s : SeenNil (newHashJoiner joinType leftEqCols rightEqCols leftSource rightSource) := by
    intro kb hkb; simp [newHashJoiner] at hkb
  have h0n : ((newHashJoiner joinType leftEqCols rightEqCols leftSource rightSource).buckets.map
      Prod.fst).Nodup := by simp [newHashJoiner]
  have hbw : IdxValid (buildPhase env
        (newHashJoiner joinType leftEqCols rightEqCols leftSource rightSource)).1 ∧
      SeenNil (buildPhase env
        (newHashJoiner joinType leftEqCols rightEqCols leftSource rightSource)).1 ∧
      NoIndexPanic (buildPhase env
        (newHashJoiner joinType leftEqCols rightEqCols leftSource rightSource)).2 ∧
      ((buildPhase env
        (newHashJoiner joinType leftEqCols rightEqCols leftSource rightSource)).1.buckets.map
          Prod.fst).Nodup ∧
      (buildPhase env
        (newHashJoiner joinType leftEqCols rightEqCols leftSource rightSource)).1.joinType
          = joinType :=
    buildLoop_wf env rightSource _ h0v h0s h0n
  obtain ⟨b1, b2, b3, b4, hjt⟩ := hbw
  have hprobeR : ∀ h1, h1 = (buildPhase env
        (newHashJoiner joinType leftEqCols rightEqCols leftSource rightSource)).1 →
      ∀ h2, joinType.rightSide = true →
        allocSeen env h1 (env.rangeOrder 0 h1.buckets) = (h2, none) → ProbeWF h2 ∧
          (∀ kb ∈ h2.buckets, kb.2.seen = List.replicate kb.2.rows.length false) := by
    intro h1 hh1 h2 hrs ha
    subst hh1
    obtain ⟨e1, e2⟩ := allocSeen_ready env _ h2 b1 b4 (by rw [hjt]; exact hrs) ha
    refine ⟨e2, ?_⟩
    intro kb hkb
    rw [e1] at hkb
    obtain ⟨kb0, -, rfl⟩ := List.mem_map.mp hkb
    simp [allocEntry]
  have hprobeL : ∀ h1, h1 = (buildPhase env
        (newHashJoiner joinType leftEqCols rightEqCols leftSource rightSource)).1 →
      joinType.rightSide = false → ProbeWF h1 := by
    intro h1 hh1 hrs
    subst hh1
    exact ProbeWF_of_seenNil _ b1 b2 (by rw [hjt]; exact hrs)
  refine ⟨⟨b1, b2, b3⟩, ?_, ?_⟩
  · intro h1 hh1
    refine ⟨⟨?_, ?_⟩, ?_, ?_⟩
    · intro kb hkb i hi
      rw [(allocSeen_frame env _ h1).1]
      rcases allocSeen_entries env _ h1 kb hkb with hm | ⟨e, he, rfl⟩
      · exact (hh1 ▸ b1) kb hm i hi
      · exact (hh1 ▸ b1) e ((env.rangeOrder_perm 0 h1.buckets).subset he) i hi
    · intro kb hkb
      rcases allocSeen_entries env _ h1 kb hkb with hm | ⟨e, he, rfl⟩
      · exact Or.inl ((hh1 ▸ b2) kb hm)
      · exact Or.inr (by simp [allocEntry])
    · intro h2 hrs ha
      obtain ⟨w, hall⟩ := hprobeR h1 hh1 h2 hrs ha
      obtain ⟨p1, p2, p3⟩ := probePhase_wf env h2 w
      have hrs2 : h2.joinType.rightSide = true := by
        have := (allocSeen_frame env (env.rangeOrder 0 h1.buckets) h1).2.1.1
        rw [ha] at this
        simp only at this
        rw [this, hh1, hjt]
        exact hrs
      exact ⟨hall, p1.1, p1.2.1 (by rw [p2.1]; exact hrs2), p3⟩
    · intro hrs
      have w := hprobeL h1 hh1 hrs
      obtain ⟨p1, p2, p3⟩ := probePhase_wf env h1 w
      have hrs1 : h1.joinType.rightSide = false := by rw [hh1, hjt]; exact hrs
      exact ⟨p1.1, p1.2.2 (by rw [p2.1]; exact hrs1), p3⟩
  · unfold runBody
    rcases hbp : buildPhase env
      (newHashJoiner joinType leftEqCols rightEqCols leftSource rightSource) with ⟨h1, r⟩
    have hh1 : h1 = (buildPhase env
        (newHashJoiner joinType leftEqCols rightEqCols leftSource rightSource)).1 := by rw [hbp]
    have b3' : NoIndexPanic r := by
      have := b3
      rw [hbp] at this
      exact this
    rcases r with ⟨more, _ | e⟩ | p
    · cases more with
      | false => exact Or.inl rfl
      | true =>
        simp only
        unfold runProbe
        cases hrs : joinType.rightSide with
        | true =>
          have hrs1 : h1.joinType.rightSide = true := by rw [hh1, hjt]; exact hrs
          simp only [hrs1, if_true]
          rcases ha : allocSeen env h1 (env.rangeOrder 0 h1.buckets) with ⟨h2, _ | e⟩
          · simp only
            obtain ⟨w, -⟩ := hprobeR h1 hh1 h2 hrs ha
            obtain ⟨-, -, p3⟩ := probePhase_wf env h2 w
            rcases hpp : probePhase env h2 with ⟨h3, ⟨m, e⟩ | p⟩
            · simp only
              split <;> exact Or.inl rfl
            · rw [hpp] at p3
              exact Or.inr (by rw [p3 p rfl])
          · exact Or.inl rfl
        | false =>
          have hrs1 : h1.joinType.rightSide = false := by rw [hh1, hjt]; exact hrs
          simp only [hrs1, Bool.false_eq_true, if_false]
          have w := hprobeL h1 hh1 hrs
          obtain ⟨-, -, p3⟩ := probePhase_wf env h1 w
          rcases hpp : probePhase env h1 with ⟨h3, ⟨m, e⟩ | p⟩
          · simp only
            split <;> exact Or.inl rfl
          · rw [hpp] at p3
            exact Or.inr (by rw [p3 p rfl])
    · cases more <;> exact Or.inl rfl
    · exact Or.inr (by rw [b3' p rfl])

/-! ## Quiet runs: what each loop does exactly -/

theorem renderAndEmit_quiet {D : Type} (env : Env D) (h : hashJoiner D)
    (lrow rrow : Option (List D)) (hr : (env.render lrow rrow).err = none)
    (hm : ∀ out, env.consumerMore out = true) :
    renderAndEmit env h lrow rrow =
      ⟨{ h with out := h.out ++ emitted env lrow rrow,
                renderLog := h.renderLog ++ [(lrow, rrow)] },
        true, (env.render lrow rrow).failedOnCond, none⟩ := by
  unfold renderAndEmit emitted
  simp only [render, hr]
  cases hrow : (env.render lrow rrow).row with
  | none => simp
  | some row => simp [emitHelper, hm]

theorem quiet_encode {D : Type} (env : Env D) (hq : Quiet env) (row : List D) (cols : List Nat)
    (hcols : ∀ c ∈ cols, c < row.length) :
    ∃ enc, encodeColumnsOfRow env [] row cols false
      = .ret enc (hasNullB env cols row) none := by
  obtain ⟨enc, hn, he⟩ := encode_returns env row cols hcols
    (fun c _ d _ buf => hq.encode d buf) []
  refine ⟨enc, ?_⟩
  rw [he]
  have := (encode_ret_hasNull env row cols [] enc hn he).1
  cases hn with
  | true => rw [(hasNullB_iff env cols row).mpr (this.mp rfl)]
  | false =>
    cases hb : hasNullB env cols row with
    | false => rfl
    | true => exact absurd (this.mpr ((hasNullB_iff env cols row).mp hb)) (by simp)

theorem quiet_keyOf {D : Type} (env : Env D) (hq : Quiet env) (row : List D) (cols : List Nat)
    (hcols : ∀ c ∈ cols, c < row.length) :
    (keyOf env cols row).isSome = !hasNullB env cols row := by
  obtain ⟨enc, he⟩ := quiet_encode env hq row cols hcols
  unfold keyOf
  rw [he]
  cases hasNullB env cols row <;> rfl

/-- In a quiet run an iteration of the build loop continues, and pushes and
logs only for a right row with a NULL equality column under a right or full
outer join. -/
theorem buildRow_quiet {D : Type} (env : Env D) (hq : Quiet env) (h : hashJoiner D)
    (rrow : List D) (hcols : ∀ c ∈ h.rightEqCols, c < rrow.length) :
    (buildRow env h rrow).2 = none ∧
    (buildRow env h rrow).1.out = h.out ++ buildOut env h.joinType h.rightEqCols [rrow] ∧
    (buildRow env h rrow).1.renderLog
      = h.renderLog ++ buildLog env h.joinType h.rightEqCols [rrow] ∧
    (buildRow env h rrow).1.closeLog = h.closeLog := by
  obtain ⟨enc, he⟩ := quiet_encode env hq rrow h.rightEqCols hcols
  unfold buildRow buildOut buildLog
  rw [he]
  simp only
  cases hnull : hasNullB env h.rightEqCols rrow with
  | true =>
    simp only [if_true]
    cases hrs : h.joinType.rightSide with
    | false => simp [hnull]
    | true =>
      simp only [if_true, render, hq.render]
      cases hrow : (env.render none (some rrow)).row with
      | none => simp [hnull, emitted, hrow]
      | some row => simp [hnull, emitted, hrow, emitHelper, hq.more]
  | false =>
    simp only [Bool.false_eq_true, if_false, hq.addRow, hq.grow]
    simp [hnull]

theorem buildOut_cons {D : Type} (env : Env D) (jt : JoinType) (cols : List Nat)
    (r : List D) (R : List (List D)) :
    buildOut env jt cols (r :: R) = buildOut env jt cols [r] ++ buildOut env jt cols R := by
  unfold buildOut
  cases jt.rightSide
  · simp
  · simp only [if_true]
    rw [← List.flatMap_append, ← List.filter_append]
    rfl

theorem buildLog_cons {D : Type} (env : Env D) (jt : JoinType) (cols : List Nat)
    (r : List D) (R : List (List D)) :
    buildLog env jt cols (r :: R) = buildLog env jt cols [r] ++ buildLog env jt cols R := by
  unfold buildLog
  cases jt.rightSide
  · simp
  · simp only [if_true]
    rw [← List.map_append, ← List.filter_append]
    rfl

/-- In a quiet run over a right input of rows only, the build loop consumes the
whole input and returns `(true, nil)`. -/
theorem buildLoop_quiet {D : Type} (env : Env D) (hq : Quiet env) :
    ∀ (R : List (List D)) (h : hashJoiner D), ColsInRange h.rightEqCols R →
      (buildLoop env h (rowsSource R)).2 = .ret true none ∧
      (buildLoop env h (rowsSource R)).1.out
        = h.out ++ buildOut env h.joinType h.rightEqCols R ∧
      (buildLoop env h (rowsSource R)).1.renderLog
        = h.renderLog ++ buildLog env h.joinType h.rightEqCols R ∧
      (buildLoop env h (rowsSource R)).1.closeLog = h.closeLog ∧
      (buildLoop env h (rowsSource R)).1.leftSource = h.leftSource ∧
      (buildLoop env h (rowsSource R)).1.rightSource = [] := by
  intro R
  induction R with
  | nil =>
    intro h _
    simp [rowsSource, buildLoop, buildOut, buildLog]
  | cons r R ih =>
    intro h hcols
    have hr : ∀ c ∈ h.rightEqCols, c < r.length := hcols r (List.mem_cons_self _ _)
    have hstep : buildItem env { h with rightSource := rowsSource R } (some r, ProducerMetadata.zero)
        = buildRow env { h with rightSource := rowsSource R } r := by
      simp [buildItem, ProducerMetadata.zero, ProducerMetadata.Empty]
    obtain ⟨q1, q2, q3, q4⟩ := buildRow_quiet env hq { h with rightSource := rowsSource R } r hr
    obtain ⟨c1, ⟨s1, s2⟩, -⟩ := buildRow_inv env { h with rightSource := rowsSource R }
      (buildRow env { h with rightSource := rowsSource R } r).1 r
      (buildRow env { h with rightSource := rowsSource R } r).2 rfl
    have hloop : buildLoop env h (rowsSource (r :: R))
        = buildLoop env (buildRow env { h with rightSource := rowsSource R } r).1 (rowsSource R) := by
      show buildLoop env h ((some r, ProducerMetadata.zero) :: rowsSource R) = _
      rw [buildLoop]
      simp only [hstep, q1]
    rw [hloop]
    obtain ⟨i1, i2, i3, i4, i5, i6⟩ := ih (buildRow env { h with rightSource := rowsSource R } r).1
      (by
        rw [c1.2.2]
        intro r' hr'
        exact hcols r' (List.mem_cons_of_mem _ hr'))
    refine ⟨i1, ?_, ?_, ?_, ?_, i6⟩
    · rw [i2, q2, c1.1, c1.2.2, List.append_assoc, ← buildOut_cons]
    · rw [i3, q3, c1.1, c1.2.2, List.append_assoc, ← buildLog_cons]
    · rw [i4, q4]
    · rw [i5, s2]

theorem set_append_length {α : Type} (pre : List α) (x y : α) (post : List α) :
    (pre ++ x :: post).set pre.length y = pre ++ y :: post := by
  induction pre with
  | nil => rfl
  | cons a pre ih => simp [ih]

/-- In a quiet run the loop over the rows of a hit bucket runs to its end: it
renders the left row with every listed right row in order, pushes the rows
obtained, and for right and full outer joins sets the seen flag of every
position whose rendering did not fail the ON condition. -/
theorem probeBucket_quiet {D : Type} (env : Env D) (hr : ∀ l r, (env.render l r).err = none)
    (hm : ∀ out, env.consumerMore out = true) (lrow : List D) (key : List Nat) :
    ∀ (idxs : List Nat) (h : hashJoiner D) (b : bucket) (i : Nat) (spre srest : List Bool),
      (∀ idx ∈ idxs, idx < h.rows.length) →
      (h.joinType.rightSide = true →
        b.seen = spre ++ srest ∧ spre.length = i ∧ srest.length = idxs.length ∧
        mapGet h.buckets key = some b) →
      probeBucket env h lrow key b i idxs =
        ({ h with
            out := h.out ++ idxs.flatMap (fun idx => emitted env (some lrow) h.rows[idx]?),
            renderLog := h.renderLog ++ idxs.map (fun idx => (some lrow, h.rows[idx]?)),
            buckets := if h.joinType.rightSide then
                mapSet h.buckets key ⟨b.rows,
                  spre ++ List.zipWith (fun s idx => s || hit env lrow h.rows idx) srest idxs⟩
              else h.buckets }, none) := by
  intro idxs
  induction idxs with
  | nil =>
    intro h b i spre srest _ hpre
    rw [probeBucket]
    cases hrs : h.joinType.rightSide with
    | false => simp
    | true =>
      obtain ⟨p1, p2, p3, p4⟩ := hpre hrs
      have : srest = [] := by simpa using p3
      subst this
      have hb : (⟨b.rows, spre⟩ : bucket) = b := by
        cases b
        simp only [List.append_nil] at p1
        simp [p1]
      simp [hb, mapSet_self _ _ _ p4]
  | cons idx rest ih =>
    intro h b i spre srest hv hpre
    have hidx : idx < h.rows.length := hv idx (List.mem_cons_self _ _)
    have hget : h.rows[idx]? = some h.rows[idx] := List.getElem?_eq_getElem hidx
    rw [probeBucket, hget]
    simp only
    rw [renderAndEmit_quiet env h _ _ (hr _ _) hm]
    simp only [Bool.not_true, Option.isSome_none, Bool.or_self, Bool.false_eq_true, if_false]
    have hhit : hit env lrow h.rows idx
        = !(env.render (some lrow) (some h.rows[idx])).failedOnCond := by
      unfold hit
      rw [hget]
    cases hrs : h.joinType.rightSide with
    | false =>
      simp only [Bool.and_false, Bool.false_eq_true, if_false]
      rw [ih _ _ _ spre srest]
      · simp [hrs, hget]
      · exact fun j hj => hv j (List.mem_cons_of_mem _ hj)
      · intro h1
        exact absurd (hrs ▸ h1 : false = true) (by simp)
    | true =>
      obtain ⟨p1, p2, p3, p4⟩ := hpre hrs
      obtain ⟨s, srest', rfl⟩ : ∃ s srest', srest = s :: srest' := by
        cases srest with
        | nil => simp at p3
        | cons s srest' => exact ⟨s, srest', rfl⟩
      simp only [List.length_cons, Nat.add_right_cancel_iff] at p3
      cases hf : (env.render (some lrow) (some h.rows[idx])).failedOnCond with
      | true =>
        simp only [Bool.not_true, Bool.false_and, Bool.false_eq_true, if_false]
        rw [ih _ _ _ (spre ++ [s]) srest']
        · simp [hrs, hget, hhit, hf]
        · exact fun j hj => hv j (List.mem_cons_of_mem _ hj)
        · exact fun _ => ⟨by rw [p1]; simp, by simp [p2], p3, p4⟩
      | false =>
        have hi : i < b.seen.length := by
          rw [p1, List.length_append, List.length_cons]
          omega
        simp only [Bool.not_false, Bool.true_and, if_true, hi]
        have hset : b.seen.set i true = (spre ++ [true]) ++ srest' := by
          rw [p1, ← p2, set_append_length]
          simp
        rw [ih _ _ _ (spre ++ [true]) srest']
        · simp [hrs, hget, hhit, hf, mapSet_mapSet]
        · exact fun j hj => hv j (List.mem_cons_of_mem _ hj)
        · exact fun _ => ⟨hset, by simp [p2], p3, by simp [mapGet_mapSet_same]⟩

theorem idxOfKey_map_get {D : Type} (env : Env D) (cols k : List Nat) :
    ∀ (rs pre : List (List D)),
      (idxOfKey env cols k pre.length rs).map (fun idx => (pre ++ rs)[idx]?) =
        (rs.filter (fun r => decide (keyOf env cols r = some k))).map some := by
  intro rs
  induction rs with
  | nil => intro pre; simp [idxOfKey]
  | cons r rs ih =>
    intro pre
    have hstep := ih (pre ++ [r])
    simp only [List.length_append, List.length_singleton, List.append_assoc,
      List.singleton_append] at hstep
    unfold idxOfKey
    by_cases hk : keyOf env cols r = some k
    · simp only [hk, if_true, List.map_cons, hstep, List.filter_cons, decide_True]
      have hget : (pre ++ r :: rs)[pre.length]? = some r := by
        rw [List.getElem?_append_right (Nat.le_refl _)]
        simp
      simp [hget]
    · simp only [hk, if_false, hstep, List.filter_cons, decide_False]
      simp

theorem idxOfKey_eq_nil_iff {D : Type} (env : Env D) (cols k : List Nat)
    (rows : List (List D)) :
    idxOfKey env cols k 0 rows = [] ↔ (matchesOf env cols rows k).isEmpty = true := by
  have h := idxOfKey_map_get env cols k rows []
  simp only [List.length_nil, List.nil_append] at h
  unfold matchesOf
  constructor
  · intro h0
    rw [h0] at h
    simp only [List.map_nil] at h
    have := List.map_eq_nil_iff.mp h.symm
    rw [this]
    rfl
  · intro h0
    have h1 := List.isEmpty_iff.mp h0
    rw [h1] at h
    simpa using h

theorem TableInv_mapSet {D : Type} (env : Env D) (h h' : hashJoiner D) (k : List Nat)
    (b : bucket) (s' : List Bool) (hr : h'.rows = h.rows) (hc : SameConfig h h')
    (hg : mapGet h.buckets k = some b) (hb : h'.buckets = mapSet h.buckets k ⟨b.rows, s'⟩)
    (hinv : TableInv env h) : TableInv env h' := by
  constructor
  · rw [hb]; exact mapSet_nodup _ _ _ hinv.nodup
  · intro k' b' hg'
    rw [hb] at hg'
    rw [hr, hc.2.2]
    by_cases hk : k = k'
    · subst hk
      rw [mapGet_mapSet_same] at hg'
      cases hg'
      exact hinv.rows_eq k b hg
    · rw [mapGet_mapSet_other _ _ _ _ hk] at hg'
      exact hinv.rows_eq k' b' hg'
  · intro k' hg'
    rw [hb] at hg'
    rw [hr, hc.2.2]
    have hk : k ≠ k' := by
      rintro rfl
      rw [mapGet_mapSet_same] at hg'
      cases hg'
    rw [mapGet_mapSet_other _ _ _ _ hk] at hg'
    exact hinv.absent k' hg'
  · rw [hr, hc.2.2]; exact hinv.keyed

theorem zipWith_same {α β : Type} (f : α → α → β) (l : List α) :
    List.zipWith f l l = l.map (fun a => f a a) := by
  induction l with
  | nil => rfl
  | cons a l ih => simp [ih]

theorem matchedAt_append {D : Type} (env : Env D) (lc : List Nat) (ls : List (List D))
    (l : List D) (k : List Nat) (rows : List (List D)) (idx : Nat) :
    matchedAt env lc (ls ++ [l]) k rows idx =
      (matchedAt env lc ls k rows idx ||
        (decide (keyOf env lc l = some k) && hit env l rows idx)) := by
  simp [matchedAt, List.any_append]

theorem SeenInv_extend {D : Type} (env : Env D) (ls : List (List D)) (l : List D)
    (h h' : hashJoiner D) (hr : h'.rows = h.rows) (hc : SameConfig h h')
    (hb : h'.buckets = h.buckets)
    (hmiss : ∀ k b, mapGet h.buckets k = some b → keyOf env h.leftEqCols l ≠ some k)
    (hs : SeenInv env ls h) : SeenInv env (ls ++ [l]) h' := by
  intro k b hg
  rw [hb] at hg
  rw [hs k b hg, hr, hc.2.1]
  apply List.map_congr_left
  intro idx _
  rw [matchedAt_append]
  simp [hmiss k b hg]

/-- The rows pushed and the calls logged for a left row that cannot match. -/
theorem probe_unmatched {D : Type} (env : Env D) (hq : Quiet env) (h : hashJoiner D)
    (l : List D) :
    ∃ h', (if h.joinType.leftSide = true then
        (if (!(renderAndEmit env h (some l) none).moreRowsNeeded ||
              (renderAndEmit env h (some l) none).err.isSome) = true
          then ((renderAndEmit env h (some l) none).h,
            some (PhaseResult.ret (renderAndEmit env h (some l) none).moreRowsNeeded
              (renderAndEmit env h (some l) none).err))
          else ((renderAndEmit env h (some l) none).h, none))
        else (h, none)) = (h', none) ∧
      h'.out = h.out ++
        (if h.joinType.leftSide then [(some l, none)] else []).flatMap
          (fun c => emitted env c.1 c.2) ∧
      h'.renderLog = h.renderLog ++ (if h.joinType.leftSide then [(some l, none)] else []) ∧
      h'.rows = h.rows ∧ SameConfig h h' ∧ h'.leftSource = h.leftSource ∧
      h'.rightSource = h.rightSource ∧ h'.closeLog = h.closeLog ∧
      h'.buckets = h.buckets := by
  cases hls : h.joinType.leftSide with
  | false =>
    exact ⟨h, by simp, by simp, by simp, rfl, ⟨rfl, rfl, rfl⟩, rfl, rfl, rfl, rfl⟩
  | true =>
    rw [renderAndEmit_quiet env h _ _ (hq.render _ _) hq.more]
    simp only [if_true, Bool.not_true, Option.isSome_none, Bool.or_self, Bool.false_eq_true,
      if_false]
    exact ⟨_, rfl, by simp, by simp, rfl, ⟨rfl, rfl, rfl⟩, rfl, rfl, rfl, rfl⟩

/-- In a quiet run one iteration of the probe loop on a left row continues; it
pushes the block of that row, which depends on the stored rows only, and for
right and full outer joins it records the matches of the row in the seen
flags. -/
theorem probeRow_quiet {D : Type} (env : Env D) (hq : Quiet env) (h : hashJoiner D)
    (ls : List (List D)) (l : List D) (hinv : TableInv env h)
    (hseen : h.joinType.rightSide = true → SeenInv env ls h)
    (hcols : ∀ c ∈ h.leftEqCols, c < l.length) :
    ∃ h', probeRow env h l = (h', none) ∧
      h'.out = h.out ++ leftBlock env h.joinType h.leftEqCols h.rightEqCols h.rows l ∧
      h'.renderLog = h.renderLog ++ leftCalls env h.joinType h.leftEqCols h.rightEqCols h.rows l ∧
      h'.rows = h.rows ∧ SameConfig h h' ∧ h'.leftSource = h.leftSource ∧
      h'.rightSource = h.rightSource ∧ h'.closeLog = h.closeLog ∧
      TableInv env h' ∧
      (h.joinType.rightSide = true → SeenInv env (ls ++ [l]) h') ∧
      (h.joinType.rightSide = false → h'.buckets = h.buckets) := by
  obtain ⟨enc, he⟩ := quiet_encode env hq l h.leftEqCols hcols
  unfold probeRow
  rw [he]
  simp only
  cases hnull : hasNullB env h.leftEqCols l with
  | true =>
    have hkey : keyOf env h.leftEqCols l = none := by
      unfold keyOf
      rw [he, hnull]
    simp only [if_true]
    obtain ⟨h', e1, e2, e3, e4, e5, e6, e7, e8, e9⟩ := probe_unmatched env hq h l
    refine ⟨h', e1, ?_, ?_, e4, e5, e6, e7, e8, TableInv_congr env h h' e4 e9 e5.2.2 hinv, ?_,
      fun _ => e9⟩
    · rw [e2]; simp [leftBlock, leftCalls, hkey]
    · rw [e3]; simp [leftCalls, hkey]
    · intro hrs
      exact SeenInv_extend env ls l h h' e4 e5 e9 (fun k b _ => by rw [hkey]; simp) (hseen hrs)
  | false =>
    have hkey : keyOf env h.leftEqCols l = some enc := by
      unfold keyOf
      rw [he, hnull]
    simp only [Bool.false_eq_true, if_false]
    cases hg : mapGet h.buckets enc with
    | none =>
      simp only
      have hnil := hinv.absent enc hg
      have hemp := (idxOfKey_eq_nil_iff env h.rightEqCols enc h.rows).mp hnil
      obtain ⟨h', e1, e2, e3, e4, e5, e6, e7, e8, e9⟩ := probe_unmatched env hq h l
      refine ⟨h', e1, ?_, ?_, e4, e5, e6, e7, e8, TableInv_congr env h h' e4 e9 e5.2.2 hinv, ?_,
        fun _ => e9⟩
      · rw [e2]; simp [leftBlock, leftCalls, hkey, hemp]
      · rw [e3]; simp [leftCalls, hkey, hemp]
      · intro hrs
        refine SeenInv_extend env ls l h h' e4 e5 e9 ?_ (hseen hrs)
        intro k b hgk hk
        rw [hkey] at hk
        cases hk
        rw [hg] at hgk
        cases hgk
    | some b =>
      simp only
      obtain ⟨hrows, hne⟩ := hinv.rows_eq enc b hg
      have hnemp : (matchesOf env h.rightEqCols h.rows enc).isEmpty = false := by
        cases hx : (matchesOf env h.rightEqCols h.rows enc).isEmpty with
        | false => rfl
        | true =>
          exact absurd (hrows.trans ((idxOfKey_eq_nil_iff env _ enc h.rows).mpr hx)) hne
      have hvalid : ∀ idx ∈ b.rows, idx < h.rows.length := by
        intro idx hidx
        rw [hrows] at hidx
        obtain ⟨-, r, hr, -⟩ := (mem_idxOfKey env _ enc h.rows 0 idx).mp hidx
        obtain ⟨hlt, -⟩ := List.getElem?_eq_some.mp hr
        simpa using hlt
      have hmap : b.rows.map (fun idx => h.rows[idx]?)
          = (matchesOf env h.rightEqCols h.rows enc).map some := by
        have := idxOfKey_map_get env h.rightEqCols enc h.rows []
        simp only [List.length_nil, List.nil_append] at this
        rw [hrows]
        exact this
      rw [probeBucket_quiet env hq.render hq.more l enc b.rows h b 0 [] b.seen hvalid
        (fun hrs => ⟨by simp, rfl, by rw [hseen hrs enc b hg]; simp, hg⟩)]
      refine ⟨_, rfl, ?_, ?_, rfl, ⟨rfl, rfl, rfl⟩, rfl, rfl, rfl, ?_, ?_, ?_⟩
      · simp only [leftBlock, leftCalls, hkey, hnemp, Bool.false_eq_true, if_false]
        congr 1
        rw [List.flatMap_map]
        have : b.rows.flatMap (fun idx => emitted env (some l) h.rows[idx]?)
            = (b.rows.map (fun idx => h.rows[idx]?)).flatMap (fun r => emitted env (some l) r) := by
          rw [List.flatMap_map]
        rw [this, hmap, List.flatMap_map]
      · simp only [leftCalls, hkey, hnemp, Bool.false_eq_true, if_false]
        congr 1
        have : b.rows.map (fun idx => (some l, h.rows[idx]?))
            = (b.rows.map (fun idx => h.rows[idx]?)).map (fun r => (some l, r)) := by
          rw [List.map_map]; rfl
        rw [this, hmap, List.map_map]
        rfl
      · cases hrs : h.joinType.rightSide with
        | false => exact TableInv_congr env h _ rfl (by simp [hrs]) rfl hinv
        | true =>
          exact TableInv_mapSet env h _ enc b _ rfl ⟨rfl, rfl, rfl⟩ hg rfl hinv
      · intro hrs k b' hgk
        simp only [hrs, if_true] at hgk
        by_cases hk : enc = k
        · subst hk
          rw [mapGet_mapSet_same] at hgk
          cases hgk
          simp only [List.nil_append]
          rw [hseen hrs enc b hg, List.zipWith_map_left]
          rw [zipWith_same]
          apply List.map_congr_left
          intro idx _
          rw [matchedAt_append]
          simp [hkey]
        · rw [mapGet_mapSet_other _ _ _ _ hk] at hgk
          rw [hseen hrs k b' hgk]
          apply List.map_congr_left
          intro idx _
          rw [matchedAt_append]
          have : ¬ keyOf env h.leftEqCols l = some k := by
            rw [hkey]; simpa using hk
          simp [this]
      · intro hrs
        simp [hrs]

/-- In a quiet run over a left input of rows only, the probe loop consumes the
whole input and leaves by `break`; its output is the concatenation, in left
order, of the blocks of the left rows. -/
theorem probeLoop_quiet {D : Type} (env : Env D) (hq : Quiet env) :
    ∀ (L : List (List D)) (h : hashJoiner D) (ls : List (List D)), TableInv env h →
      (h.joinType.rightSide = true → SeenInv env ls h) → ColsInRange h.leftEqCols L →
      ∃ h', probeLoop env h (rowsSource L) = (h', none) ∧
        h'.out = h.out ++ L.flatMap (leftBlock env h.joinType h.leftEqCols h.rightEqCols h.rows) ∧
        h'.renderLog
          = h.renderLog ++ L.flatMap (leftCalls env h.joinType h.leftEqCols h.rightEqCols h.rows) ∧
        h'.rows = h.rows ∧ SameConfig h h' ∧ h'.leftSource = [] ∧
        h'.rightSource = h.rightSource ∧ h'.closeLog = h.closeLog ∧
        TableInv env h' ∧
        (h.joinType.rightSide = true → SeenInv env (ls ++ L) h') ∧
        (h.joinType.rightSide = false → h'.buckets = h.buckets) := by
  intro L
  induction L with
  | nil =>
    intro h ls hinv hseen _
    refine ⟨{ h with leftSource := [] }, by simp [rowsSource, probeLoop], by simp, by simp, rfl,
      ⟨rfl, rfl, rfl⟩, rfl, rfl, rfl, TableInv_congr env h _ rfl rfl rfl hinv, ?_, fun _ => rfl⟩
    intro hrs
    rw [List.append_nil]
    exact hseen hrs
  | cons l L ih =>
    intro h ls hinv hseen hcols
    have hinv0 : TableInv env { h with leftSource := rowsSource L } :=
      TableInv_congr env h _ rfl rfl rfl hinv
    obtain ⟨h1, e1, e2, e3, e4, e5, e6, e7, e8, e9, e10, e11⟩ :=
      probeRow_quiet env hq { h with leftSource := rowsSource L } ls l hinv0 hseen
        (hcols l (List.mem_cons_self _ _))
    have e5' : SameConfig h h1 := e5
    obtain ⟨h2, i1, i2, i3, i4, i5, i6, i7, i8, i9, i10, i11⟩ := ih h1 (ls ++ [l]) e9
      (fun hrs => e10 (by rw [← e5'.1]; exact hrs))
      (by
        rw [e5'.2.1]
        intro r hr
        exact hcols r (List.mem_cons_of_mem _ hr))
    have hloop : probeLoop env h (rowsSource (l :: L)) = (h2, none) := by
      show probeLoop env h ((some l, ProducerMetadata.zero) :: rowsSource L) = _
      rw [probeLoop]
      have hitem : probeItem env { h with leftSource := rowsSource L }
          (some l, ProducerMetadata.zero) = (h1, .next) := by
        simp [probeItem, ProducerMetadata.zero, ProducerMetadata.Empty, e1]
      simp only [hitem]
      exact i1
    refine ⟨h2, hloop, ?_, ?_, i4.trans e4, sameConfig_trans e5' i5, i6, i7.trans e7,
      i8.trans e8, i9, ?_, ?_⟩
    · rw [i2, e2, e5'.1, e5'.2.1, e5'.2.2, e4]
      simp [List.flatMap_cons]
    · rw [i3, e3, e5'.1, e5'.2.1, e5'.2.2, e4]
      simp [List.flatMap_cons]
    · intro hrs
      have := i10 (by rw [e5'.1]; exact hrs)
      simpa using this
    · intro hrs
      rw [i11 (by rw [e5'.1]; exact hrs)]
      exact e11 hrs

theorem unseen_cons_true (s : List Bool) (x : Nat) (xs : List Nat) :
    unseen (true :: s) (x :: xs) = unseen s xs := by
  simp [unseen]

theorem unseen_cons_false (s : List Bool) (x : Nat) (xs : List Nat) :
    unseen (false :: s) (x :: xs) = x :: unseen s xs := by
  simp [unseen]

/-- In a quiet run the sweep of one bucket runs to its end and renders, with a
nil left row, the row at every position whose seen flag is false. -/
theorem sweepBucket_quiet {D : Type} (env : Env D) (hq : Quiet env) (b : bucket) :
    ∀ (seens : List Bool) (h : hashJoiner D) (i : Nat),
      (∀ idx ∈ b.rows, idx < h.rows.length) → i + seens.length ≤ b.rows.length →
      sweepBucket env h b i seens =
        ({ h with
            out := h.out ++
              (unseen seens (b.rows.drop i)).flatMap (fun idx => emitted env none h.rows[idx]?),
            renderLog := h.renderLog ++
              (unseen seens (b.rows.drop i)).map (fun idx => (none, h.rows[idx]?)) }, none) := by
  intro seens
  induction seens with
  | nil =>
    intro h i _ _
    rw [sweepBucket]
    simp [unseen]
  | cons seen rest ih =>
    intro h i hv hlen
    simp only [List.length_cons] at hlen
    have hi : i < b.rows.length := by omega
    have hdrop : b.rows.drop i = b.rows[i] :: b.rows.drop (i + 1) :=
      List.drop_eq_getElem_cons hi
    rw [sweepBucket]
    cases seen with
    | true =>
      simp only [Bool.not_true, Bool.false_eq_true, if_false]
      rw [ih h (i + 1) hv (by omega), hdrop, unseen_cons_true]
    | false =>
      simp only [Bool.not_false, if_true]
      have hidx : b.rows[i] < h.rows.length := hv _ (List.getElem_mem _)
      have hget : h.rows[b.rows[i]]? = some h.rows[b.rows[i]] := List.getElem?_eq_getElem hidx
      rw [List.getElem?_eq_getElem hi]
      simp only
      rw [hget]
      simp only
      rw [renderAndEmit_quiet env h _ _ (hq.render _ _) hq.more]
      simp only [Bool.not_true, Option.isSome_none, Bool.or_self, Bool.false_eq_true, if_false]
      rw [ih, hdrop, unseen_cons_false]
      · simp [hget]
      · exact hv
      · omega

theorem sweepLoop_quiet {D : Type} (env : Env D) (hq : Quiet env) :
    ∀ (es : List (List Nat × bucket)) (h : hashJoiner D),
      (∀ kb ∈ es, (∀ idx ∈ kb.2.rows, idx < h.rows.length) ∧
        kb.2.seen.length ≤ kb.2.rows.length) →
      sweepLoop env h es =
        ({ h with
            out := h.out ++ (sweepIdxs es).flatMap (fun idx => emitted env none h.rows[idx]?),
            renderLog := h.renderLog ++ (sweepIdxs es).map (fun idx => (none, h.rows[idx]?)) },
          none) := by
  intro es
  induction es with
  | nil =>
    intro h _
    rw [sweepLoop]
    simp [sweepIdxs]
  | cons e rest ih =>
    intro h hes
    obtain ⟨k, b⟩ := e
    obtain ⟨hv, hl⟩ := hes (k, b) (List.mem_cons_self _ _)
    rw [sweepLoop]
    rw [sweepBucket_quiet env hq b b.seen h 0 hv (by simpa using hl)]
    simp only [List.drop_zero]
    rw [ih]
    · simp [sweepIdxs, List.flatMap_cons]
    · exact fun kb hkb => hes kb (List.mem_cons_of_mem _ hkb)

theorem pulledRows_rowsSource {D : Type} (R : List (List D)) :
    pulledRows (rowsSource R) = R := by
  induction R with
  | nil => rfl
  | cons r R ih =>
    have hstep : pulledRows (rowsSource (r :: R)) = r :: pulledRows (rowsSource R) := by
      simp [pulledRows, rowsSource, ProducerMetadata.zero, ProducerMetadata.Empty]
    rw [hstep, ih]

/-- A quiet build over a right input of rows only: it returns `(true, nil)`,
stores the rows without a NULL equality column and leaves the table
invariant. -/
theorem build_quiet {D : Type} (env : Env D) (hq : Quiet env) (jt : JoinType)
    (lc rc : List Nat) (L R : List (List D)) (hR : ColsInRange rc R) :
    ∃ h1, buildPhase env (newHashJoiner jt lc rc (rowsSource L) (rowsSource R))
        = (h1, .ret true none) ∧
      TableInv env h1 ∧ SeenNil h1 ∧ h1.rows = stored env rc R ∧
      h1.out = buildOut env jt rc R ∧ h1.renderLog = buildLog env jt rc R ∧
      h1.joinType = jt ∧ h1.leftEqCols = lc ∧ h1.rightEqCols = rc ∧
      h1.leftSource = rowsSource L ∧ h1.closeLog = [] := by
  obtain ⟨q1, q2, q3, q4, q5, q6⟩ :=
    buildLoop_quiet env hq R (newHashJoiner jt lc rc (rowsSource L) (rowsSource R)) hR
  rcases hb : buildLoop env (newHashJoiner jt lc rc (rowsSource L) (rowsSource R)) (rowsSource R)
    with ⟨h1, r⟩
  rw [hb] at q1 q2 q3 q4 q5 q6
  simp only at q1 q2 q3 q4 q5 q6
  subst q1
  obtain ⟨t1, t2, pre, t3, t4⟩ := buildLoop_table env (rowsSource R) _ h1 true
    (TableInv_new env jt lc rc (rowsSource L) (rowsSource R)) hb
  rw [q6, List.append_nil] at t3
  subst t3
  have hwf := buildLoop_wf env (rowsSource R)
    (newHashJoiner jt lc rc (rowsSource L) (rowsSource R))
    (by intro kb hkb; simp [newHashJoiner] at hkb)
    (by intro kb hkb; simp [newHashJoiner] at hkb) (by simp [newHashJoiner])
  rw [hb] at hwf
  refine ⟨h1, hb, t1, hwf.2.1, ?_, ?_, ?_, t2.1, t2.2.1, t2.2.2, q5, q4⟩
  · rw [t4, pulledRows_rowsSource]
    simp [newHashJoiner, stored]
  · simpa [newHashJoiner] using q2
  · simpa [newHashJoiner] using q3

theorem allocSeen_quiet {D : Type} (env : Env D) (hq : Quiet env) :
    ∀ (es : List (List Nat × bucket)) (h : hashJoiner D), (allocSeen env h es).2 = none := by
  intro es
  induction es with
  | nil => intro h; rfl
  | cons e rest ih =>
    intro h
    obtain ⟨k, b⟩ := e
    rw [allocSeen]
    simp only [hq.grow]
    exact ih _

theorem mapGet_map_allocEntry (m : List (List Nat × bucket)) (k : List Nat) :
    mapGet (m.map allocEntry) k =
      (mapGet m k).map (fun b => ⟨b.rows, List.replicate b.rows.length false⟩) := by
  induction m with
  | nil => rfl
  | cons kb rest ih =>
    obtain ⟨k0, b0⟩ := kb
    by_cases hk : k0 = k
    · simp [mapGet, allocEntry, hk]
    · simp [mapGet, allocEntry, hk, ih]

/-- The seen allocation of a quiet run after a build: every `Grow` succeeds, the
table keeps its rows, and no flag is set. -/
theorem alloc_quiet {D : Type} (env : Env D) (hq : Quiet env) (h1 : hashJoiner D)
    (hinv : TableInv env h1) (hrs : h1.joinType.rightSide = true) :
    ∃ h2, allocSeen env h1 (env.rangeOrder 0 h1.buckets) = (h2, none) ∧
      TableInv env h2 ∧ SeenInv env [] h2 ∧ h2.rows = h1.rows ∧ SameConfig h1 h2 ∧
      h2.out = h1.out ∧ h2.renderLog = h1.renderLog ∧ h2.leftSource = h1.leftSource ∧
      h2.closeLog = h1.closeLog := by
  have hnone := allocSeen_quiet env hq (env.rangeOrder 0 h1.buckets) h1
  rcases ha : allocSeen env h1 (env.rangeOrder 0 h1.buckets) with ⟨h2, e⟩
  rw [ha] at hnone
  simp only at hnone
  subst hnone
  obtain ⟨f1, f2, f3, f4, f5, f6, f7⟩ := allocSeen_frame env (env.rangeOrder 0 h1.buckets) h1
  rw [ha] at f1 f2 f3 f4 f5 f6 f7
  simp only at f1 f2 f3 f4 f5 f6 f7
  obtain ⟨hb, -⟩ := allocSeen_ready env h1 h2
    (fun kb hkb => hinv.placement.1 kb.1 kb.2 hkb) hinv.nodup hrs ha
  refine ⟨h2, rfl, ?_, ?_, f1, f2, f3, f4, f5, f7⟩
  · constructor
    · rw [hb, List.map_map]
      exact hinv.nodup
    · intro k b hg
      rw [hb, mapGet_map_allocEntry] at hg
      rw [f1, f2.2.2]
      cases hg1 : mapGet h1.buckets k with
      | none => rw [hg1] at hg; cases hg
      | some b1 =>
        rw [hg1] at hg
        cases hg
        exact hinv.rows_eq k b1 hg1
    · intro k hg
      rw [hb, mapGet_map_allocEntry] at hg
      rw [f1, f2.2.2]
      cases hg1 : mapGet h1.buckets k with
      | none => exact hinv.absent k hg1
      | some b1 => rw [hg1] at hg; cases hg
    · rw [f1, f2.2.2]; exact hinv.keyed
  · intro k b hg
    rw [hb, mapGet_map_allocEntry] at hg
    cases hg1 : mapGet h1.buckets k with
    | none => rw [hg1] at hg; cases hg
    | some b1 =>
      rw [hg1] at hg
      cases hg
      simp only [matchedAt, List.any_nil]
      exact (List.map_const' _ _).symm

/-- The probe phase of a quiet run over a left input of rows only: the probe
loop leaves by `break` in a state `hp`, then the unmatched sweep runs to its
end and the phase returns `(false, nil)`. -/
theorem probe_quiet {D : Type} (env : Env D) (hq : Quiet env) (h2 : hashJoiner D)
    (L : List (List D)) (hinv : TableInv env h2)
    (hseen : h2.joinType.rightSide = true → SeenInv env [] h2)
    (hsrc : h2.leftSource = rowsSource L) (hcols : ColsInRange h2.leftEqCols L) :
    ∃ hp h3, probeLoop env h2 (rowsSource L) = (hp, none) ∧
      probePhase env h2 = (h3, .ret false none) ∧
      TableInv env hp ∧ hp.rows = h2.rows ∧ SameConfig h2 hp ∧
      (h2.joinType.rightSide = true → SeenInv env L hp) ∧
      (h2.joinType.rightSide = false → hp.buckets = h2.buckets) ∧
      hp.out = h2.out ++
        L.flatMap (leftBlock env h2.joinType h2.leftEqCols h2.rightEqCols h2.rows) ∧
      hp.renderLog = h2.renderLog ++
        L.flatMap (leftCalls env h2.joinType h2.leftEqCols h2.rightEqCols h2.rows) ∧
      h3.out = hp.out ++
        (if h2.joinType.rightSide then sweepIdxs (env.rangeOrder 1 hp.buckets) else []).flatMap
          (fun idx => emitted env none h2.rows[idx]?) ∧
      h3.renderLog = hp.renderLog ++
        (if h2.joinType.rightSide then sweepIdxs (env.rangeOrder 1 hp.buckets) else []).map
          (fun idx => (none, h2.rows[idx]?)) ∧
      h3.closeLog = h2.closeLog ++ [.outClose] ∧ h3.rows = h2.rows ∧
      h3.buckets = hp.buckets := by
  obtain ⟨hp, e1, e2, e3, e4, e5, e6, e7, e8, e9, e10, e11⟩ :=
    probeLoop_quiet env hq L h2 [] hinv hseen hcols
  have hpl : probeLoop env h2 h2.leftSource = (hp, none) := by rw [hsrc]; exact e1
  simp only [List.nil_append] at e10
  cases hrs : h2.joinType.rightSide with
  | false =>
    have hrsp : hp.joinType.rightSide = false := by rw [e5.1]; exact hrs
    refine ⟨hp, { hp with closeLog := hp.closeLog ++ [.outClose] }, e1, ?_, e9, e4, e5,
      (fun h => by cases h), (fun _ => e11 hrs), e2, e3, by simp, by simp, ?_, e4, rfl⟩
    · unfold probePhase
      rw [hpl]
      simp only [probeSweep, hrsp, Bool.false_eq_true, if_false]
    · simp [e8]
  | true =>
    have hrsp : hp.joinType.rightSide = true := by rw [e5.1]; exact hrs
    have hes : ∀ kb ∈ env.rangeOrder 1 hp.buckets,
        (∀ idx ∈ kb.2.rows, idx < hp.rows.length) ∧ kb.2.seen.length ≤ kb.2.rows.length := by
      intro kb hkb
      have hmem : kb ∈ hp.buckets := (env.rangeOrder_perm 1 hp.buckets).subset hkb
      have hg := mapGet_of_mem _ kb.1 kb.2 e9.nodup hmem
      refine ⟨e9.placement.1 kb.1 kb.2 hmem, ?_⟩
      rw [e10 hrs kb.1 kb.2 hg]
      simp
    have hsw := sweepLoop_quiet env hq (env.rangeOrder 1 hp.buckets) hp hes
    have hpp : ∃ h3, probePhase env h2 = (h3, .ret false none) ∧
        h3.out = hp.out ++ (sweepIdxs (env.rangeOrder 1 hp.buckets)).flatMap
          (fun idx => emitted env none hp.rows[idx]?) ∧
        h3.renderLog = hp.renderLog ++ (sweepIdxs (env.rangeOrder 1 hp.buckets)).map
          (fun idx => (none, hp.rows[idx]?)) ∧
        h3.closeLog = hp.closeLog ++ [.outClose] ∧ h3.rows = hp.rows ∧
        h3.buckets = hp.buckets := by
      unfold probePhase
      rw [hpl]
      simp only [probeSweep, hrsp, if_true, hsw]
      exact ⟨_, rfl, rfl, rfl, rfl, rfl, rfl⟩
    obtain ⟨h3, p1, p2, p3, p4, p5, p6⟩ := hpp
    refine ⟨hp, h3, e1, p1, e9, e4, e5, (fun _ => e10 hrs), (fun h => by cases h), e2, e3,
      ?_, ?_, ?_, p5.trans e4, p6⟩
    · rw [p2, e4]; simp
    · rw [p3, e4]; simp
    · rw [p4, e8]

/-- A quiet run on inputs of rows only, with the equality columns in range, goes
through both phases without error, panic or early stop. -/
theorem run_quiet {D : Type} (env : Env D) (hq : Quiet env) (jt : JoinType)
    (lc rc : List Nat) (L R : List (List D)) (hL : ColsInRange lc L) (hR : ColsInRange rc R) :
    ∃ h1 h2 hp h3, QuietRun env jt lc rc L R h1 h2 hp h3 := by
  obtain ⟨h1, b1, b2, b3, b4, b5, b6, b7, b8, b9, b10, b11⟩ :=
    build_quiet env hq jt lc rc L R hR
  have hstage : ∃ h2, (jt.rightSide = true →
        allocSeen env h1 (env.rangeOrder 0 h1.buckets) = (h2, none)) ∧
      (jt.rightSide = false → h2 = h1) ∧
      (if h1.joinType.rightSide = true then allocSeen env h1 (env.rangeOrder 0 h1.buckets)
        else (h1, none)) = (h2, none) ∧
      TableInv env h2 ∧ (h2.joinType.rightSide = true → SeenInv env [] h2) ∧
      h2.rows = h1.rows ∧ SameConfig h1 h2 ∧ h2.out = h1.out ∧ h2.renderLog = h1.renderLog ∧
      h2.leftSource = h1.leftSource ∧ h2.closeLog = h1.closeLog := by
    cases hrs : jt.rightSide with
    | true =>
      have hrs1 : h1.joinType.rightSide = true := by rw [b7]; exact hrs
      obtain ⟨h2, a1, a2, a3, a4, a5, a6, a7, a8, a9⟩ := alloc_quiet env hq h1 b2 hrs1
      exact ⟨h2, fun _ => a1, (fun h => by cases h), by rw [if_pos hrs1]; exact a1, a2,
        fun _ => a3, a4, a5, a6, a7, a8, a9⟩
    | false =>
      have hrs1 : h1.joinType.rightSide = false := by rw [b7]; exact hrs
      exact ⟨h1, (fun h => by cases h), fun _ => rfl, by simp [hrs1], b2,
        (fun h => by rw [hrs1] at h; cases h), rfl, ⟨rfl, rfl, rfl⟩, rfl, rfl, rfl, rfl⟩
  obtain ⟨h2, s1, s2, s3, s4, s5, s6, s7, s8, s9, s10, s11⟩ := hstage
  obtain ⟨hp, h3, p1, p2, p3, p4, p5, p6, p7, p8, p9, p10, p11, p12, p13, p14⟩ :=
    probe_quiet env hq h2 L s4 s5 (by rw [s10, b10]) (by rw [s7.2.1, b8]; exact hL)
  have hjt2 : h2.joinType = jt := by rw [s7.1, b7]
  have hlc2 : h2.leftEqCols = lc := by rw [s7.2.1, b8]
  have hrc2 : h2.rightEqCols = rc := by rw [s7.2.2, b9]
  have hrows2 : h2.rows = stored env rc R := by rw [s6, b4]
  refine ⟨h1, h2, hp, h3, ?_⟩
  constructor
  · exact b1
  · exact s1
  · exact s2
  · exact p1
  · exact p2
  · unfold runBody
    rw [b1]
    simp only
    unfold runProbe
    rw [s3]
    simp only [p2, Bool.false_eq_true, Option.isSome_none, Bool.or_self, if_false]
  · exact b2
  · exact s4
  · exact p3
  · exact s5
  · exact ⟨hjt2, hlc2, hrc2⟩
  · exact s8
  · exact s9
  · exact b4
  · exact hrows2
  · rw [p4, hrows2]
  · rw [p13, hrows2]
  · exact ⟨p5.1.trans hjt2, p5.2.1.trans hlc2, p5.2.2.trans hrc2⟩
  · intro hrs
    have := p6 (by rw [hjt2]; exact hrs)
    exact this
  · exact p14
  · exact b5
  · exact b6
  · rw [p8, s8, hjt2, hlc2, hrc2, hrows2]
  · rw [p9, s9, hjt2, hlc2, hrc2, hrows2]
  · rw [p10, hjt2, hrows2]
  · rw [p11, hjt2, hrows2]
  · rw [p12, s11, b11]
    rfl

/-! ## The claims about quiet runs -/

theorem outRows_append {D : Type} (a b : List (OutItem D)) :
    outRows (a ++ b) = outRows a ++ outRows b := by
  simp [outRows, List.filterMap_append]

theorem outRows_emitted {D : Type} (env : Env D) (l r : Option (List D)) :
    outRows (emitted env l r) = (env.render l r).row.toList := by
  unfold emitted outRows
  cases (env.render l r).row <;> rfl

theorem outRows_flatMap {D α : Type} (xs : List α) (f : α → List (OutItem D)) :
    outRows (xs.flatMap f) = xs.flatMap (fun x => outRows (f x)) := by
  induction xs with
  | nil => rfl
  | cons x xs ih => simp [List.flatMap_cons, outRows_append, ih]

theorem quiet_keyOf_eq {D : Type} (env : Env D) (hq : Quiet env) (row : List D)
    (cols : List Nat) (hcols : ∀ c ∈ cols, c < row.length) :
    keyOf env cols row =
      if hasNullB env cols row then none else some (encodingOf env cols row) := by
  obtain ⟨enc, he⟩ := quiet_encode env hq row cols hcols
  unfold keyOf encodingOf
  rw [he]
  cases hasNullB env cols row <;> rfl

theorem stored_cons {D : Type} (env : Env D) (rc : List Nat) (r : List D) (R : List (List D)) :
    stored env rc (r :: R) =
      if hasNullB env rc r then stored env rc R else r :: stored env rc R := by
  unfold stored
  rw [List.filter_cons]
  cases hasNullB env rc r <;> rfl

theorem matchesOf_cons {D : Type} (env : Env D) (rc : List Nat) (r : List D)
    (S : List (List D)) (k : List Nat) :
    matchesOf env rc (r :: S) k =
      if keyOf env rc r = some k then r :: matchesOf env rc S k else matchesOf env rc S k := by
  unfold matchesOf
  rw [List.filter_cons]
  by_cases h : keyOf env rc r = some k <;> simp [h]

/-- The rows a left row with key `k` produces from the stored rows are those of the
nested loop over the whole right input. -/
theorem matches_eq_nested {D : Type} (env : Env D) (hq : Quiet env) (rc : List Nat)
    (l : List D) (k : List Nat) :
    ∀ (R : List (List D)), ColsInRange rc R →
      outRows ((matchesOf env rc (stored env rc R) k).flatMap
          (fun r => emitted env (some l) (some r))) =
        R.filterMap (fun r =>
          if !hasNullB env rc r && decide (k = encodingOf env rc r)
          then (env.render (some l) (some r)).row else none) := by
  intro R
  induction R with
  | nil => intro _; rfl
  | cons r R ih =>
    intro hR
    have hr := quiet_keyOf_eq env hq r rc (hR r (List.mem_cons_self _ _))
    have ih' := ih (fun r' hr' => hR r' (List.mem_cons_of_mem _ hr'))
    rw [stored_cons, List.filterMap_cons]
    cases hnull : hasNullB env rc r with
    | true =>
      simp only [if_true, Bool.not_true, Bool.false_and, Bool.false_eq_true, if_false]
      exact ih'
    | false =>
      rw [hnull] at hr
      simp only [Bool.false_eq_true, if_false] at hr
      simp only [Bool.false_eq_true, if_false, Bool.not_false, Bool.true_and]
      rw [matchesOf_cons, hr]
      by_cases hk : k = encodingOf env rc r
      · rw [if_pos (by rw [hk]), List.flatMap_cons, outRows_append, outRows_emitted, ih']
        simp only [hk, decide_True, if_true]
        cases (env.render (some l) (some r)).row <;> rfl
      · rw [if_neg (by simpa using fun h => hk h.symm), ih']
        simp only [hk, decide_False, Bool.false_eq_true, if_false]

/-- The block of a left row under an inner join is its row of the nested loop. -/
theorem leftBlock_inner {D : Type} (env : Env D) (hq : Quiet env) (lc rc : List Nat)
    (R : List (List D)) (hR : ColsInRange rc R) (l : List D) (hl : ∀ c ∈ lc, c < l.length) :
    outRows (leftBlock env .innerJoin lc rc (stored env rc R) l) =
      R.filterMap (fun r =>
        if !hasNullB env lc l && !hasNullB env rc r &&
            decide (encodingOf env lc l = encodingOf env rc r)
        then (env.render (some l) (some r)).row else none) := by
  have hk := quiet_keyOf_eq env hq l lc hl
  unfold leftBlock leftCalls
  cases hnull : hasNullB env lc l with
  | true =>
    rw [hnull] at hk
    simp only [if_true] at hk
    simp [hk, JoinType.leftSide, outRows]
  | false =>
    rw [hnull] at hk
    simp only [Bool.false_eq_true, if_false] at hk
    have hm := matches_eq_nested env hq rc l (encodingOf env lc l) R hR
    simp only [hk, Bool.not_false, Bool.true_and]
    rw [← hm]
    cases hemp : (matchesOf env rc (stored env rc R) (encodingOf env lc l)).isEmpty with
    | true =>
      have := List.isEmpty_iff.mp hemp
      simp [this, JoinType.leftSide, outRows]
    | false =>
      simp only [Bool.false_eq_true, if_false, List.flatMap_map]

/-- C1. Inner join equals the nested-loop reference: for join type inner, for
every left and right input sequence of rows (no metadata), when nothing fails,
the equality column indices are in range and the consumer never declines,
`buildPhase` followed by `probePhase` return without error and the multiset
of rows pushed to the output equals the multiset of the non-nil
`render(l, r)` over all pairs where `l` has no NULL in `leftEqCols`, `r` has no
NULL in `rightEqCols`, and their key encodings are bytewise equal; the two
lists are even equal in order, and `Run` ends in the same state up to its
deferred releases. -/
theorem inner_join_eq_nested_loop {D : Type} (env : Env D) (leftEqCols rightEqCols : List Nat)
    (L R : List (List D)) (hq : Quiet env) (hL : ColsInRange leftEqCols L)
    (hR : ColsInRange rightEqCols R) :
    ∃ h1 h3,
      buildPhase env (newHashJoiner .innerJoin leftEqCols rightEqCols (rowsSource L) (rowsSource R))
        = (h1, .ret true none) ∧
      probePhase env h1 = (h3, .ret false none) ∧
      (Run env (newHashJoiner .innerJoin leftEqCols rightEqCols (rowsSource L)
        (rowsSource R))).1.out = h3.out ∧
      (↑(outRows h3.out) : Multiset (List D)) = ↑(nestedLoopJoin env leftEqCols rightEqCols L R) ∧
      outRows h3.out = nestedLoopJoin env leftEqCols rightEqCols L R := by
  obtain ⟨h1, h2, hp, h3, run⟩ := run_quiet env hq .innerJoin leftEqCols rightEqCols L R hL hR
  have h21 : h2 = h1 := run.noAlloc rfl
  subst h21
  have hout : outRows h3.out = nestedLoopJoin env leftEqCols rightEqCols L R := by
    rw [run.out3, run.outP, run.out1]
    simp only [buildOut, JoinType.rightSide, Bool.false_eq_true, if_false]
    simp only [show (JoinType.innerJoin == JoinType.rightOuter
      || JoinType.innerJoin == JoinType.fullOuter) = false from rfl, Bool.false_eq_true,
      if_false, List.nil_append, List.flatMap_nil, List.append_nil]
    rw [outRows_flatMap]
    unfold nestedLoopJoin
    apply List.flatMap_congr
    intro l hl
    exact leftBlock_inner env hq leftEqCols rightEqCols R hR l (hL l hl)
  refine ⟨h2, h3, run.build, run.probe, ?_, by rw [hout], hout⟩
  unfold Run
  rw [run.body]

theorem sampleEnv_quiet (onCond : List Datum → Bool) : Quiet (sampleEnv onCond) := by
  constructor
  · intro d buf; cases d <;> rfl
  · intro l r
    simp only [sampleEnv, sampleRender]
    split <;> rfl
  · intro _ _; rfl
  · intro _ _; rfl
  · intro _; rfl

/-- Witness of C1: seed scenario 1, `L = [(1,x),(2,y)]`,
`R = [(1,foo),(1,bar),(3,baz)]`, which gives exactly `(1,x,1,foo),(1,x,1,bar)`. -/
theorem inner_join_eq_nested_loop_witness :
    (∃ h1 h3,
      buildPhase (sampleEnv onTrue)
          (newHashJoiner .innerJoin [0] [0] (rowsSource seed1L) (rowsSource seed1R))
        = (h1, .ret true none) ∧
      probePhase (sampleEnv onTrue) h1 = (h3, .ret false none) ∧
      (Run (sampleEnv onTrue)
        (newHashJoiner .innerJoin [0] [0] (rowsSource seed1L) (rowsSource seed1R))).1.out
          = h3.out ∧
      (↑(outRows h3.out) : Multiset (List Datum))
        = ↑(nestedLoopJoin (sampleEnv onTrue) [0] [0] seed1L seed1R) ∧
      outRows h3.out = nestedLoopJoin (sampleEnv onTrue) [0] [0] seed1L seed1R) ∧
    outRows (Run (sampleEnv onTrue)
      (newHashJoiner .innerJoin [0] [0] (rowsSource seed1L) (rowsSource seed1R))).1.out
        = [[.int 1, tx, .int 1, tfoo], [.int 1, tx, .int 1, tbar]] :=
  ⟨inner_join_eq_nested_loop (sampleEnv onTrue) [0] [0] seed1L seed1R (sampleEnv_quiet onTrue)
    (by unfold ColsInRange; decide) (by unfold ColsInRange; decide), rfl⟩

theorem renderAndEmit_out {D : Type} (env : Env D) (h : hashJoiner D)
    (lrow rrow : Option (List D)) (hr : (env.render lrow rrow).err = none) :
    (renderAndEmit env h lrow rrow).h.out = h.out ++ emitted env lrow rrow ∧
    (renderAndEmit env h lrow rrow).h.renderLog = h.renderLog ++ [(lrow, rrow)] ∧
    (renderAndEmit env h lrow rrow).err = none := by
  unfold renderAndEmit emitted
  simp only [render, hr]
  cases hrow : (env.render lrow rrow).row with
  | none => simp
  | some row =>
    obtain ⟨-, -, -, -, -, -, f7, f8⟩ :=
      emitHelper_frame env { h with renderLog := h.renderLog ++ [(lrow, rrow)] } (.row row) [.left]
    simp only [Option.toList, List.map_cons, List.map_nil]
    exact ⟨f8, f7, trivial⟩

/-- C6. Left rows that cannot match: when the key encoder returns without error
for a left row and either reports a NULL in a left equality column or returns
a key that is not a key of the hash table, and `render(l, nil)` does not fail,
then the iteration of `probePhase` on that row pushes exactly the row of
`render(l, nil)`, if it is not nil, when the join type is left outer or full
outer, and pushes nothing when it is inner or right outer; it calls `render`
on no right row, does not panic, and leaves every bucket, so every seen flag,
as it was. The encoder reports a NULL exactly when a listed column is NULL. -/
theorem left_row_without_match {D : Type} (env : Env D) (h : hashJoiner D) (l : List D)
    (enc : List Nat) (hn : Bool)
    (hret : encodeColumnsOfRow env [] l h.leftEqCols false = .ret enc hn none)
    (hmiss : hn = true ∨ mapGet h.buckets enc = none)
    (hrender : (env.render (some l) none).err = none) :
    (hn = true ↔ ∃ c ∈ h.leftEqCols, ∃ d, l[c]? = some d ∧ env.IsNull d = true) ∧
    (probeRow env h l).1.out
      = h.out ++ (if h.joinType.leftSide then emitted env (some l) none else []) ∧
    (probeRow env h l).1.renderLog
      = h.renderLog ++ (if h.joinType.leftSide then [(some l, none)] else []) ∧
    (probeRow env h l).1.buckets = h.buckets ∧
    (probeRow env h l).1.rows = h.rows ∧
    (∀ p, (probeRow env h l).2 ≠ some (.panic p)) := by
  refine ⟨(encode_ret_hasNull env l h.leftEqCols [] enc hn hret).1, ?_⟩
  have hpath : probeRow env h l =
      if h.joinType.leftSide = true then
        (if (!(renderAndEmit env h (some l) none).moreRowsNeeded ||
              (renderAndEmit env h (some l) none).err.isSome) = true
          then ((renderAndEmit env h (some l) none).h,
            some (PhaseResult.ret (renderAndEmit env h (some l) none).moreRowsNeeded
              (renderAndEmit env h (some l) none).err))
          else ((renderAndEmit env h (some l) none).h, none))
      else (h, none) := by
    unfold probeRow
    rw [hret]
    simp only
    cases hn with
    | true => simp only [if_true]
    | false =>
      have hg : mapGet h.buckets enc = none := by
        rcases hmiss with h0 | h0
        · cases h0
        · exact h0
      simp only [Bool.false_eq_true, if_false, hg]
  rw [hpath]
  cases hls : h.joinType.leftSide with
  | false => simp
  | true =>
    simp only [if_true]
    obtain ⟨o1, o2, o3⟩ := renderAndEmit_out env h (some l) none hrender
    obtain ⟨f1, f2, -⟩ := renderAndEmit_frame env h (some l) none
    split
    · exact ⟨o1, o2, f2, f1, by simp⟩
    · exact ⟨o1, o2, f2, f1, by simp⟩

/-- Witness of C6: seed scenario 2, left outer join, `L = [(NULL,z),(1,x)]`,
`R = [(1,foo)]`: the iteration on `(NULL,z)` after the build pushes
`(NULL,z,NULL,NULL)`, and the run gives `(NULL,z,NULL,NULL),(1,x,1,foo)`. -/
theorem left_row_without_match_witness :
    ((true = true ↔ ∃ c ∈ (buildPhase (sampleEnv onTrue) (newHashJoiner .leftOuter [0] [0]
          (rowsSource seed2L) (rowsSource seed2R))).1.leftEqCols,
        ∃ d, ([Datum.null, tz] : List Datum)[c]? = some d ∧ (sampleEnv onTrue).IsNull d = true) ∧
      (probeRow (sampleEnv onTrue) (buildPhase (sampleEnv onTrue) (newHashJoiner .leftOuter [0] [0]
          (rowsSource seed2L) (rowsSource seed2R))).1 [.null, tz]).1.out
        = (buildPhase (sampleEnv onTrue) (newHashJoiner .leftOuter [0] [0]
            (rowsSource seed2L) (rowsSource seed2R))).1.out ++
          (if (buildPhase (sampleEnv onTrue) (newHashJoiner .leftOuter [0] [0]
            (rowsSource seed2L) (rowsSource seed2R))).1.joinType.leftSide
           then emitted (sampleEnv onTrue) (some [.null, tz]) none else []) ∧
      (probeRow (sampleEnv onTrue) (buildPhase (sampleEnv onTrue) (newHashJoiner .leftOuter [0] [0]
          (rowsSource seed2L) (rowsSource seed2R))).1 [.null, tz]).1.renderLog
        = (buildPhase (sampleEnv onTrue) (newHashJoiner .leftOuter [0] [0]
            (rowsSource seed2L) (rowsSource seed2R))).1.renderLog ++
          (if (buildPhase (sampleEnv onTrue) (newHashJoiner .leftOuter [0] [0]
            (rowsSource seed2L) (rowsSource seed2R))).1.joinType.leftSide
           then [(some [.null, tz], none)] else []) ∧
      (probeRow (sampleEnv onTrue) (buildPhase (sampleEnv onTrue) (newHashJoiner .leftOuter [0] [0]
          (rowsSource seed2L) (rowsSource seed2R))).1 [.null, tz]).1.buckets
        = (buildPhase (sampleEnv onTrue) (newHashJoiner .leftOuter [0] [0]
            (rowsSource seed2L) (rowsSource seed2R))).1.buckets ∧
      (probeRow (sampleEnv onTrue) (buildPhase (sampleEnv onTrue) (newHashJoiner .leftOuter [0] [0]
          (rowsSource seed2L) (rowsSource seed2R))).1 [.null, tz]).1.rows
        = (buildPhase (sampleEnv onTrue) (newHashJoiner .leftOuter [0] [0]
            (rowsSource seed2L) (rowsSource seed2R))).1.rows ∧
      (∀ p, (probeRow (sampleEnv onTrue) (buildPhase (sampleEnv onTrue)
          (newHashJoiner .leftOuter [0] [0] (rowsSource seed2L) (rowsSource seed2R))).1
            [.null, tz]).2 ≠ some (.panic p))) ∧
    outRows (Run (sampleEnv onTrue)
      (newHashJoiner .leftOuter [0] [0] (rowsSource seed2L) (rowsSource seed2R))).1.out
        = [[.null, tz, .null, .null], [.int 1, tx, .int 1, tfoo]] :=
  ⟨left_row_without_match (sampleEnv onTrue)
    (buildPhase (sampleEnv onTrue) (newHashJoiner .leftOuter [0] [0]
      (rowsSource seed2L) (rowsSource seed2R))).1 [.null, tz] [] true rfl (Or.inl rfl) rfl, rfl⟩

theorem mem_unseen (seens : List Bool) (idxs : List Nat) (idx : Nat)
    (h : idx ∈ unseen seens idxs) : idx ∈ idxs := by
  unfold unseen at h
  obtain ⟨p, hp, rfl⟩ := List.mem_map.mp h
  exact (List.of_mem_zip (List.mem_filter.mp hp).1).2

theorem mem_sweepIdxs (es : List (List Nat × bucket)) (idx : Nat) (h : idx ∈ sweepIdxs es) :
    ∃ kb ∈ es, idx ∈ kb.2.rows := by
  unfold sweepIdxs at h
  obtain ⟨kb, hkb, hidx⟩ := List.mem_flatMap.mp h
  exact ⟨kb, hkb, mem_unseen _ _ _ hidx⟩

theorem mem_leftCalls {D : Type} (env : Env D) (jt : JoinType) (lc rc : List Nat)
    (S : List (List D)) (l : List D) (c : Option (List D) × Option (List D))
    (h : c ∈ leftCalls env jt lc rc S l) :
    (jt.leftSide = true ∧ c = (some l, none)) ∨ ∃ r ∈ S, c = (some l, some r) := by
  have hun : c ∈ (if jt.leftSide = true then [(some l, (none : Option (List D)))] else []) →
      jt.leftSide = true ∧ c = (some l, none) := by
    intro hc
    cases hls : jt.leftSide with
    | false => simp [hls] at hc
    | true => exact ⟨rfl, by simpa [hls] using hc⟩
  unfold leftCalls at h
  split at h
  · exact Or.inl (hun h)
  · split at h
    · exact Or.inl (hun h)
    · obtain ⟨r, hr, rfl⟩ := List.mem_map.mp h
      exact Or.inr ⟨r, (List.mem_filter.mp hr).1, rfl⟩

theorem buildRow_sorted {D : Type} (env : Env D) (h h' : hashJoiner D) (rrow : List D)
    (res : Option PhaseResult) (hb : buildRow env h rrow = (h', res))
    (hv : IdxValid h) (hs : RowsSorted h) : RowsSorted h' := by
  obtain ⟨-, -, -, hcase⟩ := buildRow_inv env h h' rrow res hb
  rcases hcase with ⟨-, hbk, -⟩ | ⟨-, hbk, -⟩ | ⟨enc, -, -, -, hbk⟩
  · intro kb hkb
    exact hs kb (hbk ▸ hkb)
  · intro kb hkb
    exact hs kb (hbk ▸ hkb)
  · intro kb hkb
    rw [hbk] at hkb
    rcases mem_mapSet _ _ _ _ hkb with heq | hmem
    · subst heq
      simp only
      rw [List.pairwise_append]
      cases hg : mapGet h.buckets enc with
      | none => simp
      | some b =>
        have hmem := mem_of_mapGet _ _ _ hg
        refine ⟨hs (enc, b) hmem, List.pairwise_singleton _ _, ?_⟩
        intro a ha c hc
        have : c = h.rows.length := by simpa using hc
        subst this
        exact hv (enc, b) hmem a ha
    · exact hs kb hmem

theorem buildItem_sorted {D : Type} (env : Env D) (h h' : hashJoiner D)
    (item : Option (List D) × ProducerMetadata)
    (res : Option PhaseResult) (hb : buildItem env h item = (h', res))
    (hv : IdxValid h) (hs : RowsSorted h) : RowsSorted h' := by
  unfold buildItem at hb
  split at hb
  · split at hb
    · cases hb
      exact hs
    · obtain ⟨-, f2, -⟩ := emitHelper_frame env h (.meta item.2) [.left, .right]
      have hh : h' = (emitHelper env h (.meta item.2) [.left, .right]).1 := by
        simp only at hb
        split at hb <;> (cases hb; rfl)
      subst hh
      intro kb hkb
      exact hs kb (f2 ▸ hkb)
  · split at hb
    · cases hb
      exact hs
    · exact buildRow_sorted env h h' _ res hb hv hs

/-- Whatever the environment does, the build phase keeps the row-index list of
every bucket strictly increasing. -/
theorem buildLoop_sorted {D : Type} (env : Env D) :
    ∀ (src : List (Option (List D) × ProducerMetadata)) (h : hashJoiner D),
      IdxValid h → SeenNil h → RowsSorted h → RowsSorted (buildLoop env h src).1 := by
  intro src
  induction src with
  | nil =>
    intro h _ _ hs
    rw [buildLoop]
    exact hs
  | cons item rest ih =>
    intro h hv hn hs
    rw [buildLoop]
    rcases hbi : buildItem env { h with rightSource := rest } item with ⟨h1, res⟩
    obtain ⟨w1, w2, -, -⟩ := buildItem_wf env _ h1 item res hbi hv hn
    have hs1 := buildItem_sorted env _ h1 item res hbi hv hs
    cases res with
    | some r => exact hs1
    | none => exact ih h1 w1 w2 hs1

/-- C8. Tie-break order. Whatever the environment and the inputs, after
`buildPhase` the row-index list of every bucket is strictly increasing, the
indices being positions in the row container, which holds the stored right
rows in arrival order. In a run where nothing fails and the consumer never
declines, the bucket of a key lists the positions of exactly the stored rows
with that key, and for every left row that hits a bucket the iteration of
`probePhase` on it calls `render` on the rows of the bucket in that order and
pushes the results in that order, that is in the order in which the matching
right rows arrived. -/
theorem tie_break_order {D : Type} (env : Env D) (jt : JoinType)
    (leftEqCols rightEqCols : List Nat) (L R : List (List D)) (hq : Quiet env)
    (hL : ColsInRange leftEqCols L) (hR : ColsInRange rightEqCols R) :
    (∀ (env' : Env D) (jt' : JoinType)
        (leftSource rightSource : List (Option (List D) × ProducerMetadata)),
      ∀ kb ∈ (buildPhase env'
          (newHashJoiner jt' leftEqCols rightEqCols leftSource rightSource)).1.buckets,
        kb.2.rows.Pairwise (· < ·)) ∧
    ∃ h1 h2,
      buildPhase env (newHashJoiner jt leftEqCols rightEqCols (rowsSource L) (rowsSource R))
        = (h1, .ret true none) ∧
      (jt.rightSide = true → allocSeen env h1 (env.rangeOrder 0 h1.buckets) = (h2, none)) ∧
      (jt.rightSide = false → h2 = h1) ∧
      h1.rows = stored env rightEqCols R ∧
      (∀ k b, mapGet h1.buckets k = some b →
        b.rows.map (fun idx => (stored env rightEqCols R)[idx]?)
          = (matchesOf env rightEqCols (stored env rightEqCols R) k).map some) ∧
      (∀ pre l post k b, L = pre ++ l :: post →
        encodeColumnsOfRow env [] l leftEqCols false = .ret k false none →
        mapGet h1.buckets k = some b →
        ∃ hpre hl, probeLoop env h2 (rowsSource pre) = (hpre, none) ∧
          probeRow env hpre l = (hl, none) ∧
          hl.out = hpre.out ++
            b.rows.flatMap (fun idx => emitted env (some l) (stored env rightEqCols R)[idx]?) ∧
          hl.renderLog = hpre.renderLog ++
            b.rows.map (fun idx => (some l, (stored env rightEqCols R)[idx]?))) := by
  constructor
  · intro env' jt' leftSource rightSource
    exact buildLoop_sorted env' rightSource _
      (by intro kb hkb; simp [newHashJoiner] at hkb)
      (by intro kb hkb; simp [newHashJoiner] at hkb)
      (by intro kb hkb; simp [newHashJoiner] at hkb)
  · obtain ⟨h1, h2, hp, h3, run⟩ := run_quiet env hq jt leftEqCols rightEqCols L R hL hR
    have hrc1 : h1.rightEqCols = rightEqCols := by
      have := buildLoop_table env (rowsSource R) _ h1 true
        (TableInv_new env jt leftEqCols rightEqCols (rowsSource L) (rowsSource R)) run.build
      exact this.2.1.2.2
    have hbucket : ∀ k b, mapGet h1.buckets k = some b →
        b.rows.map (fun idx => (stored env rightEqCols R)[idx]?)
          = (matchesOf env rightEqCols (stored env rightEqCols R) k).map some ∧
        (matchesOf env rightEqCols (stored env rightEqCols R) k).isEmpty = false := by
      intro k b hg
      obtain ⟨hrows, hne⟩ := run.table1.rows_eq k b hg
      rw [hrc1, run.rows1] at hrows
      have hmap := idxOfKey_map_get env rightEqCols k (stored env rightEqCols R) []
      simp only [List.length_nil, List.nil_append] at hmap
      refine ⟨by rw [hrows]; exact hmap, ?_⟩
      cases hx : (matchesOf env rightEqCols (stored env rightEqCols R) k).isEmpty with
      | false => rfl
      | true =>
        exact absurd (hrows.trans ((idxOfKey_eq_nil_iff env _ k _).mpr hx)) hne
    refine ⟨h1, h2, run.build, run.alloc, run.noAlloc, run.rows1,
      fun k b hg => (hbucket k b hg).1, ?_⟩
    intro pre l post k b hsplit henc hg
    have hpreC : ColsInRange h2.leftEqCols pre := by
      rw [run.cfg2.2.1]
      intro r hr
      exact hL r (by rw [hsplit]; exact List.mem_append_left _ hr)
    obtain ⟨hpre, e1, -, -, e4, e5, -, -, -, e9, e10, -⟩ :=
      probeLoop_quiet env hq pre h2 [] run.table2 run.seen2 hpreC
    have hlC : ∀ c ∈ hpre.leftEqCols, c < l.length := by
      rw [e5.2.1, run.cfg2.2.1]
      exact hL l (by rw [hsplit]; simp)
    obtain ⟨hl, r1, r2, r3, -⟩ := probeRow_quiet env hq hpre ([] ++ pre) l e9
      (fun hrs => e10 (by rw [← e5.1]; exact hrs)) hlC
    obtain ⟨hm1, hm2⟩ := hbucket k b hg
    have hkey : keyOf env leftEqCols l = some k := (keyOf_eq_some _ _ _ _).mpr henc
    refine ⟨hpre, hl, e1, r1, ?_, ?_⟩
    · rw [r2, e5.1, e5.2.1, e5.2.2, e4, run.cfg2.1, run.cfg2.2.1, run.cfg2.2.2, run.rows2]
      congr 1
      simp only [leftBlock, leftCalls, hkey, hm2, Bool.false_eq_true, if_false]
      have : b.rows.flatMap (fun idx => emitted env (some l) (stored env rightEqCols R)[idx]?)
          = (b.rows.map (fun idx => (stored env rightEqCols R)[idx]?)).flatMap
              (fun r => emitted env (some l) r) := by
        rw [List.flatMap_map]
      rw [this, hm1, List.flatMap_map, List.flatMap_map]
    · rw [r3, e5.1, e5.2.1, e5.2.2, e4, run.cfg2.1, run.cfg2.2.1, run.cfg2.2.2, run.rows2]
      congr 1
      simp only [leftCalls, hkey, hm2, Bool.false_eq_true, if_false]
      have : b.rows.map (fun idx => (some l, (stored env rightEqCols R)[idx]?))
          = (b.rows.map (fun idx => (stored env rightEqCols R)[idx]?)).map
              (fun r => (some l, r)) := by
        rw [List.map_map]; rfl
      rw [this, hm1, List.map_map]
      rfl

theorem unseen_map (m : Nat → Bool) (l : List Nat) :
    unseen (l.map m) l = l.filter (fun i => !m i) := by
  induction l with
  | nil => rfl
  | cons a l ih =>
    rw [List.map_cons, List.filter_cons]
    cases hm : m a with
    | true => rw [unseen_cons_true, ih]; simp
    | false => rw [unseen_cons_false, ih]; simp

/-- Under the table invariant the buckets together list every position of the
row container exactly once. -/
theorem buckets_perm_range {D : Type} {env : Env D} {h : hashJoiner D} (hinv : TableInv env h) :
    (h.buckets.flatMap (fun kb => kb.2.rows)).Perm (List.range h.rows.length) := by
  obtain ⟨pl1, pl2⟩ := hinv.placement
  have hsorted : ∀ kb ∈ h.buckets, kb.2.rows.Nodup := by
    intro kb hkb
    have hg := mapGet_of_mem _ kb.1 kb.2 hinv.nodup hkb
    rw [(hinv.rows_eq kb.1 kb.2 hg).1]
    exact (idxOfKey_sorted env _ kb.1 h.rows 0).imp (fun hlt => Nat.ne_of_lt hlt)
  have hnd : (h.buckets.flatMap (fun kb => kb.2.rows)).Nodup := by
    rw [List.nodup_flatMap]
    refine ⟨hsorted, ?_⟩
    have hpw : h.buckets.Pairwise (fun a b => a.1 ≠ b.1) := by
      have := hinv.nodup
      rw [List.Nodup, List.pairwise_map] at this
      exact this
    refine hpw.imp_of_mem ?_
    intro a b ha hb hne
    show List.Disjoint a.2.rows b.2.rows
    intro i hia hib
    have hga := mapGet_of_mem _ a.1 a.2 hinv.nodup ha
    have hgb := mapGet_of_mem _ b.1 b.2 hinv.nodup hb
    have hlt := pl1 a.1 a.2 ha i hia
    obtain ⟨k, b0, -, -, -, huniq⟩ := pl2 i h.rows[i] (List.getElem?_eq_getElem hlt)
    exact hne ((huniq a.1 a.2 ha hia).trans (huniq b.1 b.2 hb hib).symm)
  rw [List.perm_ext_iff_of_nodup hnd (List.nodup_range _)]
  intro i
  rw [List.mem_range, List.mem_flatMap]
  constructor
  · rintro ⟨kb, hkb, hi⟩
    exact pl1 kb.1 kb.2 hkb i hi
  · intro hlt
    obtain ⟨k, b, -, hg, hcount, -⟩ := pl2 i h.rows[i] (List.getElem?_eq_getElem hlt)
    refine ⟨(k, b), mem_of_mapGet _ _ _ hg, ?_⟩
    exact List.count_pos_iff.mp (by rw [hcount]; exact Nat.one_pos)

/-- Filtering the positions of a list by a test on the element and reading the
elements is filtering the list. -/
theorem range_filter_map {α : Type} (p : α → Bool) (S : List α) :
    ((List.range S.length).filter (atIdx p S)).map (fun i => S[i]?) = (S.filter p).map some := by
  induction S using List.reverseRecOn with
  | nil => rfl
  | append_singleton S x ih =>
    rw [List.length_append, List.length_singleton, List.range_succ, List.filter_append,
      List.map_append, List.filter_append, List.map_append]
    congr 1
    · rw [← ih]
      have hfilter : (List.range S.length).filter (atIdx p (S ++ [x]))
          = (List.range S.length).filter (atIdx p S) := by
        apply List.filter_congr
        intro i hi
        unfold atIdx
        rw [List.getElem?_append_left (List.mem_range.mp hi)]
      rw [hfilter]
      apply List.map_congr_left
      intro i hi
      rw [List.getElem?_append_left (List.mem_range.mp (List.mem_filter.mp hi).1)]
    · have hx : (S ++ [x])[S.length]? = some x := by
        rw [List.getElem?_append_right (Nat.le_refl _)]
        simp
      cases hp : p x with
      | true => simp [List.filter_cons, atIdx, hx, hp]
      | false => simp [List.filter_cons, atIdx, hx, hp]

/-- After the probe loop over the left rows `L`, the positions the unmatched
sweep visits are, up to order, the positions of the stored rows that no left
row matched. -/
theorem sweep_perm {D : Type} (env : Env D) (L S : List (List D)) (hp : hashJoiner D)
    (es : List (List Nat × bucket)) (hinv : TableInv env hp) (hseen : SeenInv env L hp)
    (hrows : hp.rows = S) (hes : es.Perm hp.buckets) :
    ((sweepIdxs es).map (fun idx => S[idx]?)).Perm
      ((S.filter (fun r => !matchedRow env hp.leftEqCols hp.rightEqCols L r)).map some) := by
  subst hrows
  have hstep : ∀ kb ∈ hp.buckets, unseen kb.2.seen kb.2.rows =
      kb.2.rows.filter
        (atIdx (fun r => !matchedRow env hp.leftEqCols hp.rightEqCols L r) hp.rows) := by
    intro kb hkb
    have hg := mapGet_of_mem _ kb.1 kb.2 hinv.nodup hkb
    rw [hseen kb.1 kb.2 hg, unseen_map]
    apply List.filter_congr
    intro idx hidx
    rw [(hinv.rows_eq kb.1 kb.2 hg).1] at hidx
    obtain ⟨-, r, hr, hk⟩ := (mem_idxOfKey env _ kb.1 hp.rows 0 idx).mp hidx
    have hr' : hp.rows[idx]? = some r := by simpa using hr
    simp only [atIdx, matchedAt, matchedRow, hit, hr', hk]
  have hidxs : sweepIdxs es = (es.flatMap (fun kb => kb.2.rows)).filter
      (atIdx (fun r => !matchedRow env hp.leftEqCols hp.rightEqCols L r) hp.rows) := by
    unfold sweepIdxs
    rw [List.filter_flatMap]
    apply List.flatMap_congr
    intro kb hkb
    exact hstep kb (hes.subset hkb)
  rw [hidxs]
  have hperm : (es.flatMap (fun kb => kb.2.rows)).Perm (List.range hp.rows.length) :=
    (hes.flatMap_right _).trans (buckets_perm_range hinv)
  have := ((hperm.filter
    (atIdx (fun r => !matchedRow env hp.leftEqCols hp.rightEqCols L r) hp.rows)).map
      (fun idx => hp.rows[idx]?))
  rw [range_filter_map (fun r => !matchedRow env hp.leftEqCols hp.rightEqCols L r) hp.rows] at this
  exact this

/-- Witness of C8: seed scenario 1, where the left row `(1,x)` hits the bucket
that lists `(1,foo)` before `(1,bar)`. -/
theorem tie_break_order_witness :
    (∀ (env' : Env Datum) (jt' : JoinType)
        (leftSource rightSource : List (Option (List Datum) × ProducerMetadata)),
      ∀ kb ∈ (buildPhase env' (newHashJoiner jt' [0] [0] leftSource rightSource)).1.buckets,
        kb.2.rows.Pairwise (· < ·)) ∧
    ∃ h1 h2,
      buildPhase (sampleEnv onTrue)
          (newHashJoiner .innerJoin [0] [0] (rowsSource seed1L) (rowsSource seed1R))
        = (h1, .ret true none) ∧
      (JoinType.innerJoin.rightSide = true →
        allocSeen (sampleEnv onTrue) h1 ((sampleEnv onTrue).rangeOrder 0 h1.buckets)
          = (h2, none)) ∧
      (JoinType.innerJoin.rightSide = false → h2 = h1) ∧
      h1.rows = stored (sampleEnv onTrue) [0] seed1R ∧
      (∀ k b, mapGet h1.buckets k = some b →
        b.rows.map (fun idx => (stored (sampleEnv onTrue) [0] seed1R)[idx]?)
          = (matchesOf (sampleEnv onTrue) [0] (stored (sampleEnv onTrue) [0] seed1R) k).map
              some) ∧
      (∀ pre l post k b, seed1L = pre ++ l :: post →
        encodeColumnsOfRow (sampleEnv onTrue) [] l [0] false = .ret k false none →
        mapGet h1.buckets k = some b →
        ∃ hpre hl, probeLoop (sampleEnv onTrue) h2 (rowsSource pre) = (hpre, none) ∧
          probeRow (sampleEnv onTrue) hpre l = (hl, none) ∧
          hl.out = hpre.out ++
            b.rows.flatMap (fun idx => emitted (sampleEnv onTrue) (some l)
              (stored (sampleEnv onTrue) [0] seed1R)[idx]?) ∧
          hl.renderLog = hpre.renderLog ++
            b.rows.map (fun idx => (some l, (stored (sampleEnv onTrue) [0] seed1R)[idx]?))) :=
  tie_break_order (sampleEnv onTrue) .innerJoin [0] [0] seed1L seed1R
    (sampleEnv_quiet onTrue) (by unfold ColsInRange; decide) (by unfold ColsInRange; decide)

/-! ## The calls of `render`, for every environment -/

theorem LogExt.refl {D : Type} (h : hashJoiner D) : LogExt h h :=
  ⟨rfl, ⟨rfl, rfl, rfl⟩, [], by simp, by simp⟩

theorem LogExt.trans {D : Type} {h1 h2 h3 : hashJoiner D} (a : LogExt h1 h2)
    (b : LogExt h2 h3) : LogExt h1 h3 := by
  obtain ⟨a1, a2, e1, a3, a4⟩ := a
  obtain ⟨b1, b2, e2, b3, b4⟩ := b
  refine ⟨b1.trans a1, sameConfig_trans a2 b2, e1 ++ e2, by rw [b3, a3, List.append_assoc], ?_⟩
  intro c hc
  rcases List.mem_append.mp hc with h | h
  · exact a4 c h
  · have := b4 c h
    rw [a1] at this
    exact this

theorem LogExt.of_frame {D : Type} {h h' : hashJoiner D} (hr : h'.rows = h.rows)
    (hc : SameConfig h h') (hl : h'.renderLog = h.renderLog) : LogExt h h' :=
  ⟨hr, hc, [], by simp [hl], by simp⟩

theorem renderAndEmit_logExt {D : Type} (env : Env D) (h : hashJoiner D)
    (lrow rrow : Option (List D)) (hrow : rrow = none ∨ ∃ r ∈ h.rows, rrow = some r) :
    LogExt h (renderAndEmit env h lrow rrow).h := by
  obtain ⟨f1, -, f3, -⟩ := renderAndEmit_frame env h lrow rrow
  refine ⟨f1, f3, [(lrow, rrow)], ?_, ?_⟩
  · unfold renderAndEmit
    simp only [render]
    split
    · rfl
    · split
      · rename_i row _
        exact (emitHelper_frame env { h with renderLog := h.renderLog ++ [(lrow, rrow)] }
          (.row row) [.left]).2.2.2.2.2.2.1
      · rfl
  · intro c hc
    have : c = (lrow, rrow) := by simpa using hc
    subst this
    exact hrow

theorem probeBucket_logExt {D : Type} (env : Env D) (lrow : List D) (key : List Nat) :
    ∀ (idxs : List Nat) (h : hashJoiner D) (b : bucket) (i : Nat),
      LogExt h (probeBucket env h lrow key b i idxs).1 := by
  intro idxs
  induction idxs with
  | nil =>
    intro h b i
    rw [probeBucket]
    exact LogExt.refl h
  | cons idx rest ih =>
    intro h b i
    rw [probeBucket]
    cases hget : h.rows[idx]? with
    | none => exact LogExt.refl h
    | some rrow =>
      simp only
      have hstep := renderAndEmit_logExt env h (some lrow) (some rrow)
        (Or.inr ⟨rrow, List.getElem?_mem hget, rfl⟩)
      split
      · exact hstep
      · split
        · split
          · refine hstep.trans ((LogExt.of_frame rfl ⟨rfl, rfl, rfl⟩ rfl).trans (ih _ _ _))
          · exact hstep
        · exact hstep.trans (ih _ _ _)

theorem probeRow_logExt {D : Type} (env : Env D) (h : hashJoiner D) (lrow : List D) :
    LogExt h (probeRow env h lrow).1 := by
  have hun := renderAndEmit_logExt env h (some lrow) none (Or.inl rfl)
  unfold probeRow
  split
  · exact LogExt.refl h
  · exact LogExt.refl h
  · split
    · split
      · simp only
        split <;> exact hun
      · exact LogExt.refl h
    · split
      · exact probeBucket_logExt env lrow _ _ h _ 0
      · split
        · simp only
          split <;> exact hun
        · exact LogExt.refl h

theorem probeItem_logExt {D : Type} (env : Env D) (h : hashJoiner D)
    (item : Option (List D) × ProducerMetadata) : LogExt h (probeItem env h item).1 := by
  unfold probeItem
  split
  · split
    · exact LogExt.refl h
    · obtain ⟨f1, -, f3, -, -, -, f7, -⟩ := emitHelper_frame env h (.meta item.2) [.left, .right]
      simp only
      split <;> exact LogExt.of_frame f1 f3 f7
  · split
    · exact LogExt.refl h
    · rename_i lrow _
      simp only
      split <;> exact probeRow_logExt env h lrow

theorem probeLoop_logExt {D : Type} (env : Env D) :
    ∀ (src : List (Option (List D) × ProducerMetadata)) (h : hashJoiner D),
      LogExt h (probeLoop env h src).1 := by
  intro src
  induction src with
  | nil =>
    intro h
    rw [probeLoop]
    exact LogExt.of_frame rfl ⟨rfl, rfl, rfl⟩ rfl
  | cons item rest ih =>
    intro h
    rw [probeLoop]
    have h0 : LogExt h { h with leftSource := rest } := LogExt.of_frame rfl ⟨rfl, rfl, rfl⟩ rfl
    have h1 := h0.trans (probeItem_logExt env { h with leftSource := rest } item)
    split
    · exact h1
    · exact h1
    · exact h1.trans (ih _)

theorem sweepBucket_logExt {D : Type} (env : Env D) (b : bucket) :
    ∀ (seens : List Bool) (h : hashJoiner D) (i : Nat),
      LogExt h (sweepBucket env h b i seens).1 := by
  intro seens
  induction seens with
  | nil =>
    intro h i
    rw [sweepBucket]
    exact LogExt.refl h
  | cons seen rest ih =>
    intro h i
    rw [sweepBucket]
    split
    · split
      · exact LogExt.refl h
      · split
        · exact LogExt.refl h
        · rename_i rrow hget
          have hstep := renderAndEmit_logExt env h none (some rrow)
            (Or.inr ⟨rrow, List.getElem?_mem hget, rfl⟩)
          simp only
          split
          · exact hstep
          · exact hstep.trans (ih _ _)
    · exact ih _ _

theorem sweepLoop_logExt {D : Type} (env : Env D) :
    ∀ (es : List (List Nat × bucket)) (h : hashJoiner D),
      LogExt h (sweepLoop env h es).1 := by
  intro es
  induction es with
  | nil =>
    intro h
    rw [sweepLoop]
    exact LogExt.refl h
  | cons e rest ih =>
    intro h
    obtain ⟨k, b⟩ := e
    rw [sweepLoop]
    have h1 := sweepBucket_logExt env b b.seen h 0
    split
    · exact h1
    · exact h1.trans (ih _)

theorem probePhase_logExt {D : Type} (env : Env D) (h : hashJoiner D) :
    LogExt h (probePhase env h).1 := by
  unfold probePhase
  have h1 := probeLoop_logExt env h.leftSource h
  simp only
  split
  · exact h1
  · refine h1.trans ?_
    unfold probeSweep
    split
    · have h2 := sweepLoop_logExt env (env.rangeOrder 1 (probeLoop env h h.leftSource).1.buckets)
        (probeLoop env h h.leftSource).1
      simp only
      split
      · exact h2
      · exact h2.trans (LogExt.of_frame rfl ⟨rfl, rfl, rfl⟩ rfl)
    · exact LogExt.of_frame rfl ⟨rfl, rfl, rfl⟩ rfl

/-- What one iteration of the build loop does to the container and to the log of
`render` calls. -/
theorem buildRow_log {D : Type} (env : Env D) (h h' : hashJoiner D) (rrow : List D)
    (res : Option PhaseResult) (hb : buildRow env h rrow = (h', res)) :
    SameConfig h h' ∧
    (h'.rows = h.rows ∨
      (h'.rows = h.rows ++ [rrow] ∧ hasNullB env h.rightEqCols rrow = false)) ∧
    (h'.renderLog = h.renderLog ∨
      (h'.renderLog = h.renderLog ++ [(none, some rrow)] ∧ h.joinType.rightSide = true)) := by
  unfold buildRow at hb
  rcases henc : encodeColumnsOfRow env [] rrow h.rightEqCols false with ⟨enc, hn, _ | e⟩ | _
  · rw [henc] at hb
    simp only at hb
    cases hn
    · simp only [Bool.false_eq_true, if_false] at hb
      have hkey : hasNullB env h.rightEqCols rrow = false :=
        keyOf_some_hasNullB env _ _ enc ((keyOf_eq_some _ _ _ _).mpr henc)
      cases hadd : env.AddRow h.rows rrow with
      | some e =>
        rw [hadd] at hb
        cases hb
        exact ⟨⟨rfl, rfl, rfl⟩, Or.inl rfl, Or.inl rfl⟩
      | none =>
        rw [hadd] at hb
        simp only at hb
        split at hb
        · cases hb
          exact ⟨⟨rfl, rfl, rfl⟩, Or.inr ⟨rfl, hkey⟩, Or.inl rfl⟩
        · cases hb
          exact ⟨⟨rfl, rfl, rfl⟩, Or.inr ⟨rfl, hkey⟩, Or.inl rfl⟩
    · simp only [if_true] at hb
      split at hb
      · rename_i hrs
        simp only [render] at hb
        split at hb
        · cases hb
          exact ⟨⟨rfl, rfl, rfl⟩, Or.inl rfl, Or.inr ⟨rfl, hrs⟩⟩
        · split at hb
          · cases hb
            exact ⟨⟨rfl, rfl, rfl⟩, Or.inl rfl, Or.inr ⟨rfl, hrs⟩⟩
          · simp only [emitHelper] at hb
            split at hb
            · rename_i heq
              split at heq
              · cases heq; cases hb
                exact ⟨⟨rfl, rfl, rfl⟩, Or.inl rfl, Or.inr ⟨rfl, hrs⟩⟩
              · cases heq
            · rename_i heq
              split at heq
              · cases heq
              · cases heq; cases hb
                exact ⟨⟨rfl, rfl, rfl⟩, Or.inl rfl, Or.inr ⟨rfl, hrs⟩⟩
      · cases hb
        exact ⟨⟨rfl, rfl, rfl⟩, Or.inl rfl, Or.inl rfl⟩
  · rw [henc] at hb
    cases hb
    exact ⟨⟨rfl, rfl, rfl⟩, Or.inl rfl, Or.inl rfl⟩
  · rw [henc] at hb
    cases hb
    exact ⟨⟨rfl, rfl, rfl⟩, Or.inl rfl, Or.inl rfl⟩

theorem LogInv_step {D : Type} (env : Env D) (h h' : hashJoiner D) (hc : SameConfig h h')
    (hl : LogInv env h) (hk : RowsKeyed env h)
    (hrows : h'.rows = h.rows ∨ ∃ r, h'.rows = h.rows ++ [r] ∧
      hasNullB env h.rightEqCols r = false)
    (hlog : ∃ ext, h'.renderLog = h.renderLog ++ ext ∧ ∀ c ∈ ext,
      (c.2 = none ∨ ∃ r ∈ h.rows, c.2 = some r) ∨
      (c.1 = none ∧ h.joinType.rightSide = true)) :
    LogInv env h' ∧ RowsKeyed env h' := by
  constructor
  · intro c hcm r hr hnull
    rw [hc.1, hc.2.2] at *
    obtain ⟨ext, he, hext⟩ := hlog
    rw [he] at hcm
    rcases List.mem_append.mp hcm with hm | hm
    · exact hl c hm r hr hnull
    · rcases hext c hm with (h0 | ⟨r', hr', h0⟩) | h0
      · rw [hr] at h0; cases h0
      · rw [hr] at h0
        cases h0
        rw [hk r hr'] at hnull
        cases hnull
      · exact h0
  · intro r hr
    rw [hc.2.2]
    rcases hrows with h0 | ⟨r0, h0, hnull⟩
    · exact hk r (h0 ▸ hr)
    · rw [h0] at hr
      rcases List.mem_append.mp hr with hm | hm
      · exact hk r hm
      · have : r = r0 := by simpa using hm
        subst this
        exact hnull

theorem buildItem_log {D : Type} (env : Env D) (h h' : hashJoiner D)
    (item : Option (List D) × ProducerMetadata)
    (res : Option PhaseResult) (hb : buildItem env h item = (h', res))
    (hl : LogInv env h) (hk : RowsKeyed env h) :
    LogInv env h' ∧ RowsKeyed env h' ∧ SameConfig h h' := by
  unfold buildItem at hb
  split at hb
  · split at hb
    · cases hb
      exact ⟨hl, hk, rfl, rfl, rfl⟩
    · obtain ⟨f1, -, f3, -, -, -, f7, -⟩ := emitHelper_frame env h (.meta item.2) [.left, .right]
      have hh : h' = (emitHelper env h (.meta item.2) [.left, .right]).1 := by
        simp only at hb
        split at hb <;> (cases hb; rfl)
      subst hh
      obtain ⟨w1, w2⟩ := LogInv_step env h _ f3 hl hk (Or.inl f1) ⟨[], by simp [f7], by simp⟩
      exact ⟨w1, w2, f3⟩
  · split at hb
    · cases hb
      exact ⟨hl, hk, rfl, rfl, rfl⟩
    · rename_i rrow _
      obtain ⟨c1, c2, c3⟩ := buildRow_log env h h' rrow res hb
      have hstep : LogInv env h' ∧ RowsKeyed env h' := by
        refine LogInv_step env h h' c1 hl hk ?_ ?_
        · rcases c2 with h0 | ⟨h0, h1⟩
          · exact Or.inl h0
          · exact Or.inr ⟨rrow, h0, h1⟩
        · rcases c3 with h0 | ⟨h0, h1⟩
          · exact ⟨[], by simp [h0], by simp⟩
          · refine ⟨[(none, some rrow)], h0, ?_⟩
            intro c hc
            have : c = (none, some rrow) := by simpa using hc
            subst this
            exact Or.inr ⟨rfl, h1⟩
      exact ⟨hstep.1, hstep.2, c1⟩

/-- Whatever the environment does, after the build phase every logged call of
`render` on a right row with a NULL equality column has a nil left row and
occurs under a right or full outer join, and no such row is stored. -/
theorem buildLoop_log {D : Type} (env : Env D) :
    ∀ (src : List (Option (List D) × ProducerMetadata)) (h : hashJoiner D),
      LogInv env h → RowsKeyed env h →
      LogInv env (buildLoop env h src).1 ∧ RowsKeyed env (buildLoop env h src).1 ∧
        SameConfig h (buildLoop env h src).1 := by
  intro src
  induction src with
  | nil =>
    intro h hl hk
    rw [buildLoop]
    exact ⟨hl, hk, rfl, rfl, rfl⟩
  | cons item rest ih =>
    intro h hl hk
    rw [buildLoop]
    rcases hbi : buildItem env { h with rightSource := rest } item with ⟨h1, res⟩
    obtain ⟨w1, w2, w3⟩ := buildItem_log env _ h1 item res hbi hl hk
    have w3' : SameConfig h h1 := w3
    cases res with
    | some r => exact ⟨w1, w2, w3'⟩
    | none =>
      obtain ⟨i1, i2, i3⟩ := ih h1 w1 w2
      exact ⟨i1, i2, sameConfig_trans w3' i3⟩

theorem LogInv_of_logExt {D : Type} (env : Env D) (h h' : hashJoiner D) (hx : LogExt h h')
    (hl : LogInv env h) (hk : RowsKeyed env h) : LogInv env h' ∧ RowsKeyed env h' := by
  obtain ⟨x1, x2, ext, x3, x4⟩ := hx
  exact LogInv_step env h h' x2 hl hk (Or.inl x1) ⟨ext, x3, fun c hc => Or.inl (x4 c hc)⟩

/-- Whatever the environment does, the seen allocation and the probe phase of
`Run` only add calls of `render` whose right row is nil or stored. -/
theorem runProbe_logExt {D : Type} (env : Env D) (h : hashJoiner D) :
    LogExt h (runProbe env h).1 := by
  unfold runProbe
  have hstage : LogExt h (if h.joinType.rightSide = true then
      allocSeen env h (env.rangeOrder 0 h.buckets) else (h, none)).1 := by
    split
    · obtain ⟨f1, f2, -, f4, -⟩ := allocSeen_frame env (env.rangeOrder 0 h.buckets) h
      exact LogExt.of_frame f1 f2 f4
    · exact LogExt.refl h
  generalize (if h.joinType.rightSide = true then
      allocSeen env h (env.rangeOrder 0 h.buckets) else (h, none)) = st at hstage
  obtain ⟨h2, e⟩ := st
  cases e with
  | some e => exact hstage.trans (LogExt.of_frame rfl ⟨rfl, rfl, rfl⟩ rfl)
  | none =>
    simp only
    have hp := probePhase_logExt env h2
    rcases hpp : probePhase env h2 with ⟨h3, ⟨m, e⟩ | p⟩
    · rw [hpp] at hp
      simp only
      split
      · exact hstage.trans (hp.trans (LogExt.of_frame rfl ⟨rfl, rfl, rfl⟩ rfl))
      · exact hstage.trans hp
    · rw [hpp] at hp
      exact hstage.trans hp

theorem runBody_logExt {D : Type} (env : Env D) (h : hashJoiner D) :
    LogExt (buildPhase env h).1 (runBody env h).1 := by
  unfold runBody
  rcases buildPhase env h with ⟨h1, ⟨more, _ | e⟩ | p⟩
  · cases more with
    | false => exact LogExt.refl h1
    | true => exact runProbe_logExt env h1
  · cases more <;> exact LogExt.of_frame rfl ⟨rfl, rfl, rfl⟩ rfl
  · exact LogExt.refl h1

/-- C5. Right-row exclusion. For every environment (errors and declines
included), every join type and every pair of inputs, in the calls of `render`
made by `Run` a right row with a NULL in a right equality column appears only
with a nil left row and only under a right or full outer join, and all these
calls are made by the build phase: the seen allocation and the probe phase
call `render` on no such row. In a run where nothing fails and the consumer
never declines, the build phase pushes, for right and full outer joins, the
non-nil `render(nil, r)` of every right row `r` with a NULL equality column,
once per row and in arrival order, and nothing for inner and left outer
joins; everything pushed afterwards is the row of a later call, none of
which has such a right row. -/
theorem right_row_exclusion {D : Type} (env : Env D) (jt : JoinType)
    (leftEqCols rightEqCols : List Nat) (L R : List (List D)) (hq : Quiet env)
    (hL : ColsInRange leftEqCols L) (hR : ColsInRange rightEqCols R) :
    (∀ (env' : Env D) (jt' : JoinType)
        (leftSource rightSource : List (Option (List D) × ProducerMetadata)),
      (∀ c ∈ (runBody env'
          (newHashJoiner jt' leftEqCols rightEqCols leftSource rightSource)).1.renderLog,
        ∀ r, c.2 = some r →
          (∃ col ∈ rightEqCols, ∃ d, r[col]? = some d ∧ env'.IsNull d = true) →
          c.1 = none ∧ jt'.rightSide = true) ∧
      ∃ ext, (runBody env'
          (newHashJoiner jt' leftEqCols rightEqCols leftSource rightSource)).1.renderLog
        = (buildPhase env'
          (newHashJoiner jt' leftEqCols rightEqCols leftSource rightSource)).1.renderLog ++ ext ∧
        ∀ c ∈ ext, ∀ r, c.2 = some r →
          ¬ ∃ col ∈ rightEqCols, ∃ d, r[col]? = some d ∧ env'.IsNull d = true) ∧
    ∃ (h1 h3 : hashJoiner D) (probeCalls : List (Option (List D) × Option (List D))),
      buildPhase env (newHashJoiner jt leftEqCols rightEqCols (rowsSource L) (rowsSource R))
        = (h1, .ret true none) ∧
      (Run env (newHashJoiner jt leftEqCols rightEqCols (rowsSource L) (rowsSource R))).1.out
        = h3.out ∧
      (jt.rightSide = true →
        outRows h1.out = (R.filter (hasNullB env rightEqCols)).filterMap
          (fun r => (env.render none (some r)).row) ∧
        h1.renderLog = (R.filter (hasNullB env rightEqCols)).map (fun r => (none, some r))) ∧
      (jt.rightSide = false → h1.out = [] ∧ h1.renderLog = []) ∧
      h3.renderLog = h1.renderLog ++ probeCalls ∧
      h3.out = h1.out ++ probeCalls.flatMap (fun c => emitted env c.1 c.2) ∧
      (∀ c ∈ probeCalls, ∀ r, c.2 = some r → hasNullB env rightEqCols r = false) := by
  constructor
  · intro env' jt' leftSource rightSource
    have hl0 : LogInv env' (newHashJoiner jt' leftEqCols rightEqCols leftSource rightSource) := by
      intro c hc
      simp [newHashJoiner] at hc
    have hk0 : RowsKeyed env' (newHashJoiner jt' leftEqCols rightEqCols leftSource rightSource) := by
      intro r hr
      simp [newHashJoiner] at hr
    have hb : LogInv env' (buildPhase env'
          (newHashJoiner jt' leftEqCols rightEqCols leftSource rightSource)).1 ∧
        RowsKeyed env' (buildPhase env'
          (newHashJoiner jt' leftEqCols rightEqCols leftSource rightSource)).1 ∧
        SameConfig (newHashJoiner jt' leftEqCols rightEqCols leftSource rightSource)
          (buildPhase env'
            (newHashJoiner jt' leftEqCols rightEqCols leftSource rightSource)).1 :=
      buildLoop_log env' rightSource _ hl0 hk0
    obtain ⟨b1, b2, b3⟩ := hb
    have hx := runBody_logExt env'
      (newHashJoiner jt' leftEqCols rightEqCols leftSource rightSource)
    obtain ⟨f1, -⟩ := LogInv_of_logExt env' _ _ hx b1 b2
    have hcfg := sameConfig_trans b3 hx.2.1
    have hjt : (runBody env'
        (newHashJoiner jt' leftEqCols rightEqCols leftSource rightSource)).1.joinType = jt' :=
      hcfg.1
    have hrc : (runBody env'
        (newHashJoiner jt' leftEqCols rightEqCols leftSource rightSource)).1.rightEqCols
          = rightEqCols := hcfg.2.2
    constructor
    · intro c hc r hr hnull
      have := f1 c hc r hr (by rw [hrc]; exact (hasNullB_iff env' rightEqCols r).mpr hnull)
      rw [hjt] at this
      exact this
    · obtain ⟨x1, x2, ext, x3, x4⟩ := hx
      refine ⟨ext, x3, ?_⟩
      intro c hc r hr hnull
      rcases x4 c hc with h0 | ⟨r', hr', h0⟩
      · rw [hr] at h0; cases h0
      · rw [hr] at h0
        cases h0
        have hkeyed := b2 r hr'
        have hrc1 : (buildPhase env'
            (newHashJoiner jt' leftEqCols rightEqCols leftSource rightSource)).1.rightEqCols
              = rightEqCols := b3.2.2
        rw [hrc1, (hasNullB_iff env' rightEqCols r).mpr hnull] at hkeyed
        cases hkeyed
  · obtain ⟨h1, h2, hp, h3, run⟩ := run_quiet env hq jt leftEqCols rightEqCols L R hL hR
    refine ⟨h1, h3,
      L.flatMap (leftCalls env jt leftEqCols rightEqCols (stored env rightEqCols R)) ++
        (if jt.rightSide then sweepIdxs (env.rangeOrder 1 hp.buckets) else []).map
          (fun idx => (none, (stored env rightEqCols R)[idx]?)),
      run.build, ?_, ?_, ?_, ?_, ?_, ?_⟩
    · unfold Run
      rw [run.body]
    · intro hrs
      rw [run.out1, run.log1]
      simp only [buildOut, buildLog, hrs, if_true, and_true]
      rw [outRows_flatMap, List.filterMap_eq_flatMap_toList]
      apply List.flatMap_congr
      intro r _
      exact outRows_emitted env none (some r)
    · intro hrs
      rw [run.out1, run.log1]
      simp [buildOut, buildLog, hrs]
    · rw [run.log3, run.logP, List.append_assoc]
    · rw [run.out3, run.outP, List.append_assoc, List.flatMap_append, List.flatMap_map]
      congr 2
      unfold leftBlock
      rw [List.flatMap_assoc]
    · intro c hc r hr
      have hstored : ∀ r' ∈ stored env rightEqCols R, hasNullB env rightEqCols r' = false := by
        intro r' hr'
        have := (List.mem_filter.mp hr').2
        simpa using this
      rcases List.mem_append.mp hc with hm | hm
      · obtain ⟨l, -, hcl⟩ := List.mem_flatMap.mp hm
        rcases mem_leftCalls env jt _ _ _ l c hcl with ⟨-, rfl⟩ | ⟨r', hr', rfl⟩
        · cases hr
        · cases hr
          exact hstored r hr'
      · obtain ⟨idx, -, rfl⟩ := List.mem_map.mp hm
        exact hstored r (List.getElem?_mem hr)

/-- Witness of C5: seed scenario 4 under a full outer join, where the right row
`(NULL, x)` is pushed, padded, by the build phase. -/
theorem right_row_exclusion_witness :
    Quiet (sampleEnv onTrue) ∧ ColsInRange [0] seed2L ∧
    ColsInRange [0] ([[Datum.null, tx], [.int 1, tfoo], [.int 2, tbar]] : List (List Datum)) ∧
    ∃ (h1 h3 : hashJoiner Datum)
        (probeCalls : List (Option (List Datum) × Option (List Datum))),
      buildPhase (sampleEnv onTrue) (newHashJoiner .fullOuter [0] [0] (rowsSource seed2L)
        (rowsSource [[Datum.null, tx], [.int 1, tfoo], [.int 2, tbar]]))
        = (h1, .ret true none) ∧
      (Run (sampleEnv onTrue) (newHashJoiner .fullOuter [0] [0] (rowsSource seed2L)
        (rowsSource [[Datum.null, tx], [.int 1, tfoo], [.int 2, tbar]]))).1.out = h3.out ∧
      (JoinType.fullOuter.rightSide = true →
        outRows h1.out = (([[Datum.null, tx], [.int 1, tfoo], [.int 2, tbar]] :
            List (List Datum)).filter (hasNullB (sampleEnv onTrue) [0])).filterMap
          (fun r => ((sampleEnv onTrue).render none (some r)).row) ∧
        h1.renderLog = (([[Datum.null, tx], [.int 1, tfoo], [.int 2, tbar]] :
            List (List Datum)).filter (hasNullB (sampleEnv onTrue) [0])).map
          (fun r => (none, some r))) ∧
      (JoinType.fullOuter.rightSide = false → h1.out = [] ∧ h1.renderLog = []) ∧
      h3.renderLog = h1.renderLog ++ probeCalls ∧
      h3.out = h1.out ++ probeCalls.flatMap (fun c => emitted (sampleEnv onTrue) c.1 c.2) ∧
      (∀ c ∈ probeCalls, ∀ r, c.2 = some r → hasNullB (sampleEnv onTrue) [0] r = false) :=
  ⟨sampleEnv_quiet onTrue, by unfold ColsInRange; decide, by unfold ColsInRange; decide,
    (right_row_exclusion (sampleEnv onTrue) .fullOuter [0] [0] seed2L
      [[Datum.null, tx], [.int 1, tfoo], [.int 2, tbar]]
      (sampleEnv_quiet onTrue) (by unfold ColsInRange; decide)
      (by unfold ColsInRange; decide)).2⟩

/-! ## The output of the key encoder -/

/-- When the datum encoding appends the bytes `keyBytes d` and does not fail on
the listed columns, the key encoder returns without error; with `encodeNull` it
reports no NULL; and when it reports no NULL its bytes are the buffer followed
by the encodings of the listed columns in order. -/
theorem encode_appends {D : Type} (env : Env D) (keyBytes : D → List Nat) (row : List D)
    (encodeNull : Bool) (cols : List Nat) (hcols : ∀ c ∈ cols, c < row.length)
    (henc : ∀ c ∈ cols, ∀ d, row[c]? = some d →
      ∀ buf, env.Encode d buf = (buf ++ keyBytes d, none)) :
    ∀ appendTo, ∃ enc hasNull,
      encodeColumnsOfRow env appendTo row cols encodeNull = .ret enc hasNull none ∧
      (encodeNull = true → hasNull = false) ∧
      (hasNull = false → enc = appendTo ++ cols.flatMap (colBytes keyBytes row)) := by
  induction cols with
  | nil =>
    intro appendTo
    exact ⟨appendTo, false, rfl, fun _ => rfl, fun _ => by simp⟩
  | cons c rest ih =>
    intro appendTo
    have hc : c < row.length := hcols c (List.mem_cons_self _ _)
    have hd : row[c]? = some row[c] := List.getElem?_eq_getElem hc
    have ih' := ih (fun c' hc' => hcols c' (List.mem_cons_of_mem _ hc'))
      (fun c' hc' => henc c' (List.mem_cons_of_mem _ hc'))
    have he := henc c (List.mem_cons_self _ _) _ hd appendTo
    unfold encodeColumnsOfRow
    simp only [hd]
    by_cases hnull : (env.IsNull row[c] && !encodeNull) = true
    · rw [if_pos hnull]
      refine ⟨[], true, rfl, ?_, fun h => by cases h⟩
      intro hen
      rw [hen] at hnull
      simp at hnull
    · rw [if_neg hnull, he]
      obtain ⟨enc, hn, h1, h2, h3⟩ := ih' (appendTo ++ keyBytes row[c])
      refine ⟨enc, hn, h1, h2, fun h => ?_⟩
      rw [h3 h, List.flatMap_cons, colBytes, hd, List.append_assoc]

/-- C11: for a row and a column list with every index in range and no failing
datum encoding, `encodeColumnsOfRow` returns without error; when `encodeNull`
is true `hasNull` is not set, whatever NULLs the row holds; whenever `hasNull`
is false the returned bytes are `appendTo` followed by the encodings of the
listed columns, concatenated in order; and an empty column list returns
`appendTo` unchanged. -/
theorem encodeColumnsOfRow_output {D : Type} (env : Env D) (keyBytes : D → List Nat)
    (appendTo : List Nat) (row : List D) (cols : List Nat) (encodeNull : Bool)
    (hcols : ∀ c ∈ cols, c < row.length)
    (henc : ∀ c ∈ cols, ∀ d, row[c]? = some d →
      ∀ buf, env.Encode d buf = (buf ++ keyBytes d, none)) :
    (∃ enc hasNull,
      encodeColumnsOfRow env appendTo row cols encodeNull = .ret enc hasNull none ∧
      (encodeNull = true → hasNull = false) ∧
      (hasNull = false → enc = appendTo ++ cols.flatMap (colBytes keyBytes row))) ∧
    encodeColumnsOfRow env appendTo row [] encodeNull = .ret appendTo false none :=
  ⟨encode_appends env keyBytes row encodeNull cols hcols henc appendTo, rfl⟩

/-- The sample encoding appends `sampleKeyBytes` and never fails. -/
theorem sampleEncode_appends (d : Datum) (buf : List Nat) :
    sampleEncode d buf = (buf ++ sampleKeyBytes d, none) := by
  cases d <;> simp [sampleEncode, sampleKeyBytes]

/-- Witness of C11: the row `(NULL, 'x', 7)` and the columns `[2, 0, 1]`, with
`encodeNull` set, from the buffer `[9]`. -/
theorem encodeColumnsOfRow_output_witness :
    (∃ enc hasNull,
      encodeColumnsOfRow (sampleEnv onTrue) [9] [Datum.null, tx, Datum.int 7] [2, 0, 1] true
        = .ret enc hasNull none ∧
      (true = true → hasNull = false) ∧
      (hasNull = false → enc = [9] ++
        [2, 0, 1].flatMap (colBytes sampleKeyBytes [Datum.null, tx, Datum.int 7]))) ∧
    encodeColumnsOfRow (sampleEnv onTrue) [9] [Datum.null, tx, Datum.int 7] [] true
      = .ret [9] false none :=
  encodeColumnsOfRow_output (sampleEnv onTrue) sampleKeyBytes [9] [Datum.null, tx, Datum.int 7]
    [2, 0, 1] true (by decide) (fun _ _ d _ buf => sampleEncode_appends d buf)

/-! ## Faithfulness of the key encoding -/

/-- Concatenation of a prefix-free injective code is injective on tuples of
the same length. -/
theorem concat_injective {D : Type} (keyBytes : D → List Nat) (P : D → Prop)
    (hpre : ∀ a b, P a → P b → keyBytes a <+: keyBytes b → a = b) :
    ∀ t1 t2 : List D, (∀ d ∈ t1, P d) → (∀ d ∈ t2, P d) → t1.length = t2.length →
      t1.flatMap keyBytes = t2.flatMap keyBytes → t1 = t2 := by
  intro t1
  induction t1 with
  | nil =>
    intro t2 _ _ hlen _
    cases t2 with
    | nil => rfl
    | cons _ _ => simp at hlen
  | cons a t1 ih =>
    intro t2 h1 h2 hlen heq
    cases t2 with
    | nil => simp at hlen
    | cons b t2 =>
      have ha : P a := h1 a (List.mem_cons_self _ _)
      have hb : P b := h2 b (List.mem_cons_self _ _)
      rw [List.flatMap_cons, List.flatMap_cons] at heq
      have hab : a = b := by
        rcases List.append_eq_append_iff.mp heq with ⟨x, hx, -⟩ | ⟨x, hx, -⟩
        · exact hpre a b ha hb ⟨x, hx.symm⟩
        · exact (hpre b a hb ha ⟨x, hx.symm⟩).symm
      subst hab
      have htl := List.append_cancel_left heq
      rw [ih t2 (fun d hd => h1 d (List.mem_cons_of_mem _ hd))
        (fun d hd => h2 d (List.mem_cons_of_mem _ hd)) (by simpa using hlen) htl]

/-- With every listed index in range, the selected tuple is a list of datums,
and the bytes of the listed columns are the concatenated encodings of these
datums. -/
theorem tupleOf_datums {D : Type} (keyBytes : D → List Nat) (row : List D) (cols : List Nat)
    (hcols : ∀ c ∈ cols, c < row.length) :
    tupleOf row cols = (cols.filterMap (fun c => row[c]?)).map some ∧
    cols.flatMap (colBytes keyBytes row) = (cols.filterMap (fun c => row[c]?)).flatMap keyBytes ∧
    (cols.filterMap (fun c => row[c]?)).length = cols.length := by
  induction cols with
  | nil => simp [tupleOf]
  | cons c rest ih =>
    have hc : c < row.length := hcols c (List.mem_cons_self _ _)
    have hd : row[c]? = some row[c] := List.getElem?_eq_getElem hc
    obtain ⟨i1, i2, i3⟩ := ih (fun c' hc' => hcols c' (List.mem_cons_of_mem _ hc'))
    unfold tupleOf at i1 ⊢
    refine ⟨?_, ?_, ?_⟩
    · rw [List.map_cons, List.filterMap_cons_some hd, List.map_cons, i1, hd]
    · rw [List.flatMap_cons, List.filterMap_cons_some hd, List.flatMap_cons, i2, colBytes, hd]
    · rw [List.filterMap_cons_some hd, List.length_cons, List.length_cons, i3]

/-- A tuple without NULL in the listed columns holds non-NULL datums only. -/
theorem datums_not_null {D : Type} (env : Env D) (row : List D) (cols : List Nat)
    (hn : hasNullB env cols row = false) :
    ∀ d ∈ cols.filterMap (fun c => row[c]?), env.IsNull d = false := by
  intro d hd
  obtain ⟨c, hc, hcd⟩ := List.mem_filterMap.mp hd
  unfold hasNullB at hn
  rw [List.any_eq_false] at hn
  have := hn c hc
  rw [hcd] at this
  simpa using this

/-- C12: when the datum encoding is deterministic (it appends the bytes
`keyBytes d`, a function of the datum), injective and self-delimiting on
non-NULL datums (no encoding is a proper prefix of another), then for two
tuples without NULL, selected by column lists of the same length,
`encodeColumnsOfRow` from an empty buffer returns bytewise-equal keys iff the
two tuples are equal column by column. -/
theorem key_encoding_faithful {D : Type} (env : Env D) (keyBytes : D → List Nat)
    (row1 row2 : List D) (cols1 cols2 : List Nat)
    (happ : ∀ d buf, env.Encode d buf = (buf ++ keyBytes d, none))
    (hinj : ∀ a b, env.IsNull a = false → env.IsNull b = false →
      keyBytes a = keyBytes b → a = b)
    (hpre : ∀ a b, env.IsNull a = false → env.IsNull b = false →
      keyBytes a <+: keyBytes b → keyBytes a = keyBytes b)
    (hlen : cols1.length = cols2.length)
    (hc1 : ∀ c ∈ cols1, c < row1.length) (hc2 : ∀ c ∈ cols2, c < row2.length)
    (hn1 : hasNullB env cols1 row1 = false) (hn2 : hasNullB env cols2 row2 = false) :
    ∃ e1 e2, encodeColumnsOfRow env [] row1 cols1 false = .ret e1 false none ∧
      encodeColumnsOfRow env [] row2 cols2 false = .ret e2 false none ∧
      (e1 = e2 ↔ tupleOf row1 cols1 = tupleOf row2 cols2) := by
  obtain ⟨e1, n1, r1, -, b1⟩ := encode_appends env keyBytes row1 false cols1 hc1
    (fun _ _ d _ buf => happ d buf) []
  obtain ⟨e2, n2, r2, -, b2⟩ := encode_appends env keyBytes row2 false cols2 hc2
    (fun _ _ d _ buf => happ d buf) []
  have hf1 : n1 = false := by
    cases n1 with
    | false => rfl
    | true =>
      have := ((encode_ret_hasNull env row1 cols1 [] e1 true r1).1.mp rfl)
      rw [← hasNullB_iff, hn1] at this
      cases this
  have hf2 : n2 = false := by
    cases n2 with
    | false => rfl
    | true =>
      have := ((encode_ret_hasNull env row2 cols2 [] e2 true r2).1.mp rfl)
      rw [← hasNullB_iff, hn2] at this
      cases this
  subst hf1
  subst hf2
  obtain ⟨t1, f1, l1⟩ := tupleOf_datums keyBytes row1 cols1 hc1
  obtain ⟨t2, f2, l2⟩ := tupleOf_datums keyBytes row2 cols2 hc2
  refine ⟨e1, e2, r1, r2, ?_⟩
  rw [b1 rfl, b2 rfl, List.nil_append, List.nil_append, f1, f2, t1, t2]
  constructor
  · intro h
    rw [concat_injective keyBytes (fun d => env.IsNull d = false)
      (fun a b ha hb hp => hinj a b ha hb (hpre a b ha hb hp)) _ _
      (datums_not_null env row1 cols1 hn1) (datums_not_null env row2 cols2 hn2)
      (by rw [l1, l2, hlen]) h]
  · intro h
    rw [List.map_injective_iff.mpr (Option.some_injective D) h]

/-- The sample encoding of a text is self-delimiting: the shifted bytes closed
by a zero are a prefix of another such list only if the texts are equal. -/
theorem sampleText_selfDelimiting (s t : List Nat)
    (h : s.map (· + 1) ++ [0] <+: t.map (· + 1) ++ [0]) : s = t := by
  induction s generalizing t with
  | nil =>
    cases t with
    | nil => rfl
    | cons b t =>
      obtain ⟨x, hx⟩ := h
      simp at hx
  | cons a s ih =>
    cases t with
    | nil =>
      obtain ⟨x, hx⟩ := h
      simp at hx
    | cons b t =>
      obtain ⟨x, hx⟩ := h
      simp only [List.map_cons, List.cons_append, List.cons.injEq, add_left_inj] at hx
      obtain ⟨hab, hx⟩ := hx
      rw [hab, ih t ⟨x, by simpa using hx⟩]

/-- The sample encoding is injective and self-delimiting on non-NULL datums. -/
theorem sampleKeyBytes_selfDelimiting (a b : Datum) (ha : (a == Datum.null) = false)
    (hb : (b == Datum.null) = false) (h : sampleKeyBytes a <+: sampleKeyBytes b) : a = b := by
  cases a with
  | null => simp at ha
  | int v =>
    cases b with
    | null => simp at hb
    | int w =>
      obtain ⟨x, hx⟩ := h
      simp [sampleKeyBytes, sampleEncode] at hx
      rw [hx.1]
    | text t =>
      obtain ⟨x, hx⟩ := h
      simp [sampleKeyBytes, sampleEncode] at hx
  | text s =>
    cases b with
    | null => simp at hb
    | int w =>
      obtain ⟨x, hx⟩ := h
      simp [sampleKeyBytes, sampleEncode] at hx
    | text t =>
      obtain ⟨x, hx⟩ := h
      simp only [sampleKeyBytes, sampleEncode, List.nil_append, List.cons_append,
        List.cons.injEq, true_and] at hx
      rw [sampleText_selfDelimiting s t ⟨x, by simpa using hx⟩]

/-- Witness of C12: the tuples `(1, 'x')` of the rows `(1, 'x')` and
`('x', 7, 1)` under the column lists `[0, 1]` and `[2, 0]`. -/
theorem key_encoding_faithful_witness :
    ∃ e1 e2, encodeColumnsOfRow (sampleEnv onTrue) [] [Datum.int 1, tx] [0, 1] false
        = .ret e1 false none ∧
      encodeColumnsOfRow (sampleEnv onTrue) [] [tx, Datum.int 7, Datum.int 1] [2, 0] false
        = .ret e2 false none ∧
      (e1 = e2 ↔ tupleOf [Datum.int 1, tx] [0, 1] = tupleOf [tx, Datum.int 7, Datum.int 1] [2, 0]) :=
  key_encoding_faithful (sampleEnv onTrue) sampleKeyBytes [Datum.int 1, tx]
    [tx, Datum.int 7, Datum.int 1] [0, 1] [2, 0] sampleEncode_appends
    (fun a b ha hb h => sampleKeyBytes_selfDelimiting a b ha hb (h ▸ List.prefix_refl _))
    (fun a b ha hb h => by rw [sampleKeyBytes_selfDelimiting a b ha hb h])
    rfl (by decide) (by decide) rfl rfl

/-! ## Zero equality columns -/

/-- Under an empty column list every row has the empty key, so the positions
of the rows with key `k` are all positions when `k` is empty and none
otherwise. -/
theorem idxOfKey_nil_cols {D : Type} (env : Env D) (k : List Nat) (rows : List (List D)) :
    ∀ off, idxOfKey env [] k off rows = if k = [] then List.range' off rows.length else [] := by
  induction rows with
  | nil => intro off; simp [idxOfKey]
  | cons r rs ih =>
    intro off
    have hk : keyOf env [] r = some [] := rfl
    unfold idxOfKey
    rw [hk, ih (off + 1)]
    by_cases h : k = []
    · subst h
      simp [List.range'_succ]
    · rw [if_neg (by simpa using fun h' => h h'), if_neg h, if_neg h]

/-- A list without duplicates whose elements all equal `a` has at most one
element. -/
theorem length_le_one_of_nodup {α : Type} (a : α) (l : List α) (hnd : l.Nodup)
    (hall : ∀ x ∈ l, x = a) : l.length ≤ 1 := by
  cases l with
  | nil => simp
  | cons x l =>
    cases l with
    | nil => simp
    | cons y l =>
      exfalso
      have hx := hall x (List.mem_cons_self _ _)
      have hy := hall y (List.mem_cons_of_mem _ (List.mem_cons_self _ _))
      rw [List.nodup_cons] at hnd
      exact hnd.1 (by rw [hx, ← hy]; exact List.mem_cons_self _ _)

/-- The output of a quiet inner join is the nested-loop reference, in order. -/
theorem inner_out_quiet {D : Type} (env : Env D) (hq : Quiet env) (lc rc : List Nat)
    (L R : List (List D)) (hL : ColsInRange lc L) (hR : ColsInRange rc R)
    (h1 h2 hp h3 : hashJoiner D) (run : QuietRun env .innerJoin lc rc L R h1 h2 hp h3) :
    outRows h3.out = nestedLoopJoin env lc rc L R := by
  rw [run.out3, run.outP, run.out1]
  simp only [buildOut, JoinType.rightSide, Bool.false_eq_true, if_false]
  simp only [show (JoinType.innerJoin == JoinType.rightOuter
    || JoinType.innerJoin == JoinType.fullOuter) = false from rfl, Bool.false_eq_true,
    if_false, List.nil_append, List.flatMap_nil, List.append_nil]
  rw [outRows_flatMap]
  unfold nestedLoopJoin
  apply List.flatMap_congr
  intro l hl
  exact leftBlock_inner env hq lc rc R hR l (hL l hl)

/-- C13: with both equality column lists empty, every row encodes to the empty
key with `hasNull = false` (also a row holding NULLs); when nothing fails and
the consumer never declines, the build of any join type stores every right
row, the hash table has at most one bucket (exactly one when the right input
is not empty), its key is empty and it lists all right rows in arrival order;
and the inner join pushes, for each left row in order, `render(l, r)` for every
right row `r` in arrival order whose render result is non-nil. -/
theorem zero_equality_columns {D : Type} (env : Env D) (jt : JoinType) (L R : List (List D))
    (hq : Quiet env) :
    (∀ row : List D, encodeColumnsOfRow env [] row [] false = .ret [] false none) ∧
    (∃ h1, buildPhase env (newHashJoiner jt [] [] (rowsSource L) (rowsSource R))
        = (h1, .ret true none) ∧
      h1.rows = R ∧ h1.buckets.length ≤ 1 ∧ (R ≠ [] → h1.buckets.length = 1) ∧
      ∀ kb ∈ h1.buckets, kb.1 = [] ∧ kb.2.rows = List.range R.length) ∧
    (∃ h1 h3, buildPhase env (newHashJoiner .innerJoin [] [] (rowsSource L) (rowsSource R))
        = (h1, .ret true none) ∧
      probePhase env h1 = (h3, .ret false none) ∧
      (Run env (newHashJoiner .innerJoin [] [] (rowsSource L) (rowsSource R))).1.out = h3.out ∧
      outRows h3.out =
        L.flatMap (fun l => R.filterMap (fun r => (env.render (some l) (some r)).row))) := by
  have hL : ColsInRange [] L := fun _ _ c hc => by cases hc
  have hR : ColsInRange [] R := fun _ _ c hc => by cases hc
  have hst : stored env [] R = R := by simp [stored, hasNullB]
  refine ⟨fun _ => rfl, ?_, ?_⟩
  · obtain ⟨h1, h2, hp, h3, run⟩ := run_quiet env hq jt [] [] L R hL hR
    have hrows : h1.rows = R := by rw [run.rows1, hst]
    have hcols : h1.rightEqCols = [] :=
      (buildLoop_table env (rowsSource R) _ h1 true
        (TableInv_new env jt [] [] (rowsSource L) (rowsSource R)) run.build).2.1.2.2
    have hkey : ∀ kb ∈ h1.buckets, kb.1 = [] ∧ kb.2.rows = List.range R.length := by
      intro kb hkb
      have hg := mapGet_of_mem _ kb.1 kb.2 run.table1.nodup hkb
      obtain ⟨e1, e2⟩ := run.table1.rows_eq kb.1 kb.2 hg
      rw [hcols, idxOfKey_nil_cols, hrows] at e1
      by_cases hk : kb.1 = []
      · rw [if_pos hk] at e1
        exact ⟨hk, by rw [e1, List.range_eq_range']⟩
      · rw [if_neg hk] at e1
        exact absurd e1 e2
    refine ⟨h1, run.build, hrows, ?_, ?_, hkey⟩
    · have := length_le_one_of_nodup [] (h1.buckets.map Prod.fst) run.table1.nodup (by
        intro x hx
        obtain ⟨kb, hkb, rfl⟩ := List.mem_map.mp hx
        exact (hkey kb hkb).1)
      simpa using this
    · intro hne
      have hle := length_le_one_of_nodup [] (h1.buckets.map Prod.fst) run.table1.nodup (by
        intro x hx
        obtain ⟨kb, hkb, rfl⟩ := List.mem_map.mp hx
        exact (hkey kb hkb).1)
      rw [List.length_map] at hle
      have hpos : h1.buckets ≠ [] := by
        intro hnil
        have habs := run.table1.absent [] (by rw [hnil]; rfl)
        rw [hcols, idxOfKey_nil_cols, if_pos rfl, hrows] at habs
        cases R with
        | nil => exact hne rfl
        | cons r R => simp [List.range'_succ] at habs
      have := List.length_pos.mpr hpos
      omega
  · obtain ⟨h1, h2, hp, h3, run⟩ := run_quiet env hq .innerJoin [] [] L R hL hR
    have h21 : h2 = h1 := run.noAlloc rfl
    subst h21
    refine ⟨h2, h3, run.build, run.probe, ?_, ?_⟩
    · unfold Run
      rw [run.body]
    · rw [inner_out_quiet env hq [] [] L R hL hR _ _ _ _ run]
      unfold nestedLoopJoin
      apply List.flatMap_congr
      intro l _
      apply List.filterMap_congr
      intro r _
      simp [hasNullB, encodingOf, encodeColumnsOfRow]

/-- Witness of C13: no equality columns, ON `R.d = 'foo'`, a left input with a
NULL, `L = [(NULL,z),(1,x)]`, `R = [(1,foo),(1,bar)]`: one bucket `[0, 1]`
under the empty key, and the output `(NULL,z,1,foo),(1,x,1,foo)`. -/
theorem zero_equality_columns_witness :
    ((∀ row : List Datum,
        encodeColumnsOfRow (sampleEnv onFoo) [] row [] false = .ret [] false none) ∧
    (∃ h1, buildPhase (sampleEnv onFoo)
          (newHashJoiner .innerJoin [] [] (rowsSource seed2L) (rowsSource seed5R))
        = (h1, .ret true none) ∧
      h1.rows = seed5R ∧ h1.buckets.length ≤ 1 ∧ (seed5R ≠ [] → h1.buckets.length = 1) ∧
      ∀ kb ∈ h1.buckets, kb.1 = [] ∧ kb.2.rows = List.range seed5R.length) ∧
    (∃ h1 h3, buildPhase (sampleEnv onFoo)
          (newHashJoiner .innerJoin [] [] (rowsSource seed2L) (rowsSource seed5R))
        = (h1, .ret true none) ∧
      probePhase (sampleEnv onFoo) h1 = (h3, .ret false none) ∧
      (Run (sampleEnv onFoo)
        (newHashJoiner .innerJoin [] [] (rowsSource seed2L) (rowsSource seed5R))).1.out
          = h3.out ∧
      outRows h3.out = seed2L.flatMap (fun l => seed5R.filterMap
        (fun r => ((sampleEnv onFoo).render (some l) (some r)).row)))) ∧
    (buildPhase (sampleEnv onFoo)
      (newHashJoiner .innerJoin [] [] (rowsSource seed2L) (rowsSource seed5R))).1.buckets
        = [([], ⟨[0, 1], []⟩)] ∧
    outRows (Run (sampleEnv onFoo)
      (newHashJoiner .innerJoin [] [] (rowsSource seed2L) (rowsSource seed5R))).1.out
        = [[.null, tz, .int 1, tfoo], [.int 1, tx, .int 1, tfoo]] :=
  ⟨zero_equality_columns (sampleEnv onFoo) .innerJoin seed2L seed5R (sampleEnv_quiet onFoo),
    rfl, rfl⟩

/-! ## Empty left input -/

/-- A map over partial lookups that all succeed is a map over the values
found. -/
theorem flatMap_filterMap_some {α β γ : Type} (g : α → Option β) (f : Option β → List γ)
    (l : List α) (h : ∀ a ∈ l, ∃ b, g a = some b) :
    l.flatMap (fun a => f (g a)) = (l.filterMap g).flatMap (fun b => f (some b)) := by
  induction l with
  | nil => rfl
  | cons a l ih =>
    obtain ⟨b, hb⟩ := h a (List.mem_cons_self _ _)
    rw [List.flatMap_cons, List.filterMap_cons_some hb, List.flatMap_cons, hb,
      ih (fun a' ha' => h a' (List.mem_cons_of_mem _ ha'))]

/-- The rows of the rendering of a list of right rows with a nil left row. -/
theorem outRows_padRight {D : Type} (env : Env D) (xs : List (List D)) :
    outRows (xs.flatMap (fun r => emitted env none (some r))) =
      xs.filterMap (fun r => (env.render none (some r)).row) := by
  rw [outRows_flatMap, List.filterMap_eq_flatMap_toList]
  apply List.flatMap_congr
  intro r _
  exact outRows_emitted env none (some r)

/-- When a partial function is defined on a whole list, filtering by it loses
nothing. -/
theorem filterMap_map_some {α β : Type} (f : α → Option β) (l : List α)
    (h : ∀ a ∈ l, f a ≠ none) : (l.filterMap f).map some = l.map f := by
  induction l with
  | nil => rfl
  | cons a l ih =>
    have ih' := ih (fun a' ha' => h a' (List.mem_cons_of_mem _ ha'))
    cases hfa : f a with
    | none => exact absurd hfa (h a (List.mem_cons_self _ _))
    | some b => rw [List.filterMap_cons_some hfa, List.map_cons, List.map_cons, ih', hfa]

/-! ## Declines and errors, for every environment -/

theorem StopInv.cont {D : Type} {env : Env D} {ok : Err → Prop} {h' : hashJoiner D}
    (hc : Live env h') : StopInv env ok h' none :=
  ⟨Or.inl ⟨hc, by simp⟩, fun _ _ he => by cases he⟩

theorem StopInv.panicked {D : Type} {env : Env D} {ok : Err → Prop} {h' : hashJoiner D}
    (p : Panic) (hc : Live env h') : StopInv env ok h' (some (.panic p)) :=
  ⟨Or.inl ⟨hc, by simp⟩, fun _ _ he => by cases he⟩

theorem StopInv.failed {D : Type} {env : Env D} {ok : Err → Prop} {h' : hashJoiner D}
    (m : Bool) (e : Err) (hc : Live env h') (he : ok e) :
    StopInv env ok h' (some (.ret m (some e))) :=
  ⟨Or.inl ⟨hc, by simp⟩, fun _ _ h => by cases h; exact he⟩

theorem StopInv.ended {D : Type} {env : Env D} {ok : Err → Prop} {h' : hashJoiner D}
    (hc : Live env h') : StopInv env ok h' (some (.ret true none)) :=
  ⟨Or.inl ⟨hc, by simp⟩, fun _ _ h => by cases h⟩

theorem StopInv.declined {D : Type} {env : Env D} {ok : Err → Prop} {h' : hashJoiner D}
    (hd : Declined env h') : StopInv env ok h' (some (.ret false none)) :=
  ⟨Or.inr ⟨hd, rfl⟩, fun _ _ h => by cases h⟩

/-- A step that goes on has made no closing call. -/
theorem StopInv.open_of_none {D : Type} {env : Env D} {ok : Err → Prop} {h' : hashJoiner D}
    (hs : StopInv env ok h' none) : Live env h' := by
  rcases hs.1 with ⟨hc, -⟩ | ⟨-, hr⟩
  · exact hc
  · cases hr

theorem StopInv.mono {D : Type} {env : Env D} {ok ok' : Err → Prop} {h' : hashJoiner D}
    {res : Option PhaseResult} (hs : StopInv env ok h' res) (hi : ∀ e, ok e → ok' e) :
    StopInv env ok' h' res :=
  ⟨hs.1, fun m e he => hi e (hs.2 m e he)⟩

/-- One more accepted push keeps every push accepted. -/
theorem AllAccepted.snoc {D : Type} {env : Env D} {out : List (OutItem D)}
    (ha : AllAccepted env out) (item : OutItem D)
    (hm : env.consumerMore (out ++ [item]) = true) : AllAccepted env (out ++ [item]) := by
  intro k hk hle
  by_cases hlt : k ≤ out.length
  · rw [List.take_append_of_le_length hlt]
    exact ha k hk hlt
  · have hk' : (out ++ [item]).length ≤ k := by
      rw [List.length_append, List.length_singleton] at hle ⊢
      omega
    rw [List.take_of_length_le hk']
    exact hm

/-- A push the consumer accepts leaves the joiner live. -/
theorem emitHelper_true {D : Type} (env : Env D) (h h' : hashJoiner D) (item : OutItem D)
    (inputs : List Side) (he : emitHelper env h item inputs = (h', true)) (hc : Live env h) :
    Live env h' := by
  unfold emitHelper at he
  simp only at he
  split at he
  · rename_i hm
    cases he
    exact ⟨hc.1, hc.2.snoc item hm⟩
  · cases he

/-- What a declined push leaves: the item pushed last, the consumer not
needing more, and the one closing call of the helper. -/
theorem emitHelper_false {D : Type} (env : Env D) (h h' : hashJoiner D) (item : OutItem D)
    (inputs : List Side) (he : emitHelper env h item inputs = (h', false)) :
    h'.out = h.out ++ [item] ∧ env.consumerMore (h.out ++ [item]) = false ∧
    h'.closeLog = h.closeLog ++ [.emitStop inputs] ∧
    h'.leftSource = h.leftSource ∧ h'.rightSource = h.rightSource := by
  unfold emitHelper at he
  simp only at he
  split at he
  · cases he
  · rename_i hm
    cases he
    exact ⟨rfl, by simpa using hm, rfl, rfl, rfl⟩

theorem renderAndEmit_stop {D : Type} (env : Env D) (h : hashJoiner D)
    (lrow rrow : Option (List D)) (hc : Live env h) :
    EmitInv env (renderAndEmit env h lrow rrow) := by
  unfold renderAndEmit
  simp only [render]
  split
  · rename_i e he
    exact ⟨Or.inl ⟨hc, Or.inr (by simp)⟩,
      fun e' he' => by cases he'; exact Or.inr (Or.inl ⟨lrow, rrow, he⟩)⟩
  · split
    · rename_i row _
      rcases hem : emitHelper env { h with renderLog := h.renderLog ++ [(lrow, rrow)] }
        (.row row) [.left] with ⟨h2, b⟩
      cases b with
      | true =>
        exact ⟨Or.inl ⟨emitHelper_true env _ _ _ _ hem hc, Or.inl rfl⟩,
          fun _ he' => by cases he'⟩
      | false =>
        exact ⟨Or.inr ⟨⟨{ h with renderLog := h.renderLog ++ [(lrow, rrow)] }, _, _, hc, hem⟩,
          rfl, rfl⟩, fun _ he' => by cases he'⟩
    · exact ⟨Or.inl ⟨hc, Or.inl rfl⟩, fun _ he' => by cases he'⟩

/-- A return of a loop on what `renderAndEmit` reports. -/
theorem EmitInv.ret {D : Type} {env : Env D} {r : Emitted D} (hi : EmitInv env r) :
    StopInv env (EnvErr env) r.h (some (.ret r.moreRowsNeeded r.err)) := by
  obtain ⟨h, more, f, err⟩ := r
  obtain ⟨hcase, herr⟩ := hi
  simp only at hcase herr ⊢
  refine ⟨?_, fun m e he => herr e (by cases he; rfl)⟩
  rcases hcase with ⟨hc, hm | he⟩ | ⟨hd, hm, he⟩
  · exact Or.inl ⟨hc, by rw [hm]; simp⟩
  · refine Or.inl ⟨hc, ?_⟩
    intro heq
    cases heq
    exact he rfl
  · exact Or.inr ⟨hd, by rw [hm, he]⟩

/-- A loop that goes on after `renderAndEmit` has seen no closing call. -/
theorem EmitInv.open_of_more {D : Type} {env : Env D} {r : Emitted D} (hi : EmitInv env r)
    (hgo : ¬ (!r.moreRowsNeeded || r.err.isSome) = true) : Live env r.h := by
  rcases hi.1 with ⟨hc, -⟩ | ⟨-, hm, -⟩
  · exact hc
  · rw [hm] at hgo
    simp at hgo

theorem encode_err {D : Type} (env : Env D) (row : List D) (encodeNull : Bool)
    (cols : List Nat) :
    ∀ (appendTo enc : List Nat) (hn : Bool) (e : Err),
      encodeColumnsOfRow env appendTo row cols encodeNull = .ret enc hn (some e) →
      ∃ d buf, (env.Encode d buf).2 = some e := by
  induction cols with
  | nil =>
    intro appendTo enc hn e h
    simp [encodeColumnsOfRow] at h
  | cons c rest ih =>
    intro appendTo enc hn e h
    unfold encodeColumnsOfRow at h
    cases hd : row[c]? with
    | none => simp [hd] at h
    | some d =>
      simp only [hd] at h
      split at h
      · cases h
      · rcases he : env.Encode d appendTo with ⟨buf, _ | e'⟩
        · rw [he] at h
          exact ih buf enc hn e h
        · rw [he] at h
          cases h
          exact ⟨d, appendTo, by rw [he]⟩

theorem buildRow_stop {D : Type} (env : Env D) (h h' : hashJoiner D) (rrow : List D)
    (res : Option PhaseResult) (hb : buildRow env h rrow = (h', res)) (hc : Live env h) :
    StopInv env (EnvErr env) h' res := by
  unfold buildRow at hb
  rcases henc : encodeColumnsOfRow env [] rrow h.rightEqCols false with ⟨enc, hn, _ | e⟩ | _
  · rw [henc] at hb
    simp only at hb
    cases hn
    · simp only [Bool.false_eq_true, if_false] at hb
      cases hadd : env.AddRow h.rows rrow with
      | some e =>
        rw [hadd] at hb
        cases hb
        exact StopInv.failed false e hc (Or.inr (Or.inr (Or.inl ⟨_, _, hadd⟩)))
      | none =>
        rw [hadd] at hb
        simp only at hb
        split at hb
        · rename_i e hg
          cases hb
          exact StopInv.failed false e hc (Or.inr (Or.inr (Or.inr ⟨_, _, hg⟩)))
        · cases hb
          exact StopInv.cont hc
    · simp only [if_true] at hb
      split at hb
      · simp only [render] at hb
        split at hb
        · rename_i e he
          cases hb
          exact StopInv.failed false e hc (Or.inr (Or.inl ⟨_, _, he⟩))
        · split at hb
          · cases hb
            exact StopInv.cont hc
          · split at hb
            · rename_i heq
              cases hb
              exact StopInv.cont (emitHelper_true _ _ _ _ _ heq hc)
            · rename_i heq
              cases hb
              exact StopInv.declined
                ⟨{ h with renderLog := h.renderLog ++ [(none, some rrow)] }, _, _, hc, heq⟩
      · cases hb
        exact StopInv.cont hc
  · rw [henc] at hb
    cases hb
    exact StopInv.failed false e hc (Or.inl (encode_err env rrow false _ _ _ _ _ henc))
  · rw [henc] at hb
    cases hb
    exact StopInv.panicked _ hc

theorem buildItem_stop {D : Type} (env : Env D) (h h' : hashJoiner D)
    (item : Option (List D) × ProducerMetadata) (res : Option PhaseResult)
    (hb : buildItem env h item = (h', res)) (hc : Live env h) :
    StopInv env (ErrFrom env [item]) h' res ∧ h'.leftSource = h.leftSource := by
  obtain ⟨rrow, meta⟩ := item
  unfold buildItem at hb
  simp only at hb
  cases hE : meta.Empty with
  | false =>
    simp only [hE, Bool.not_false, if_true] at hb
    cases hme : meta.Err with
    | some e =>
      rw [hme] at hb
      cases hb
      exact ⟨StopInv.failed true e hc (Or.inl ⟨_, List.mem_singleton.mpr rfl, hme⟩), rfl⟩
    | none =>
      rw [hme] at hb
      simp only at hb
      rcases hem : emitHelper env h (.meta meta) [.left, .right] with ⟨h2, b⟩
      rw [hem] at hb
      cases b with
      | true =>
        cases hb
        have hl := (emitHelper_frame env h (.meta meta) [.left, .right]).2.2.2.2.1
        rw [hem] at hl
        exact ⟨StopInv.cont (emitHelper_true _ _ _ _ _ hem hc), hl⟩
      | false =>
        cases hb
        exact ⟨StopInv.declined ⟨h, _, _, hc, hem⟩, (emitHelper_false _ _ _ _ _ hem).2.2.2.1⟩
  | true =>
    simp only [hE, Bool.not_true, Bool.false_eq_true, if_false] at hb
    cases rrow with
    | none =>
      cases hb
      exact ⟨StopInv.ended hc, rfl⟩
    | some rrow =>
      simp only at hb
      exact ⟨(buildRow_stop env h h' rrow res hb hc).mono (fun e he => Or.inr he),
        (buildRow_inv env h h' rrow res hb).2.1.2⟩

theorem buildLoop_stop {D : Type} (env : Env D) :
    ∀ (src : List (Option (List D) × ProducerMetadata)) (h h' : hashJoiner D)
      (res : PhaseResult), buildLoop env h src = (h', res) → Live env h →
      StopInv env (ErrFrom env src) h' (some res) ∧ h'.leftSource = h.leftSource := by
  intro src
  induction src with
  | nil =>
    intro h h' res hb hc
    rw [buildLoop] at hb
    cases hb
    exact ⟨StopInv.ended hc, rfl⟩
  | cons item rest ih =>
    intro h h' res hb hc
    rw [buildLoop] at hb
    rcases hi : buildItem env { h with rightSource := rest } item with ⟨h2, r2⟩
    obtain ⟨hs, hl⟩ := buildItem_stop env _ h2 item r2 hi hc
    rw [hi] at hb
    cases r2 with
    | some r =>
      cases hb
      refine ⟨hs.mono ?_, hl⟩
      rintro e (⟨it, hit, he⟩ | he)
      · exact Or.inl ⟨it, List.mem_cons.mpr (Or.inl (List.mem_singleton.mp hit)), he⟩
      · exact Or.inr he
    | none =>
      obtain ⟨hs', hl'⟩ := ih h2 h' res hb hs.open_of_none
      refine ⟨hs'.mono ?_, hl'.trans hl⟩
      rintro e (⟨it, hit, he⟩ | he)
      · exact Or.inl ⟨it, List.mem_cons_of_mem _ hit, he⟩
      · exact Or.inr he

theorem probeBucket_stop {D : Type} (env : Env D) (lrow : List D) (key : List Nat) :
    ∀ (idxs : List Nat) (h : hashJoiner D) (b : bucket) (i : Nat), Live env h →
      StopInv env (EnvErr env) (probeBucket env h lrow key b i idxs).1
        (probeBucket env h lrow key b i idxs).2 ∧
      (probeBucket env h lrow key b i idxs).1.bucketsAcc = h.bucketsAcc := by
  intro idxs
  induction idxs with
  | nil =>
    intro h b i hc
    rw [probeBucket]
    exact ⟨StopInv.cont hc, rfl⟩
  | cons idx rest ih =>
    intro h b i hc
    rw [probeBucket]
    cases hget : h.rows[idx]? with
    | none => exact ⟨StopInv.panicked _ hc, rfl⟩
    | some rrow =>
      simp only
      have hinv := renderAndEmit_stop env h (some lrow) (some rrow) hc
      have hacc := (renderAndEmit_frame env h (some lrow) (some rrow)).2.2.2.2.2
      split
      · exact ⟨hinv.ret, hacc⟩
      · rename_i hgo
        have hcl := hinv.open_of_more hgo
        split
        · split
          · obtain ⟨a, c⟩ := ih { (renderAndEmit env h (some lrow) (some rrow)).h with
              buckets := mapSet (renderAndEmit env h (some lrow) (some rrow)).h.buckets key
                { b with seen := b.seen.set i true } } { b with seen := b.seen.set i true }
              (i + 1) hcl
            exact ⟨a, c.trans hacc⟩
          · exact ⟨StopInv.panicked _ hcl, hacc⟩
        · obtain ⟨a, c⟩ := ih (renderAndEmit env h (some lrow) (some rrow)).h b (i + 1) hcl
          exact ⟨a, c.trans hacc⟩

theorem probeRow_stop {D : Type} (env : Env D) (h : hashJoiner D) (lrow : List D)
    (hc : Live env h) :
    StopInv env (EnvErr env) (probeRow env h lrow).1 (probeRow env h lrow).2 ∧
    (probeRow env h lrow).1.bucketsAcc = h.bucketsAcc := by
  have hinv := renderAndEmit_stop env h (some lrow) none hc
  have hacc := (renderAndEmit_frame env h (some lrow) none).2.2.2.2.2
  unfold probeRow
  split
  · exact ⟨StopInv.panicked _ hc, rfl⟩
  · rename_i e henc
    exact ⟨StopInv.failed true e hc (Or.inl (encode_err env lrow false _ _ _ _ _ henc)), rfl⟩
  · split
    · split
      · simp only
        split
        · exact ⟨hinv.ret, hacc⟩
        · rename_i hgo
          exact ⟨StopInv.cont (hinv.open_of_more hgo), hacc⟩
      · exact ⟨StopInv.cont hc, rfl⟩
    · split
      · exact probeBucket_stop env lrow _ _ h _ 0 hc
      · split
        · simp only
          split
          · exact ⟨hinv.ret, hacc⟩
          · rename_i hgo
            exact ⟨StopInv.cont (hinv.open_of_more hgo), hacc⟩
        · exact ⟨StopInv.cont hc, rfl⟩

theorem probeItem_stop {D : Type} (env : Env D) (h : hashJoiner D)
    (item : Option (List D) × ProducerMetadata) (hc : Live env h) :
    StopInv env (ErrFrom env [item]) (probeItem env h item).1 (probeItem env h item).2.result ∧
    (probeItem env h item).1.bucketsAcc = h.bucketsAcc := by
  unfold probeItem
  split
  · split
    · rename_i e hme
      exact ⟨StopInv.failed true e hc (Or.inl ⟨_, List.mem_singleton.mpr rfl, hme⟩), rfl⟩
    · simp only
      have hacc := (emitHelper_frame env h (.meta item.2) [.left, .right]).2.2.2.2.2.1
      rcases hem : emitHelper env h (.meta item.2) [.left, .right] with ⟨h2, b⟩
      rw [hem] at hacc
      cases b with
      | true => exact ⟨StopInv.cont (emitHelper_true _ _ _ _ _ hem hc), hacc⟩
      | false => exact ⟨StopInv.declined ⟨h, _, _, hc, hem⟩, hacc⟩
  · split
    · exact ⟨StopInv.cont hc, rfl⟩
    · rename_i lrow _
      obtain ⟨hs, ha⟩ := probeRow_stop env h lrow hc
      simp only
      split
      · rename_i res hres
        rw [hres] at hs
        exact ⟨hs.mono (fun e he => Or.inr he), ha⟩
      · rename_i hres
        rw [hres] at hs
        exact ⟨StopInv.cont hs.open_of_none, ha⟩

theorem probeLoop_stop {D : Type} (env : Env D) :
    ∀ (src : List (Option (List D) × ProducerMetadata)) (h : hashJoiner D), Live env h →
      StopInv env (ErrFrom env src) (probeLoop env h src).1 (probeLoop env h src).2 ∧
      (probeLoop env h src).1.bucketsAcc = h.bucketsAcc := by
  intro src
  induction src with
  | nil =>
    intro h hc
    rw [probeLoop]
    exact ⟨StopInv.cont hc, rfl⟩
  | cons item rest ih =>
    intro h hc
    rw [probeLoop]
    obtain ⟨hs, ha⟩ := probeItem_stop env { h with leftSource := rest } item hc
    have hmono : ∀ e, ErrFrom env [item] e → ErrFrom env (item :: rest) e := by
      rintro e (⟨it, hit, he⟩ | he)
      · exact Or.inl ⟨it, List.mem_cons.mpr (Or.inl (List.mem_singleton.mp hit)), he⟩
      · exact Or.inr he
    split
    · rename_i res hres
      rw [hres] at hs
      exact ⟨hs.mono hmono, ha⟩
    · rename_i hres
      rw [hres] at hs
      exact ⟨StopInv.cont hs.open_of_none, ha⟩
    · rename_i hres
      rw [hres] at hs
      obtain ⟨hs', ha'⟩ := ih (probeItem env { h with leftSource := rest } item).1
        hs.open_of_none
      refine ⟨hs'.mono ?_, ha'.trans ha⟩
      rintro e (⟨it, hit, he⟩ | he)
      · exact Or.inl ⟨it, List.mem_cons_of_mem _ hit, he⟩
      · exact Or.inr he

theorem sweepBucket_stop {D : Type} (env : Env D) (b : bucket) :
    ∀ (seens : List Bool) (h : hashJoiner D) (i : Nat), Live env h →
      StopInv env (EnvErr env) (sweepBucket env h b i seens).1 (sweepBucket env h b i seens).2 ∧
      (sweepBucket env h b i seens).1.bucketsAcc = h.bucketsAcc := by
  intro seens
  induction seens with
  | nil =>
    intro h i hc
    rw [sweepBucket]
    exact ⟨StopInv.cont hc, rfl⟩
  | cons seen rest ih =>
    intro h i hc
    rw [sweepBucket]
    split
    · split
      · exact ⟨StopInv.panicked _ hc, rfl⟩
      · split
        · exact ⟨StopInv.panicked _ hc, rfl⟩
        · rename_i rrow _
          have hinv := renderAndEmit_stop env h none (some rrow) hc
          have hacc := (renderAndEmit_frame env h none (some rrow)).2.2.2.2.2
          simp only
          split
          · exact ⟨hinv.ret, hacc⟩
          · rename_i hgo
            obtain ⟨a, c⟩ := ih (renderAndEmit env h none (some rrow)).h (i + 1)
              (hinv.open_of_more hgo)
            exact ⟨a, c.trans hacc⟩
    · exact ih h (i + 1) hc

theorem sweepLoop_stop {D : Type} (env : Env D) :
    ∀ (es : List (List Nat × bucket)) (h : hashJoiner D), Live env h →
      StopInv env (EnvErr env) (sweepLoop env h es).1 (sweepLoop env h es).2 ∧
      (sweepLoop env h es).1.bucketsAcc = h.bucketsAcc := by
  intro es
  induction es with
  | nil =>
    intro h hc
    rw [sweepLoop]
    exact ⟨StopInv.cont hc, rfl⟩
  | cons e rest ih =>
    intro h hc
    obtain ⟨k, b⟩ := e
    rw [sweepLoop]
    obtain ⟨hs, ha⟩ := sweepBucket_stop env b b.seen h 0 hc
    split
    · rename_i res hres
      rw [hres] at hs
      exact ⟨hs, ha⟩
    · rename_i hres
      rw [hres] at hs
      obtain ⟨hs', ha'⟩ := ih (sweepBucket env h b 0 b.seen).1 hs.open_of_none
      exact ⟨hs', ha'.trans ha⟩

theorem probeSweep_stop {D : Type} (env : Env D) (h : hashJoiner D) (hc : Live env h) :
    PhaseEnd env (EnvErr env) (probeSweep env h).1 (probeSweep env h).2 ∧
    (probeSweep env h).1.bucketsAcc = h.bucketsAcc := by
  unfold probeSweep
  split
  · obtain ⟨hs, ha⟩ := sweepLoop_stop env (env.rangeOrder 1 h.buckets) h hc
    simp only
    split
    · rename_i res hres
      rw [hres] at hs
      exact ⟨Or.inl hs, ha⟩
    · rename_i hres
      rw [hres] at hs
      exact ⟨Or.inr ⟨by simp [hs.open_of_none.1], hs.open_of_none.2, rfl⟩, ha⟩
  · exact ⟨Or.inr ⟨by simp [hc.1], hc.2, rfl⟩, rfl⟩

theorem probePhase_stop {D : Type} (env : Env D) (h : hashJoiner D) (hc : Live env h) :
    PhaseEnd env (ErrFrom env h.leftSource) (probePhase env h).1 (probePhase env h).2 ∧
    (probePhase env h).1.bucketsAcc = h.bucketsAcc := by
  unfold probePhase
  obtain ⟨hs, ha⟩ := probeLoop_stop env h.leftSource h hc
  simp only
  split
  · rename_i res hres
    rw [hres] at hs
    exact ⟨Or.inl hs, ha⟩
  · rename_i hres
    rw [hres] at hs
    obtain ⟨hp, ha'⟩ := probeSweep_stop env (probeLoop env h h.leftSource).1 hs.open_of_none
    refine ⟨?_, ha'.trans ha⟩
    rcases hp with hp | hp
    · exact Or.inl (hp.mono (fun e he => Or.inr he))
    · exact Or.inr hp

/-- What a declined emission leaves: the declined item is the last push, the
inputs are where they were, and the only closing call is the one of the
helper. -/
theorem Declined.facts {D : Type} {env : Env D} {hd : hashJoiner D} (h : Declined env hd) :
    ∃ (hpre : hashJoiner D) (item : OutItem D) (inputs : List Side),
      Live env hpre ∧ emitHelper env hpre item inputs = (hd, false) ∧
      hd.out = hpre.out ++ [item] ∧ env.consumerMore (hpre.out ++ [item]) = false ∧
      hd.leftSource = hpre.leftSource ∧ hd.rightSource = hpre.rightSource ∧
      hd.closeLog = [.emitStop inputs] := by
  obtain ⟨hpre, item, inputs, hl, hem⟩ := h
  obtain ⟨f1, f2, f3, f4, f5⟩ := emitHelper_false env hpre hd item inputs hem
  refine ⟨hpre, item, inputs, hl, hem, f1, f2, f4, f5, ?_⟩
  rw [f3, hl.1]
  rfl

/-- A new joiner is live. -/
theorem Live_new {D : Type} (env : Env D) (jt : JoinType) (lc rc : List Nat)
    (leftSource rightSource : List (Option (List D) × ProducerMetadata)) :
    Live env (newHashJoiner jt lc rc leftSource rightSource) :=
  ⟨rfl, fun k hk hle => by simp [newHashJoiner] at hle; omega⟩

/-- An error of the seen allocation is a refusal of `Grow`. -/
theorem allocSeen_err {D : Type} (env : Env D) :
    ∀ (es : List (List Nat × bucket)) (h : hashJoiner D) (e : Err),
      (allocSeen env h es).2 = some e → ∃ u n, env.Grow u n = some e := by
  intro es
  induction es with
  | nil => intro h e he; simp [allocSeen] at he
  | cons kb rest ih =>
    intro h e he
    obtain ⟨k, b⟩ := kb
    rw [allocSeen] at he
    simp only at he
    split at he
    · rename_i e' hg
      cases he
      exact ⟨_, _, hg⟩
    · exact ih _ e he

/-- The stage of `Run` between the phases keeps the joiner live and touches
neither the output nor the inputs. -/
theorem stage_live {D : Type} (env : Env D) (h1 h2 : hashJoiner D) (ea : Option Err)
    (hst : (if h1.joinType.rightSide then allocSeen env h1 (env.rangeOrder 0 h1.buckets)
      else (h1, none)) = (h2, ea)) (hl : Live env h1) :
    Live env h2 ∧ h2.out = h1.out ∧ h2.leftSource = h1.leftSource ∧
    h2.rightSource = h1.rightSource ∧ (∀ e, ea = some e → ∃ u n, env.Grow u n = some e) := by
  split at hst
  · obtain ⟨-, -, f3, -, f5, f6, f7⟩ := allocSeen_frame env (env.rangeOrder 0 h1.buckets) h1
    have herr := allocSeen_err env (env.rangeOrder 0 h1.buckets) h1
    rw [hst] at f3 f5 f6 f7 herr
    exact ⟨⟨f7.trans hl.1, by rw [f3]; exact hl.2⟩, f3, f5, f6, fun e he => herr e he⟩
  · cases hst
    exact ⟨hl, rfl, rfl, rfl, fun e he => by cases he⟩

/-! ## Memory accounting -/

/-- A store under a new key adds the bucket to the counts. -/
theorem mapSet_charge_new {D : Type} (env : Env D) (m : List (List Nat × bucket))
    (k : List Nat) (b : bucket) (hg : mapGet m k = none) :
    rowsIn (mapSet m k b) = rowsIn m + b.rows.length ∧
    keyCharge env (mapSet m k b) = keyCharge env m + (k.length + env.sizeOfBucket) := by
  induction m with
  | nil => simp [mapSet, rowsIn, keyCharge]
  | cons kb rest ih =>
    obtain ⟨k', b'⟩ := kb
    unfold mapGet at hg
    by_cases hk : k' = k
    · rw [if_pos hk] at hg
      cases hg
    · rw [if_neg hk] at hg
      obtain ⟨i1, i2⟩ := ih hg
      unfold mapSet
      rw [if_neg hk]
      unfold rowsIn at i1 ⊢
      unfold keyCharge at i2 ⊢
      simp only [List.map_cons, List.sum_cons]
      rw [i1, i2]
      exact ⟨by omega, by omega⟩

/-- A store under a key of the table replaces the bucket in the counts. -/
theorem mapSet_charge_old {D : Type} (env : Env D) (m : List (List Nat × bucket))
    (k : List Nat) (b b0 : bucket) (hg : mapGet m k = some b0) :
    rowsIn (mapSet m k b) + b0.rows.length = rowsIn m + b.rows.length ∧
    keyCharge env (mapSet m k b) = keyCharge env m := by
  induction m with
  | nil => simp [mapGet] at hg
  | cons kb rest ih =>
    obtain ⟨k', b'⟩ := kb
    unfold mapGet at hg
    by_cases hk : k' = k
    · subst hk
      rw [if_pos rfl] at hg
      cases hg
      unfold mapSet
      rw [if_pos rfl]
      unfold rowsIn keyCharge
      simp only [List.map_cons, List.sum_cons]
      exact ⟨by omega, trivial⟩
    · rw [if_neg hk] at hg
      obtain ⟨i1, i2⟩ := ih hg
      unfold mapSet
      rw [if_neg hk]
      unfold rowsIn at i1 ⊢
      unfold keyCharge at i2 ⊢
      simp only [List.map_cons, List.sum_cons]
      rw [i2]
      exact ⟨by omega, rfl⟩

/-- What one iteration of the build loop on a row does to the account: nothing,
with the table unchanged, or the insertion of the row with its charge. -/
theorem buildRow_acc {D : Type} (env : Env D) (h h' : hashJoiner D) (rrow : List D)
    (res : Option PhaseResult) (hb : buildRow env h rrow = (h', res)) :
    (h'.bucketsAcc = h.bucketsAcc ∧ h'.buckets = h.buckets) ∨
    (∃ enc, encodeColumnsOfRow env [] rrow h.rightEqCols false = .ret enc false none ∧
      h'.bucketsAcc = h.bucketsAcc + (match mapGet h.buckets enc with
        | some _ => env.sizeOfRowIdx
        | none => env.sizeOfRowIdx + enc.length + env.sizeOfBucket) ∧
      h'.buckets = mapSet h.buckets enc
        ⟨((mapGet h.buckets enc).getD ⟨[], []⟩).rows ++ [h.rows.length],
         ((mapGet h.buckets enc).getD ⟨[], []⟩).seen⟩) := by
  unfold buildRow at hb
  rcases henc : encodeColumnsOfRow env [] rrow h.rightEqCols false with ⟨enc, hn, _ | e⟩ | _
  · rw [henc] at hb
    simp only at hb
    cases hn
    · simp only [Bool.false_eq_true, if_false] at hb
      cases hadd : env.AddRow h.rows rrow with
      | some e =>
        rw [hadd] at hb
        cases hb
        exact Or.inl ⟨rfl, rfl⟩
      | none =>
        rw [hadd] at hb
        simp only at hb
        split at hb
        · cases hb
          exact Or.inl ⟨rfl, rfl⟩
        · cases hb
          exact Or.inr ⟨enc, rfl, rfl, rfl⟩
    · simp only [if_true] at hb
      split at hb
      · simp only [render] at hb
        split at hb
        · cases hb
          exact Or.inl ⟨rfl, rfl⟩
        · split at hb
          · cases hb
            exact Or.inl ⟨rfl, rfl⟩
          · rename_i row _
            obtain ⟨-, f2, -, -, -, f6, -⟩ := emitHelper_frame env
              { h with renderLog := h.renderLog ++ [(none, some rrow)] } (.row row)
              [.left, .right]
            split at hb
            · rename_i heq
              rw [heq] at f2 f6
              cases hb
              exact Or.inl ⟨f6, f2⟩
            · rename_i heq
              rw [heq] at f2 f6
              cases hb
              exact Or.inl ⟨f6, f2⟩
      · cases hb
        exact Or.inl ⟨rfl, rfl⟩
  · rw [henc] at hb
    cases hb
    exact Or.inl ⟨rfl, rfl⟩
  · rw [henc] at hb
    cases hb
    exact Or.inl ⟨rfl, rfl⟩

/-- An iteration of the build loop on a row never lowers the account and
keeps it equal to the charge of the table. -/
theorem buildRow_charge {D : Type} (env : Env D) (h h' : hashJoiner D) (rrow : List D)
    (res : Option PhaseResult) (hb : buildRow env h rrow = (h', res)) :
    h.bucketsAcc ≤ h'.bucketsAcc ∧ (AccInv env h → AccInv env h') := by
  rcases buildRow_acc env h h' rrow res hb with ⟨ha, hbk⟩ | ⟨enc, -, ha, hbk⟩
  · refine ⟨by rw [ha], fun hi => ?_⟩
    unfold AccInv at hi ⊢
    rw [ha, hbk, hi]
  · refine ⟨by rw [ha]; exact Nat.le_add_right _ _, fun hi => ?_⟩
    unfold AccInv at hi ⊢
    cases hg : mapGet h.buckets enc with
    | none =>
      rw [hg] at ha hbk
      simp only [Option.getD_none, List.nil_append] at ha hbk
      obtain ⟨c1, c2⟩ := mapSet_charge_new env h.buckets enc ⟨[h.rows.length], []⟩ hg
      simp only [List.length_singleton] at c1
      rw [ha, hbk, c1, c2, hi, Nat.add_mul]
      ring
    | some b0 =>
      rw [hg] at ha hbk
      simp only [Option.getD_some] at ha hbk
      obtain ⟨c1, c2⟩ := mapSet_charge_old env h.buckets enc
        ⟨b0.rows ++ [h.rows.length], b0.seen⟩ b0 hg
      simp only [List.length_append, List.length_singleton] at c1
      have hrows : rowsIn (mapSet h.buckets enc ⟨b0.rows ++ [h.rows.length], b0.seen⟩)
          = rowsIn h.buckets + 1 := by omega
      rw [ha, hbk, c2, hrows, hi, Nat.add_mul]
      omega

theorem buildItem_charge {D : Type} (env : Env D) (h : hashJoiner D)
    (item : Option (List D) × ProducerMetadata) :
    h.bucketsAcc ≤ (buildItem env h item).1.bucketsAcc ∧
    (AccInv env h → AccInv env (buildItem env h item).1) := by
  unfold buildItem
  split
  · split
    · exact ⟨Nat.le_refl _, id⟩
    · obtain ⟨-, f2, -, -, -, f6, -⟩ := emitHelper_frame env h (.meta item.2) [.left, .right]
      simp only
      split
      all_goals
        refine ⟨by rw [f6], fun hi => ?_⟩
        unfold AccInv at hi ⊢
        rw [f6, f2, hi]
  · split
    · exact ⟨Nat.le_refl _, id⟩
    · rename_i rrow _
      exact buildRow_charge env h _ rrow _ rfl

theorem buildLoop_charge {D : Type} (env : Env D) :
    ∀ (src : List (Option (List D) × ProducerMetadata)) (h : hashJoiner D),
      h.bucketsAcc ≤ (buildLoop env h src).1.bucketsAcc ∧
      (AccInv env h → AccInv env (buildLoop env h src).1) := by
  intro src
  induction src with
  | nil =>
    intro h
    rw [buildLoop]
    exact ⟨Nat.le_refl _, id⟩
  | cons item rest ih =>
    intro h
    rw [buildLoop]
    obtain ⟨a, b⟩ := buildItem_charge env { h with rightSource := rest } item
    split
    · exact ⟨a, b⟩
    · obtain ⟨a', b'⟩ := ih (buildItem env { h with rightSource := rest } item).1
      exact ⟨Nat.le_trans a a', fun hi => b' (b hi)⟩

/-- A seen allocation in which every `Grow` succeeds charges the account for
every entry the `range` visits. -/
theorem allocSeen_acc {D : Type} (env : Env D) :
    ∀ (es : List (List Nat × bucket)) (h h' : hashJoiner D),
      allocSeen env h es = (h', none) → h'.bucketsAcc = h.bucketsAcc + seenCharge env es := by
  intro es
  induction es with
  | nil =>
    intro h h' ha
    rw [allocSeen] at ha
    cases ha
    simp [seenCharge]
  | cons kb rest ih =>
    intro h h' ha
    obtain ⟨k, b⟩ := kb
    rw [allocSeen] at ha
    simp only at ha
    split at ha
    · cases ha
    · rw [ih _ h' ha]
      unfold seenCharge
      simp only [List.map_cons, List.sum_cons]
      omega

/-- Under the table invariant the buckets hold as many row indices as the
container holds rows. -/
theorem rowsIn_eq_length {D : Type} {env : Env D} {h : hashJoiner D} (hinv : TableInv env h) :
    rowsIn h.buckets = h.rows.length := by
  have := (buckets_perm_range hinv).length_eq
  rw [List.length_flatMap, List.length_range] at this
  exact this

/-- C17: memory accounting. No iteration of the build loop lowers the amount
charged to `bucketsAcc`; a right row with a NULL in an equality column charges
nothing and leaves the table as it is; when `buildPhase` returns, the keys of
the table are distinct and the amount charged is `sizeOfRowIdx` for every row
inserted plus, for every key, its length and `sizeOfBucket`, the rows inserted
being all stored rows when the build ends without error. After such a build
the seen allocation of a right or full outer join, when no `Grow` is refused,
charges `sizeOfBoolSlice + len(bucket.rows) * sizeOfBool` more for every
bucket; for inner and left outer joins nothing is charged between the phases;
and `probePhase` charges nothing, so this is the amount charged when the body
of `Run` ends. -/
theorem memory_accounting {D : Type} (env : Env D) (jt : JoinType)
    (leftEqCols rightEqCols : List Nat)
    (leftSource rightSource : List (Option (List D) × ProducerMetadata)) :
    (∀ (h : hashJoiner D) (item : Option (List D) × ProducerMetadata),
      h.bucketsAcc ≤ (buildItem env h item).1.bucketsAcc) ∧
    (∀ (h : hashJoiner D) (rrow : List D) (enc : List Nat),
      encodeColumnsOfRow env [] rrow h.rightEqCols false = .ret enc true none →
      (buildRow env h rrow).1.bucketsAcc = h.bucketsAcc ∧
      (buildRow env h rrow).1.buckets = h.buckets) ∧
    (∀ (h1 : hashJoiner D) (r1 : PhaseResult),
      buildPhase env (newHashJoiner jt leftEqCols rightEqCols leftSource rightSource)
        = (h1, r1) →
      (h1.buckets.map Prod.fst).Nodup ∧
      h1.bucketsAcc = rowsIn h1.buckets * env.sizeOfRowIdx + keyCharge env h1.buckets ∧
      (r1 = .ret true none → rowsIn h1.buckets = h1.rows.length)) ∧
    (∀ (h1 h2 : hashJoiner D),
      buildPhase env (newHashJoiner jt leftEqCols rightEqCols leftSource rightSource)
        = (h1, .ret true none) →
      (if h1.joinType.rightSide then allocSeen env h1 (env.rangeOrder 0 h1.buckets)
        else (h1, none)) = (h2, none) →
      h1.joinType = jt ∧
      (jt.rightSide = true → h2.bucketsAcc = h1.bucketsAcc + seenCharge env h1.buckets) ∧
      (jt.rightSide = false → h2.bucketsAcc = h1.bucketsAcc) ∧
      (probePhase env h2).1.bucketsAcc = h2.bucketsAcc ∧
      (runBody env (newHashJoiner jt leftEqCols rightEqCols leftSource
        rightSource)).1.bucketsAcc = h2.bucketsAcc) := by
  have hl0 := Live_new env jt leftEqCols rightEqCols leftSource rightSource
  have hwf := buildLoop_wf env rightSource
    (newHashJoiner jt leftEqCols rightEqCols leftSource rightSource)
    (fun kb hkb => by cases hkb) (fun kb hkb => by cases hkb) List.nodup_nil
  refine ⟨fun h item => (buildItem_charge env h item).1, ?_, ?_, ?_⟩
  · intro h rrow enc henc
    rcases buildRow_acc env h _ rrow _ rfl with hsame | ⟨enc', henc', -⟩
    · exact hsame
    · rw [henc] at henc'
      cases henc'
  · intro h1 r1 hb
    have hacc := (buildLoop_charge env rightSource
      (newHashJoiner jt leftEqCols rightEqCols leftSource rightSource)).2
      (by simp [AccInv, newHashJoiner, rowsIn, keyCharge])
    unfold buildPhase at hb
    simp only [newHashJoiner] at hb hwf hacc
    rw [hb] at hwf hacc
    refine ⟨hwf.2.2.2.1, hacc, ?_⟩
    intro hr
    subst hr
    exact rowsIn_eq_length (buildLoop_table env rightSource _ h1 true
      (TableInv_new env jt leftEqCols rightEqCols leftSource rightSource) hb).1
  · intro h1 h2 hb hst
    have hj : h1.joinType = jt := by
      have := hwf.2.2.2.2
      unfold buildPhase at hb
      simp only [newHashJoiner] at hb this
      rw [hb] at this
      exact this
    have hl1 : Live env h1 := by
      rcases (buildLoop_stop env _ _ h1 _ hb hl0).1.1 with ⟨hl, -⟩ | ⟨-, hr⟩
      · exact hl
      · cases hr
    have hl2 := (stage_live env h1 h2 none hst hl1).1
    have hprobe := (probePhase_stop env h2 hl2).2
    refine ⟨hj, ?_, ?_, hprobe, ?_⟩
    · intro hrs
      rw [hj, if_pos hrs] at hst
      rw [allocSeen_acc env _ h1 h2 hst]
      unfold seenCharge
      rw [((env.rangeOrder_perm 0 h1.buckets).map _).sum_eq]
    · intro hrs
      rw [hj, hrs] at hst
      simp only [Bool.false_eq_true, if_false, Prod.mk.injEq] at hst
      rw [← hst.1]
    · unfold runBody
      rw [hb]
      simp only
      unfold runProbe
      rw [hst]
      simp only
      rcases hp : probePhase env h2 with ⟨h3, r3⟩
      rw [hp] at hprobe
      cases r3 with
      | panic p => exact hprobe
      | ret m e =>
        simp only
        split <;> exact hprobe

/-- Witness of C17: seed scenario 1 under a right outer join. The build
inserts three rows under the two keys `[1, 1]` and `[1, 3]` and charges
`3 * 8 + 2 * (2 + 48) = 124` bytes; the seen allocation charges
`(24 + 2) + (24 + 1) = 51` bytes more. -/
theorem memory_accounting_witness :
    ((buildPhase (sampleEnv onTrue)
        (newHashJoiner .rightOuter [0] [0] (rowsSource seed1L) (rowsSource seed1R))).1.joinType
        = .rightOuter ∧
      (JoinType.rightOuter.rightSide = true →
        (allocSeen (sampleEnv onTrue) (buildPhase (sampleEnv onTrue)
            (newHashJoiner .rightOuter [0] [0] (rowsSource seed1L) (rowsSource seed1R))).1
          ((sampleEnv onTrue).rangeOrder 0 (buildPhase (sampleEnv onTrue)
            (newHashJoiner .rightOuter [0] [0] (rowsSource seed1L)
              (rowsSource seed1R))).1.buckets)).1.bucketsAcc =
        (buildPhase (sampleEnv onTrue)
          (newHashJoiner .rightOuter [0] [0] (rowsSource seed1L)
            (rowsSource seed1R))).1.bucketsAcc +
        seenCharge (sampleEnv onTrue) (buildPhase (sampleEnv onTrue)
          (newHashJoiner .rightOuter [0] [0] (rowsSource seed1L)
            (rowsSource seed1R))).1.buckets) ∧
      (JoinType.rightOuter.rightSide = false →
        (allocSeen (sampleEnv onTrue) (buildPhase (sampleEnv onTrue)
            (newHashJoiner .rightOuter [0] [0] (rowsSource seed1L) (rowsSource seed1R))).1
          ((sampleEnv onTrue).rangeOrder 0 (buildPhase (sampleEnv onTrue)
            (newHashJoiner .rightOuter [0] [0] (rowsSource seed1L)
              (rowsSource seed1R))).1.buckets)).1.bucketsAcc =
        (buildPhase (sampleEnv onTrue)
          (newHashJoiner .rightOuter [0] [0] (rowsSource seed1L)
            (rowsSource seed1R))).1.bucketsAcc) ∧
      (probePhase (sampleEnv onTrue) (allocSeen (sampleEnv onTrue) (buildPhase (sampleEnv onTrue)
            (newHashJoiner .rightOuter [0] [0] (rowsSource seed1L) (rowsSource seed1R))).1
          ((sampleEnv onTrue).rangeOrder 0 (buildPhase (sampleEnv onTrue)
            (newHashJoiner .rightOuter [0] [0] (rowsSource seed1L)
              (rowsSource seed1R))).1.buckets)).1).1.bucketsAcc =
        (allocSeen (sampleEnv onTrue) (buildPhase (sampleEnv onTrue)
            (newHashJoiner .rightOuter [0] [0] (rowsSource seed1L) (rowsSource seed1R))).1
          ((sampleEnv onTrue).rangeOrder 0 (buildPhase (sampleEnv onTrue)
            (newHashJoiner .rightOuter [0] [0] (rowsSource seed1L)
              (rowsSource seed1R))).1.buckets)).1.bucketsAcc ∧
      (runBody (sampleEnv onTrue) (newHashJoiner .rightOuter [0] [0] (rowsSource seed1L)
          (rowsSource seed1R))).1.bucketsAcc =
        (allocSeen (sampleEnv onTrue) (buildPhase (sampleEnv onTrue)
            (newHashJoiner .rightOuter [0] [0] (rowsSource seed1L) (rowsSource seed1R))).1
          ((sampleEnv onTrue).rangeOrder 0 (buildPhase (sampleEnv onTrue)
            (newHashJoiner .rightOuter [0] [0] (rowsSource seed1L)
              (rowsSource seed1R))).1.buckets)).1.bucketsAcc) ∧
    (buildPhase (sampleEnv onTrue)
      (newHashJoiner .rightOuter [0] [0] (rowsSource seed1L) (rowsSource seed1R))).1.bucketsAcc
        = 124 ∧
    (runBody (sampleEnv onTrue)
      (newHashJoiner .rightOuter [0] [0] (rowsSource seed1L) (rowsSource seed1R))).1.bucketsAcc
        = 175 :=
  ⟨(memory_accounting (sampleEnv onTrue) .rightOuter [0] [0] (rowsSource seed1L)
      (rowsSource seed1R)).2.2.2 _ _ rfl rfl, rfl, rfl⟩

/-! ## Quiet runs on sources that deliver metadata too -/

theorem taken_nil {D : Type} : taken ([] : List (Option (List D) × ProducerMetadata)) = [] := rfl

theorem taken_cons_end {D : Type} (item : Option (List D) × ProducerMetadata)
    (rest : List (Option (List D) × ProducerMetadata)) (he : isEnd item = true) :
    taken (item :: rest) = [] ∧ afterEnd (item :: rest) = rest ∧
      consumed (item :: rest) = [item] := by
  simp [taken, afterEnd, consumed, he]

theorem taken_cons_go {D : Type} (item : Option (List D) × ProducerMetadata)
    (rest : List (Option (List D) × ProducerMetadata)) (he : isEnd item = false) :
    taken (item :: rest) = item :: taken rest ∧ afterEnd (item :: rest) = afterEnd rest ∧
      consumed (item :: rest) = item :: consumed rest := by
  simp [taken, afterEnd, consumed, he]

/-- A source is what a loop that ran to its end pulled, followed by what it
left. -/
theorem consumed_append_afterEnd {D : Type} (src : List (Option (List D) × ProducerMetadata)) :
    consumed src ++ afterEnd src = src := by
  unfold consumed afterEnd taken
  rw [List.append_assoc, List.take_append_drop, List.takeWhile_append_dropWhile]

theorem pulledRows_append {D : Type} (a b : List (Option (List D) × ProducerMetadata)) :
    pulledRows (a ++ b) = pulledRows a ++ pulledRows b := by
  simp [pulledRows, List.filterMap_append]

/-- The end-of-input signal carries no row: the rows pulled are those before
it. -/
theorem pulledRows_consumed {D : Type} (src : List (Option (List D) × ProducerMetadata)) :
    pulledRows (consumed src) = pulledRows (taken src) := by
  induction src with
  | nil => rfl
  | cons item rest ih =>
    cases he : isEnd item with
    | true =>
      obtain ⟨t1, -, t3⟩ := taken_cons_end item rest he
      rw [t1, t3]
      obtain ⟨row, m⟩ := item
      simp only [isEnd, Bool.and_eq_true, Option.isNone_iff_eq_none] at he
      simp [pulledRows, he.1, he.2]
    | false =>
      obtain ⟨t1, -, t3⟩ := taken_cons_go item rest he
      rw [t1, t3]
      show pulledRows ([item] ++ consumed rest) = pulledRows ([item] ++ taken rest)
      rw [pulledRows_append, pulledRows_append, ih]

theorem buildPushes_cons {D : Type} (env : Env D) (jt : JoinType) (rc : List Nat)
    (item : Option (List D) × ProducerMetadata)
    (items : List (Option (List D) × ProducerMetadata)) :
    buildPushes env jt rc (item :: items) =
      (if item.2.Empty then buildOut env jt rc (pulledRows [item]) else [OutItem.meta item.2]) ++
        buildPushes env jt rc items := by
  simp [buildPushes, List.flatMap_cons]

theorem probePushes_cons {D : Type} (env : Env D) (jt : JoinType) (lc rc : List Nat)
    (S : List (List D)) (item : Option (List D) × ProducerMetadata)
    (items : List (Option (List D) × ProducerMetadata)) :
    probePushes env jt lc rc S (item :: items) =
      (if item.2.Empty then (pulledRows [item]).flatMap (leftBlock env jt lc rc S)
        else [OutItem.meta item.2]) ++ probePushes env jt lc rc S items := by
  simp [probePushes, List.flatMap_cons]

/-- On a source of rows only, the pushes of the build loop are those of
`buildOut`. -/
theorem buildPushes_rowsSource {D : Type} (env : Env D) (jt : JoinType) (rc : List Nat)
    (R : List (List D)) : buildPushes env jt rc (rowsSource R) = buildOut env jt rc R := by
  induction R with
  | nil => simp [buildPushes, rowsSource, buildOut]
  | cons r R ih =>
    show buildPushes env jt rc ((some r, ProducerMetadata.zero) :: rowsSource R) = _
    rw [buildPushes_cons, ih, buildOut_cons]
    simp [pulledRows, ProducerMetadata.zero, ProducerMetadata.Empty]

/-- The rows among the pushes of the main loop of the probe phase are the
rows of the blocks of the left rows, in order: metadata does not disturb
them. -/
theorem outRows_probePushes {D : Type} (env : Env D) (jt : JoinType) (lc rc : List Nat)
    (S : List (List D)) (items : List (Option (List D) × ProducerMetadata)) :
    outRows (probePushes env jt lc rc S items) =
      (pulledRows items).flatMap (fun l => outRows (leftBlock env jt lc rc S l)) := by
  induction items with
  | nil => rfl
  | cons item items ih =>
    rw [probePushes_cons, outRows_append, ih]
    show _ = (pulledRows ([item] ++ items)).flatMap _
    rw [pulledRows_append, List.flatMap_append]
    congr 1
    cases hE : item.2.Empty with
    | true => simp [outRows_flatMap]
    | false => simp [pulledRows, hE, outRows]

/-- In a quiet run the build loop pulls the right source up to its end, forwards
the metadata, and returns `(true, nil)`. -/
theorem buildLoop_quiet_src {D : Type} (env : Env D) (hq : Quiet env) :
    ∀ (src : List (Option (List D) × ProducerMetadata)) (h : hashJoiner D),
      NoErrMeta (taken src) → ColsInRange h.rightEqCols (pulledRows (taken src)) →
      (buildLoop env h src).2 = .ret true none ∧
      (buildLoop env h src).1.out
        = h.out ++ buildPushes env h.joinType h.rightEqCols (taken src) ∧
      (buildLoop env h src).1.renderLog
        = h.renderLog ++ buildLog env h.joinType h.rightEqCols (pulledRows (taken src)) ∧
      (buildLoop env h src).1.closeLog = h.closeLog ∧
      (buildLoop env h src).1.leftSource = h.leftSource ∧
      (buildLoop env h src).1.rightSource = afterEnd src := by
  intro src
  induction src with
  | nil =>
    intro h _ _
    simp [buildLoop, buildPushes, buildLog, taken, afterEnd, pulledRows]
  | cons item rest ih =>
    intro h hne hcols
    cases he : isEnd item with
    | true =>
      obtain ⟨t1, t2, -⟩ := taken_cons_end item rest he
      obtain ⟨row, m⟩ := item
      simp only [isEnd, Bool.and_eq_true, Option.isNone_iff_eq_none] at he
      obtain ⟨hE, hrow⟩ := he
      subst hrow
      rw [t1, t2, buildLoop]
      simp [buildItem, hE, buildPushes, buildLog, pulledRows]
    | false =>
      obtain ⟨t1, t2, -⟩ := taken_cons_go item rest he
      rw [t1] at hne hcols
      rw [t1, t2]
      obtain ⟨row, m⟩ := item
      cases hE : m.Empty with
      | true =>
        cases row with
        | none => simp [isEnd, hE] at he
        | some r =>
          have hpr : ∀ X : List (Option (List D) × ProducerMetadata),
              pulledRows ((some r, m) :: X) = r :: pulledRows X := by
            intro X
            simp [pulledRows, hE]
          rw [hpr] at hcols ⊢
          have hr : ∀ c ∈ h.rightEqCols, c < r.length := hcols r (List.mem_cons_self _ _)
          have hstep : buildItem env { h with rightSource := rest } (some r, m)
              = buildRow env { h with rightSource := rest } r := by
            simp [buildItem, hE]
          obtain ⟨q1, q2, q3, q4⟩ := buildRow_quiet env hq { h with rightSource := rest } r hr
          obtain ⟨c1, ⟨s1, s2⟩, -⟩ := buildRow_inv env { h with rightSource := rest }
            (buildRow env { h with rightSource := rest } r).1 r
            (buildRow env { h with rightSource := rest } r).2 rfl
          have hloop : buildLoop env h ((some r, m) :: rest)
              = buildLoop env (buildRow env { h with rightSource := rest } r).1 rest := by
            rw [buildLoop]
            simp only [hstep, q1]
          rw [hloop]
          obtain ⟨i1, i2, i3, i4, i5, i6⟩ := ih (buildRow env { h with rightSource := rest } r).1
            (fun it hit => hne it (List.mem_cons_of_mem _ hit))
            (by
              rw [c1.2.2]
              intro r' hr'
              exact hcols r' (List.mem_cons_of_mem _ hr'))
          refine ⟨i1, ?_, ?_, ?_, ?_, i6⟩
          · rw [i2, q2, c1.1, c1.2.2, List.append_assoc, buildPushes_cons]
            simp [hE, hpr, pulledRows]
          · rw [i3, q3, c1.1, c1.2.2, List.append_assoc, ← buildLog_cons]
          · rw [i4, q4]
          · rw [i5, s2]
      | false =>
        have herr : m.Err = none := hne (row, m) (List.mem_cons_self _ _)
        have hpr : ∀ X : List (Option (List D) × ProducerMetadata),
            pulledRows ((row, m) :: X) = pulledRows X := by
          intro X
          simp [pulledRows, hE]
        rw [hpr] at hcols ⊢
        have hloop : buildLoop env h ((row, m) :: rest)
            = buildLoop env { h with rightSource := rest, out := h.out ++ [.meta m] } rest := by
          rw [buildLoop]
          simp [buildItem, hE, herr, emitHelper, hq.more]
        rw [hloop]
        obtain ⟨i1, i2, i3, i4, i5, i6⟩ :=
          ih { h with rightSource := rest, out := h.out ++ [.meta m] }
            (fun it hit => hne it (List.mem_cons_of_mem _ hit)) hcols
        refine ⟨i1, ?_, i3, i4, i5, i6⟩
        rw [i2, buildPushes_cons]
        simp [hE]

/-- In a quiet run the main loop of the probe phase pulls the left source up to
its end, forwards the metadata, and leaves by `break`; its output is the
concatenation, in left order, of what each pair contributes. -/
theorem probeLoop_quiet_src {D : Type} (env : Env D) (hq : Quiet env) :
    ∀ (src : List (Option (List D) × ProducerMetadata)) (h : hashJoiner D)
      (ls : List (List D)), TableInv env h →
      (h.joinType.rightSide = true → SeenInv env ls h) → NoErrMeta (taken src) →
      ColsInRange h.leftEqCols (pulledRows (taken src)) →
      ∃ h', probeLoop env h src = (h', none) ∧
        h'.out = h.out ++
          probePushes env h.joinType h.leftEqCols h.rightEqCols h.rows (taken src) ∧
        h'.renderLog = h.renderLog ++ (pulledRows (taken src)).flatMap
          (leftCalls env h.joinType h.leftEqCols h.rightEqCols h.rows) ∧
        h'.rows = h.rows ∧ SameConfig h h' ∧ h'.leftSource = afterEnd src ∧
        h'.rightSource = h.rightSource ∧ h'.closeLog = h.closeLog ∧
        TableInv env h' ∧
        (h.joinType.rightSide = true → SeenInv env (ls ++ pulledRows (taken src)) h') ∧
        (h.joinType.rightSide = false → h'.buckets = h.buckets) := by
  intro src
  induction src with
  | nil =>
    intro h ls hinv hseen _ _
    refine ⟨{ h with leftSource := [] }, by simp [probeLoop],
      by simp [taken, probePushes], by simp [taken, pulledRows], rfl,
      ⟨rfl, rfl, rfl⟩, rfl, rfl, rfl, TableInv_congr env h _ rfl rfl rfl hinv, ?_, fun _ => rfl⟩
    intro hrs
    simpa [taken, pulledRows] using hseen hrs
  | cons item rest ih =>
    intro h ls hinv hseen hne hcols
    cases he : isEnd item with
    | true =>
      obtain ⟨t1, t2, -⟩ := taken_cons_end item rest he
      obtain ⟨row, m⟩ := item
      simp only [isEnd, Bool.and_eq_true, Option.isNone_iff_eq_none] at he
      obtain ⟨hE, hrow⟩ := he
      subst hrow
      rw [t1, t2]
      refine ⟨{ h with leftSource := rest }, ?_, by simp [probePushes], by simp [pulledRows], rfl,
        ⟨rfl, rfl, rfl⟩, rfl, rfl, rfl, TableInv_congr env h _ rfl rfl rfl hinv, ?_,
        fun _ => rfl⟩
      · rw [probeLoop]
        simp [probeItem, hE]
      · intro hrs
        simpa [pulledRows] using hseen hrs
    | false =>
      obtain ⟨t1, t2, -⟩ := taken_cons_go item rest he
      rw [t1] at hne hcols
      rw [t1, t2]
      obtain ⟨row, m⟩ := item
      cases hE : m.Empty with
      | true =>
        cases row with
        | none => simp [isEnd, hE] at he
        | some l =>
          have hpr : ∀ X : List (Option (List D) × ProducerMetadata),
              pulledRows ((some l, m) :: X) = l :: pulledRows X := by
            intro X
            simp [pulledRows, hE]
          rw [hpr] at hcols ⊢
          have hinv0 : TableInv env { h with leftSource := rest } :=
            TableInv_congr env h _ rfl rfl rfl hinv
          obtain ⟨h1, e1, e2, e3, e4, e5, e6, e7, e8, e9, e10, e11⟩ :=
            probeRow_quiet env hq { h with leftSource := rest } ls l hinv0 hseen
              (hcols l (List.mem_cons_self _ _))
          have e5' : SameConfig h h1 := e5
          obtain ⟨h2, i1, i2, i3, i4, i5, i6, i7, i8, i9, i10, i11⟩ := ih h1 (ls ++ [l]) e9
            (fun hrs => e10 (by rw [← e5'.1]; exact hrs))
            (fun it hit => hne it (List.mem_cons_of_mem _ hit))
            (by
              rw [e5'.2.1]
              intro r hr
              exact hcols r (List.mem_cons_of_mem _ hr))
          have hloop : probeLoop env h ((some l, m) :: rest) = (h2, none) := by
            rw [probeLoop]
            have hitem : probeItem env { h with leftSource := rest } (some l, m) = (h1, .next) := by
              simp [probeItem, hE, e1]
            simp only [hitem]
            exact i1
          refine ⟨h2, hloop, ?_, ?_, i4.trans e4, sameConfig_trans e5' i5, i6, i7.trans e7,
            i8.trans e8, i9, ?_, ?_⟩
          · rw [i2, e2, e5'.1, e5'.2.1, e5'.2.2, e4, probePushes_cons]
            simp [hE, pulledRows]
          · rw [i3, e3, e5'.1, e5'.2.1, e5'.2.2, e4]
            simp [List.flatMap_cons]
          · intro hrs
            have := i10 (by rw [e5'.1]; exact hrs)
            simpa using this
          · intro hrs
            rw [i11 (by rw [e5'.1]; exact hrs)]
            exact e11 hrs
      | false =>
        have herr : m.Err = none := hne (row, m) (List.mem_cons_self _ _)
        have hpr : ∀ X : List (Option (List D) × ProducerMetadata),
            pulledRows ((row, m) :: X) = pulledRows X := by
          intro X
          simp [pulledRows, hE]
        rw [hpr] at hcols ⊢
        obtain ⟨h2, i1, i2, i3, i4, i5, i6, i7, i8, i9, i10, i11⟩ :=
          ih { h with leftSource := rest, out := h.out ++ [.meta m] } ls
            (TableInv_congr env h _ rfl rfl rfl hinv) hseen
            (fun it hit => hne it (List.mem_cons_of_mem _ hit)) hcols
        have hloop : probeLoop env h ((row, m) :: rest) = (h2, none) := by
          rw [probeLoop]
          have hitem : probeItem env { h with leftSource := rest } (row, m)
              = ({ h with leftSource := rest, out := h.out ++ [.meta m] }, .next) := by
            simp [probeItem, hE, herr, emitHelper, hq.more]
          simp only [hitem]
          exact i1
        refine ⟨h2, hloop, ?_, i3, i4, i5, i6, i7, i8, i9, i10, i11⟩
        rw [i2, probePushes_cons]
        simp [hE]

/-- A quiet build over a right source without error: it returns `(true, nil)`,
stores the rows without a NULL equality column and leaves the table
invariant. -/
theorem build_quiet_src {D : Type} (env : Env D) (hq : Quiet env) (jt : JoinType)
    (lc rc : List Nat) (leftSource rightSource : List (Option (List D) × ProducerMetadata))
    (hne : NoErrMeta (taken rightSource))
    (hR : ColsInRange rc (pulledRows (taken rightSource))) :
    ∃ h1, buildPhase env (newHashJoiner jt lc rc leftSource rightSource)
        = (h1, .ret true none) ∧
      TableInv env h1 ∧ SeenNil h1 ∧ h1.rows = stored env rc (pulledRows (taken rightSource)) ∧
      h1.out = buildPushes env jt rc (taken rightSource) ∧
      h1.renderLog = buildLog env jt rc (pulledRows (taken rightSource)) ∧
      h1.joinType = jt ∧ h1.leftEqCols = lc ∧ h1.rightEqCols = rc ∧
      h1.leftSource = leftSource ∧ h1.closeLog = [] ∧ h1.rightSource = afterEnd rightSource := by
  obtain ⟨q1, q2, q3, q4, q5, q6⟩ :=
    buildLoop_quiet_src env hq rightSource (newHashJoiner jt lc rc leftSource rightSource) hne hR
  rcases hb : buildLoop env (newHashJoiner jt lc rc leftSource rightSource) rightSource
    with ⟨h1, r⟩
  rw [hb] at q1 q2 q3 q4 q5 q6
  simp only at q1 q2 q3 q4 q5 q6
  subst q1
  obtain ⟨t1, t2, pre, t3, t4⟩ := buildLoop_table env rightSource _ h1 true
    (TableInv_new env jt lc rc leftSource rightSource) hb
  have hpre : pre = consumed rightSource := by
    rw [q6] at t3
    have := (consumed_append_afterEnd rightSource).trans t3
    exact (List.append_cancel_right this).symm
  have hwf := buildLoop_wf env rightSource
    (newHashJoiner jt lc rc leftSource rightSource)
    (by intro kb hkb; simp [newHashJoiner] at hkb)
    (by intro kb hkb; simp [newHashJoiner] at hkb) (by simp [newHashJoiner])
  rw [hb] at hwf
  refine ⟨h1, hb, t1, hwf.2.1, ?_, ?_, ?_, t2.1, t2.2.1, t2.2.2, q5, q4, q6⟩
  · rw [t4, hpre, pulledRows_consumed]
    simp [newHashJoiner, stored]
  · simpa [newHashJoiner] using q2
  · simpa [newHashJoiner] using q3

/-- The probe phase of a quiet run over a left source without error: the probe
loop leaves by `break` in a state `hp`, then the unmatched sweep runs to its
end and the phase returns `(false, nil)`. -/
theorem probe_quiet_src {D : Type} (env : Env D) (hq : Quiet env) (h2 : hashJoiner D)
    (hinv : TableInv env h2)
    (hseen : h2.joinType.rightSide = true → SeenInv env [] h2)
    (hne : NoErrMeta (taken h2.leftSource))
    (hcols : ColsInRange h2.leftEqCols (pulledRows (taken h2.leftSource))) :
    ∃ hp h3, probeLoop env h2 h2.leftSource = (hp, none) ∧
      probePhase env h2 = (h3, .ret false none) ∧
      TableInv env hp ∧ hp.rows = h2.rows ∧ SameConfig h2 hp ∧
      (h2.joinType.rightSide = true → SeenInv env (pulledRows (taken h2.leftSource)) hp) ∧
      (h2.joinType.rightSide = false → hp.buckets = h2.buckets) ∧
      hp.out = h2.out ++
        probePushes env h2.joinType h2.leftEqCols h2.rightEqCols h2.rows (taken h2.leftSource) ∧
      hp.renderLog = h2.renderLog ++ (pulledRows (taken h2.leftSource)).flatMap
        (leftCalls env h2.joinType h2.leftEqCols h2.rightEqCols h2.rows) ∧
      h3.out = hp.out ++
        (if h2.joinType.rightSide then sweepIdxs (env.rangeOrder 1 hp.buckets) else []).flatMap
          (fun idx => emitted env none h2.rows[idx]?) ∧
      h3.renderLog = hp.renderLog ++
        (if h2.joinType.rightSide then sweepIdxs (env.rangeOrder 1 hp.buckets) else []).map
          (fun idx => (none, h2.rows[idx]?)) ∧
      h3.closeLog = h2.closeLog ++ [.outClose] ∧ h3.rows = h2.rows ∧
      h3.buckets = hp.buckets ∧ h3.leftSource = afterEnd h2.leftSource ∧
      h3.rightSource = h2.rightSource := by
  obtain ⟨hp, e1, e2, e3, e4, e5, e6, e7, e8, e9, e10, e11⟩ :=
    probeLoop_quiet_src env hq h2.leftSource h2 [] hinv hseen hne hcols
  have hpl : probeLoop env h2 h2.leftSource = (hp, none) := e1
  simp only [List.nil_append] at e10
  cases hrs : h2.joinType.rightSide with
  | false =>
    have hrsp : hp.joinType.rightSide = false := by rw [e5.1]; exact hrs
    refine ⟨hp, { hp with closeLog := hp.closeLog ++ [.outClose] }, e1, ?_, e9, e4, e5,
      (fun h => by cases h), (fun _ => e11 hrs), e2, e3, by simp, by simp, ?_, e4, rfl, e6, e7⟩
    · unfold probePhase
      rw [hpl]
      simp only [probeSweep, hrsp, Bool.false_eq_true, if_false]
    · simp [e8]
  | true =>
    have hrsp : hp.joinType.rightSide = true := by rw [e5.1]; exact hrs
    have hes : ∀ kb ∈ env.rangeOrder 1 hp.buckets,
        (∀ idx ∈ kb.2.rows, idx < hp.rows.length) ∧ kb.2.seen.length ≤ kb.2.rows.length := by
      intro kb hkb
      have hmem : kb ∈ hp.buckets := (env.rangeOrder_perm 1 hp.buckets).subset hkb
      have hg := mapGet_of_mem _ kb.1 kb.2 e9.nodup hmem
      refine ⟨e9.placement.1 kb.1 kb.2 hmem, ?_⟩
      rw [e10 hrs kb.1 kb.2 hg]
      simp
    have hsw := sweepLoop_quiet env hq (env.rangeOrder 1 hp.buckets) hp hes
    have hpp : ∃ h3, probePhase env h2 = (h3, .ret false none) ∧
        h3.out = hp.out ++ (sweepIdxs (env.rangeOrder 1 hp.buckets)).flatMap
          (fun idx => emitted env none hp.rows[idx]?) ∧
        h3.renderLog = hp.renderLog ++ (sweepIdxs (env.rangeOrder 1 hp.buckets)).map
          (fun idx => (none, hp.rows[idx]?)) ∧
        h3.closeLog = hp.closeLog ++ [.outClose] ∧ h3.rows = hp.rows ∧
        h3.buckets = hp.buckets ∧ h3.leftSource = hp.leftSource ∧
        h3.rightSource = hp.rightSource := by
      unfold probePhase
      rw [hpl]
      simp only [probeSweep, hrsp, if_true, hsw]
      exact ⟨_, rfl, rfl, rfl, rfl, rfl, rfl, rfl, rfl⟩
    obtain ⟨h3, p1, p2, p3, p4, p5, p6, p7, p8⟩ := hpp
    refine ⟨hp, h3, e1, p1, e9, e4, e5, (fun _ => e10 hrs), (fun h => by cases h), e2, e3,
      ?_, ?_, ?_, p5.trans e4, p6, p7.trans e6, p8.trans e7⟩
    · rw [p2, e4]; simp
    · rw [p3, e4]; simp
    · rw [p4, e8]

/-- A quiet run on two sources without error, with the equality columns in
range, goes through both phases without error, panic or early stop. -/
theorem run_quiet_src {D : Type} (env : Env D) (hq : Quiet env) (jt : JoinType)
    (lc rc : List Nat) (leftSource rightSource : List (Option (List D) × ProducerMetadata))
    (hnl : NoErrMeta (taken leftSource)) (hnr : NoErrMeta (taken rightSource))
    (hL : ColsInRange lc (pulledRows (taken leftSource)))
    (hR : ColsInRange rc (pulledRows (taken rightSource))) :
    ∃ h1 h2 hp h3, QuietRunOn env jt lc rc leftSource rightSource
      (pulledRows (taken leftSource)) (pulledRows (taken rightSource)) h1 h2 hp h3 := by
  obtain ⟨h1, b1, b2, b3, b4, b5, b6, b7, b8, b9, b10, b11, b12⟩ :=
    build_quiet_src env hq jt lc rc leftSource rightSource hnr hR
  have hstage : ∃ h2, (jt.rightSide = true →
        allocSeen env h1 (env.rangeOrder 0 h1.buckets) = (h2, none)) ∧
      (jt.rightSide = false → h2 = h1) ∧
      (if h1.joinType.rightSide = true then allocSeen env h1 (env.rangeOrder 0 h1.buckets)
        else (h1, none)) = (h2, none) ∧
      TableInv env h2 ∧ (h2.joinType.rightSide = true → SeenInv env [] h2) ∧
      h2.rows = h1.rows ∧ SameConfig h1 h2 ∧ h2.out = h1.out ∧ h2.renderLog = h1.renderLog ∧
      h2.leftSource = h1.leftSource ∧ h2.closeLog = h1.closeLog ∧
      h2.rightSource = h1.rightSource := by
    cases hrs : jt.rightSide with
    | true =>
      have hrs1 : h1.joinType.rightSide = true := by rw [b7]; exact hrs
      obtain ⟨h2, a1, a2, a3, a4, a5, a6, a7, a8, a9⟩ := alloc_quiet env hq h1 b2 hrs1
      have hfr := (allocSeen_frame env (env.rangeOrder 0 h1.buckets) h1).2.2.2.2.2.1
      rw [a1] at hfr
      exact ⟨h2, fun _ => a1, (fun h => by cases h), by rw [if_pos hrs1]; exact a1, a2,
        fun _ => a3, a4, a5, a6, a7, a8, a9, hfr⟩
    | false =>
      have hrs1 : h1.joinType.rightSide = false := by rw [b7]; exact hrs
      exact ⟨h1, (fun h => by cases h), fun _ => rfl, by simp [hrs1], b2,
        (fun h => by rw [hrs1] at h; cases h), rfl, ⟨rfl, rfl, rfl⟩, rfl, rfl, rfl, rfl, rfl⟩
  obtain ⟨h2, s1, s2, s3, s4, s5, s6, s7, s8, s9, s10, s11, s12⟩ := hstage
  have hsrc2 : h2.leftSource = leftSource := by rw [s10, b10]
  obtain ⟨hp, h3, p1, p2, p3, p4, p5, p6, p7, p8, p9, p10, p11, p12, p13, p14, p15, p16⟩ :=
    probe_quiet_src env hq h2 s4 s5 (by rw [hsrc2]; exact hnl)
      (by rw [hsrc2, s7.2.1, b8]; exact hL)
  rw [hsrc2] at p1 p6 p8 p9 p15
  have hjt2 : h2.joinType = jt := by rw [s7.1, b7]
  have hlc2 : h2.leftEqCols = lc := by rw [s7.2.1, b8]
  have hrc2 : h2.rightEqCols = rc := by rw [s7.2.2, b9]
  have hrows2 : h2.rows = stored env rc (pulledRows (taken rightSource)) := by rw [s6, b4]
  refine ⟨h1, h2, hp, h3, ?_⟩
  constructor
  · rfl
  · rfl
  · exact b1
  · exact s1
  · exact s2
  · exact p1
  · exact p2
  · unfold runBody
    rw [b1]
    simp only
    unfold runProbe
    rw [s3]
    simp only [p2, Bool.false_eq_true, Option.isSome_none, Bool.or_self, if_false]
  · exact b2
  · exact s4
  · exact p3
  · exact s5
  · exact ⟨hjt2, hlc2, hrc2⟩
  · exact s8
  · exact s9
  · exact b4
  · exact hrows2
  · rw [p4, hrows2]
  · rw [p13, hrows2]
  · exact ⟨p5.1.trans hjt2, p5.2.1.trans hlc2, p5.2.2.trans hrc2⟩
  · intro hrs
    have := p6 (by rw [hjt2]; exact hrs)
    exact this
  · exact p14
  · exact b5
  · exact b6
  · rw [p8, s8, hjt2, hlc2, hrc2, hrows2]
  · rw [p9, s9, hjt2, hlc2, hrc2, hrows2]
  · rw [p10, hjt2, hrows2]
  · rw [p11, hjt2, hrows2]
  · rw [p12, s11, b11]
    rfl
  · exact p15
  · rw [p16, s12, b12]

/-- The pairs before the end of the input hold no end-of-input signal. -/
theorem taken_not_end {D : Type} (src : List (Option (List D) × ProducerMetadata)) :
    ∀ it ∈ taken src, isEnd it = false := by
  intro it hit
  have := List.mem_takeWhile_imp hit
  simpa using this

/-- A list without end-of-input signal is processed whole, and nothing is
left. -/
theorem taken_of_no_end {D : Type} (items : List (Option (List D) × ProducerMetadata))
    (h : ∀ it ∈ items, isEnd it = false) : taken items = items ∧ afterEnd items = [] := by
  induction items with
  | nil => exact ⟨rfl, rfl⟩
  | cons item rest ih =>
    obtain ⟨t1, t2, -⟩ := taken_cons_go item rest (h item (List.mem_cons_self _ _))
    obtain ⟨i1, i2⟩ := ih (fun it hit => h it (List.mem_cons_of_mem _ hit))
    rw [t1, t2, i1, i2]
    exact ⟨rfl, rfl⟩

/-- In a quiet run one iteration of the main loop of the probe phase on a pair
that is not the end of the input continues, and pushes what `probePushes`
says: the metadata record, or the block of the row. -/
theorem probeItem_quiet {D : Type} (env : Env D) (hq : Quiet env) (h : hashJoiner D)
    (ls : List (List D)) (item : Option (List D) × ProducerMetadata) (hinv : TableInv env h)
    (hseen : h.joinType.rightSide = true → SeenInv env ls h)
    (hend : isEnd item = false) (herr : item.2.Err = none)
    (hcols : ColsInRange h.leftEqCols (pulledRows [item])) :
    ∃ h', probeItem env h item = (h', .next) ∧
      h'.out = h.out ++ probePushes env h.joinType h.leftEqCols h.rightEqCols h.rows [item] := by
  obtain ⟨row, m⟩ := item
  cases hE : m.Empty with
  | true =>
    cases row with
    | none => simp [isEnd, hE] at hend
    | some l =>
      have hpr : pulledRows [((some l : Option (List D)), m)] = [l] := by
        simp [pulledRows, hE]
      rw [hpr] at hcols
      obtain ⟨h1, e1, e2, -⟩ := probeRow_quiet env hq h ls l hinv hseen
        (hcols l (List.mem_cons_self _ _))
      refine ⟨h1, by simp [probeItem, hE, e1], ?_⟩
      rw [e2, probePushes_cons]
      simp [hE, hpr, probePushes]
  | false =>
    refine ⟨{ h with out := h.out ++ [.meta m] }, ?_, ?_⟩
    · simp only at herr
      simp [probeItem, hE, herr, emitHelper, hq.more]
    · rw [probePushes_cons]
      simp [hE, probePushes]

theorem probePushes_append {D : Type} (env : Env D) (jt : JoinType) (lc rc : List Nat)
    (S : List (List D)) (a b : List (Option (List D) × ProducerMetadata)) :
    probePushes env jt lc rc S (a ++ b) =
      probePushes env jt lc rc S a ++ probePushes env jt lc rc S b := by
  simp [probePushes, List.flatMap_append]

/-- C2. Left-driven ordering: for every join type and every pair of sources
that deliver rows and metadata without error, when nothing fails, the
equality columns are in range and the consumer never declines, the output of
the main loop of `probePhase` is the concatenation, in left-input order, of
what each pair pulled from the left source contributes: a forwarded metadata
record, or the block of a left row. `probePhase` adds after it only the
unmatched sweep: rows of `render(nil, r)` for stored right rows, and none at
all for inner and left outer joins. So the rows of the output are the rows of
the build phase, then the rows of the blocks of the left rows, in left order,
then the rows of the sweep. The block of a left row `l` holds only rows of
`render(l, r)` for stored right rows `r`, or the row of `render(l, nil)` for
left and full outer joins, and it is exactly what the iteration of the loop
on `l` pushes: after any prefix `pre` of the pairs of the left source the
output is the build output followed by the contributions of `pre`, and the
iteration on the next pair appends its contribution, so the block of row `i`
is contiguous and precedes the block of row `i+1`. -/
theorem left_driven_ordering {D : Type} (env : Env D) (jt : JoinType)
    (leftEqCols rightEqCols : List Nat)
    (leftSource rightSource : List (Option (List D) × ProducerMetadata)) (hq : Quiet env)
    (hnl : NoErrMeta (taken leftSource)) (hnr : NoErrMeta (taken rightSource))
    (hL : ColsInRange leftEqCols (pulledRows (taken leftSource)))
    (hR : ColsInRange rightEqCols (pulledRows (taken rightSource))) :
    ∃ h1 h2 hp h3 sweep,
      buildPhase env (newHashJoiner jt leftEqCols rightEqCols leftSource rightSource)
        = (h1, .ret true none) ∧
      (jt.rightSide = true → allocSeen env h1 (env.rangeOrder 0 h1.buckets) = (h2, none)) ∧
      (jt.rightSide = false → h2 = h1) ∧
      probeLoop env h2 leftSource = (hp, none) ∧
      probePhase env h2 = (h3, .ret false none) ∧
      (Run env (newHashJoiner jt leftEqCols rightEqCols leftSource rightSource)).1.out
        = h3.out ∧
      hp.out = h1.out ++
        probePushes env jt leftEqCols rightEqCols
          (stored env rightEqCols (pulledRows (taken rightSource))) (taken leftSource) ∧
      h3.out = h1.out ++
        probePushes env jt leftEqCols rightEqCols
          (stored env rightEqCols (pulledRows (taken rightSource))) (taken leftSource) ++ sweep ∧
      outRows h3.out = outRows h1.out ++
        (pulledRows (taken leftSource)).flatMap (fun l =>
          outRows (leftBlock env jt leftEqCols rightEqCols
            (stored env rightEqCols (pulledRows (taken rightSource))) l)) ++ outRows sweep ∧
      (∀ x ∈ sweep, ∃ r ∈ stored env rightEqCols (pulledRows (taken rightSource)),
        x ∈ emitted env none (some r)) ∧
      (jt.rightSide = false → sweep = []) ∧
      (∀ l, ∀ x ∈ leftBlock env jt leftEqCols rightEqCols
          (stored env rightEqCols (pulledRows (taken rightSource))) l,
        (∃ r ∈ stored env rightEqCols (pulledRows (taken rightSource)),
          x ∈ emitted env (some l) (some r)) ∨
        (jt.leftSide = true ∧ x ∈ emitted env (some l) none)) ∧
      (∀ pre item post, taken leftSource = pre ++ item :: post →
        ∃ hpre hl, probeLoop env h2 pre = (hpre, none) ∧
          hpre.out = h1.out ++
            probePushes env jt leftEqCols rightEqCols
              (stored env rightEqCols (pulledRows (taken rightSource))) pre ∧
          probeItem env hpre item = (hl, .next) ∧
          hl.out = hpre.out ++
            probePushes env jt leftEqCols rightEqCols
              (stored env rightEqCols (pulledRows (taken rightSource))) [item]) := by
  obtain ⟨h1, h2, hp, h3, run⟩ :=
    run_quiet_src env hq jt leftEqCols rightEqCols leftSource rightSource hnl hnr hL hR
  refine ⟨h1, h2, hp, h3,
    (if jt.rightSide then sweepIdxs (env.rangeOrder 1 hp.buckets) else []).flatMap
      (fun idx => emitted env none
        (stored env rightEqCols (pulledRows (taken rightSource)))[idx]?),
    run.build, run.alloc, run.noAlloc, run.loop, run.probe, ?_,
    run.outP, ?_, ?_, ?_, ?_, ?_, ?_⟩
  · unfold Run
    rw [run.body]
  · rw [run.out3, run.outP]
  · rw [run.out3, run.outP, outRows_append, outRows_append, outRows_probePushes]
  · intro x hx
    obtain ⟨idx, hidx, hxe⟩ := List.mem_flatMap.mp hx
    cases hrs : jt.rightSide with
    | false => simp [hrs] at hidx
    | true =>
      simp only [hrs, if_true] at hidx
      obtain ⟨kb, hkb, hin⟩ := mem_sweepIdxs _ idx hidx
      have hmem : kb ∈ hp.buckets := (env.rangeOrder_perm 1 hp.buckets).subset hkb
      have hlt := run.tableP.placement.1 kb.1 kb.2 hmem idx hin
      rw [run.rowsP] at hlt
      rw [List.getElem?_eq_getElem hlt] at hxe
      exact ⟨_, List.getElem_mem _, hxe⟩
  · intro hrs
    simp [hrs]
  · intro l x hx
    unfold leftBlock at hx
    obtain ⟨c, hc, hxe⟩ := List.mem_flatMap.mp hx
    rcases mem_leftCalls env jt _ _ _ l c hc with ⟨hls, rfl⟩ | ⟨r, hr, rfl⟩
    · exact Or.inr ⟨hls, hxe⟩
    · exact Or.inl ⟨r, hr, hxe⟩
  · intro pre item post hsplit
    have hmemT : ∀ it, it ∈ pre ++ item :: post → it ∈ taken leftSource := by
      intro it hit
      rw [hsplit]
      exact hit
    have hpreE : ∀ it ∈ pre, isEnd it = false := fun it hit =>
      taken_not_end leftSource it (hmemT it (List.mem_append_left _ hit))
    obtain ⟨tp1, -⟩ := taken_of_no_end pre hpreE
    have hsub : ∀ r, r ∈ pulledRows pre ∨ r ∈ pulledRows [item] →
        r ∈ pulledRows (taken leftSource) := by
      intro r hr
      rw [hsplit]
      have : pre ++ item :: post = pre ++ ([item] ++ post) := rfl
      rw [this, pulledRows_append, pulledRows_append]
      rcases hr with hr | hr
      · exact List.mem_append_left _ hr
      · exact List.mem_append_right _ (List.mem_append_left _ hr)
    obtain ⟨hpre, e1, e2, -, e4, e5, -, -, -, e9, e10, -⟩ :=
      probeLoop_quiet_src env hq pre h2 [] run.table2 run.seen2
        (by
          rw [tp1]
          exact fun it hit => hnl it (hmemT it (List.mem_append_left _ hit)))
        (by
          rw [tp1, run.cfg2.2.1]
          exact fun r hr => hL r (hsub r (Or.inl hr)))
    rw [tp1] at e2
    obtain ⟨hl, r1, r2⟩ := probeItem_quiet env hq hpre ([] ++ pulledRows (taken pre)) item e9
      (fun hrs => e10 (by rw [← e5.1]; exact hrs))
      (taken_not_end leftSource item (hmemT item (by simp)))
      (hnl item (hmemT item (by simp)))
      (by
        rw [e5.2.1, run.cfg2.2.1]
        exact fun r hr => hL r (hsub r (Or.inr hr)))
    refine ⟨hpre, hl, e1, ?_, r1, ?_⟩
    · rw [e2, run.out2, run.cfg2.1, run.cfg2.2.1, run.cfg2.2.2, run.rows2]
    · rw [r2, e5.1, e5.2.1, e5.2.2, e4, run.cfg2.1, run.cfg2.2.1, run.cfg2.2.2, run.rows2]

/-- Witness of C2: seed scenario 5 under a right outer join, with metadata in
both sources: the run pushes the metadata of the right source, the metadata
of the left source, the row `(1,x,1,foo)` and then `(NULL,NULL,1,bar)`. -/
theorem left_driven_ordering_witness :
    (∃ h1 h2 hp h3 sweep,
      buildPhase (sampleEnv onFoo)
          (newHashJoiner .rightOuter [0] [0] seed5LeftSrc seed5RightSrc)
        = (h1, .ret true none) ∧
      (JoinType.rightOuter.rightSide = true →
        allocSeen (sampleEnv onFoo) h1 ((sampleEnv onFoo).rangeOrder 0 h1.buckets) = (h2, none)) ∧
      (JoinType.rightOuter.rightSide = false → h2 = h1) ∧
      probeLoop (sampleEnv onFoo) h2 seed5LeftSrc = (hp, none) ∧
      probePhase (sampleEnv onFoo) h2 = (h3, .ret false none) ∧
      (Run (sampleEnv onFoo)
        (newHashJoiner .rightOuter [0] [0] seed5LeftSrc seed5RightSrc)).1.out = h3.out ∧
      hp.out = h1.out ++
        probePushes (sampleEnv onFoo) .rightOuter [0] [0]
          (stored (sampleEnv onFoo) [0] (pulledRows (taken seed5RightSrc)))
          (taken seed5LeftSrc) ∧
      h3.out = h1.out ++
        probePushes (sampleEnv onFoo) .rightOuter [0] [0]
          (stored (sampleEnv onFoo) [0] (pulledRows (taken seed5RightSrc)))
          (taken seed5LeftSrc) ++ sweep ∧
      outRows h3.out = outRows h1.out ++
        (pulledRows (taken seed5LeftSrc)).flatMap (fun l =>
          outRows (leftBlock (sampleEnv onFoo) .rightOuter [0] [0]
            (stored (sampleEnv onFoo) [0] (pulledRows (taken seed5RightSrc))) l)) ++
        outRows sweep ∧
      (∀ x ∈ sweep, ∃ r ∈ stored (sampleEnv onFoo) [0] (pulledRows (taken seed5RightSrc)),
        x ∈ emitted (sampleEnv onFoo) none (some r)) ∧
      (JoinType.rightOuter.rightSide = false → sweep = []) ∧
      (∀ l, ∀ x ∈ leftBlock (sampleEnv onFoo) .rightOuter [0] [0]
          (stored (sampleEnv onFoo) [0] (pulledRows (taken seed5RightSrc))) l,
        (∃ r ∈ stored (sampleEnv onFoo) [0] (pulledRows (taken seed5RightSrc)),
          x ∈ emitted (sampleEnv onFoo) (some l) (some r)) ∨
        (JoinType.rightOuter.leftSide = true ∧ x ∈ emitted (sampleEnv onFoo) (some l) none)) ∧
      (∀ pre item post, taken seed5LeftSrc = pre ++ item :: post →
        ∃ hpre hl, probeLoop (sampleEnv onFoo) h2 pre = (hpre, none) ∧
          hpre.out = h1.out ++
            probePushes (sampleEnv onFoo) .rightOuter [0] [0]
              (stored (sampleEnv onFoo) [0] (pulledRows (taken seed5RightSrc))) pre ∧
          probeItem (sampleEnv onFoo) hpre item = (hl, .next) ∧
          hl.out = hpre.out ++
            probePushes (sampleEnv onFoo) .rightOuter [0] [0]
              (stored (sampleEnv onFoo) [0] (pulledRows (taken seed5RightSrc))) [item])) ∧
    (Run (sampleEnv onFoo)
      (newHashJoiner .rightOuter [0] [0] seed5LeftSrc seed5RightSrc)).1.out
        = [.meta sampleMeta, .meta sampleMeta, .row [.int 1, tx, .int 1, tfoo],
           .row [.null, .null, .int 1, tbar]] ∧
    (Run (sampleEnv onFoo)
      (newHashJoiner .rightOuter [0] [0] seed5LeftSrc seed5RightSrc)).1.leftSource = [] :=
  ⟨left_driven_ordering (sampleEnv onFoo) .rightOuter [0] [0] seed5LeftSrc seed5RightSrc
    (sampleEnv_quiet onFoo) (by unfold NoErrMeta; decide) (by unfold NoErrMeta; decide)
    (by unfold ColsInRange; decide) (by unfold ColsInRange; decide), rfl, rfl⟩

/-- C4. Right-side unmatched sweep: for every pair of sources that deliver rows
and metadata without error, when nothing fails, the equality columns are in
range and the consumer never declines, once the main loop of `probePhase` has
exhausted the left input the phase adds to the log of `render` calls and to
the output exactly the calls of the sweep and their non-nil rows. Under right
outer and full outer joins these calls are, up to the order of the `range`
over the map, one call `render(nil, r)` for every stored right row `r` for
which no left row with an equal key encoding had `render(l, r)` report
`failedOnCond = false`, and none for the other stored rows. Under inner and
left outer joins the sweep makes no call and pushes no row, and no call of the
run has a nil left row. -/
theorem right_unmatched_sweep {D : Type} (env : Env D) (jt : JoinType)
    (leftEqCols rightEqCols : List Nat)
    (leftSource rightSource : List (Option (List D) × ProducerMetadata)) (hq : Quiet env)
    (hnl : NoErrMeta (taken leftSource)) (hnr : NoErrMeta (taken rightSource))
    (hL : ColsInRange leftEqCols (pulledRows (taken leftSource)))
    (hR : ColsInRange rightEqCols (pulledRows (taken rightSource))) :
    ∃ h1 h2 hp h3 sweepCalls,
      buildPhase env (newHashJoiner jt leftEqCols rightEqCols leftSource rightSource)
        = (h1, .ret true none) ∧
      h1.rows = stored env rightEqCols (pulledRows (taken rightSource)) ∧
      (jt.rightSide = true → allocSeen env h1 (env.rangeOrder 0 h1.buckets) = (h2, none)) ∧
      (jt.rightSide = false → h2 = h1) ∧
      probeLoop env h2 leftSource = (hp, none) ∧
      hp.leftSource = afterEnd leftSource ∧
      probePhase env h2 = (h3, .ret false none) ∧
      (Run env (newHashJoiner jt leftEqCols rightEqCols leftSource rightSource)).1.out
        = h3.out ∧
      h3.renderLog = hp.renderLog ++ sweepCalls ∧
      h3.out = hp.out ++ sweepCalls.flatMap (fun c => emitted env c.1 c.2) ∧
      (jt.rightSide = true →
        sweepCalls.Perm ((unmatchedRight env leftEqCols rightEqCols
          (pulledRows (taken leftSource)) (pulledRows (taken rightSource))).map
            (fun r => (none, some r))) ∧
        (outRows (sweepCalls.flatMap (fun c => emitted env c.1 c.2))).Perm
          ((unmatchedRight env leftEqCols rightEqCols
            (pulledRows (taken leftSource)) (pulledRows (taken rightSource))).filterMap
              (fun r => (env.render none (some r)).row))) ∧
      (jt.rightSide = false → sweepCalls = [] ∧ ∀ c ∈ h3.renderLog, c.1 ≠ none) := by
  obtain ⟨h1, h2, hp, h3, run⟩ :=
    run_quiet_src env hq jt leftEqCols rightEqCols leftSource rightSource hnl hnr hL hR
  have hpl : hp.leftSource = afterEnd leftSource := by
    obtain ⟨hp', e1, -, -, -, -, e6, -⟩ := probeLoop_quiet_src env hq leftSource h2 []
      run.table2 run.seen2 hnl (by rw [run.cfg2.2.1]; exact hL)
    rw [run.loop] at e1
    cases e1
    exact e6
  refine ⟨h1, h2, hp, h3,
    (if jt.rightSide then sweepIdxs (env.rangeOrder 1 hp.buckets) else []).map
      (fun idx => (none, (stored env rightEqCols (pulledRows (taken rightSource)))[idx]?)),
    run.build, run.rows1, run.alloc, run.noAlloc, run.loop, hpl, run.probe, ?_, run.log3,
    ?_, ?_, ?_⟩
  · unfold Run
    rw [run.body]
  · rw [run.out3, List.flatMap_map]
  · intro hrs
    simp only [hrs, if_true]
    have hperm := sweep_perm env (pulledRows (taken leftSource))
      (stored env rightEqCols (pulledRows (taken rightSource))) hp
      (env.rangeOrder 1 hp.buckets)
      run.tableP (run.seenP hrs) run.rowsP (env.rangeOrder_perm 1 hp.buckets)
    rw [run.cfgP.2.1, run.cfgP.2.2] at hperm
    have hcalls : ((sweepIdxs (env.rangeOrder 1 hp.buckets)).map
        (fun idx => ((none : Option (List D)),
          (stored env rightEqCols (pulledRows (taken rightSource)))[idx]?))).Perm
        ((unmatchedRight env leftEqCols rightEqCols (pulledRows (taken leftSource))
          (pulledRows (taken rightSource))).map (fun r => (none, some r))) := by
      have := hperm.map (fun o => ((none : Option (List D)), o))
      rw [List.map_map, List.map_map] at this
      exact this
    refine ⟨hcalls, ?_⟩
    have hout := (hcalls.flatMap_right (fun c => outRows (emitted env c.1 c.2)))
    rw [outRows_flatMap]
    refine hout.trans ?_
    rw [List.flatMap_map, List.filterMap_eq_flatMap_toList]
    apply List.Perm.of_eq
    apply List.flatMap_congr
    intro r _
    exact outRows_emitted env none (some r)
  · intro hrs
    refine ⟨by simp [hrs], ?_⟩
    intro c hc
    rw [run.log3, run.logP, run.log1] at hc
    simp only [hrs, buildLog, Bool.false_eq_true, if_false, List.map_nil, List.append_nil,
      List.nil_append] at hc
    obtain ⟨l, -, hcl⟩ := List.mem_flatMap.mp hc
    rcases mem_leftCalls env jt _ _ _ l c hcl with ⟨-, rfl⟩ | ⟨r, -, rfl⟩ <;> simp

/-- Witness of C4: seed scenario 5 under a right outer join, ON `R.d = 'foo'`,
`L = [(1,x)]`, `R = [(1,foo),(1,bar)]`, with metadata in both sources: the
rows pushed are `(1,x,1,foo)` and then `(NULL,NULL,1,bar)`. -/
theorem right_unmatched_sweep_witness :
    (∃ h1 h2 hp h3 sweepCalls,
      buildPhase (sampleEnv onFoo)
          (newHashJoiner .rightOuter [0] [0] seed5LeftSrc seed5RightSrc)
        = (h1, .ret true none) ∧
      h1.rows = stored (sampleEnv onFoo) [0] (pulledRows (taken seed5RightSrc)) ∧
      (JoinType.rightOuter.rightSide = true →
        allocSeen (sampleEnv onFoo) h1 ((sampleEnv onFoo).rangeOrder 0 h1.buckets) = (h2, none)) ∧
      (JoinType.rightOuter.rightSide = false → h2 = h1) ∧
      probeLoop (sampleEnv onFoo) h2 seed5LeftSrc = (hp, none) ∧
      hp.leftSource = afterEnd seed5LeftSrc ∧
      probePhase (sampleEnv onFoo) h2 = (h3, .ret false none) ∧
      (Run (sampleEnv onFoo)
        (newHashJoiner .rightOuter [0] [0] seed5LeftSrc seed5RightSrc)).1.out = h3.out ∧
      h3.renderLog = hp.renderLog ++ sweepCalls ∧
      h3.out = hp.out ++ sweepCalls.flatMap (fun c => emitted (sampleEnv onFoo) c.1 c.2) ∧
      (JoinType.rightOuter.rightSide = true →
        sweepCalls.Perm ((unmatchedRight (sampleEnv onFoo) [0] [0]
          (pulledRows (taken seed5LeftSrc)) (pulledRows (taken seed5RightSrc))).map
            (fun r => (none, some r))) ∧
        (outRows (sweepCalls.flatMap (fun c => emitted (sampleEnv onFoo) c.1 c.2))).Perm
          ((unmatchedRight (sampleEnv onFoo) [0] [0]
            (pulledRows (taken seed5LeftSrc)) (pulledRows (taken seed5RightSrc))).filterMap
              (fun r => ((sampleEnv onFoo).render none (some r)).row))) ∧
      (JoinType.rightOuter.rightSide = false →
        sweepCalls = [] ∧ ∀ c ∈ h3.renderLog, c.1 ≠ none)) ∧
    outRows (Run (sampleEnv onFoo)
      (newHashJoiner .rightOuter [0] [0] seed5LeftSrc seed5RightSrc)).1.out
        = [[.int 1, tx, .int 1, tfoo], [.null, .null, .int 1, tbar]] ∧
    unmatchedRight (sampleEnv onFoo) [0] [0]
      (pulledRows (taken seed5LeftSrc)) (pulledRows (taken seed5RightSrc)) = [[.int 1, tbar]] :=
  ⟨right_unmatched_sweep (sampleEnv onFoo) .rightOuter [0] [0] seed5LeftSrc seed5RightSrc
    (sampleEnv_quiet onFoo) (by unfold NoErrMeta; decide) (by unfold NoErrMeta; decide)
    (by unfold ColsInRange; decide) (by unfold ColsInRange; decide), rfl, rfl⟩

/-- C14: with a left source that delivers no row, for every right source that
delivers rows and metadata without error, when nothing fails, the right
equality columns are in range, the consumer never declines and `render(nil, r)`
is non-nil for every right row, `Run` ends without panic; under right outer
and full outer joins the build phase pushes the padded rendering of every
right row with a NULL equality column, in arrival order, and the sweep pushes
the padded rendering of the other right rows, each once, in the order of the
`range`, so that the rows pushed are, as a multiset, the `render(nil, r)` of
all right rows `r`; under inner and left outer joins no row is pushed. -/
theorem empty_left_input {D : Type} (env : Env D) (jt : JoinType)
    (leftEqCols rightEqCols : List Nat)
    (leftSource rightSource : List (Option (List D) × ProducerMetadata)) (hq : Quiet env)
    (hempty : pulledRows (taken leftSource) = [])
    (hnl : NoErrMeta (taken leftSource)) (hnr : NoErrMeta (taken rightSource))
    (hR : ColsInRange rightEqCols (pulledRows (taken rightSource)))
    (hnn : ∀ r ∈ pulledRows (taken rightSource), (env.render none (some r)).row ≠ none) :
    ∃ (h1 h2 h3 : hashJoiner D) (sweepRows : List (List D)),
      buildPhase env (newHashJoiner jt leftEqCols rightEqCols leftSource rightSource)
        = (h1, .ret true none) ∧
      (jt.rightSide = true → allocSeen env h1 (env.rangeOrder 0 h1.buckets) = (h2, none)) ∧
      (jt.rightSide = false → h2 = h1) ∧
      probePhase env h2 = (h3, .ret false none) ∧
      (Run env (newHashJoiner jt leftEqCols rightEqCols leftSource rightSource)).1.out
        = h3.out ∧
      (Run env (newHashJoiner jt leftEqCols rightEqCols leftSource rightSource)).2 = none ∧
      (jt.rightSide = false → outRows h3.out = []) ∧
      (jt.rightSide = true →
        outRows h1.out = ((pulledRows (taken rightSource)).filter
          (hasNullB env rightEqCols)).filterMap (fun r => (env.render none (some r)).row) ∧
        outRows h3.out = outRows h1.out ++
          sweepRows.filterMap (fun r => (env.render none (some r)).row) ∧
        sweepRows.Perm ((pulledRows (taken rightSource)).filter
          (fun r => !hasNullB env rightEqCols r)) ∧
        ((outRows h3.out).map some).Perm
          ((pulledRows (taken rightSource)).map (fun r => (env.render none (some r)).row))) := by
  have hL : ColsInRange leftEqCols (pulledRows (taken leftSource)) := by
    rw [hempty]
    exact fun _ hr => by cases hr
  obtain ⟨h1, h2, hp, h3, run⟩ :=
    run_quiet_src env hq jt leftEqCols rightEqCols leftSource rightSource hnl hnr hL hR
  have hPP : outRows (probePushes env jt leftEqCols rightEqCols
      (stored env rightEqCols (pulledRows (taken rightSource))) (taken leftSource)) = [] := by
    rw [outRows_probePushes, hempty]
    rfl
  have hB : outRows (buildPushes env jt rightEqCols (taken rightSource))
      = outRows (buildOut env jt rightEqCols (pulledRows (taken rightSource))) := by
    generalize taken rightSource = items
    induction items with
    | nil => simp [buildPushes, buildOut, pulledRows]
    | cons item items ih =>
      rw [buildPushes_cons, outRows_append, ih]
      have : pulledRows (item :: items) = pulledRows [item] ++ pulledRows items :=
        pulledRows_append [item] items
      rw [this]
      cases hE : item.2.Empty with
      | true =>
        simp only [if_true]
        rw [← outRows_append]
        congr 1
        unfold buildOut
        cases jt.rightSide
        · simp
        · simp [List.filter_append, List.flatMap_append]
      | false =>
        simp [pulledRows, hE, outRows]
  refine ⟨h1, h2, h3,
    (sweepIdxs (env.rangeOrder 1 hp.buckets)).filterMap
      (fun idx => (stored env rightEqCols (pulledRows (taken rightSource)))[idx]?),
    run.build, run.alloc, run.noAlloc, run.probe, ?_, ?_, ?_, ?_⟩
  · unfold Run
    rw [run.body]
  · unfold Run
    rw [run.body]
  · intro hrs
    rw [run.out3, run.outP, run.out1, outRows_append, outRows_append, hPP, hB]
    simp [buildOut, hrs, outRows]
  · intro hrs
    have hperm := sweep_perm env (pulledRows (taken leftSource))
      (stored env rightEqCols (pulledRows (taken rightSource))) hp
      (env.rangeOrder 1 hp.buckets)
      run.tableP (run.seenP hrs) run.rowsP (env.rangeOrder_perm 1 hp.buckets)
    have hall : (stored env rightEqCols (pulledRows (taken rightSource))).filter
        (fun r => !matchedRow env hp.leftEqCols hp.rightEqCols
          (pulledRows (taken leftSource)) r)
        = stored env rightEqCols (pulledRows (taken rightSource)) := by
      rw [hempty]
      simp [matchedRow]
    rw [hall] at hperm
    have hsome : ∀ idx ∈ sweepIdxs (env.rangeOrder 1 hp.buckets),
        ∃ r, (stored env rightEqCols (pulledRows (taken rightSource)))[idx]? = some r := by
      intro idx hidx
      have hm : (stored env rightEqCols (pulledRows (taken rightSource)))[idx]? ∈
          (sweepIdxs (env.rangeOrder 1 hp.buckets)).map
            (fun idx => (stored env rightEqCols (pulledRows (taken rightSource)))[idx]?) :=
        List.mem_map.mpr ⟨idx, hidx, rfl⟩
      obtain ⟨r, -, hr⟩ := List.mem_map.mp (hperm.subset hm)
      exact ⟨r, hr.symm⟩
    have hsw : ((sweepIdxs (env.rangeOrder 1 hp.buckets)).filterMap
        (fun idx => (stored env rightEqCols (pulledRows (taken rightSource)))[idx]?)).Perm
        (stored env rightEqCols (pulledRows (taken rightSource))) := by
      have := hperm.filterMap id
      simpa [List.filterMap_map] using this
    have h1out : outRows h1.out = ((pulledRows (taken rightSource)).filter
        (hasNullB env rightEqCols)).filterMap (fun r => (env.render none (some r)).row) := by
      rw [run.out1, hB, ← outRows_padRight]
      simp [buildOut, hrs]
    have h3out : outRows h3.out = outRows h1.out ++
        ((sweepIdxs (env.rangeOrder 1 hp.buckets)).filterMap
          (fun idx => (stored env rightEqCols (pulledRows (taken rightSource)))[idx]?)).filterMap
            (fun r => (env.render none (some r)).row) := by
      rw [run.out3, run.outP, outRows_append, outRows_append, hPP, List.append_nil]
      simp only [hrs, if_true]
      rw [flatMap_filterMap_some
        (fun idx => (stored env rightEqCols (pulledRows (taken rightSource)))[idx]?)
        (fun o => emitted env none o) _ hsome, outRows_padRight]
    refine ⟨h1out, h3out, hsw, ?_⟩
    rw [h3out, h1out, ← filterMap_map_some _ (pulledRows (taken rightSource)) hnn]
    apply List.Perm.map
    have hsplit : ((pulledRows (taken rightSource)).filter (hasNullB env rightEqCols) ++
        (pulledRows (taken rightSource)).filter (fun r => !hasNullB env rightEqCols r)).Perm
          (pulledRows (taken rightSource)) :=
      List.filter_append_perm _ _
    refine List.Perm.trans ?_ (hsplit.filterMap _)
    rw [List.filterMap_append]
    exact List.Perm.append_left _ (hsw.filterMap _)

/-- Witness of C14: a right outer join with a left source that delivers only a
metadata record and the right rows `(NULL,foo),(1,bar),(NULL,baz),(3,x)`: the
build phase pushes the padded first and third rows, the sweep the second and
the fourth. -/
theorem empty_left_input_witness :
    (∃ (h1 h2 h3 : hashJoiner Datum) (sweepRows : List (List Datum)),
      buildPhase (sampleEnv onTrue) (newHashJoiner .rightOuter [0] [0] metaOnlySrc nullKeysSrc)
        = (h1, .ret true none) ∧
      (JoinType.rightOuter.rightSide = true →
        allocSeen (sampleEnv onTrue) h1 ((sampleEnv onTrue).rangeOrder 0 h1.buckets)
          = (h2, none)) ∧
      (JoinType.rightOuter.rightSide = false → h2 = h1) ∧
      probePhase (sampleEnv onTrue) h2 = (h3, .ret false none) ∧
      (Run (sampleEnv onTrue) (newHashJoiner .rightOuter [0] [0] metaOnlySrc nullKeysSrc)).1.out
        = h3.out ∧
      (Run (sampleEnv onTrue) (newHashJoiner .rightOuter [0] [0] metaOnlySrc nullKeysSrc)).2
        = none ∧
      (JoinType.rightOuter.rightSide = false → outRows h3.out = []) ∧
      (JoinType.rightOuter.rightSide = true →
        outRows h1.out = ((pulledRows (taken nullKeysSrc)).filter
          (hasNullB (sampleEnv onTrue) [0])).filterMap
            (fun r => ((sampleEnv onTrue).render none (some r)).row) ∧
        outRows h3.out = outRows h1.out ++
          sweepRows.filterMap (fun r => ((sampleEnv onTrue).render none (some r)).row) ∧
        sweepRows.Perm ((pulledRows (taken nullKeysSrc)).filter
          (fun r => !hasNullB (sampleEnv onTrue) [0] r)) ∧
        ((outRows h3.out).map some).Perm
          ((pulledRows (taken nullKeysSrc)).map
            (fun r => ((sampleEnv onTrue).render none (some r)).row)))) ∧
    (Run (sampleEnv onTrue) (newHashJoiner .rightOuter [0] [0] metaOnlySrc nullKeysSrc)).1.out
      = [.row [.null, .null, .null, tfoo], .meta sampleMeta, .row [.null, .null, .null, tbaz],
         .meta sampleMeta, .row [.null, .null, .int 1, tbar], .row [.null, .null, .int 3, tx]] ∧
    pulledRows (taken nullKeysSrc)
      = [[.null, tfoo], [.int 1, tbar], [.null, tbaz], [.int 3, tx]] :=
  ⟨empty_left_input (sampleEnv onTrue) .rightOuter [0] [0] metaOnlySrc nullKeysSrc
    (sampleEnv_quiet onTrue) rfl (by unfold NoErrMeta; decide) (by unfold NoErrMeta; decide)
    (by unfold ColsInRange; decide) (by intro r _; simp [sampleEnv, sampleRender]), rfl, rfl⟩

/-! ## The left side of an outer join -/

/-- With a `render` that returns no row for a pair the ON condition rejects, a
left row that hits a bucket whose rows all fail the ON condition gives no
output row under a left outer join: `render` is called once, on the pair, and
never on `(l, nil)`. Left outer join with ON condition `R.d = 'foo'`,
`L = [(1,x)]`, `R = [(1,bar)]`. -/
theorem left_outer_hit_without_match :
    outRows (Run (sampleEnv onFoo)
      (newHashJoiner .leftOuter [0] [0] (rowsSource [[.int 1, tx]])
        (rowsSource [[.int 1, tbar]]))).1.out = [] ∧
    (runBody (sampleEnv onFoo)
      (newHashJoiner .leftOuter [0] [0] (rowsSource [[.int 1, tx]])
        (rowsSource [[.int 1, tbar]]))).1.renderLog
      = [(some [.int 1, tx], some [.int 1, tbar])] ∧
    ((sampleEnv onFoo).render (some [.int 1, tx]) (some [.int 1, tbar])).failedOnCond = true ∧
    ((sampleEnv onFoo).render (some [.int 1, tx]) (some [.int 1, tbar])).row = none :=
  ⟨rfl, rfl, rfl, rfl⟩

/-- The rows of the output of a list of calls of `render`. -/
theorem outRows_calls {D : Type} (env : Env D)
    (cs : List (Option (List D) × Option (List D))) :
    outRows (cs.flatMap (fun c => emitted env c.1 c.2))
      = (cs.map (fun c => (env.render c.1 c.2).row)).reduceOption := by
  induction cs with
  | nil => rfl
  | cons c cs ih =>
    rw [List.flatMap_cons, outRows_append, ih, outRows_emitted, List.map_cons]
    cases (env.render c.1 c.2).row with
    | none => rw [List.reduceOption_cons_of_none]; rfl
    | some row => rw [List.reduceOption_cons_of_some]; rfl

theorem sampleEnvPad_quiet (onCond : List Datum → Bool) : Quiet (sampleEnvPad onCond) := by
  constructor
  · intro d buf; cases d <;> rfl
  · intro l r
    simp only [sampleEnvPad, sampleRenderPad]
    split <;> rfl
  · intro _ _; rfl
  · intro _ _; rfl
  · intro _; rfl

theorem sampleEnvPad_pads (onCond : List Datum → Bool) : PadsLeft (sampleEnvPad onCond) := by
  intro l r hf
  simp only [sampleEnvPad, sampleRenderPad, Option.isNone_some, Bool.false_or,
    Option.getD_some] at hf ⊢
  by_cases hc : onCond (l ++ r) = true
  · simp [hc] at hf
  · simp [hc]

/-- C3. Outer-side emission for the left side. On a bucket hit `probePhase` calls
`render` on the pairs `(l, r)` only and pushes the rows it returns, so what is
pushed for a left row whose every partner fails the ON condition is decided
by `render`, which is not in `hashjoiner.go`; the statement is for every
`render` that returns the row of `render(l, nil)` when it reports
`failedOnCond` (`PadsLeft`). Under a left outer or full outer join, for every
pair of sources that deliver rows and metadata without error, when nothing
fails, the equality columns are in range and the consumer never declines: for
every left row `l` such that every right row with a key encoding bytewise
equal to that of `l` has `render(l, r)` report `failedOnCond` (a left row
with a NULL equality column, a left row whose key misses the table, a left
row whose key hits a bucket in which every row fails the ON condition), the
calls of `render` for `l` are `n ≥ 1` calls that all return the row of
`render(l, nil)`; the block of `l` in the output of `Run` is that row `n`
times, and the row, when it is not nil, is a row of the output. -/
theorem left_outer_emission {D : Type} (env : Env D) (jt : JoinType)
    (leftEqCols rightEqCols : List Nat)
    (leftSource rightSource : List (Option (List D) × ProducerMetadata)) (hq : Quiet env)
    (hpad : PadsLeft env) (hjt : jt.leftSide = true)
    (hnl : NoErrMeta (taken leftSource)) (hnr : NoErrMeta (taken rightSource))
    (hL : ColsInRange leftEqCols (pulledRows (taken leftSource)))
    (hR : ColsInRange rightEqCols (pulledRows (taken rightSource)))
    (l : List D) (hl : l ∈ pulledRows (taken leftSource))
    (hno : ∀ r ∈ pulledRows (taken rightSource), ∀ k, keyOf env leftEqCols l = some k →
      keyOf env rightEqCols r = some k →
      (env.render (some l) (some r)).failedOnCond = true) :
    ∃ n, 1 ≤ n ∧
      (leftCalls env jt leftEqCols rightEqCols
        (stored env rightEqCols (pulledRows (taken rightSource))) l).length = n ∧
      (leftCalls env jt leftEqCols rightEqCols
        (stored env rightEqCols (pulledRows (taken rightSource))) l).map
          (fun c => (env.render c.1 c.2).row)
        = List.replicate n (env.render (some l) none).row ∧
      outRows (leftBlock env jt leftEqCols rightEqCols
        (stored env rightEqCols (pulledRows (taken rightSource))) l)
        = (List.replicate n (env.render (some l) none).row).reduceOption ∧
      (∃ a b, outRows (Run env
          (newHashJoiner jt leftEqCols rightEqCols leftSource rightSource)).1.out
        = a ++ outRows (leftBlock env jt leftEqCols rightEqCols
            (stored env rightEqCols (pulledRows (taken rightSource))) l) ++ b) ∧
      (∀ row, (env.render (some l) none).row = some row →
        row ∈ outRows (Run env
          (newHashJoiner jt leftEqCols rightEqCols leftSource rightSource)).1.out) := by
  obtain ⟨h1, h2, hp, h3, run⟩ :=
    run_quiet_src env hq jt leftEqCols rightEqCols leftSource rightSource hnl hnr hL hR
  have hrun : (Run env (newHashJoiner jt leftEqCols rightEqCols leftSource rightSource)).1.out
      = h3.out := by
    unfold Run
    rw [run.body]
  have hcalls : ∃ n, 1 ≤ n ∧
      (leftCalls env jt leftEqCols rightEqCols
        (stored env rightEqCols (pulledRows (taken rightSource))) l).length = n ∧
      (leftCalls env jt leftEqCols rightEqCols
        (stored env rightEqCols (pulledRows (taken rightSource))) l).map
          (fun c => (env.render c.1 c.2).row)
        = List.replicate n (env.render (some l) none).row := by
    unfold leftCalls
    cases hk : keyOf env leftEqCols l with
    | none => exact ⟨1, le_refl _, by simp [hjt], by simp [hjt]⟩
    | some k =>
      simp only
      cases hm : (matchesOf env rightEqCols
          (stored env rightEqCols (pulledRows (taken rightSource))) k).isEmpty with
      | true => exact ⟨1, le_refl _, by simp [hjt], by simp [hjt]⟩
      | false =>
        simp only [Bool.false_eq_true, if_false]
        refine ⟨(matchesOf env rightEqCols
          (stored env rightEqCols (pulledRows (taken rightSource))) k).length, ?_, by simp, ?_⟩
        · cases hx : matchesOf env rightEqCols
              (stored env rightEqCols (pulledRows (taken rightSource))) k with
          | nil => rw [hx] at hm; simp at hm
          | cons a rest => simp
        · rw [List.map_map, List.eq_replicate_iff]
          refine ⟨by simp, ?_⟩
          intro o ho
          obtain ⟨r, hr, rfl⟩ := List.mem_map.mp ho
          unfold matchesOf at hr
          obtain ⟨hrS, hrk⟩ := List.mem_filter.mp hr
          have hrR : r ∈ pulledRows (taken rightSource) := (List.mem_filter.mp hrS).1
          exact hpad l r (hno r hrR k hk (by simpa using hrk))
  obtain ⟨n, hn1, hn2, hn3⟩ := hcalls
  have hblock : outRows (leftBlock env jt leftEqCols rightEqCols
      (stored env rightEqCols (pulledRows (taken rightSource))) l)
      = (List.replicate n (env.render (some l) none).row).reduceOption := by
    unfold leftBlock
    rw [outRows_calls, hn3]
  have hin : ∃ a b, outRows h3.out
      = a ++ outRows (leftBlock env jt leftEqCols rightEqCols
          (stored env rightEqCols (pulledRows (taken rightSource))) l) ++ b := by
    obtain ⟨pre, post, hsplit⟩ := List.append_of_mem hl
    rw [run.out3, run.outP, outRows_append, outRows_append, outRows_probePushes, hsplit,
      List.flatMap_append, List.flatMap_cons]
    refine ⟨outRows h1.out ++ pre.flatMap (fun l => outRows (leftBlock env jt leftEqCols
      rightEqCols (stored env rightEqCols (pulledRows (taken rightSource))) l)),
      post.flatMap (fun l => outRows (leftBlock env jt leftEqCols
        rightEqCols (stored env rightEqCols (pulledRows (taken rightSource))) l)) ++
      outRows ((if jt.rightSide then sweepIdxs (env.rangeOrder 1 hp.buckets) else []).flatMap
        (fun idx => emitted env none
          (stored env rightEqCols (pulledRows (taken rightSource)))[idx]?)), ?_⟩
    simp only [List.append_assoc]
  refine ⟨n, hn1, hn2, hn3, hblock, by rw [hrun]; exact hin, ?_⟩
  intro row hrow
  rw [hrun]
  obtain ⟨a, b, hab⟩ := hin
  rw [hab, hblock, hrow]
  have : row ∈ (List.replicate n (some row)).reduceOption := by
    rw [List.reduceOption_mem_iff]
    exact List.mem_replicate.mpr ⟨by omega, rfl⟩
  exact List.mem_append_left _ (List.mem_append_right _ this)

/-- Witness of C3: a left outer join with ON condition `R.d = 'foo'`, the left
row `(1,x)` and the right row `(1,bar)`, with metadata in both sources and a
`render` that pads: the left row hits the bucket of key 1, its only right row
fails the ON condition, and the run pushes `(1,x,NULL,NULL)`. -/
theorem left_outer_emission_witness :
    (∃ n, 1 ≤ n ∧
      (leftCalls (sampleEnvPad onFoo) .leftOuter [0] [0]
        (stored (sampleEnvPad onFoo) [0] (pulledRows (taken barSrc))) [.int 1, tx]).length = n ∧
      (leftCalls (sampleEnvPad onFoo) .leftOuter [0] [0]
        (stored (sampleEnvPad onFoo) [0] (pulledRows (taken barSrc))) [.int 1, tx]).map
          (fun c => ((sampleEnvPad onFoo).render c.1 c.2).row)
        = List.replicate n ((sampleEnvPad onFoo).render (some [.int 1, tx]) none).row ∧
      outRows (leftBlock (sampleEnvPad onFoo) .leftOuter [0] [0]
        (stored (sampleEnvPad onFoo) [0] (pulledRows (taken barSrc))) [.int 1, tx])
        = (List.replicate n
            ((sampleEnvPad onFoo).render (some [.int 1, tx]) none).row).reduceOption ∧
      (∃ a b, outRows (Run (sampleEnvPad onFoo)
          (newHashJoiner .leftOuter [0] [0] seed5LeftSrc barSrc)).1.out
        = a ++ outRows (leftBlock (sampleEnvPad onFoo) .leftOuter [0] [0]
            (stored (sampleEnvPad onFoo) [0] (pulledRows (taken barSrc))) [.int 1, tx]) ++ b) ∧
      (∀ row, ((sampleEnvPad onFoo).render (some [.int 1, tx]) none).row = some row →
        row ∈ outRows (Run (sampleEnvPad onFoo)
          (newHashJoiner .leftOuter [0] [0] seed5LeftSrc barSrc)).1.out)) ∧
    (Run (sampleEnvPad onFoo) (newHashJoiner .leftOuter [0] [0] seed5LeftSrc barSrc)).1.out
      = [.meta sampleMeta, .meta sampleMeta, .row [.int 1, tx, .null, .null]] ∧
    (runBody (sampleEnvPad onFoo)
      (newHashJoiner .leftOuter [0] [0] seed5LeftSrc barSrc)).1.renderLog
      = [(some [.int 1, tx], some [.int 1, tbar])] :=
  ⟨left_outer_emission (sampleEnvPad onFoo) .leftOuter [0] [0] seed5LeftSrc barSrc
    (sampleEnvPad_quiet onFoo) (sampleEnvPad_pads onFoo) rfl
    (by unfold NoErrMeta; decide) (by unfold NoErrMeta; decide)
    (by unfold ColsInRange; decide) (by unfold ColsInRange; decide)
    [.int 1, tx] (by decide)
    (by
      intro r hr k _ _
      have : r = [.int 1, tbar] := by simpa [barSrc, taken, isEnd, pulledRows, sampleMeta,
        ProducerMetadata.Empty, ProducerMetadata.zero] using hr
      subst this
      rfl), rfl, rfl⟩

/-! ## The iteration at which a loop returns -/

/-- The build loop either runs through the whole source, every iteration ending
in `continue`, or returns in the iteration on some pair, all the iterations
before it having ended in `continue`; nothing is pulled after that pair. -/
theorem buildLoop_split {D : Type} (env : Env D) :
    ∀ (src : List (Option (List D) × ProducerMetadata)) (h h' : hashJoiner D)
      (res : PhaseResult), buildLoop env h src = (h', res) →
      (∃ hmid, buildSteps env h src [] = some hmid ∧ h' = { hmid with rightSource := [] } ∧
        res = .ret true none) ∨
      (∃ pre item rest hmid, src = pre ++ item :: rest ∧
        buildSteps env h pre (item :: rest) = some hmid ∧
        buildItem env { hmid with rightSource := rest } item = (h', some res)) := by
  intro src
  induction src with
  | nil =>
    intro h h' res hb
    rw [buildLoop] at hb
    cases hb
    exact Or.inl ⟨h, rfl, rfl, rfl⟩
  | cons item rest ih =>
    intro h h' res hb
    rw [buildLoop] at hb
    rcases hi : buildItem env { h with rightSource := rest } item with ⟨h2, r2⟩
    rw [hi] at hb
    cases r2 with
    | some r =>
      cases hb
      exact Or.inr ⟨[], item, rest, h, rfl, rfl, hi⟩
    | none =>
      simp only at hb
      rcases ih h2 h' res hb with ⟨hmid, s1, s2, s3⟩ | ⟨pre, it, rest', hmid, s1, s2, s3⟩
      · refine Or.inl ⟨hmid, ?_, s2, s3⟩
        rw [buildSteps]
        simp only [List.append_nil, hi]
        exact s1
      · subst s1
        refine Or.inr ⟨item :: pre, it, rest', hmid, rfl, ?_, s3⟩
        rw [buildSteps]
        simp only [hi]
        exact s2

/-- When the iterations on the pairs before a pair end in `continue` and the
iteration on that pair returns, the build loop returns what that iteration
returns, whatever follows in the source. -/
theorem buildLoop_of_steps {D : Type} (env : Env D) :
    ∀ (pre : List (Option (List D) × ProducerMetadata)) (h hmid h' : hashJoiner D)
      (item : Option (List D) × ProducerMetadata)
      (rest : List (Option (List D) × ProducerMetadata)) (res : PhaseResult),
      buildSteps env h pre (item :: rest) = some hmid →
      buildItem env { hmid with rightSource := rest } item = (h', some res) →
      buildLoop env h (pre ++ item :: rest) = (h', res) := by
  intro pre
  induction pre with
  | nil =>
    intro h hmid h' item rest res hs hi
    rw [buildSteps] at hs
    cases hs
    rw [List.nil_append, buildLoop]
    simp only [hi]
  | cons it pre ih =>
    intro h hmid h' item rest res hs hi
    rw [buildSteps] at hs
    rcases hit : buildItem env { h with rightSource := pre ++ item :: rest } it with ⟨h2, r2⟩
    rw [hit] at hs
    cases r2 with
    | some r => simp at hs
    | none =>
      simp only at hs
      rw [List.cons_append, buildLoop]
      simp only [hit]
      exact ih h2 hmid h' item rest res hs hi

/-- The main loop of the probe phase either runs through the whole source, every
iteration ending in `continue`, or leaves in the iteration on some pair, by
`break` or by a return, all the iterations before it having ended in
`continue`; nothing is pulled after that pair. -/
theorem probeLoop_split {D : Type} (env : Env D) :
    ∀ (src : List (Option (List D) × ProducerMetadata)) (h h' : hashJoiner D)
      (res : Option PhaseResult), probeLoop env h src = (h', res) →
      (∃ hmid, probeSteps env h src [] = some hmid ∧ h' = { hmid with leftSource := [] } ∧
        res = none) ∨
      (∃ pre item rest hmid st, src = pre ++ item :: rest ∧
        probeSteps env h pre (item :: rest) = some hmid ∧
        probeItem env { hmid with leftSource := rest } item = (h', st) ∧
        st ≠ .next ∧ res = st.result) := by
  intro src
  induction src with
  | nil =>
    intro h h' res hb
    rw [probeLoop] at hb
    cases hb
    exact Or.inl ⟨h, rfl, rfl, rfl⟩
  | cons item rest ih =>
    intro h h' res hb
    rw [probeLoop] at hb
    rcases hi : probeItem env { h with leftSource := rest } item with ⟨h2, r2⟩
    rw [hi] at hb
    cases r2 with
    | ret r =>
      cases hb
      exact Or.inr ⟨[], item, rest, h, .ret r, rfl, rfl, hi, by simp, rfl⟩
    | stop =>
      cases hb
      exact Or.inr ⟨[], item, rest, h, .stop, rfl, rfl, hi, by simp, rfl⟩
    | next =>
      simp only at hb
      rcases ih h2 h' res hb with ⟨hmid, s1, s2, s3⟩ | ⟨pre, it, rest', hmid, st, s1, s2, s3, s4, s5⟩
      · refine Or.inl ⟨hmid, ?_, s2, s3⟩
        rw [probeSteps]
        simp only [List.append_nil, hi]
        exact s1
      · subst s1
        refine Or.inr ⟨item :: pre, it, rest', hmid, st, rfl, ?_, s3, s4, s5⟩
        rw [probeSteps]
        simp only [hi]
        exact s2

/-- When the iterations on the pairs before a pair end in `continue` and the
iteration on that pair returns, the main loop of the probe phase returns what
that iteration returns, whatever follows in the source. -/
theorem probeLoop_of_steps {D : Type} (env : Env D) :
    ∀ (pre : List (Option (List D) × ProducerMetadata)) (h hmid h' : hashJoiner D)
      (item : Option (List D) × ProducerMetadata)
      (rest : List (Option (List D) × ProducerMetadata)) (res : PhaseResult),
      probeSteps env h pre (item :: rest) = some hmid →
      probeItem env { hmid with leftSource := rest } item = (h', .ret res) →
      probeLoop env h (pre ++ item :: rest) = (h', some res) := by
  intro pre
  induction pre with
  | nil =>
    intro h hmid h' item rest res hs hi
    rw [probeSteps] at hs
    cases hs
    rw [List.nil_append, probeLoop]
    simp only [hi]
  | cons it pre ih =>
    intro h hmid h' item rest res hs hi
    rw [probeSteps] at hs
    rcases hit : probeItem env { h with leftSource := pre ++ item :: rest } it with ⟨h2, r2⟩
    rw [hit] at hs
    cases r2 with
    | ret r => simp at hs
    | stop => simp at hs
    | next =>
      simp only at hs
      rw [List.cons_append, probeLoop]
      simp only [hit]
      exact ih h2 hmid h' item rest res hs hi

/-- An iteration of the build loop on a row never returns with `moreRows`
set. -/
theorem buildRow_ret_false {D : Type} (env : Env D) (h h' : hashJoiner D) (rrow : List D)
    (m : Bool) (e : Option Err) (hb : buildRow env h rrow = (h', some (.ret m e))) :
    m = false := by
  unfold buildRow at hb
  rcases henc : encodeColumnsOfRow env [] rrow h.rightEqCols false with ⟨enc, hn, _ | e0⟩ | _
  · rw [henc] at hb
    simp only at hb
    cases hn
    · simp only [Bool.false_eq_true, if_false] at hb
      cases hadd : env.AddRow h.rows rrow with
      | some e1 =>
        rw [hadd] at hb
        cases hb
        rfl
      | none =>
        rw [hadd] at hb
        simp only at hb
        split at hb
        · cases hb
          rfl
        · cases hb
    · simp only [if_true] at hb
      split at hb
      · simp only [render] at hb
        split at hb
        · cases hb
          rfl
        · split at hb
          · cases hb
          · split at hb
            · cases hb
            · cases hb
              rfl
      · cases hb
  · rw [henc] at hb
    cases hb
    rfl
  · rw [henc] at hb
    cases hb

/-- An iteration of the build loop touches neither source. -/
theorem buildItem_sources {D : Type} (env : Env D) (h : hashJoiner D)
    (item : Option (List D) × ProducerMetadata) :
    (buildItem env h item).1.rightSource = h.rightSource ∧
    (buildItem env h item).1.leftSource = h.leftSource := by
  obtain ⟨row, m⟩ := item
  unfold buildItem
  simp only
  split
  · split
    · exact ⟨rfl, rfl⟩
    · obtain ⟨-, -, -, f4, f5, -⟩ := emitHelper_frame env h (.meta m) [.left, .right]
      split <;> exact ⟨f4, f5⟩
  · split
    · exact ⟨rfl, rfl⟩
    · rename_i rrow
      exact (buildRow_inv env h _ rrow _ rfl).2.1

/-- The iteration of the build loop on the end-of-input signal returns
`(true, nil)` and changes nothing. -/
theorem buildItem_end {D : Type} (env : Env D) (h : hashJoiner D)
    (item : Option (List D) × ProducerMetadata) (he : isEnd item = true) :
    buildItem env h item = (h, some (.ret true none)) := by
  obtain ⟨row, m⟩ := item
  simp only [isEnd, Bool.and_eq_true, Option.isNone_iff_eq_none] at he
  obtain ⟨hE, hrow⟩ := he
  subst hrow
  simp [buildItem, hE]

/-- Only the iteration on the end-of-input signal returns `(true, nil)`. -/
theorem buildItem_more_none {D : Type} (env : Env D) (h h' : hashJoiner D)
    (item : Option (List D) × ProducerMetadata)
    (hb : buildItem env h item = (h', some (.ret true none))) : isEnd item = true := by
  obtain ⟨row, m⟩ := item
  unfold buildItem at hb
  simp only at hb
  cases hE : m.Empty with
  | false =>
    simp only [hE, Bool.not_false, if_true] at hb
    split at hb
    · cases hb
    · split at hb <;> cases hb
  | true =>
    simp only [hE, Bool.not_true, Bool.false_eq_true, if_false] at hb
    cases row with
    | none => simp [isEnd, hE]
    | some rrow =>
      simp only at hb
      have := buildRow_ret_false env h h' rrow true none hb
      cases this

/-- The pairs on which the build loop continues hold no end-of-input
signal. -/
theorem buildSteps_no_end {D : Type} (env : Env D) :
    ∀ (pre : List (Option (List D) × ProducerMetadata)) (h hmid : hashJoiner D)
      (tail : List (Option (List D) × ProducerMetadata)),
      buildSteps env h pre tail = some hmid → ∀ it ∈ pre, isEnd it = false := by
  intro pre
  induction pre with
  | nil => intro h hmid tail _ it hit; cases hit
  | cons item pre ih =>
    intro h hmid tail hs it hit
    rw [buildSteps] at hs
    rcases hi : buildItem env { h with rightSource := pre ++ tail } item with ⟨h2, r2⟩
    rw [hi] at hs
    cases r2 with
    | some r => simp at hs
    | none =>
      simp only at hs
      rcases List.mem_cons.mp hit with rfl | hit'
      · cases he : isEnd it with
        | false => rfl
        | true =>
          rw [buildItem_end env _ it he] at hi
          cases hi
      · exact ih h2 hmid tail hs it hit'

/-- The source that holds an end-of-input signal after pairs that are not. -/
theorem taken_split_end {D : Type} (pre : List (Option (List D) × ProducerMetadata))
    (item : Option (List D) × ProducerMetadata)
    (rest : List (Option (List D) × ProducerMetadata))
    (hpre : ∀ it ∈ pre, isEnd it = false) (he : isEnd item = true) :
    taken (pre ++ item :: rest) = pre ∧ afterEnd (pre ++ item :: rest) = rest ∧
      consumed (pre ++ item :: rest) = pre ++ [item] := by
  induction pre with
  | nil => exact taken_cons_end item rest he
  | cons it pre ih =>
    obtain ⟨t1, t2, t3⟩ := taken_cons_go it (pre ++ item :: rest) (hpre it (List.mem_cons_self _ _))
    obtain ⟨i1, i2, i3⟩ := ih (fun x hx => hpre x (List.mem_cons_of_mem _ hx))
    rw [List.cons_append, t1, t2, t3, i1, i2, i3]
    exact ⟨rfl, rfl, rfl⟩

/-- A source without end-of-input signal is pulled whole. -/
theorem consumed_of_no_end {D : Type} (src : List (Option (List D) × ProducerMetadata))
    (h : ∀ it ∈ src, isEnd it = false) : consumed src = src := by
  have := consumed_append_afterEnd src
  rw [(taken_of_no_end src h).2, List.append_nil] at this
  exact this

/-- C7. Build-phase insertion rule. When `buildPhase` returns without error it has
pulled a prefix `pulled` of the right source and left the rest in the source.
When it returns `(true, nil)` it has consumed the input: `pulled` holds every
pair up to and including the first end-of-input signal (the whole source when
it holds none). When it returns `(false, nil)` the last pair pulled is the one
in whose iteration the consumer declined, the iterations on the pairs before
it having ended in `continue`. In both cases the row container holds exactly
the pulled rows that have no NULL in any right equality column, in arrival
order: a pulled row is stored if and only if no right equality column of it is
NULL. The buckets hold positions of stored rows only, and the position of
every stored row appears exactly once in the bucket keyed by the row's encoded
right equality columns and in no bucket under another key, the keys of the map
being distinct. -/
theorem buildPhase_insertion_rule {D : Type} (env : Env D) (joinType : JoinType)
    (leftEqCols rightEqCols : List Nat)
    (leftSource rightSource : List (Option (List D) × ProducerMetadata))
    (h1 : hashJoiner D) (more : Bool)
    (hb : buildPhase env (newHashJoiner joinType leftEqCols rightEqCols leftSource rightSource)
      = (h1, .ret more none)) :
    ∃ pulled, rightSource = pulled ++ h1.rightSource ∧
      (more = true → pulled = consumed rightSource ∧ h1.rightSource = afterEnd rightSource) ∧
      (more = false → ∃ pre item hmid, pulled = pre ++ [item] ∧
        buildSteps env (newHashJoiner joinType leftEqCols rightEqCols leftSource rightSource)
          pre (item :: h1.rightSource) = some hmid ∧
        buildItem env { hmid with rightSource := h1.rightSource } item
          = (h1, some (.ret false none))) ∧
      h1.rows = (pulledRows pulled).filter (fun r => !hasNullB env rightEqCols r) ∧
      (∀ r ∈ pulledRows pulled, (r ∈ h1.rows ↔ ¬ hasNullIn env rightEqCols r)) ∧
      (h1.buckets.map Prod.fst).Nodup ∧
      (∀ k b, (k, b) ∈ h1.buckets → ∀ i ∈ b.rows, i < h1.rows.length) ∧
      (∀ i r, h1.rows[i]? = some r →
        ∃ k b, encodeColumnsOfRow env [] r rightEqCols false = .ret k false none ∧
          mapGet h1.buckets k = some b ∧ b.rows.count i = 1 ∧
          ∀ k' b', (k', b') ∈ h1.buckets → i ∈ b'.rows → k' = k) := by
  obtain ⟨hinv, hcfg, pulled, hpre, hrows⟩ :=
    buildLoop_table env rightSource _ h1 more
      (TableInv_new env joinType leftEqCols rightEqCols leftSource rightSource) hb
  have hc : h1.rightEqCols = rightEqCols := hcfg.2.2
  obtain ⟨p1, p2⟩ := hinv.placement
  rw [hc] at p2
  have hrows' : h1.rows = (pulledRows pulled).filter (fun r => !hasNullB env rightEqCols r) := by
    simpa [newHashJoiner] using hrows
  have hwhere : (more = true →
        pulled = consumed rightSource ∧ h1.rightSource = afterEnd rightSource) ∧
      (more = false → ∃ pre item hmid, pulled = pre ++ [item] ∧
        buildSteps env (newHashJoiner joinType leftEqCols rightEqCols leftSource rightSource)
          pre (item :: h1.rightSource) = some hmid ∧
        buildItem env { hmid with rightSource := h1.rightSource } item
          = (h1, some (.ret false none))) := by
    have hb' : buildLoop env
        (newHashJoiner joinType leftEqCols rightEqCols leftSource rightSource) rightSource
        = (h1, .ret more none) := hb
    rcases buildLoop_split env rightSource _ h1 _ hb' with
      ⟨hmid, s1, s2, s3⟩ | ⟨pre, item, rest, hmid, s1, s2, s3⟩
    · have hrs : h1.rightSource = [] := by rw [s2]
      have hm : more = true := by cases s3; rfl
      have hno := buildSteps_no_end env rightSource _ hmid [] s1
      refine ⟨fun _ => ?_, fun hf => by rw [hm] at hf; cases hf⟩
      rw [hrs, List.append_nil] at hpre
      rw [← hpre, consumed_of_no_end rightSource hno, hrs, (taken_of_no_end rightSource hno).2]
      exact ⟨rfl, rfl⟩
    · have hrs : h1.rightSource = rest := by
        have := (buildItem_sources env { hmid with rightSource := rest } item).1
        rw [s3] at this
        exact this
      have hpulled : pulled = pre ++ [item] := by
        rw [hrs, s1] at hpre
        have : (pre ++ [item]) ++ rest = pulled ++ rest := by
          rw [← hpre]
          simp
        exact (List.append_cancel_right this).symm
      have hno := buildSteps_no_end env pre _ hmid (item :: rest) s2
      constructor
      · intro hm
        subst hm
        have he := buildItem_more_none env _ h1 item s3
        obtain ⟨-, t2, t3⟩ := taken_split_end pre item rest hno he
        rw [s1, t2, t3]
        exact ⟨hpulled, hrs⟩
      · intro hm
        subst hm
        rw [hrs]
        exact ⟨pre, item, hmid, hpulled, s2, s3⟩
  refine ⟨pulled, hpre, hwhere.1, hwhere.2, hrows', ?_, hinv.nodup, p1, p2⟩
  intro r hr
  rw [hrows', List.mem_filter, ← hasNullB_iff]
  constructor
  · rintro ⟨-, hn⟩
    simpa using hn
  · intro hn
    exact ⟨hr, by simpa using hn⟩

/-- Witness of C7: the right source `(NULL,x), (1,foo), metadata, (2,bar),
(1,baz), end, (9,x)` under a full outer join: the build pulls the six pairs up
to the end-of-input signal, stores `(1,foo), (2,bar), (1,baz)` and not
`(NULL,x)`, and leaves `(9,x)` in the source. -/
theorem buildPhase_insertion_rule_witness :
    (∃ pulled,
      mixedSrc = pulled ++ (buildPhase (sampleEnv onTrue)
        (newHashJoiner .fullOuter [0] [0] [] mixedSrc)).1.rightSource ∧
      (true = true → pulled = consumed mixedSrc ∧
        (buildPhase (sampleEnv onTrue)
          (newHashJoiner .fullOuter [0] [0] [] mixedSrc)).1.rightSource = afterEnd mixedSrc) ∧
      (true = false → ∃ pre item hmid, pulled = pre ++ [item] ∧
        buildSteps (sampleEnv onTrue) (newHashJoiner .fullOuter [0] [0] [] mixedSrc)
          pre (item :: (buildPhase (sampleEnv onTrue)
            (newHashJoiner .fullOuter [0] [0] [] mixedSrc)).1.rightSource) = some hmid ∧
        buildItem (sampleEnv onTrue)
          { hmid with rightSource := (buildPhase (sampleEnv onTrue)
            (newHashJoiner .fullOuter [0] [0] [] mixedSrc)).1.rightSource } item
          = ((buildPhase (sampleEnv onTrue)
            (newHashJoiner .fullOuter [0] [0] [] mixedSrc)).1, some (.ret false none))) ∧
      (buildPhase (sampleEnv onTrue) (newHashJoiner .fullOuter [0] [0] [] mixedSrc)).1.rows
        = (pulledRows pulled).filter (fun r => !hasNullB (sampleEnv onTrue) [0] r) ∧
      (∀ r ∈ pulledRows pulled,
        (r ∈ (buildPhase (sampleEnv onTrue)
            (newHashJoiner .fullOuter [0] [0] [] mixedSrc)).1.rows ↔
          ¬ hasNullIn (sampleEnv onTrue) [0] r)) ∧
      ((buildPhase (sampleEnv onTrue)
        (newHashJoiner .fullOuter [0] [0] [] mixedSrc)).1.buckets.map Prod.fst).Nodup ∧
      (∀ k b, (k, b) ∈ (buildPhase (sampleEnv onTrue)
          (newHashJoiner .fullOuter [0] [0] [] mixedSrc)).1.buckets →
        ∀ i ∈ b.rows, i < (buildPhase (sampleEnv onTrue)
          (newHashJoiner .fullOuter [0] [0] [] mixedSrc)).1.rows.length) ∧
      (∀ i r, (buildPhase (sampleEnv onTrue)
          (newHashJoiner .fullOuter [0] [0] [] mixedSrc)).1.rows[i]? = some r →
        ∃ k b, encodeColumnsOfRow (sampleEnv onTrue) [] r [0] false = .ret k false none ∧
          mapGet (buildPhase (sampleEnv onTrue)
            (newHashJoiner .fullOuter [0] [0] [] mixedSrc)).1.buckets k = some b ∧
          b.rows.count i = 1 ∧
          ∀ k' b', (k', b') ∈ (buildPhase (sampleEnv onTrue)
            (newHashJoiner .fullOuter [0] [0] [] mixedSrc)).1.buckets →
            i ∈ b'.rows → k' = k)) ∧
    (buildPhase (sampleEnv onTrue) (newHashJoiner .fullOuter [0] [0] [] mixedSrc)).1.rows
      = [[.int 1, tfoo], [.int 2, tbar], [.int 1, tbaz]] ∧
    (buildPhase (sampleEnv onTrue) (newHashJoiner .fullOuter [0] [0] [] mixedSrc)).1.buckets
      = [([1, 1], ⟨[0, 2], []⟩), ([1, 2], ⟨[1], []⟩)] ∧
    (buildPhase (sampleEnv onTrue) (newHashJoiner .fullOuter [0] [0] [] mixedSrc)).1.rightSource
      = [(some [.int 9, tx], ProducerMetadata.zero)] ∧
    pulledRows (consumed mixedSrc)
      = [[.null, tx], [.int 1, tfoo], [.int 2, tbar], [.int 1, tbaz]] :=
  ⟨buildPhase_insertion_rule (sampleEnv onTrue) .fullOuter [0] [0] [] mixedSrc _ true rfl,
    rfl, rfl, rfl, rfl⟩

/-! ## The loops of the probe phase touch the sources at the pull only -/

theorem probeBucket_sources {D : Type} (env : Env D) (lrow : List D) (key : List Nat) :
    ∀ (idxs : List Nat) (h : hashJoiner D) (b : bucket) (i : Nat),
      (probeBucket env h lrow key b i idxs).1.leftSource = h.leftSource ∧
      (probeBucket env h lrow key b i idxs).1.rightSource = h.rightSource := by
  intro idxs
  induction idxs with
  | nil =>
    intro h b i
    rw [probeBucket]
    exact ⟨rfl, rfl⟩
  | cons idx rest ih =>
    intro h b i
    rw [probeBucket]
    cases hget : h.rows[idx]? with
    | none => exact ⟨rfl, rfl⟩
    | some rrow =>
      simp only
      obtain ⟨-, -, -, f4, f5, -⟩ := renderAndEmit_frame env h (some lrow) (some rrow)
      split
      · exact ⟨f4, f5⟩
      · split
        · split
          · obtain ⟨a, c⟩ := ih { (renderAndEmit env h (some lrow) (some rrow)).h with
              buckets := mapSet (renderAndEmit env h (some lrow) (some rrow)).h.buckets key
                { b with seen := b.seen.set i true } } { b with seen := b.seen.set i true }
              (i + 1)
            exact ⟨a.trans f4, c.trans f5⟩
          · exact ⟨f4, f5⟩
        · obtain ⟨a, c⟩ := ih (renderAndEmit env h (some lrow) (some rrow)).h b (i + 1)
          exact ⟨a.trans f4, c.trans f5⟩

theorem probeRow_sources {D : Type} (env : Env D) (h : hashJoiner D) (lrow : List D) :
    (probeRow env h lrow).1.leftSource = h.leftSource ∧
    (probeRow env h lrow).1.rightSource = h.rightSource := by
  obtain ⟨-, -, -, f4, f5, -⟩ := renderAndEmit_frame env h (some lrow) none
  unfold probeRow
  split
  · exact ⟨rfl, rfl⟩
  · exact ⟨rfl, rfl⟩
  · split
    · split
      · simp only
        split <;> exact ⟨f4, f5⟩
      · exact ⟨rfl, rfl⟩
    · split
      · exact probeBucket_sources env lrow _ _ h _ 0
      · split
        · simp only
          split <;> exact ⟨f4, f5⟩
        · exact ⟨rfl, rfl⟩

theorem probeItem_sources {D : Type} (env : Env D) (h : hashJoiner D)
    (item : Option (List D) × ProducerMetadata) :
    (probeItem env h item).1.leftSource = h.leftSource ∧
    (probeItem env h item).1.rightSource = h.rightSource := by
  unfold probeItem
  split
  · split
    · exact ⟨rfl, rfl⟩
    · obtain ⟨-, -, -, f4, f5, -⟩ := emitHelper_frame env h (.meta item.2) [.left, .right]
      simp only
      split <;> exact ⟨f5, f4⟩
  · split
    · exact ⟨rfl, rfl⟩
    · rename_i lrow _
      have := probeRow_sources env h lrow
      simp only
      split <;> exact this

theorem probeLoop_rightSource {D : Type} (env : Env D) :
    ∀ (src : List (Option (List D) × ProducerMetadata)) (h : hashJoiner D),
      (probeLoop env h src).1.rightSource = h.rightSource := by
  intro src
  induction src with
  | nil => intro h; rw [probeLoop]
  | cons item rest ih =>
    intro h
    rw [probeLoop]
    have := (probeItem_sources env { h with leftSource := rest } item).2
    split
    · exact this
    · exact this
    · exact (ih _).trans this

theorem sweepBucket_sources {D : Type} (env : Env D) (b : bucket) :
    ∀ (seens : List Bool) (h : hashJoiner D) (i : Nat),
      (sweepBucket env h b i seens).1.leftSource = h.leftSource ∧
      (sweepBucket env h b i seens).1.rightSource = h.rightSource := by
  intro seens
  induction seens with
  | nil =>
    intro h i
    rw [sweepBucket]
    exact ⟨rfl, rfl⟩
  | cons seen rest ih =>
    intro h i
    rw [sweepBucket]
    split
    · split
      · exact ⟨rfl, rfl⟩
      · split
        · exact ⟨rfl, rfl⟩
        · rename_i rrow _
          obtain ⟨-, -, -, f4, f5, -⟩ := renderAndEmit_frame env h none (some rrow)
          simp only
          split
          · exact ⟨f4, f5⟩
          · obtain ⟨a, c⟩ := ih (renderAndEmit env h none (some rrow)).h (i + 1)
            exact ⟨a.trans f4, c.trans f5⟩
    · exact ih h (i + 1)

theorem sweepLoop_sources {D : Type} (env : Env D) :
    ∀ (es : List (List Nat × bucket)) (h : hashJoiner D),
      (sweepLoop env h es).1.leftSource = h.leftSource ∧
      (sweepLoop env h es).1.rightSource = h.rightSource := by
  intro es
  induction es with
  | nil =>
    intro h
    rw [sweepLoop]
    exact ⟨rfl, rfl⟩
  | cons e rest ih =>
    intro h
    obtain ⟨k, b⟩ := e
    rw [sweepLoop]
    have hb := sweepBucket_sources env b b.seen h 0
    split
    · exact hb
    · obtain ⟨a, c⟩ := ih (sweepBucket env h b 0 b.seen).1
      exact ⟨a.trans hb.1, c.trans hb.2⟩

/-- The unmatched sweep pulls nothing: it leaves both sources as they are. -/
theorem probeSweep_sources {D : Type} (env : Env D) (h : hashJoiner D) :
    (probeSweep env h).1.leftSource = h.leftSource ∧
    (probeSweep env h).1.rightSource = h.rightSource := by
  unfold probeSweep
  split
  · have := sweepLoop_sources env (env.rangeOrder 1 h.buckets) h
    simp only
    split <;> exact this
  · exact ⟨rfl, rfl⟩

/-- The iterations on which the build loop continues leave the joiner live and
the left source untouched. -/
theorem buildSteps_live {D : Type} (env : Env D) :
    ∀ (pre : List (Option (List D) × ProducerMetadata)) (h hmid : hashJoiner D)
      (tail : List (Option (List D) × ProducerMetadata)), Live env h →
      buildSteps env h pre tail = some hmid →
      Live env hmid ∧ hmid.leftSource = h.leftSource := by
  intro pre
  induction pre with
  | nil =>
    intro h hmid tail hl hs
    rw [buildSteps] at hs
    cases hs
    exact ⟨hl, rfl⟩
  | cons item pre ih =>
    intro h hmid tail hl hs
    rw [buildSteps] at hs
    rcases hi : buildItem env { h with rightSource := pre ++ tail } item with ⟨h2, r2⟩
    rw [hi] at hs
    cases r2 with
    | some r => simp at hs
    | none =>
      simp only at hs
      obtain ⟨st, hleft⟩ := buildItem_stop env _ h2 item none hi hl
      obtain ⟨a, c⟩ := ih h2 hmid tail st.open_of_none hs
      exact ⟨a, c.trans hleft⟩

/-- The iterations on which the main loop of the probe phase continues leave
the joiner live and the right source untouched. -/
theorem probeSteps_live {D : Type} (env : Env D) :
    ∀ (pre : List (Option (List D) × ProducerMetadata)) (h hmid : hashJoiner D)
      (tail : List (Option (List D) × ProducerMetadata)), Live env h →
      probeSteps env h pre tail = some hmid →
      Live env hmid ∧ hmid.rightSource = h.rightSource := by
  intro pre
  induction pre with
  | nil =>
    intro h hmid tail hl hs
    rw [probeSteps] at hs
    cases hs
    exact ⟨hl, rfl⟩
  | cons item pre ih =>
    intro h hmid tail hl hs
    rw [probeSteps] at hs
    have hst := (probeItem_stop env { h with leftSource := pre ++ tail } item hl).1
    have hsrc := (probeItem_sources env { h with leftSource := pre ++ tail } item).2
    rcases hi : probeItem env { h with leftSource := pre ++ tail } item with ⟨h2, r2⟩
    rw [hi] at hs hst hsrc
    cases r2 with
    | ret r => simp at hs
    | stop => simp at hs
    | next =>
      simp only at hs
      obtain ⟨a, c⟩ := ih h2 hmid tail hst.open_of_none hs
      exact ⟨a, c.trans hsrc⟩

/-- C15: with the emit helper returning false once the consumer declines, for
every environment, join type and pair of sources, if the consumer declines
some push of the run, then the declined push is the first one declined and
the last push of the run: the output is pushes that were all accepted,
followed by the declined one. The decline happens in one iteration of a loop
that the run reached with the joiner live, no push declined and no closing
call made, and the run ends in the state that iteration left: either the
iteration of `buildPhase` on a pair of the right source, the iterations on the
pairs before it having ended in `continue`, and then the right source holds
exactly the pairs after that pair and the left source is untouched; or, after
a build and a seen allocation without error, the iteration of the main loop of
`probePhase` on a pair of the left source, and then the left source holds
exactly the pairs after that pair and the right source is as the build left
it; or the unmatched sweep, which pulls nothing, after the main loop has left
by `break`. The phase returns `(false, nil)`, and `Run` runs no later phase and
makes no call of `DrainAndClose`: its only closing calls are the one of the
helper and its two deferred releases. -/
theorem consumer_declines_early {D : Type} (env : Env D) (jt : JoinType)
    (leftEqCols rightEqCols : List Nat)
    (leftSource rightSource : List (Option (List D) × ProducerMetadata))
    (hdecl : ¬ AllAccepted env
      (runBody env (newHashJoiner jt leftEqCols rightEqCols leftSource rightSource)).1.out) :
    ∃ (hd : hashJoiner D) (accepted : List (OutItem D)) (item : OutItem D)
        (inputs : List Side),
      hd.out = accepted ++ [item] ∧ AllAccepted env accepted ∧
      env.consumerMore (accepted ++ [item]) = false ∧
      hd.closeLog = [.emitStop inputs] ∧
      ((∃ pre it rest hmid, rightSource = pre ++ it :: rest ∧
          buildSteps env (newHashJoiner jt leftEqCols rightEqCols leftSource rightSource)
            pre (it :: rest) = some hmid ∧
          Live env hmid ∧
          buildItem env { hmid with rightSource := rest } it = (hd, some (.ret false none)) ∧
          buildPhase env (newHashJoiner jt leftEqCols rightEqCols leftSource rightSource)
            = (hd, .ret false none) ∧
          hd.rightSource = rest ∧ hd.leftSource = leftSource) ∨
        ∃ h1 h2,
          buildPhase env (newHashJoiner jt leftEqCols rightEqCols leftSource rightSource)
            = (h1, .ret true none) ∧
          (if h1.joinType.rightSide then allocSeen env h1 (env.rangeOrder 0 h1.buckets)
            else (h1, none)) = (h2, none) ∧
          h2.leftSource = leftSource ∧
          probePhase env h2 = (hd, .ret false none) ∧
          hd.rightSource = h1.rightSource ∧
          ((∃ pre it rest hmid, leftSource = pre ++ it :: rest ∧
              probeSteps env h2 pre (it :: rest) = some hmid ∧
              Live env hmid ∧
              probeItem env { hmid with leftSource := rest } it
                = (hd, .ret (.ret false none)) ∧
              hd.leftSource = rest) ∨
            ∃ hp, probeLoop env h2 leftSource = (hp, none) ∧ Live env hp ∧
              probeSweep env hp = (hd, .ret false none) ∧
              hd.leftSource = hp.leftSource)) ∧
      runBody env (newHashJoiner jt leftEqCols rightEqCols leftSource rightSource) = (hd, none) ∧
      Run env (newHashJoiner jt leftEqCols rightEqCols leftSource rightSource) =
        ({ hd with rows := [], bucketsAcc := 0,
                   closeLog := [.emitStop inputs, .rowsClose, .accClose] }, none) := by
  have hl0 := Live_new env jt leftEqCols rightEqCols leftSource rightSource
  have key : ∃ hd, Declined env hd ∧
      ((∃ pre it rest hmid, rightSource = pre ++ it :: rest ∧
          buildSteps env (newHashJoiner jt leftEqCols rightEqCols leftSource rightSource)
            pre (it :: rest) = some hmid ∧
          Live env hmid ∧
          buildItem env { hmid with rightSource := rest } it = (hd, some (.ret false none)) ∧
          buildPhase env (newHashJoiner jt leftEqCols rightEqCols leftSource rightSource)
            = (hd, .ret false none) ∧
          hd.rightSource = rest ∧ hd.leftSource = leftSource) ∨
        ∃ h1 h2,
          buildPhase env (newHashJoiner jt leftEqCols rightEqCols leftSource rightSource)
            = (h1, .ret true none) ∧
          (if h1.joinType.rightSide then allocSeen env h1 (env.rangeOrder 0 h1.buckets)
            else (h1, none)) = (h2, none) ∧
          h2.leftSource = leftSource ∧
          probePhase env h2 = (hd, .ret false none) ∧
          hd.rightSource = h1.rightSource ∧
          ((∃ pre it rest hmid, leftSource = pre ++ it :: rest ∧
              probeSteps env h2 pre (it :: rest) = some hmid ∧
              Live env hmid ∧
              probeItem env { hmid with leftSource := rest } it
                = (hd, .ret (.ret false none)) ∧
              hd.leftSource = rest) ∨
            ∃ hp, probeLoop env h2 leftSource = (hp, none) ∧ Live env hp ∧
              probeSweep env hp = (hd, .ret false none) ∧
              hd.leftSource = hp.leftSource)) ∧
      runBody env (newHashJoiner jt leftEqCols rightEqCols leftSource rightSource)
        = (hd, none) := by
    rcases hb : buildPhase env (newHashJoiner jt leftEqCols rightEqCols leftSource rightSource)
      with ⟨h1, r1⟩
    obtain ⟨hs, hleft⟩ := buildLoop_stop env _ _ h1 r1 hb hl0
    have hleft1 : h1.leftSource = leftSource := hleft
    unfold runBody at hdecl ⊢
    rw [hb] at hdecl ⊢
    rcases r1 with ⟨m, _ | e⟩ | p
    · cases m
      · rcases hs.1 with ⟨-, hne⟩ | ⟨hd, -⟩
        · exact absurd rfl hne
        · refine ⟨h1, hd, Or.inl ?_, rfl⟩
          have hb' : buildLoop env
              (newHashJoiner jt leftEqCols rightEqCols leftSource rightSource) rightSource
              = (h1, .ret false none) := hb
          rcases buildLoop_split env rightSource _ h1 _ hb' with
            ⟨hmid, -, -, s3⟩ | ⟨pre, it, rest, hmid, s1, s2, s3⟩
          · cases s3
          · have hlm := (buildSteps_live env pre _ hmid (it :: rest) hl0 s2).1
            have hrs := (buildItem_sources env { hmid with rightSource := rest } it).1
            rw [s3] at hrs
            exact ⟨pre, it, rest, hmid, s1, s2, hlm, s3, rfl, hrs, hleft1⟩
      · have hl1 : Live env h1 := by
          rcases hs.1 with ⟨hl, -⟩ | ⟨-, hr⟩
          · exact hl
          · cases hr
        simp only at hdecl ⊢
        unfold runProbe at hdecl ⊢
        rcases hst : (if h1.joinType.rightSide then
            allocSeen env h1 (env.rangeOrder 0 h1.buckets) else (h1, none)) with ⟨h2, ea⟩
        obtain ⟨hl2, -, hlft2, hrgt2, -⟩ := stage_live env h1 h2 ea hst hl1
        have hleft2 : h2.leftSource = leftSource := hlft2.trans hleft1
        rw [hst] at hdecl
        cases ea with
        | some e => exact absurd hl2.2 hdecl
        | none =>
          simp only at hdecl ⊢
          rcases hp : probePhase env h2 with ⟨h3, r3⟩
          have hend := (probePhase_stop env h2 hl2).1
          rw [hp] at hend hdecl
          rcases r3 with ⟨m3, e3⟩ | p3
          · simp only at hdecl ⊢
            rcases hend with ⟨hcase, -⟩ | ⟨-, ha, -⟩
            · rcases hcase with ⟨hl3, -⟩ | ⟨hd, hr⟩
              · exfalso
                apply hdecl
                split <;> exact hl3.2
              · cases hr
                refine ⟨h3, hd, Or.inr ⟨h1, h2, rfl, hst, hleft2, hp, ?_, ?_⟩, rfl⟩
                · have h31 : (probePhase env h2).1.rightSource = h2.rightSource := by
                    unfold probePhase
                    simp only
                    split
                    · exact probeLoop_rightSource env _ h2
                    · exact (probeSweep_sources env _).2.trans
                        (probeLoop_rightSource env _ h2)
                  rw [hp] at h31
                  exact h31.trans hrgt2
                · unfold probePhase at hp
                  simp only at hp
                  rw [hleft2] at hp
                  have hls := (probeLoop_stop env leftSource h2 hl2).1
                  rcases hpl : probeLoop env h2 leftSource with ⟨hq, rq⟩
                  rw [hpl] at hp hls
                  cases rq with
                  | some res =>
                    simp only at hp
                    cases hp
                    rcases probeLoop_split env leftSource h2 h3 _ hpl with
                      ⟨hmid, -, -, s3⟩ | ⟨pre, it, rest, hmid, st, s1, s2, s3, s4, s5⟩
                    · cases s3
                    · have hlm := (probeSteps_live env pre h2 hmid (it :: rest) hl2 s2).1
                      have hsrc := (probeItem_sources env { hmid with leftSource := rest } it).1
                      rw [s3] at hsrc
                      have hst' : st = .ret (.ret false none) := by
                        cases st with
                        | next => exact absurd rfl s4
                        | stop => cases s5
                        | ret r =>
                          simp only [LoopStep.result] at s5
                          cases s5
                          rfl
                      rw [hst'] at s3
                      exact Or.inl ⟨pre, it, rest, hmid, s1, s2, hlm, s3, hsrc⟩
                  | none =>
                    simp only at hp
                    have hsw := (probeSweep_sources env hq).1
                    rw [hp] at hsw
                    exact Or.inr ⟨hq, rfl, hls.open_of_none, hp, hsw⟩
            · exfalso
              apply hdecl
              split <;> exact ha
          · rcases hend with ⟨hcase, -⟩ | ⟨-, ha, -⟩
            · rcases hcase with ⟨hl3, -⟩ | ⟨-, hr⟩
              · exact absurd hl3.2 hdecl
              · cases hr
            · exact absurd ha hdecl
    · cases m
      all_goals
        rcases hs.1 with ⟨hl, -⟩ | ⟨-, hr⟩
        · exact absurd hl.2 hdecl
        · cases hr
    · rcases hs.1 with ⟨hl, -⟩ | ⟨-, hr⟩
      · exact absurd hl.2 hdecl
      · cases hr
  obtain ⟨hd, hdec, hphase, hrun⟩ := key
  obtain ⟨hpre, item, inputs, f1, -, f3, f4, -, -, f7⟩ := hdec.facts
  refine ⟨hd, hpre.out, item, inputs, f3, f1.2, f4, f7, hphase, hrun, ?_⟩
  unfold Run
  rw [hrun]
  simp only [f7, List.singleton_append]

/-- Witness of C15: seed scenario 1 under an inner join with a consumer that
declines the first push: the decline happens in the iteration of the main loop
of the probe phase on the first left row, the run pushes `(1,x,1,foo)` only,
leaves the second left row unpulled and makes no call of `DrainAndClose`. -/
theorem consumer_declines_early_witness :
    (∃ (hd : hashJoiner Datum) (accepted : List (OutItem Datum)) (item : OutItem Datum)
        (inputs : List Side),
      hd.out = accepted ++ [item] ∧ AllAccepted (sampleEnvStop onTrue 1) accepted ∧
      (sampleEnvStop onTrue 1).consumerMore (accepted ++ [item]) = false ∧
      hd.closeLog = [.emitStop inputs] ∧
      ((∃ pre it rest hmid, rowsSource seed1R = pre ++ it :: rest ∧
          buildSteps (sampleEnvStop onTrue 1)
            (newHashJoiner .innerJoin [0] [0] (rowsSource seed1L) (rowsSource seed1R))
            pre (it :: rest) = some hmid ∧
          Live (sampleEnvStop onTrue 1) hmid ∧
          buildItem (sampleEnvStop onTrue 1) { hmid with rightSource := rest } it
            = (hd, some (.ret false none)) ∧
          buildPhase (sampleEnvStop onTrue 1)
              (newHashJoiner .innerJoin [0] [0] (rowsSource seed1L) (rowsSource seed1R))
            = (hd, .ret false none) ∧
          hd.rightSource = rest ∧ hd.leftSource = rowsSource seed1L) ∨
        ∃ h1 h2,
          buildPhase (sampleEnvStop onTrue 1)
              (newHashJoiner .innerJoin [0] [0] (rowsSource seed1L) (rowsSource seed1R))
            = (h1, .ret true none) ∧
          (if h1.joinType.rightSide then
              allocSeen (sampleEnvStop onTrue 1) h1
                ((sampleEnvStop onTrue 1).rangeOrder 0 h1.buckets)
            else (h1, none)) = (h2, none) ∧
          h2.leftSource = rowsSource seed1L ∧
          probePhase (sampleEnvStop onTrue 1) h2 = (hd, .ret false none) ∧
          hd.rightSource = h1.rightSource ∧
          ((∃ pre it rest hmid, rowsSource seed1L = pre ++ it :: rest ∧
              probeSteps (sampleEnvStop onTrue 1) h2 pre (it :: rest) = some hmid ∧
              Live (sampleEnvStop onTrue 1) hmid ∧
              probeItem (sampleEnvStop onTrue 1) { hmid with leftSource := rest } it
                = (hd, .ret (.ret false none)) ∧
              hd.leftSource = rest) ∨
            ∃ hp, probeLoop (sampleEnvStop onTrue 1) h2 (rowsSource seed1L) = (hp, none) ∧
              Live (sampleEnvStop onTrue 1) hp ∧
              probeSweep (sampleEnvStop onTrue 1) hp = (hd, .ret false none) ∧
              hd.leftSource = hp.leftSource)) ∧
      runBody (sampleEnvStop onTrue 1)
          (newHashJoiner .innerJoin [0] [0] (rowsSource seed1L) (rowsSource seed1R))
        = (hd, none) ∧
      Run (sampleEnvStop onTrue 1)
          (newHashJoiner .innerJoin [0] [0] (rowsSource seed1L) (rowsSource seed1R)) =
        ({ hd with rows := [], bucketsAcc := 0,
                   closeLog := [.emitStop inputs, .rowsClose, .accClose] }, none)) ∧
    (Run (sampleEnvStop onTrue 1)
      (newHashJoiner .innerJoin [0] [0] (rowsSource seed1L) (rowsSource seed1R))).1.out
        = [.row [.int 1, tx, .int 1, tfoo]] ∧
    (Run (sampleEnvStop onTrue 1)
      (newHashJoiner .innerJoin [0] [0] (rowsSource seed1L) (rowsSource seed1R))).1.leftSource
        = rowsSource [[.int 2, ty]] ∧
    (Run (sampleEnvStop onTrue 1)
      (newHashJoiner .innerJoin [0] [0] (rowsSource seed1L) (rowsSource seed1R))).1.closeLog
        = [.emitStop [.left], .rowsClose, .accClose] ∧
    probeItem (sampleEnvStop onTrue 1)
      { (buildPhase (sampleEnvStop onTrue 1)
          (newHashJoiner .innerJoin [0] [0] (rowsSource seed1L) (rowsSource seed1R))).1 with
        leftSource := rowsSource [[.int 2, ty]] } (some [.int 1, tx], ProducerMetadata.zero)
      = ((runBody (sampleEnvStop onTrue 1)
          (newHashJoiner .innerJoin [0] [0] (rowsSource seed1L) (rowsSource seed1R))).1,
        .ret (.ret false none)) :=
  ⟨consumer_declines_early (sampleEnvStop onTrue 1) .innerJoin [0] [0] (rowsSource seed1L)
    (rowsSource seed1R) (fun ha => absurd (ha 1 (by decide) (by decide)) (by decide)),
    rfl, rfl, rfl, rfl⟩

/-! ## The errors of `render` -/

theorem RenderClean.withCall {D : Type} {env : Env D}
    {log : List (Option (List D) × Option (List D))} (hc : RenderClean env log)
    (c : Option (List D) × Option (List D)) (he : (env.render c.1 c.2).err = none) :
    RenderClean env (log ++ [c]) := by
  intro x hx
  rcases List.mem_append.mp hx with hx | hx
  · exact hc x hx
  · rw [List.mem_singleton.mp hx]
    exact he

/-- A call of `renderAndEmit` after calls of `render` without error: either
`render` returns no error, and then neither does `renderAndEmit`, or `render`
returns an error, and then `renderAndEmit` returns it, with `moreRowsNeeded`
false. -/
theorem renderAndEmit_clean {D : Type} (env : Env D) (h : hashJoiner D)
    (lrow rrow : Option (List D)) (hc : RenderClean env h.renderLog) :
    ((renderAndEmit env h lrow rrow).err = none ∧
      RenderClean env (renderAndEmit env h lrow rrow).h.renderLog) ∨
    (∃ e, (env.render lrow rrow).err = some e ∧
      (renderAndEmit env h lrow rrow).err = some e ∧
      (renderAndEmit env h lrow rrow).moreRowsNeeded = false ∧
      (renderAndEmit env h lrow rrow).h.renderLog = h.renderLog ++ [(lrow, rrow)]) := by
  unfold renderAndEmit
  simp only [render]
  cases he : (env.render lrow rrow).err with
  | some e => exact Or.inr ⟨e, rfl, rfl, rfl, rfl⟩
  | none =>
    simp only
    have hc' : RenderClean env (h.renderLog ++ [(lrow, rrow)]) := hc.withCall (lrow, rrow) he
    cases hrow : (env.render lrow rrow).row with
    | none => exact Or.inl ⟨rfl, hc'⟩
    | some row =>
      simp only
      refine Or.inl ⟨trivial, ?_⟩
      have := (emitHelper_frame env { h with renderLog := h.renderLog ++ [(lrow, rrow)] }
        (.row row) [.left]).2.2.2.2.2.2.1
      rw [this]
      exact hc'

/-- The return of a loop on what `renderAndEmit` reports. -/
theorem CleanInv.of_emit {D : Type} (env : Env D) (h : hashJoiner D)
    (lrow rrow : Option (List D)) (hc : RenderClean env h.renderLog) :
    CleanInv env (renderAndEmit env h lrow rrow).h
      (some (.ret (renderAndEmit env h lrow rrow).moreRowsNeeded
        (renderAndEmit env h lrow rrow).err)) := by
  rcases renderAndEmit_clean env h lrow rrow hc with ⟨-, hcl⟩ | ⟨e, he, hre, hm, hlog⟩
  · exact Or.inl hcl
  · exact Or.inr ⟨h.renderLog, (lrow, rrow), e, false, hlog, hc, he, by rw [hre, hm]⟩

/-- A loop that goes on after `renderAndEmit` has seen no error of `render`. -/
theorem renderAndEmit_clean_go {D : Type} (env : Env D) (h : hashJoiner D)
    (lrow rrow : Option (List D)) (hc : RenderClean env h.renderLog)
    (hgo : ¬ (!(renderAndEmit env h lrow rrow).moreRowsNeeded ||
      (renderAndEmit env h lrow rrow).err.isSome) = true) :
    RenderClean env (renderAndEmit env h lrow rrow).h.renderLog := by
  rcases renderAndEmit_clean env h lrow rrow hc with ⟨-, hcl⟩ | ⟨e, -, hre, -, -⟩
  · exact hcl
  · rw [hre] at hgo
    simp at hgo

theorem CleanInv.none_clean {D : Type} {env : Env D} {h' : hashJoiner D}
    (hi : CleanInv env h' none) : RenderClean env h'.renderLog := by
  rcases hi with hc | ⟨_, _, _, _, _, _, _, hr⟩
  · exact hc
  · cases hr

theorem buildRow_clean {D : Type} (env : Env D) (h : hashJoiner D) (rrow : List D)
    (hc : RenderClean env h.renderLog) :
    CleanInv env (buildRow env h rrow).1 (buildRow env h rrow).2 := by
  unfold buildRow
  split
  · exact Or.inl hc
  · exact Or.inl hc
  · split
    · split
      · simp only [render]
        cases he : (env.render none (some rrow)).err with
        | some e =>
          exact Or.inr ⟨h.renderLog, (none, some rrow), e, false, rfl, hc, he, rfl⟩
        | none =>
          have hc' : RenderClean env (h.renderLog ++ [(none, some rrow)]) :=
            hc.withCall (none, some rrow) he
          simp only
          split
          · exact Or.inl hc'
          · rename_i row _
            have hf := (emitHelper_frame env
              { h with renderLog := h.renderLog ++ [(none, some rrow)] }
              (.row row) [.left, .right]).2.2.2.2.2.2.1
            split
            · rename_i heq
              rw [heq] at hf
              left
              show RenderClean env _
              simp only at hf ⊢
              rw [hf]
              exact hc'
            · rename_i heq
              rw [heq] at hf
              left
              show RenderClean env _
              simp only at hf ⊢
              rw [hf]
              exact hc'
      · exact Or.inl hc
    · simp only
      split
      · exact Or.inl hc
      · split
        · exact Or.inl hc
        · exact Or.inl hc

theorem buildItem_clean {D : Type} (env : Env D) (h : hashJoiner D)
    (item : Option (List D) × ProducerMetadata) (hc : RenderClean env h.renderLog) :
    CleanInv env (buildItem env h item).1 (buildItem env h item).2 := by
  unfold buildItem
  split
  · split
    · exact Or.inl hc
    · have hf := (emitHelper_frame env h (.meta item.2) [.left, .right]).2.2.2.2.2.2.1
      simp only
      split
      · left
        show RenderClean env _
        rw [hf]
        exact hc
      · left
        show RenderClean env _
        rw [hf]
        exact hc
  · split
    · exact Or.inl hc
    · exact buildRow_clean env h _ hc

theorem buildLoop_clean {D : Type} (env : Env D) :
    ∀ (src : List (Option (List D) × ProducerMetadata)) (h : hashJoiner D),
      RenderClean env h.renderLog →
      CleanInv env (buildLoop env h src).1 (some (buildLoop env h src).2) := by
  intro src
  induction src with
  | nil =>
    intro h hc
    rw [buildLoop]
    exact Or.inl hc
  | cons item rest ih =>
    intro h hc
    rw [buildLoop]
    have hi := buildItem_clean env { h with rightSource := rest } item hc
    split
    · rename_i res hres
      rw [hres] at hi
      exact hi
    · rename_i hres
      rw [hres] at hi
      exact ih _ hi.none_clean

theorem probeBucket_clean {D : Type} (env : Env D) (lrow : List D) (key : List Nat) :
    ∀ (idxs : List Nat) (h : hashJoiner D) (b : bucket) (i : Nat),
      RenderClean env h.renderLog →
      CleanInv env (probeBucket env h lrow key b i idxs).1
        (probeBucket env h lrow key b i idxs).2 := by
  intro idxs
  induction idxs with
  | nil =>
    intro h b i hc
    rw [probeBucket]
    exact Or.inl hc
  | cons idx rest ih =>
    intro h b i hc
    rw [probeBucket]
    cases hget : h.rows[idx]? with
    | none => exact Or.inl hc
    | some rrow =>
      simp only
      split
      · exact CleanInv.of_emit env h (some lrow) (some rrow) hc
      · rename_i hgo
        have hcl := renderAndEmit_clean_go env h (some lrow) (some rrow) hc hgo
        split
        · split
          · exact ih { (renderAndEmit env h (some lrow) (some rrow)).h with
              buckets := mapSet (renderAndEmit env h (some lrow) (some rrow)).h.buckets key
                { b with seen := b.seen.set i true } } { b with seen := b.seen.set i true }
              (i + 1) hcl
          · exact Or.inl hcl
        · exact ih (renderAndEmit env h (some lrow) (some rrow)).h b (i + 1) hcl

theorem probeRow_clean {D : Type} (env : Env D) (h : hashJoiner D) (lrow : List D)
    (hc : RenderClean env h.renderLog) :
    CleanInv env (probeRow env h lrow).1 (probeRow env h lrow).2 := by
  unfold probeRow
  split
  · exact Or.inl hc
  · exact Or.inl hc
  · split
    · split
      · simp only
        split
        · exact CleanInv.of_emit env h (some lrow) none hc
        · rename_i hgo
          exact Or.inl (renderAndEmit_clean_go env h (some lrow) none hc hgo)
      · exact Or.inl hc
    · split
      · exact probeBucket_clean env lrow _ _ h _ 0 hc
      · split
        · simp only
          split
          · exact CleanInv.of_emit env h (some lrow) none hc
          · rename_i hgo
            exact Or.inl (renderAndEmit_clean_go env h (some lrow) none hc hgo)
        · exact Or.inl hc

theorem probeItem_clean {D : Type} (env : Env D) (h : hashJoiner D)
    (item : Option (List D) × ProducerMetadata) (hc : RenderClean env h.renderLog) :
    CleanInv env (probeItem env h item).1 (probeItem env h item).2.result := by
  unfold probeItem
  split
  · split
    · exact Or.inl hc
    · have hf := (emitHelper_frame env h (.meta item.2) [.left, .right]).2.2.2.2.2.2.1
      simp only
      split
      · left
        show RenderClean env _
        rw [hf]
        exact hc
      · left
        show RenderClean env _
        rw [hf]
        exact hc
  · split
    · exact Or.inl hc
    · rename_i lrow _
      have hr := probeRow_clean env h lrow hc
      simp only
      split
      · rename_i res hres
        rw [hres] at hr
        exact hr
      · rename_i hres
        rw [hres] at hr
        exact Or.inl hr.none_clean

theorem probeLoop_clean {D : Type} (env : Env D) :
    ∀ (src : List (Option (List D) × ProducerMetadata)) (h : hashJoiner D),
      RenderClean env h.renderLog →
      CleanInv env (probeLoop env h src).1 (probeLoop env h src).2 := by
  intro src
  induction src with
  | nil =>
    intro h hc
    rw [probeLoop]
    exact Or.inl hc
  | cons item rest ih =>
    intro h hc
    rw [probeLoop]
    have hi := probeItem_clean env { h with leftSource := rest } item hc
    split
    · rename_i res hres
      rw [hres] at hi
      exact hi
    · rename_i hres
      rw [hres] at hi
      exact Or.inl hi.none_clean
    · rename_i hres
      rw [hres] at hi
      exact ih _ hi.none_clean

theorem sweepBucket_clean {D : Type} (env : Env D) (b : bucket) :
    ∀ (seens : List Bool) (h : hashJoiner D) (i : Nat), RenderClean env h.renderLog →
      CleanInv env (sweepBucket env h b i seens).1 (sweepBucket env h b i seens).2 := by
  intro seens
  induction seens with
  | nil =>
    intro h i hc
    rw [sweepBucket]
    exact Or.inl hc
  | cons seen rest ih =>
    intro h i hc
    rw [sweepBucket]
    split
    · split
      · exact Or.inl hc
      · split
        · exact Or.inl hc
        · rename_i rrow _
          simp only
          split
          · exact CleanInv.of_emit env h none (some rrow) hc
          · rename_i hgo
            exact ih (renderAndEmit env h none (some rrow)).h (i + 1)
              (renderAndEmit_clean_go env h none (some rrow) hc hgo)
    · exact ih h (i + 1) hc

theorem sweepLoop_clean {D : Type} (env : Env D) :
    ∀ (es : List (List Nat × bucket)) (h : hashJoiner D), RenderClean env h.renderLog →
      CleanInv env (sweepLoop env h es).1 (sweepLoop env h es).2 := by
  intro es
  induction es with
  | nil =>
    intro h hc
    rw [sweepLoop]
    exact Or.inl hc
  | cons e rest ih =>
    intro h hc
    obtain ⟨k, b⟩ := e
    rw [sweepLoop]
    have hb := sweepBucket_clean env b b.seen h 0 hc
    split
    · rename_i res hres
      rw [hres] at hb
      exact hb
    · rename_i hres
      rw [hres] at hb
      exact ih _ hb.none_clean

theorem probeSweep_clean {D : Type} (env : Env D) (h : hashJoiner D)
    (hc : RenderClean env h.renderLog) :
    CleanInv env (probeSweep env h).1 (some (probeSweep env h).2) := by
  unfold probeSweep
  split
  · have hs := sweepLoop_clean env (env.rangeOrder 1 h.buckets) h hc
    simp only
    split
    · rename_i res hres
      rw [hres] at hs
      exact hs
    · rename_i hres
      rw [hres] at hs
      exact Or.inl hs.none_clean
  · exact Or.inl hc

theorem probePhase_clean {D : Type} (env : Env D) (h : hashJoiner D)
    (hc : RenderClean env h.renderLog) :
    CleanInv env (probePhase env h).1 (some (probePhase env h).2) := by
  unfold probePhase
  have hl := probeLoop_clean env h.leftSource h hc
  simp only
  split
  · rename_i res hres
    rw [hres] at hl
    exact hl
  · rename_i hres
    rw [hres] at hl
    exact probeSweep_clean env _ hl.none_clean

/-! ## The error an iteration meets is the error it returns -/

/-- An iteration of the build loop on a row returns an error exactly when it
meets one, and returns the one it meets. -/
theorem buildRow_err_iff {D : Type} (env : Env D) (h h' : hashJoiner D) (rrow : List D)
    (m : Bool) (e : Err) :
    buildRow env h rrow = (h', some (.ret m (some e))) ↔
      (m = false ∧ BuildRowErrAt env h rrow h' e) := by
  constructor
  · intro hb
    have hm := buildRow_ret_false env h h' rrow m (some e) hb
    refine ⟨hm, ?_⟩
    unfold buildRow at hb
    rcases henc : encodeColumnsOfRow env [] rrow h.rightEqCols false with ⟨enc, hn, _ | e0⟩ | _
    · rw [henc] at hb
      simp only at hb
      cases hn
      · simp only [Bool.false_eq_true, if_false] at hb
        cases hadd : env.AddRow h.rows rrow with
        | some e1 =>
          rw [hadd] at hb
          cases hb
          exact Or.inr (Or.inr (Or.inl ⟨enc, henc, hadd, rfl⟩))
        | none =>
          rw [hadd] at hb
          simp only at hb
          split at hb
          · rename_i e2 hg
            cases hb
            exact Or.inr (Or.inr (Or.inr ⟨enc, henc, hadd, hg, rfl⟩))
          · cases hb
      · simp only [if_true] at hb
        cases hrs : h.joinType.rightSide with
        | false =>
          rw [hrs] at hb
          simp at hb
        | true =>
          rw [hrs] at hb
          simp only [if_true, render] at hb
          split at hb
          · rename_i e1 he
            cases hb
            exact Or.inr (Or.inl ⟨enc, henc, hrs, he, rfl⟩)
          · split at hb
            · cases hb
            · split at hb <;> cases hb
    · rw [henc] at hb
      cases hb
      exact Or.inl ⟨enc, hn, henc, rfl⟩
    · rw [henc] at hb
      cases hb
  · rintro ⟨rfl, hcase⟩
    rcases hcase with ⟨enc, hn, henc, rfl⟩ | ⟨enc, henc, hrs, he, rfl⟩ |
      ⟨enc, henc, hadd, rfl⟩ | ⟨enc, henc, hadd, hg, rfl⟩
    · unfold buildRow
      rw [henc]
    · unfold buildRow
      rw [henc]
      simp only [if_true, hrs, render, he]
    · unfold buildRow
      rw [henc]
      simp only [Bool.false_eq_true, if_false, hadd]
    · unfold buildRow
      rw [henc]
      simp only [Bool.false_eq_true, if_false, hadd, hg]

/-- Metadata that carries an error is not empty. -/
theorem not_empty_of_err (m : ProducerMetadata) (e : Err) (he : m.Err = some e) :
    m.Empty = false := by
  simp [ProducerMetadata.Empty, he]

/-- An iteration of the build loop returns an error exactly when it meets one,
and returns the one it meets. -/
theorem buildItem_err_iff {D : Type} (env : Env D) (h h' : hashJoiner D)
    (item : Option (List D) × ProducerMetadata) (m : Bool) (e : Err) :
    buildItem env h item = (h', some (.ret m (some e))) ↔ BuildErrAt env h item h' m e := by
  obtain ⟨row, m0⟩ := item
  constructor
  · intro hb
    unfold buildItem at hb
    simp only at hb
    cases hE : m0.Empty with
    | false =>
      simp only [hE, Bool.not_false, if_true] at hb
      cases hme : m0.Err with
      | some e1 =>
        rw [hme] at hb
        cases hb
        exact Or.inl ⟨hme, rfl, rfl⟩
      | none =>
        rw [hme] at hb
        simp only at hb
        split at hb <;> cases hb
    | true =>
      simp only [hE, Bool.not_true, Bool.false_eq_true, if_false] at hb
      cases row with
      | none => cases hb
      | some rrow =>
        simp only at hb
        obtain ⟨hm, hat⟩ := (buildRow_err_iff env h h' rrow m e).mp hb
        exact Or.inr ⟨rrow, rfl, hE, hm, hat⟩
  · rintro (⟨hme, rfl, rfl⟩ | ⟨rrow, hrow, hE, hm, hat⟩)
    · simp only at hme
      unfold buildItem
      simp only [not_empty_of_err m0 e hme, Bool.not_false, if_true, hme]
    · simp only at hrow hE
      subst hrow
      unfold buildItem
      simp only [hE, Bool.not_true, Bool.false_eq_true, if_false]
      exact (buildRow_err_iff env h h' rrow m e).mpr ⟨hm, hat⟩

/-- An iteration of the build loop that returns an error has pushed nothing. -/
theorem BuildErrAt.out_eq {D : Type} {env : Env D} {h h' : hashJoiner D}
    {item : Option (List D) × ProducerMetadata} {m : Bool} {e : Err}
    (hat : BuildErrAt env h item h' m e) :
    h'.out = h.out ∧ h'.buckets = h.buckets ∧ h'.bucketsAcc = h.bucketsAcc := by
  rcases hat with ⟨-, -, rfl⟩ | ⟨rrow, -, -, -, hcase⟩
  · exact ⟨rfl, rfl, rfl⟩
  · rcases hcase with ⟨_, _, -, rfl⟩ | ⟨_, -, -, -, rfl⟩ | ⟨_, -, -, rfl⟩ | ⟨_, -, -, -, rfl⟩ <;>
      exact ⟨rfl, rfl, rfl⟩

/-- The iteration of the main loop of the probe phase on metadata that carries
an error returns it, with `moreRows` set, and changes nothing. -/
theorem probeItem_metaErr {D : Type} (env : Env D) (h : hashJoiner D)
    (item : Option (List D) × ProducerMetadata) (e : Err) (he : item.2.Err = some e) :
    probeItem env h item = (h, .ret (.ret true (some e))) := by
  unfold probeItem
  simp only [not_empty_of_err item.2 e he, Bool.not_false, if_true, he]

/-- The iteration of the main loop of the probe phase on a row whose key
encoding fails returns the error of the encoder, with `moreRows` set, and
changes nothing. -/
theorem probeItem_encodeErr {D : Type} (env : Env D) (h : hashJoiner D) (lrow : List D)
    (m : ProducerMetadata) (enc : List Nat) (hn : Bool) (e : Err) (hE : m.Empty = true)
    (henc : encodeColumnsOfRow env [] lrow h.leftEqCols false = .ret enc hn (some e)) :
    probeItem env h (some lrow, m) = (h, .ret (.ret true (some e))) := by
  unfold probeItem
  simp only [hE, Bool.not_true, Bool.false_eq_true, if_false]
  unfold probeRow
  rw [henc]

/-- The seen allocation over a list of entries is the allocation over a
prefix, and then, if no `Grow` refused, over the rest. -/
theorem allocSeen_append {D : Type} (env : Env D) :
    ∀ (pre rest : List (List Nat × bucket)) (h : hashJoiner D),
      allocSeen env h (pre ++ rest) =
        match (allocSeen env h pre).2 with
        | some e => ((allocSeen env h pre).1, some e)
        | none => allocSeen env (allocSeen env h pre).1 rest := by
  intro pre
  induction pre with
  | nil =>
    intro rest h
    rw [List.nil_append, allocSeen]
  | cons kb pre ih =>
    intro rest h
    obtain ⟨k, b⟩ := kb
    rw [List.cons_append, allocSeen, allocSeen]
    simp only
    cases hg : env.Grow h.bucketsAcc (env.sizeOfBoolSlice + b.rows.length * env.sizeOfBool) with
    | some e => rfl
    | none =>
      simp only
      exact ih rest _

/-- The seen allocation returns an error exactly when some `Grow` refuses,
the calls for the entries before it having succeeded, and it returns the
error of that first refusal. -/
theorem allocSeen_err_iff {D : Type} (env : Env D) (es : List (List Nat × bucket))
    (h h2 : hashJoiner D) (e : Err) :
    allocSeen env h es = (h2, some e) ↔
      ∃ pre k b rest, es = pre ++ (k, b) :: rest ∧ allocSeen env h pre = (h2, none) ∧
        env.Grow h2.bucketsAcc (env.sizeOfBoolSlice + b.rows.length * env.sizeOfBool)
          = some e := by
  constructor
  · revert h
    induction es with
    | nil =>
      intro h ha
      simp [allocSeen] at ha
    | cons kb es ih =>
      intro h ha
      obtain ⟨k, b⟩ := kb
      rw [allocSeen] at ha
      simp only at ha
      cases hg : env.Grow h.bucketsAcc
          (env.sizeOfBoolSlice + b.rows.length * env.sizeOfBool) with
      | some e1 =>
        rw [hg] at ha
        cases ha
        exact ⟨[], k, b, es, rfl, rfl, hg⟩
      | none =>
        rw [hg] at ha
        simp only at ha
        obtain ⟨pre, k', b', rest, s1, s2, s3⟩ := ih _ ha
        refine ⟨(k, b) :: pre, k', b', rest, by rw [s1]; rfl, ?_, s3⟩
        rw [allocSeen]
        simp only [hg]
        exact s2
  · rintro ⟨pre, k, b, rest, rfl, hpre, hg⟩
    rw [allocSeen_append, hpre]
    simp only
    rw [allocSeen]
    simp only [hg]

theorem CleanInv.clean_of_not_err {D : Type} {env : Env D} {h' : hashJoiner D}
    {res : PhaseResult} (hi : CleanInv env h' (some res))
    (hne : ∀ m e, res ≠ .ret m (some e)) : RenderClean env h'.renderLog := by
  rcases hi with hc | ⟨_, _, e, m, _, _, _, hr⟩
  · exact hc
  · cases hr
    exact absurd rfl (hne m e)

/-- In a run of the joiner no call of `render` but the last returns an error,
and when the last one does, the run ends with a single `DrainAndClose` with
that error as cause. -/
theorem runBody_clean {D : Type} (env : Env D) (jt : JoinType) (lc rc : List Nat)
    (leftSource rightSource : List (Option (List D) × ProducerMetadata)) :
    RenderClean env (runBody env (newHashJoiner jt lc rc leftSource rightSource)).1.renderLog ∨
    ∃ pre c e inputs,
      (runBody env (newHashJoiner jt lc rc leftSource rightSource)).1.renderLog = pre ++ [c] ∧
      RenderClean env pre ∧ (env.render c.1 c.2).err = some e ∧
      (runBody env (newHashJoiner jt lc rc leftSource rightSource)).1.closeLog
        = [.drainAndClose (some e) inputs] := by
  have hl0 := Live_new env jt lc rc leftSource rightSource
  have hc0 : RenderClean env (newHashJoiner jt lc rc leftSource rightSource).renderLog := by
    intro c hc
    simp [newHashJoiner] at hc
  have hbc := buildLoop_clean env rightSource _ hc0
  rcases hb : buildPhase env (newHashJoiner jt lc rc leftSource rightSource) with ⟨h1, r1⟩
  have hb' : buildLoop env (newHashJoiner jt lc rc leftSource rightSource) rightSource
      = (h1, r1) := hb
  rw [hb'] at hbc
  simp only at hbc
  obtain ⟨hs, -⟩ := buildLoop_stop env _ _ h1 r1 hb' hl0
  unfold runBody
  rw [hb]
  rcases r1 with ⟨m, _ | e⟩ | p
  · cases m
    · exact Or.inl (hbc.clean_of_not_err (fun _ _ hn => by cases hn))
    · have hc1 : RenderClean env h1.renderLog :=
        hbc.clean_of_not_err (fun _ _ hn => by cases hn)
      have hl1 : Live env h1 := by
        rcases hs.1 with ⟨hl, -⟩ | ⟨-, hr⟩
        · exact hl
        · cases hr
      simp only
      unfold runProbe
      rcases hst : (if h1.joinType.rightSide then
          allocSeen env h1 (env.rangeOrder 0 h1.buckets) else (h1, none)) with ⟨h2, ea⟩
      have hlog2 : h2.renderLog = h1.renderLog := by
        split at hst
        · have := (allocSeen_frame env (env.rangeOrder 0 h1.buckets) h1).2.2.2.1
          rw [hst] at this
          exact this
        · cases hst
          rfl
      have hc2 : RenderClean env h2.renderLog := by rw [hlog2]; exact hc1
      obtain ⟨hl2, -⟩ := stage_live env h1 h2 ea hst hl1
      cases ea with
      | some e => exact Or.inl hc2
      | none =>
        simp only
        have hpc := probePhase_clean env h2 hc2
        have hend := (probePhase_stop env h2 hl2).1
        rcases hp : probePhase env h2 with ⟨h3, r3⟩
        rw [hp] at hpc hend
        simp only at hpc hend
        rcases r3 with ⟨m3, e3⟩ | p3
        · simp only
          rcases hpc with hc3 | ⟨pre, c, e, m', hlog, hpre, herr, hr⟩
          · left
            split <;> exact hc3
          · cases hr
            have hcl3 : h3.closeLog = [] := by
              rcases hend with ⟨⟨hl, -⟩ | ⟨-, hr⟩, -⟩ | ⟨-, -, hr⟩
              · exact hl.1
              · cases hr
              · cases hr
            right
            refine ⟨pre, c, e, [.left], ?_, hpre, herr, ?_⟩
            · simp [DrainAndClose, hlog]
            · simp [DrainAndClose, hcl3]
        · exact Or.inl (hpc.clean_of_not_err (fun _ _ hn => by cases hn))
  · have hl1 : Live env h1 := by
      rcases hs.1 with ⟨hl, -⟩ | ⟨-, hr⟩
      · exact hl
      · cases hr
    rcases hbc with hc1 | ⟨pre, c, e', m', hlog, hpre, herr, hr⟩
    · left
      cases m <;> exact hc1
    · cases hr
      right
      refine ⟨pre, c, e, [.left, .right], ?_, hpre, herr, ?_⟩
      · cases m <;> simp [DrainAndClose, hlog]
      · cases m <;> simp [DrainAndClose, hl1.1]
  · exact Or.inl (hbc.clean_of_not_err (fun _ _ hn => by cases hn))

/-- C16: first error wins. An iteration of the build loop returns an error
exactly when it meets one, and returns the one it meets (`BuildErrAt`: the
error of the metadata of the pair, or on a row the first error of the key
encoder, of `render`, of `AddRow` or of a refusal of the memory account).
When the iterations on the pairs before a pair of the right source end in
`continue` and the iteration on that pair meets an error, whatever follows in
the source, `buildPhase` returns that error, having pushed nothing in that
iteration; `Run` does not start the probe phase (no seen flag is allocated, the
left source is untouched), and its only call of `DrainAndClose` has exactly
that error as cause and both inputs to drain. Every error `buildPhase` returns
arises so. Likewise the first refusal of `Grow` in the seen allocation, the
calls before it having succeeded, and the error of the first iteration of the
main loop of `probePhase` that returns one, end `Run` with a single
`DrainAndClose` with that error as cause, draining the left input; an
iteration of that loop returns the error of the metadata of its pair and the
error of the key encoder; and every error `probePhase` returns is the one of
such an iteration or of the unmatched sweep. In the whole run no call of
`render` but the last returns an error, and when the last one does, that
error is the cause of the single `DrainAndClose`. -/
theorem first_error_wins {D : Type} (env : Env D) (jt : JoinType)
    (leftEqCols rightEqCols : List Nat)
    (leftSource rightSource : List (Option (List D) × ProducerMetadata)) :
    (∀ (h h' : hashJoiner D) (item : Option (List D) × ProducerMetadata) (more : Bool)
        (e : Err),
      buildItem env h item = (h', some (.ret more (some e))) ↔ BuildErrAt env h item h' more e) ∧
    (∀ (pre : List (Option (List D) × ProducerMetadata))
        (it : Option (List D) × ProducerMetadata)
        (rest : List (Option (List D) × ProducerMetadata)) (hmid h1 : hashJoiner D)
        (more : Bool) (e : Err),
      rightSource = pre ++ it :: rest →
      buildSteps env (newHashJoiner jt leftEqCols rightEqCols leftSource rightSource)
        pre (it :: rest) = some hmid →
      BuildErrAt env { hmid with rightSource := rest } it h1 more e →
      buildPhase env (newHashJoiner jt leftEqCols rightEqCols leftSource rightSource)
        = (h1, .ret more (some e)) ∧
      h1.out = hmid.out ∧ h1.leftSource = leftSource ∧ SeenNil h1 ∧
      Run env (newHashJoiner jt leftEqCols rightEqCols leftSource rightSource)
        = ({ h1 with
             rows := [], bucketsAcc := 0,
             closeLog := [.drainAndClose (some e) [.left, .right], .rowsClose, .accClose] },
            none)) ∧
    (∀ (h1 : hashJoiner D) (more : Bool) (e : Err),
      buildPhase env (newHashJoiner jt leftEqCols rightEqCols leftSource rightSource)
        = (h1, .ret more (some e)) →
      ∃ pre it rest hmid, rightSource = pre ++ it :: rest ∧
        buildSteps env (newHashJoiner jt leftEqCols rightEqCols leftSource rightSource)
          pre (it :: rest) = some hmid ∧
        BuildErrAt env { hmid with rightSource := rest } it h1 more e) ∧
    (∀ (h1 hmid : hashJoiner D) (pre : List (List Nat × bucket)) (k : List Nat) (b : bucket)
        (rest : List (List Nat × bucket)) (e : Err),
      buildPhase env (newHashJoiner jt leftEqCols rightEqCols leftSource rightSource)
        = (h1, .ret true none) →
      h1.joinType.rightSide = true →
      env.rangeOrder 0 h1.buckets = pre ++ (k, b) :: rest →
      allocSeen env h1 pre = (hmid, none) →
      env.Grow hmid.bucketsAcc (env.sizeOfBoolSlice + b.rows.length * env.sizeOfBool)
        = some e →
      hmid.out = h1.out ∧ hmid.leftSource = leftSource ∧
      Run env (newHashJoiner jt leftEqCols rightEqCols leftSource rightSource)
        = ({ hmid with
             rows := [], bucketsAcc := 0,
             closeLog := [.drainAndClose (some e) [.left], .rowsClose, .accClose] }, none)) ∧
    (∀ (h1 h2 : hashJoiner D) (e : Err),
      buildPhase env (newHashJoiner jt leftEqCols rightEqCols leftSource rightSource)
        = (h1, .ret true none) →
      (if h1.joinType.rightSide then allocSeen env h1 (env.rangeOrder 0 h1.buckets)
        else (h1, none)) = (h2, some e) →
      h1.joinType.rightSide = true ∧
      ∃ pre k b rest, env.rangeOrder 0 h1.buckets = pre ++ (k, b) :: rest ∧
        allocSeen env h1 pre = (h2, none) ∧
        env.Grow h2.bucketsAcc (env.sizeOfBoolSlice + b.rows.length * env.sizeOfBool)
          = some e) ∧
    (∀ (h1 h2 hmid h3 : hashJoiner D) (pre : List (Option (List D) × ProducerMetadata))
        (it : Option (List D) × ProducerMetadata)
        (rest : List (Option (List D) × ProducerMetadata)) (more : Bool) (e : Err),
      buildPhase env (newHashJoiner jt leftEqCols rightEqCols leftSource rightSource)
        = (h1, .ret true none) →
      (if h1.joinType.rightSide then allocSeen env h1 (env.rangeOrder 0 h1.buckets)
        else (h1, none)) = (h2, none) →
      leftSource = pre ++ it :: rest →
      probeSteps env h2 pre (it :: rest) = some hmid →
      probeItem env { hmid with leftSource := rest } it = (h3, .ret (.ret more (some e))) →
      probePhase env h2 = (h3, .ret more (some e)) ∧
      Run env (newHashJoiner jt leftEqCols rightEqCols leftSource rightSource)
        = ({ h3 with
             rows := [], bucketsAcc := 0,
             closeLog := [.drainAndClose (some e) [.left], .rowsClose, .accClose] }, none)) ∧
    (∀ (h1 h2 h3 : hashJoiner D) (more : Bool) (e : Err),
      buildPhase env (newHashJoiner jt leftEqCols rightEqCols leftSource rightSource)
        = (h1, .ret true none) →
      (if h1.joinType.rightSide then allocSeen env h1 (env.rangeOrder 0 h1.buckets)
        else (h1, none)) = (h2, none) →
      probePhase env h2 = (h3, .ret more (some e)) →
      Run env (newHashJoiner jt leftEqCols rightEqCols leftSource rightSource)
        = ({ h3 with
             rows := [], bucketsAcc := 0,
             closeLog := [.drainAndClose (some e) [.left], .rowsClose, .accClose] }, none) ∧
      ((∃ pre it rest hmid, leftSource = pre ++ it :: rest ∧
          probeSteps env h2 pre (it :: rest) = some hmid ∧
          probeItem env { hmid with leftSource := rest } it
            = (h3, .ret (.ret more (some e)))) ∨
        ∃ hp, probeLoop env h2 leftSource = (hp, none) ∧
          probeSweep env hp = (h3, .ret more (some e)))) ∧
    (∀ (h : hashJoiner D) (it : Option (List D) × ProducerMetadata) (e : Err),
      it.2.Err = some e → probeItem env h it = (h, .ret (.ret true (some e)))) ∧
    (∀ (h : hashJoiner D) (lrow : List D) (m : ProducerMetadata) (enc : List Nat) (hn : Bool)
        (e : Err), m.Empty = true →
      encodeColumnsOfRow env [] lrow h.leftEqCols false = .ret enc hn (some e) →
      probeItem env h (some lrow, m) = (h, .ret (.ret true (some e)))) ∧
    (RenderClean env
        (runBody env
          (newHashJoiner jt leftEqCols rightEqCols leftSource rightSource)).1.renderLog ∨
      ∃ pre c e inputs,
        (runBody env
          (newHashJoiner jt leftEqCols rightEqCols leftSource rightSource)).1.renderLog
          = pre ++ [c] ∧
        RenderClean env pre ∧ (env.render c.1 c.2).err = some e ∧
        (runBody env
          (newHashJoiner jt leftEqCols rightEqCols leftSource rightSource)).1.closeLog
          = [.drainAndClose (some e) inputs]) := by
  have hl0 := Live_new env jt leftEqCols rightEqCols leftSource rightSource
  have hbuildRun : ∀ (h1 : hashJoiner D) (more : Bool) (e : Err),
      buildPhase env (newHashJoiner jt leftEqCols rightEqCols leftSource rightSource)
        = (h1, .ret more (some e)) →
      h1.leftSource = leftSource ∧ SeenNil h1 ∧
      Run env (newHashJoiner jt leftEqCols rightEqCols leftSource rightSource)
        = ({ h1 with
             rows := [], bucketsAcc := 0,
             closeLog := [.drainAndClose (some e) [.left, .right], .rowsClose, .accClose] },
            none) := by
    intro h1 more e hb
    obtain ⟨hs, hleft⟩ := buildLoop_stop env _ _ h1 _ hb hl0
    have hl1 : Live env h1 := by
      rcases hs.1 with ⟨hl, -⟩ | ⟨-, hr⟩
      · exact hl
      · cases hr
    have hseen : SeenNil h1 := by
      have hwf := (buildLoop_wf env rightSource
        (newHashJoiner jt leftEqCols rightEqCols leftSource rightSource)
        (fun kb hkb => by cases hkb) (fun kb hkb => by cases hkb) List.nodup_nil).2.1
      unfold buildPhase at hb
      simp only [newHashJoiner] at hb hwf
      rw [hb] at hwf
      exact hwf
    have hrun : runBody env (newHashJoiner jt leftEqCols rightEqCols leftSource rightSource)
        = (DrainAndClose h1 (some e) [.left, .right], none) := by
      unfold runBody
      rw [hb]
      cases more <;> rfl
    refine ⟨hleft, hseen, ?_⟩
    unfold Run
    rw [hrun]
    simp [DrainAndClose, hl1.1]
  have hallocRun : ∀ (h1 h2 : hashJoiner D) (e : Err),
      buildPhase env (newHashJoiner jt leftEqCols rightEqCols leftSource rightSource)
        = (h1, .ret true none) →
      (if h1.joinType.rightSide then allocSeen env h1 (env.rangeOrder 0 h1.buckets)
        else (h1, none)) = (h2, some e) →
      h2.out = h1.out ∧ h2.leftSource = leftSource ∧
      Run env (newHashJoiner jt leftEqCols rightEqCols leftSource rightSource)
        = ({ h2 with
             rows := [], bucketsAcc := 0,
             closeLog := [.drainAndClose (some e) [.left], .rowsClose, .accClose] }, none) := by
    intro h1 h2 e hb hst
    obtain ⟨hs, hleft⟩ := buildLoop_stop env _ _ h1 _ hb hl0
    have hl1 : Live env h1 := by
      rcases hs.1 with ⟨hl, -⟩ | ⟨-, hr⟩
      · exact hl
      · cases hr
    obtain ⟨hl2, ho, hlft, -, -⟩ := stage_live env h1 h2 (some e) hst hl1
    have hrun : runBody env (newHashJoiner jt leftEqCols rightEqCols leftSource rightSource)
        = (DrainAndClose h2 (some e) [.left], none) := by
      unfold runBody
      rw [hb]
      simp only
      unfold runProbe
      rw [hst]
    refine ⟨ho, hlft.trans hleft, ?_⟩
    unfold Run
    rw [hrun]
    simp [DrainAndClose, hl2.1]
  have hprobeRun : ∀ (h1 h2 h3 : hashJoiner D) (more : Bool) (e : Err),
      buildPhase env (newHashJoiner jt leftEqCols rightEqCols leftSource rightSource)
        = (h1, .ret true none) →
      (if h1.joinType.rightSide then allocSeen env h1 (env.rangeOrder 0 h1.buckets)
        else (h1, none)) = (h2, none) →
      probePhase env h2 = (h3, .ret more (some e)) →
      h2.leftSource = leftSource ∧
      Run env (newHashJoiner jt leftEqCols rightEqCols leftSource rightSource)
        = ({ h3 with
             rows := [], bucketsAcc := 0,
             closeLog := [.drainAndClose (some e) [.left], .rowsClose, .accClose] }, none) := by
    intro h1 h2 h3 more e hb hst hp
    obtain ⟨hs, hleft⟩ := buildLoop_stop env _ _ h1 _ hb hl0
    have hl1 : Live env h1 := by
      rcases hs.1 with ⟨hl, -⟩ | ⟨-, hr⟩
      · exact hl
      · cases hr
    obtain ⟨hl2, -, hlft, -, -⟩ := stage_live env h1 h2 none hst hl1
    have hend := (probePhase_stop env h2 hl2).1
    rw [hp] at hend
    have hl3 : h3.closeLog = [] := by
      rcases hend with ⟨⟨hl, -⟩ | ⟨-, hr⟩, -⟩ | ⟨-, -, hr⟩
      · exact hl.1
      · cases hr
      · cases hr
    have hrun : runBody env (newHashJoiner jt leftEqCols rightEqCols leftSource rightSource)
        = (DrainAndClose h3 (some e) [.left], none) := by
      unfold runBody
      rw [hb]
      simp only
      unfold runProbe
      rw [hst]
      simp only
      rw [hp]
      simp
    refine ⟨hlft.trans hleft, ?_⟩
    unfold Run
    rw [hrun]
    simp [DrainAndClose, hl3]
  refine ⟨fun h h' item more e => buildItem_err_iff env h h' item more e, ?_, ?_, ?_, ?_, ?_, ?_,
    fun h it e he => probeItem_metaErr env h it e he,
    fun h lrow m enc hn e hE henc => probeItem_encodeErr env h lrow m enc hn e hE henc,
    runBody_clean env jt leftEqCols rightEqCols leftSource rightSource⟩
  · intro pre it rest hmid h1 more e hsplit hsteps hat
    have hitem := (buildItem_err_iff env _ h1 it more e).mpr hat
    have hb : buildPhase env (newHashJoiner jt leftEqCols rightEqCols leftSource rightSource)
        = (h1, .ret more (some e)) := by
      unfold buildPhase
      show buildLoop env _ rightSource = _
      have := buildLoop_of_steps env pre _ hmid h1 it rest _ hsteps hitem
      rw [← hsplit] at this
      exact this
    obtain ⟨r1, r2, r3⟩ := hbuildRun h1 more e hb
    exact ⟨hb, hat.out_eq.1, r1, r2, r3⟩
  · intro h1 more e hb
    have hb' : buildLoop env
        (newHashJoiner jt leftEqCols rightEqCols leftSource rightSource) rightSource
        = (h1, .ret more (some e)) := hb
    rcases buildLoop_split env rightSource _ h1 _ hb' with
      ⟨hmid, -, -, s3⟩ | ⟨pre, it, rest, hmid, s1, s2, s3⟩
    · cases s3
    · exact ⟨pre, it, rest, hmid, s1, s2, (buildItem_err_iff env _ h1 it more e).mp s3⟩
  · intro h1 hmid pre k b rest e hb hrs hsplit hpre hg
    have hst : (if h1.joinType.rightSide then allocSeen env h1 (env.rangeOrder 0 h1.buckets)
        else (h1, none)) = (hmid, some e) := by
      rw [if_pos hrs]
      exact (allocSeen_err_iff env _ h1 hmid e).mpr ⟨pre, k, b, rest, hsplit, hpre, hg⟩
    exact hallocRun h1 hmid e hb hst
  · intro h1 h2 e hb hst
    cases hrs : h1.joinType.rightSide with
    | false =>
      rw [hrs] at hst
      simp at hst
    | true =>
      rw [if_pos hrs] at hst
      exact ⟨rfl, (allocSeen_err_iff env _ h1 h2 e).mp hst⟩
  · intro h1 h2 hmid h3 pre it rest more e hb hst hsplit hsteps hitem
    have hleft2 : h2.leftSource = leftSource := by
      obtain ⟨hs, hleft⟩ := buildLoop_stop env _ _ h1 _ hb hl0
      have hl1 : Live env h1 := by
        rcases hs.1 with ⟨hl, -⟩ | ⟨-, hr⟩
        · exact hl
        · cases hr
      exact (stage_live env h1 h2 none hst hl1).2.2.1.trans hleft
    have hp : probePhase env h2 = (h3, .ret more (some e)) := by
      unfold probePhase
      rw [hleft2, hsplit, probeLoop_of_steps env pre h2 hmid h3 it rest _ hsteps hitem]
    exact ⟨hp, (hprobeRun h1 h2 h3 more e hb hst hp).2⟩
  · intro h1 h2 h3 more e hb hst hp
    obtain ⟨hleft2, hrun⟩ := hprobeRun h1 h2 h3 more e hb hst hp
    refine ⟨hrun, ?_⟩
    unfold probePhase at hp
    simp only at hp
    rw [hleft2] at hp
    rcases hpl : probeLoop env h2 leftSource with ⟨hq, rq⟩
    rw [hpl] at hp
    cases rq with
    | some res =>
      simp only at hp
      cases hp
      rcases probeLoop_split env leftSource h2 h3 _ hpl with
        ⟨hmid, -, -, s3⟩ | ⟨pre, it, rest, hmid, st, s1, s2, s3, s4, s5⟩
      · cases s3
      · have hst' : st = .ret (.ret more (some e)) := by
          cases st with
          | next => exact absurd rfl s4
          | stop => cases s5
          | ret r =>
            simp only [LoopStep.result] at s5
            cases s5
            rfl
        rw [hst'] at s3
        exact Or.inl ⟨pre, it, rest, hmid, s1, s2, s3⟩
    | none =>
      simp only at hp
      exact Or.inr ⟨hq, rfl, hp⟩

/-- Witness of C16: a memory budget of 100 bytes and a right source that
delivers `(1,foo)`, `(2,bar)` and then metadata with the error `boom`: the
iteration on `(1,foo)` continues, the one on `(2,bar)` meets the refusal of
`Grow`, and `Run` closes with `budget` as cause, draining both inputs, without
pulling the left input; the error `boom` that follows in the source is never
pulled. -/
theorem first_error_wins_witness :
    (buildPhase (sampleEnvBudget onTrue 100)
        (newHashJoiner .fullOuter [0] [0] (rowsSource seed1L) budgetSrc)
      = (budgetEnd, .ret false (some "budget")) ∧
      budgetEnd.out = budgetMid.out ∧ budgetEnd.leftSource = rowsSource seed1L ∧
      SeenNil budgetEnd ∧
      Run (sampleEnvBudget onTrue 100)
          (newHashJoiner .fullOuter [0] [0] (rowsSource seed1L) budgetSrc)
        = ({ budgetEnd with
             rows := [], bucketsAcc := 0,
             closeLog := [.drainAndClose (some "budget") [.left, .right], .rowsClose,
               .accClose] }, none)) ∧
    (Run (sampleEnvBudget onTrue 100)
        (newHashJoiner .fullOuter [0] [0] (rowsSource seed1L) budgetSrc)).1.out = [] ∧
    (Run (sampleEnvBudget onTrue 100)
        (newHashJoiner .fullOuter [0] [0] (rowsSource seed1L) budgetSrc)).1.rightSource
      = [(none, ⟨[], some "boom"⟩)] ∧
    (Run (sampleEnvBudget onTrue 100)
        (newHashJoiner .fullOuter [0] [0] (rowsSource seed1L) budgetSrc)).1.closeLog
      = [.drainAndClose (some "budget") [.left, .right], .rowsClose, .accClose] :=
  ⟨(first_error_wins (sampleEnvBudget onTrue 100) .fullOuter [0] [0] (rowsSource seed1L)
      budgetSrc).2.1 [(some [.int 1, tfoo], ProducerMetadata.zero)]
      (some [.int 2, tbar], ProducerMetadata.zero) [(none, ⟨[], some "boom"⟩)] budgetMid
      budgetEnd false "budget" rfl rfl
      (Or.inr ⟨[.int 2, tbar], rfl, rfl, rfl,
        Or.inr (Or.inr (Or.inr ⟨[1, 2], rfl, rfl, rfl, rfl⟩))⟩),
    rfl, rfl, rfl⟩

end HashJoiner

/-!
# The hash router
-/

namespace Router

/-! ## Stream selection -/

/-- With a datum encoding that appends the bytes `keyBytes d` without error on
the hash columns, all in range, the loop of `PushRow` ends without error with
the buffer followed by the encodings of the hash columns in order. -/
theorem hashLoop_appends {D S : Type} (env : Env D S) (keyBytes : D → List Nat) (row : List D)
    (cols : List Nat) (hcols : ∀ c ∈ cols, c < row.length)
    (henc : ∀ c ∈ cols, ∀ d, row[c]? = some d →
      ∀ buf, env.Encode d buf = (buf ++ keyBytes d, none)) :
    ∀ buf, hashLoop env row buf cols
      = (buf ++ cols.flatMap (HashJoiner.colBytes keyBytes row), none) := by
  induction cols with
  | nil => intro buf; simp [hashLoop]
  | cons c rest ih =>
    intro buf
    have hc : c < row.length := hcols c (List.mem_cons_self _ _)
    have hd : row[c]? = some row[c] := List.getElem?_eq_getElem hc
    unfold hashLoop
    simp only [hd]
    rw [henc c (List.mem_cons_self _ _) _ hd buf]
    simp only
    rw [ih (fun c' hc' => hcols c' (List.mem_cons_of_mem _ hc'))
      (fun c' hc' => henc c' (List.mem_cons_of_mem _ hc')), List.flatMap_cons,
      HashJoiner.colBytes, hd, List.append_assoc]

/-- What `PushRow` does once its loop has ended without error, when the number
of streams is not a multiple of `2 ^ 32`: it pushes the row to the stream at
the checksum of the buffer modulo `uint32(len(hr.streams))` and returns
true. -/
theorem PushRow_routed {D S : Type} (env : Env D S) (hr : hashRouter S) (row : List D)
    (buf : List Nat) (herr : hr.err = none)
    (hloop : hashLoop env row [] hr.hashCols = (buf, none))
    (hn : hr.streams.length % 2 ^ 32 ≠ 0) :
    ∃ s, hr.streams[(env.crc32Update 0 buf % 2 ^ 32) % (hr.streams.length % 2 ^ 32)]? = some s ∧
      (env.crc32Update 0 buf % 2 ^ 32) % (hr.streams.length % 2 ^ 32) < hr.streams.length ∧
      PushRow env hr row =
        ({ hr with
            buffer := buf,
            streams := hr.streams.set
              ((env.crc32Update 0 buf % 2 ^ 32) % (hr.streams.length % 2 ^ 32))
              (env.PushRow s row).1 }, .ret true) := by
  have hlt : (env.crc32Update 0 buf % 2 ^ 32) % (hr.streams.length % 2 ^ 32)
      < hr.streams.length :=
    Nat.lt_of_lt_of_le (Nat.mod_lt _ (Nat.pos_of_ne_zero hn)) (Nat.mod_le _ _)
  refine ⟨hr.streams[(env.crc32Update 0 buf % 2 ^ 32) % (hr.streams.length % 2 ^ 32)],
    List.getElem?_eq_getElem hlt, hlt, ?_⟩
  unfold PushRow
  rw [herr]
  simp only
  rw [hloop]
  simp only
  rw [if_neg hn, List.getElem?_eq_getElem hlt]

/-- C18 (amended): for a hash router over `N` streams with `2 ≤ N < 2 ^ 32` and
no sticky error, and a row in which all hash column indices are in range and
encode without error, `PushRow` returns true and pushes the row to exactly
one downstream stream, the one at index `crc32c(b) mod N` for `b` the
concatenation of the encodings of the hash columns in configured order; the
index is below `N`, and every other stream is left as it was. -/
theorem stream_selection {D S : Type} (env : Env D S) (keyBytes : D → List Nat)
    (hr : hashRouter S) (row : List D)
    (hN : 2 ≤ hr.streams.length) (h32 : hr.streams.length < 2 ^ 32) (herr : hr.err = none)
    (hcols : ∀ c ∈ hr.hashCols, c < row.length)
    (henc : ∀ c ∈ hr.hashCols, ∀ d, row[c]? = some d →
      ∀ buf, env.Encode d buf = (buf ++ keyBytes d, none)) :
    streamIndex env keyBytes hr.hashCols row hr.streams.length < hr.streams.length ∧
    ∃ s, hr.streams[streamIndex env keyBytes hr.hashCols row hr.streams.length]? = some s ∧
      PushRow env hr row =
        ({ hr with
            buffer := hr.hashCols.flatMap (HashJoiner.colBytes keyBytes row),
            streams := hr.streams.set
              (streamIndex env keyBytes hr.hashCols row hr.streams.length)
              (env.PushRow s row).1 }, .ret true) ∧
      (PushRow env hr row).1.streams.length = hr.streams.length ∧
      ∀ j, j ≠ streamIndex env keyBytes hr.hashCols row hr.streams.length →
        (PushRow env hr row).1.streams[j]? = hr.streams[j]? := by
  have hloop := hashLoop_appends env keyBytes row hr.hashCols hcols henc []
  rw [List.nil_append] at hloop
  have hmod : hr.streams.length % 2 ^ 32 = hr.streams.length := Nat.mod_eq_of_lt h32
  obtain ⟨s, hs, hlt, hp⟩ := PushRow_routed env hr row _ herr hloop (by rw [hmod]; omega)
  rw [hmod] at hs hlt hp
  refine ⟨hlt, s, hs, hp, ?_, ?_⟩
  · rw [hp]
    simp only [List.length_set]
  · intro j hj
    rw [hp]
    exact List.getElem?_set_ne (fun h => hj h.symm)

/-- Witness of C18 (amended): the sample router over four streams routes the
row `(1, 'x')` to stream `crc32c([1, 1]) mod 4 = 2`. -/
theorem stream_selection_witness :
    (streamIndex sampleEnv HashJoiner.sampleKeyBytes sampleRouter.hashCols
        [.int 1, HashJoiner.tx] sampleRouter.streams.length < sampleRouter.streams.length ∧
    ∃ s, sampleRouter.streams[streamIndex sampleEnv HashJoiner.sampleKeyBytes
        sampleRouter.hashCols [.int 1, HashJoiner.tx] sampleRouter.streams.length]? = some s ∧
      PushRow sampleEnv sampleRouter [.int 1, HashJoiner.tx] =
        ({ sampleRouter with
            buffer := sampleRouter.hashCols.flatMap
              (HashJoiner.colBytes HashJoiner.sampleKeyBytes [.int 1, HashJoiner.tx]),
            streams := sampleRouter.streams.set
              (streamIndex sampleEnv HashJoiner.sampleKeyBytes sampleRouter.hashCols
                [.int 1, HashJoiner.tx] sampleRouter.streams.length)
              (sampleEnv.PushRow s [.int 1, HashJoiner.tx]).1 }, .ret true) ∧
      (PushRow sampleEnv sampleRouter [.int 1, HashJoiner.tx]).1.streams.length
        = sampleRouter.streams.length ∧
      ∀ j, j ≠ streamIndex sampleEnv HashJoiner.sampleKeyBytes sampleRouter.hashCols
          [.int 1, HashJoiner.tx] sampleRouter.streams.length →
        (PushRow sampleEnv sampleRouter [.int 1, HashJoiner.tx]).1.streams[j]?
          = sampleRouter.streams[j]?) ∧
    PushRow sampleEnv sampleRouter [.int 1, HashJoiner.tx] =
      (⟨[0], [⟨[], []⟩, ⟨[], []⟩, ⟨[[.int 1, HashJoiner.tx]], []⟩, ⟨[], []⟩], [1, 1], none⟩,
        .ret true) :=
  ⟨stream_selection sampleEnv HashJoiner.sampleKeyBytes sampleRouter [.int 1, HashJoiner.tx]
    (by decide) (by decide) rfl (by decide)
    (fun _ _ d _ buf => HashJoiner.sampleEncode_appends d buf), rfl⟩

/-- The streams of a wide router: their number and the stream at an index. -/
theorem wideRouter_streams (n : Nat) :
    (wideRouter n).streams.length = n ∧
    ∀ i, i < n → (wideRouter n).streams[i]? = some ⟨[], []⟩ :=
  ⟨List.length_replicate _ _, fun _ hi => List.getElem?_replicate_of_lt hi⟩

/-- The CRC-32C of the sample encoding `[1, 1]` of the integer `1`, reduced
modulo the number of streams. -/
theorem sample_streamIndex (N : Nat) :
    streamIndex sampleEnv HashJoiner.sampleKeyBytes [0] [.int 1] N = 279473318 % N := by
  have h1 : streamIndex sampleEnv HashJoiner.sampleKeyBytes [0] [.int 1] N
      = crc32cUpdate 0 [1, 1] % 2 ^ 32 % N := rfl
  have h2 : crc32cUpdate 0 [1, 1] = 279473318 := by decide
  rw [h1, h2]
  norm_num

/-- C18 (counterexample): the claim as stated fails for a router over
`N = 2 ^ 32 + 1` streams. The router has no sticky error, the hash column `0`
is in range for the row `(1)` and encodes without error to the bytes `[1, 1]`,
whose CRC-32C is `279473318`, so that `crc32c mod N = 279473318`; but
`uint32(len(hr.streams))` is `1`, and `PushRow` pushes the row to stream `0`,
while stream `279473318` receives nothing. -/
theorem stream_selection_counterexample :
    2 ≤ (wideRouter (2 ^ 32 + 1)).streams.length ∧ (wideRouter (2 ^ 32 + 1)).err = none ∧
    (∀ c ∈ (wideRouter (2 ^ 32 + 1)).hashCols, c < [HashJoiner.Datum.int 1].length) ∧
    hashLoop sampleEnv [.int 1] [] (wideRouter (2 ^ 32 + 1)).hashCols = ([1, 1], none) ∧
    streamIndex sampleEnv HashJoiner.sampleKeyBytes (wideRouter (2 ^ 32 + 1)).hashCols [.int 1]
      (wideRouter (2 ^ 32 + 1)).streams.length = 279473318 ∧
    (PushRow sampleEnv (wideRouter (2 ^ 32 + 1)) [.int 1]).2 = .ret true ∧
    (PushRow sampleEnv (wideRouter (2 ^ 32 + 1)) [.int 1]).1.streams[0]?
      = some ⟨[[.int 1]], []⟩ ∧
    (PushRow sampleEnv (wideRouter (2 ^ 32 + 1)) [.int 1]).1.streams[279473318]?
      = some ⟨[], []⟩ := by
  obtain ⟨hlen, hget⟩ := wideRouter_streams (2 ^ 32 + 1)
  have hmod : (wideRouter (2 ^ 32 + 1)).streams.length % 2 ^ 32 = 1 := by
    rw [hlen]
    norm_num
  obtain ⟨s, hs, -, hp⟩ := PushRow_routed sampleEnv (wideRouter (2 ^ 32 + 1)) [.int 1] [1, 1]
    rfl rfl (by rw [hmod]; decide)
  rw [hmod, Nat.mod_one] at hs hp
  rw [hget 0 (by norm_num)] at hs
  cases hs
  refine ⟨by rw [hlen]; norm_num, rfl, by decide, rfl, ?_, by rw [hp], ?_, ?_⟩
  · rw [hlen]
    show streamIndex sampleEnv HashJoiner.sampleKeyBytes [0] [.int 1] (2 ^ 32 + 1) = 279473318
    rw [sample_streamIndex]
    norm_num
  · rw [hp]
    exact List.getElem?_set_self (by rw [hlen]; norm_num)
  · rw [hp]
    exact (List.getElem?_set_ne (by norm_num)).trans (hget _ (by norm_num))

/-! ## Backpressure and the sticky error -/

/-- The loop of `PushRow` does not call the downstream receivers. -/
theorem hashLoop_recv {D S : Type} (env : Env D S) (recv : S → List D → S × Bool)
    (row : List D) (cols : List Nat) :
    ∀ buf, hashLoop { env with PushRow := recv } row buf cols = hashLoop env row buf cols := by
  induction cols with
  | nil => intro buf; rfl
  | cons c rest ih =>
    intro buf
    unfold hashLoop
    cases row[c]? with
    | none => rfl
    | some d =>
      simp only
      rcases env.Encode d buf with ⟨b, _ | e⟩
      · exact ih b
      · rfl

/-- A call of `PushRow` on a router with a sticky error changes nothing and
returns false. -/
theorem PushRow_stuck {D S : Type} (env : Env D S) (hr : hashRouter S) (row : List D)
    (e : HashJoiner.Err) (herr : hr.err = some e) : PushRow env hr row = (hr, .ret false) := by
  unfold PushRow
  rw [herr]

/-- A call of `PushRow` whose loop meets an error records it and returns
false without touching the streams. -/
theorem PushRow_fails {D S : Type} (env : Env D S) (hr : hashRouter S) (row : List D)
    (buf : List Nat) (e : HashJoiner.Err) (herr : hr.err = none)
    (hloop : hashLoop env row [] hr.hashCols = (buf, some e)) :
    PushRow env hr row = ({ hr with buffer := buf, err := some e }, .ret false) := by
  unfold PushRow
  rw [herr]
  simp only
  rw [hloop]

/-- C19: the hash router never propagates backpressure. Whenever `PushRow`
returns, it returns true iff no sticky error is set afterwards, so it returns
false only when a sticky error is set; for a row routed without error (no
sticky error before the call, none met in the loop, and a stream count that
`uint32` does not truncate to zero) it returns true; and what it returns is
the same whatever the downstream receivers do and answer. -/
theorem no_backpressure {D S : Type} (env : Env D S) (hr : hashRouter S) (row : List D) :
    (∀ hr' b, PushRow env hr row = (hr', .ret b) → (b = true ↔ hr'.err = none)) ∧
    (hr.err = none → (hashLoop env row [] hr.hashCols).2 = none →
      hr.streams.length % 2 ^ 32 ≠ 0 → (PushRow env hr row).2 = .ret true) ∧
    (∀ recv : S → List D → S × Bool,
      (PushRow { env with PushRow := recv } hr row).2 = (PushRow env hr row).2) := by
  refine ⟨?_, ?_, ?_⟩
  · intro hr' b hp
    cases herr : hr.err with
    | some e =>
      rw [PushRow_stuck env hr row e herr] at hp
      cases hp
      simp [herr]
    | none =>
      rcases hloop : hashLoop env row [] hr.hashCols with ⟨buf, _ | e⟩
      · by_cases hn : hr.streams.length % 2 ^ 32 = 0
        · unfold PushRow at hp
          rw [herr] at hp
          simp only at hp
          rw [hloop] at hp
          simp only at hp
          rw [if_pos hn] at hp
          cases hp
        · obtain ⟨s, -, -, hq⟩ := PushRow_routed env hr row buf herr hloop hn
          rw [hq] at hp
          cases hp
          simp [herr]
      · rw [PushRow_fails env hr row buf e herr hloop] at hp
        cases hp
        simp
  · intro herr hloop hn
    rcases hl : hashLoop env row [] hr.hashCols with ⟨buf, oe⟩
    rw [hl] at hloop
    cases hloop
    obtain ⟨s, -, -, hq⟩ := PushRow_routed env hr row buf herr hl hn
    rw [hq]
  · intro recv
    unfold PushRow
    cases hr.err with
    | some e => rfl
    | none =>
      simp only
      rw [hashLoop_recv]
      rcases hashLoop env row [] hr.hashCols with ⟨buf, _ | e⟩
      · simp only
        split
        · rfl
        · split <;> rfl
      · rfl

/-- Witness of C19: the sample router has already pushed the row `(1, 'x')` to
stream 2, which then needs no more rows; a second push of the row is answered
false by that stream, and `PushRow` returns true all the same. -/
theorem no_backpressure_witness :
    (PushRow sampleEnv (PushRow sampleEnv sampleRouter [.int 1, HashJoiner.tx]).1
      [.int 1, HashJoiner.tx]).2 = .ret true ∧
    (sampleEnv.PushRow ⟨[[.int 1, HashJoiner.tx]], []⟩ [.int 1, HashJoiner.tx]).2 = false ∧
    (PushRow sampleEnv (PushRow sampleEnv sampleRouter [.int 1, HashJoiner.tx]).1
      [.int 1, HashJoiner.tx]).1.streams
      = [⟨[], []⟩, ⟨[], []⟩, ⟨[[.int 1, HashJoiner.tx], [.int 1, HashJoiner.tx]], []⟩,
         ⟨[], []⟩] :=
  ⟨(no_backpressure sampleEnv (PushRow sampleEnv sampleRouter [.int 1, HashJoiner.tx]).1
      [.int 1, HashJoiner.tx]).2.1 rfl rfl (by decide), rfl, rfl⟩

/-- A hash column index out of range makes the loop of `PushRow` end with an
error: the one of that column, or an earlier one. -/
theorem hashLoop_out_of_range {D S : Type} (env : Env D S) (row : List D) (cols : List Nat)
    (hbad : ∃ c ∈ cols, row.length ≤ c) : ∀ buf, (hashLoop env row buf cols).2 ≠ none := by
  induction cols with
  | nil =>
    obtain ⟨c, hc, -⟩ := hbad
    cases hc
  | cons c rest ih =>
    intro buf
    unfold hashLoop
    cases hd : row[c]? with
    | none => simp
    | some d =>
      simp only
      rcases env.Encode d buf with ⟨b, _ | e⟩
      · simp only
        apply ih
        obtain ⟨c', hc', hle⟩ := hbad
        rcases List.mem_cons.mp hc' with rfl | hmem
        · have : c' < row.length := (List.getElem?_eq_some.mp hd).1
          omega
        · exact ⟨c', hmem, hle⟩
      · simp

/-- Once a sticky error is set, every call of a sequence returns false and the
router stays as it is. -/
theorem pushAll_stuck {D S : Type} (env : Env D S) (hr : hashRouter S) (e : HashJoiner.Err)
    (herr : hr.err = some e) :
    ∀ rows, pushAll env hr rows = (hr, rows.map (fun _ => PushResult.ret false)) := by
  intro rows
  induction rows with
  | nil => rfl
  | cons row rest ih =>
    unfold pushAll
    simp only
    rw [PushRow_stuck env hr row e herr]
    simp only
    rw [ih]
    rfl

/-- C20: the sticky error of the hash router. A call of `PushRow` without
sticky error whose loop meets an error (which it does when some hash column
index is not below the length of the row, and when an encoding fails) returns
false, records that error and leaves every downstream stream as it was; a
call on a router with a sticky error returns false and changes nothing; so
after the failing call every call of any sequence of rows returns false,
pushes nothing, and the recorded error stays the same. -/
theorem sticky_error {D S : Type} (env : Env D S) (hr : hashRouter S) (row : List D) :
    ((∃ c ∈ hr.hashCols, row.length ≤ c) → (hashLoop env row [] hr.hashCols).2 ≠ none) ∧
    (∀ buf e, hr.err = none → hashLoop env row [] hr.hashCols = (buf, some e) →
      PushRow env hr row = ({ hr with buffer := buf, err := some e }, .ret false) ∧
      ∀ rows, pushAll env hr (row :: rows) =
        ({ hr with buffer := buf, err := some e },
          (row :: rows).map (fun _ => PushResult.ret false))) ∧
    (∀ e, hr.err = some e →
      (∀ row', PushRow env hr row' = (hr, .ret false)) ∧
      ∀ rows, pushAll env hr rows = (hr, rows.map (fun _ => PushResult.ret false))) := by
  refine ⟨fun hbad => hashLoop_out_of_range env row hr.hashCols hbad [], ?_, ?_⟩
  · intro buf e herr hloop
    have hp := PushRow_fails env hr row buf e herr hloop
    refine ⟨hp, fun rows => ?_⟩
    unfold pushAll
    simp only
    rw [hp]
    simp only
    rw [pushAll_stuck env { hr with buffer := buf, err := some e } e rfl rows]
    rfl
  · intro e herr
    exact ⟨fun row' => PushRow_stuck env hr row' e herr, pushAll_stuck env hr e herr⟩

/-- Witness of C20: a router on column 2 gets the row `(1, 'x')` of two columns
and then two valid rows: it records the error of the column, returns false
three times and pushes nothing. -/
theorem sticky_error_witness :
    (PushRow sampleEnv ⟨[2], sampleRouter.streams, [], none⟩ [.int 1, HashJoiner.tx] =
        (⟨[2], sampleRouter.streams, [], some (colError 2 2)⟩, .ret false) ∧
      ∀ rows, pushAll sampleEnv ⟨[2], sampleRouter.streams, [], none⟩
          ([.int 1, HashJoiner.tx] :: rows) =
        (⟨[2], sampleRouter.streams, [], some (colError 2 2)⟩,
          ([.int 1, HashJoiner.tx] :: rows).map (fun _ => PushResult.ret false))) ∧
    pushAll sampleEnv ⟨[2], sampleRouter.streams, [], none⟩
        [[.int 1, HashJoiner.tx], [.int 1, HashJoiner.tx, .int 3],
          [.int 2, HashJoiner.ty, .int 4]] =
      (⟨[2], sampleRouter.streams, [], some (colError 2 2)⟩,
        [.ret false, .ret false, .ret false]) :=
  ⟨(sticky_error sampleEnv ⟨[2], sampleRouter.streams, [], none⟩
      [.int 1, HashJoiner.tx]).2.1 [] (colError 2 2) rfl rfl, rfl⟩

/-! ## Closing the router -/

/-- The loop of `Close` closes every stream with the given argument and calls
the streams at the positions `i`, `i + 1`, ... in this order. -/
theorem closeLoop_eq {D S : Type} (env : Env D S) (err : Option HashJoiner.Err)
    (streams : List S) :
    ∀ i, closeLoop env err i streams =
      (streams.map (fun s => env.Close s err),
        (List.range' i streams.length).map (fun j => (j, err))) := by
  induction streams with
  | nil => intro i; rfl
  | cons s rest ih =>
    intro i
    unfold closeLoop
    simp only
    rw [ih (i + 1)]
    simp [List.range'_succ]

/-- C21: hash router close. For every caller-supplied error `e` (possibly nil),
`Close(e)` calls `Close` exactly once on every downstream stream, in stream
order (the ghost record of the calls lists the positions `0, 1, ..., N - 1`),
all with the same argument, which is the sticky error of the router if one is
set and `e` otherwise; every stream ends as its `Close` with that argument
leaves it, and nothing else of the router changes. -/
theorem close_forwards_error {D S : Type} (env : Env D S) (hr : hashRouter S)
    (e : Option HashJoiner.Err) :
    Close env hr e =
      ({ hr with streams := hr.streams.map (fun s => env.Close s (hr.err.or e)) },
        (List.range hr.streams.length).map (fun j => (j, hr.err.or e))) ∧
    (∀ e', hr.err = some e' → hr.err.or e = some e') ∧
    (hr.err = none → hr.err.or e = e) := by
  refine ⟨?_, fun e' h => by rw [h]; rfl, fun h => by rw [h]; cases e <;> rfl⟩
  unfold Close
  have harg : (match hr.err with
      | some e' => some e'
      | none => e) = hr.err.or e := by
    cases hr.err <;> cases e <;> rfl
  simp only [harg]
  rw [closeLoop_eq, List.range_eq_range']

/-- Witness of C21: the sample router over four streams, once with the sticky
error `stuck` and the caller's error `late`, once without sticky error: every
stream is closed once, in order, with `stuck` and with `late`. -/
theorem close_forwards_error_witness :
    Close sampleEnv { sampleRouter with err := some "stuck" } (some "late") =
      (⟨[0], [⟨[], [some "stuck"]⟩, ⟨[], [some "stuck"]⟩, ⟨[], [some "stuck"]⟩,
          ⟨[], [some "stuck"]⟩], [], some "stuck"⟩,
        [(0, some "stuck"), (1, some "stuck"), (2, some "stuck"), (3, some "stuck")]) ∧
    Close sampleEnv sampleRouter (some "late") =
      (⟨[0], [⟨[], [some "late"]⟩, ⟨[], [some "late"]⟩, ⟨[], [some "late"]⟩,
          ⟨[], [some "late"]⟩], [], none⟩,
        [(0, some "late"), (1, some "late"), (2, some "late"), (3, some "late")]) ∧
    (Close sampleEnv sampleRouter none).2 = [(0, none), (1, none), (2, none), (3, none)] :=
  ⟨((close_forwards_error sampleEnv { sampleRouter with err := some "stuck" }
      (some "late")).1.trans rfl), rfl, rfl⟩

/-! ## Construction of a router -/

/-- C23: router construction. `makeRouter` returns an error and no receiver when
the stream list is empty; it returns the single stream itself when there is
exactly one stream, whatever the routing policy and the hash columns; for two
or more streams it returns, without error, a hash router over exactly those
streams and hash columns (with an empty buffer and no sticky error) when the
policy is `BY_HASH` and the hash column list is not empty, an error when the
policy is `BY_HASH` and there is no hash column (the receiver is then the nil
`*hashRouter`), and an error and no receiver for any other policy. -/
theorem makeRouter_cases {S : Type} (typeString : RouterType → String)
    (spec : OutputRouterSpec) (streams : List S) :
    (streams.length = 0 → makeRouter typeString spec streams
      = (none, some "no streams in router")) ∧
    (∀ s, streams = [s] → makeRouter typeString spec streams = (some (.stream s), none)) ∧
    (2 ≤ streams.length → spec.Type_ = .BY_HASH → spec.HashColumns ≠ [] →
      makeRouter typeString spec streams
        = (some (.router (some ⟨spec.HashColumns, streams, [], none⟩)), none)) ∧
    (2 ≤ streams.length → spec.Type_ = .BY_HASH → spec.HashColumns = [] →
      makeRouter typeString spec streams
        = (some (.router none), some "no hash columns for BY_HASH router")) ∧
    (2 ≤ streams.length → spec.Type_ ≠ .BY_HASH →
      (makeRouter typeString spec streams).1 = none ∧
      (makeRouter typeString spec streams).2
        = some ("router type " ++ typeString spec.Type_ ++ " not supported")) := by
  refine ⟨?_, ?_, ?_, ?_, ?_⟩
  · intro h
    cases streams with
    | nil => rfl
    | cons _ _ => simp at h
  · intro s h
    subst h
    rfl
  · intro h ht hc
    match streams, h with
    | _ :: _ :: _, _ =>
      unfold makeRouter
      simp only [ht, makeHashRouter]
      rw [if_neg (by simpa using hc)]
  · intro h ht hc
    match streams, h with
    | _ :: _ :: _, _ =>
      unfold makeRouter
      simp only [ht, makeHashRouter, hc, List.length_nil, if_true]
  · intro h ht
    match streams, h with
    | _ :: _ :: _, _ =>
      unfold makeRouter
      cases hty : spec.Type_ with
      | BY_HASH => exact absurd hty ht
      | other code => exact ⟨rfl, rfl⟩

/-- Witness of C23: hash columns `[0]` under the policy `BY_HASH`, over no
stream, one stream and two streams; no hash column; another policy. -/
theorem makeRouter_cases_witness :
    makeRouter (fun _ => "MIRROR") ⟨.BY_HASH, [0]⟩ ([] : List sampleStream)
      = (none, some "no streams in router") ∧
    makeRouter (fun _ => "MIRROR") ⟨.other 0, []⟩ [(⟨[], []⟩ : sampleStream)]
      = (some (.stream ⟨[], []⟩), none) ∧
    makeRouter (fun _ => "MIRROR") ⟨.BY_HASH, [0]⟩ [(⟨[], []⟩ : sampleStream), ⟨[], []⟩]
      = (some (.router (some ⟨[0], [⟨[], []⟩, ⟨[], []⟩], [], none⟩)), none) ∧
    makeRouter (fun _ => "MIRROR") ⟨.BY_HASH, []⟩ [(⟨[], []⟩ : sampleStream), ⟨[], []⟩]
      = (some (.router none), some "no hash columns for BY_HASH router") ∧
    (makeRouter (fun _ => "MIRROR") ⟨.other 0, [0]⟩
      [(⟨[], []⟩ : sampleStream), ⟨[], []⟩]).1 = none :=
  ⟨(makeRouter_cases (fun _ => "MIRROR") ⟨.BY_HASH, [0]⟩ ([] : List sampleStream)).1 rfl,
    rfl, rfl, rfl, rfl⟩

/-! ## Determinism of the routing -/

/-- The loop of `PushRow` depends on the environment through the datum
encoding only. -/
theorem hashLoop_congr {D S T : Type} (env1 : Env D S) (env2 : Env D T)
    (henc : env1.Encode = env2.Encode) (row : List D) (cols : List Nat) :
    ∀ buf, hashLoop env1 row buf cols = hashLoop env2 row buf cols := by
  induction cols with
  | nil => intro buf; rfl
  | cons c rest ih =>
    intro buf
    unfold hashLoop
    cases row[c]? with
    | none => rfl
    | some d =>
      simp only
      rw [henc]
      rcases env2.Encode d buf with ⟨b, _ | e⟩
      · exact ih b
      · rfl

/-- The selected stream depends on the environment through the datum encoding
and the checksum only. -/
theorem routeIdx_congr {D S T : Type} (env1 : Env D S) (env2 : Env D T)
    (henc : env1.Encode = env2.Encode) (hcrc : env1.crc32Update = env2.crc32Update)
    (hashCols : List Nat) (N : Nat) (row : List D) :
    routeIdx env1 hashCols N row = routeIdx env2 hashCols N row := by
  unfold routeIdx
  rw [hashLoop_congr env1 env2 henc, hcrc]

/-- What `PushRow` does once its loop has ended without error, when the number
of streams is a multiple of `2 ^ 32`: it panics on the division. -/
theorem PushRow_panics {D S : Type} (env : Env D S) (hr : hashRouter S) (row : List D)
    (buf : List Nat) (herr : hr.err = none)
    (hloop : hashLoop env row [] hr.hashCols = (buf, none))
    (hn : hr.streams.length % 2 ^ 32 = 0) :
    PushRow env hr row = ({ hr with buffer := buf }, .panic) := by
  unfold PushRow
  rw [herr]
  simp only
  rw [hloop]
  simp only
  rw [if_pos hn]

/-- A call of `PushRow` on a valid row, by a router without sticky error,
pushes the row to the stream `routeIdx` names and to no other, whatever the
buffer and the streams hold, and leaves the router without sticky error, with
its hash columns and its number of streams. -/
theorem PushRow_route {D S : Type} (env : Env D S) (hr : hashRouter S) (row : List D)
    (herr : hr.err = none) (hvalid : (hashLoop env row [] hr.hashCols).2 = none) :
    (PushRow env hr row).1.streams
      = deliver env hr.streams [(routeIdx env hr.hashCols hr.streams.length row, row)] ∧
    (PushRow env hr row).2
      = (if (routeIdx env hr.hashCols hr.streams.length row).isSome then .ret true
          else .panic) ∧
    (PushRow env hr row).1.err = none ∧
    (PushRow env hr row).1.hashCols = hr.hashCols ∧
    (PushRow env hr row).1.streams.length = hr.streams.length := by
  rcases hl : hashLoop env row [] hr.hashCols with ⟨buf, oe⟩
  rw [hl] at hvalid
  cases hvalid
  by_cases hn : hr.streams.length % 2 ^ 32 = 0
  · have hidx : routeIdx env hr.hashCols hr.streams.length row = none := by
      unfold routeIdx
      rw [if_pos hn]
    rw [PushRow_panics env hr row buf herr hl hn, hidx]
    exact ⟨rfl, rfl, herr, rfl, rfl⟩
  · obtain ⟨s, hs, -, hp⟩ := PushRow_routed env hr row buf herr hl hn
    rw [hp]
    simp only [routeIdx, hn, if_false, hl, deliver, hs, Option.isSome_some, if_true,
      List.length_set, herr, and_self]

/-- A sequence of calls of `PushRow` on valid rows, by a router without sticky
error, pushes every row to the stream `routeIdx` names for it. -/
theorem pushAll_routes {D S : Type} (env : Env D S) (rows : List (List D)) :
    ∀ (hr : hashRouter S), hr.err = none →
      (∀ row ∈ rows, (hashLoop env row [] hr.hashCols).2 = none) →
      (pushAll env hr rows).1.streams = deliver env hr.streams
        (rows.map (fun row => (routeIdx env hr.hashCols hr.streams.length row, row))) ∧
      (pushAll env hr rows).2 = rows.map (fun row =>
        if (routeIdx env hr.hashCols hr.streams.length row).isSome then .ret true
        else .panic) := by
  induction rows with
  | nil => intro hr _ _; exact ⟨rfl, rfl⟩
  | cons row rest ih =>
    intro hr herr hvalid
    obtain ⟨p1, p2, p3, p4, p5⟩ := PushRow_route env hr row herr
      (hvalid row (List.mem_cons_self _ _))
    obtain ⟨i1, i2⟩ := ih (PushRow env hr row).1 p3
      (fun r hr' => by rw [p4]; exact hvalid r (List.mem_cons_of_mem _ hr'))
    rw [p4, p5, p1] at i1
    rw [p4, p5] at i2
    unfold pushAll
    simp only [List.map_cons]
    refine ⟨?_, by rw [i2, p2]⟩
    rw [i1]
    cases hidx : routeIdx env hr.hashCols hr.streams.length row with
    | none => simp [deliver]
    | some i =>
      simp only [deliver]
      cases hr.streams[i]? <;> rfl

/-- C22: router determinism. For two independent hash routers with the same
hash columns and the same number of streams, without sticky error, whose
environments agree on the datum encoding and on the checksum, and for every
sequence of valid rows: each router pushes the i-th row to the stream
`routeIdx hashCols N row`, a function of the hash columns, the number of
streams and that row alone, so both push each row to the same stream index,
and their calls return the same values; the stream chosen for a row does not
depend on the rows pushed earlier, on what the streams hold or do, or on the
previous contents of the scratch buffer. -/
theorem router_determinism {D S T : Type} (env1 : Env D S) (env2 : Env D T)
    (hr1 : hashRouter S) (hr2 : hashRouter T) (rows : List (List D))
    (henc : env1.Encode = env2.Encode) (hcrc : env1.crc32Update = env2.crc32Update)
    (hcols : hr1.hashCols = hr2.hashCols) (hlen : hr1.streams.length = hr2.streams.length)
    (he1 : hr1.err = none) (he2 : hr2.err = none)
    (hvalid : ∀ row ∈ rows, (hashLoop env1 row [] hr1.hashCols).2 = none) :
    (pushAll env1 hr1 rows).1.streams = deliver env1 hr1.streams
      (rows.map (fun row => (routeIdx env1 hr1.hashCols hr1.streams.length row, row))) ∧
    (pushAll env2 hr2 rows).1.streams = deliver env2 hr2.streams
      (rows.map (fun row => (routeIdx env1 hr1.hashCols hr1.streams.length row, row))) ∧
    (pushAll env1 hr1 rows).2 = (pushAll env2 hr2 rows).2 ∧
    (∀ (buf : List Nat) (row : List D), row ∈ rows →
      (PushRow env1 { hr1 with buffer := buf } row).1.streams = (PushRow env1 hr1 row).1.streams ∧
      (PushRow env1 { hr1 with buffer := buf } row).2 = (PushRow env1 hr1 row).2) := by
  obtain ⟨a1, a2⟩ := pushAll_routes env1 rows hr1 he1 hvalid
  have hvalid2 : ∀ row ∈ rows, (hashLoop env2 row [] hr2.hashCols).2 = none := by
    intro row hrow
    rw [← hcols, ← hashLoop_congr env1 env2 henc]
    exact hvalid row hrow
  obtain ⟨b1, b2⟩ := pushAll_routes env2 rows hr2 he2 hvalid2
  have hidx : ∀ row, routeIdx env2 hr2.hashCols hr2.streams.length row
      = routeIdx env1 hr1.hashCols hr1.streams.length row := by
    intro row
    rw [← hcols, ← hlen, routeIdx_congr env1 env2 henc hcrc]
  simp only [hidx] at b1 b2
  refine ⟨a1, b1, by rw [a2, b2], ?_⟩
  intro buf row hrow
  obtain ⟨p1, p2, -⟩ := PushRow_route env1 hr1 row he1 (hvalid row hrow)
  obtain ⟨q1, q2, -⟩ := PushRow_route env1 { hr1 with buffer := buf } row he1 (hvalid row hrow)
  exact ⟨q1.trans p1.symm, q2.trans p2.symm⟩

/-- Witness of C22: `N = 4` streams and hash columns `[0]`. Two sample routers,
one fresh, one with a used scratch buffer and a row in its first stream, get
the rows `(1, 'x')`, `(3, 'x')`, `(1, 'z')`: both push them to the streams
`2`, `1`, `2`. -/
theorem router_determinism_witness :
    ((pushAll sampleEnv sampleRouter sampleRows).1.streams = deliver sampleEnv
        sampleRouter.streams (sampleRows.map (fun row =>
          (routeIdx sampleEnv sampleRouter.hashCols sampleRouter.streams.length row, row))) ∧
      (pushAll sampleEnv sampleRouter2 sampleRows).1.streams = deliver sampleEnv
        sampleRouter2.streams (sampleRows.map (fun row =>
          (routeIdx sampleEnv sampleRouter.hashCols sampleRouter.streams.length row, row))) ∧
      (pushAll sampleEnv sampleRouter sampleRows).2
        = (pushAll sampleEnv sampleRouter2 sampleRows).2 ∧
      (∀ (buf : List Nat) (row : List HashJoiner.Datum), row ∈ sampleRows →
        (PushRow sampleEnv { sampleRouter with buffer := buf } row).1.streams
          = (PushRow sampleEnv sampleRouter row).1.streams ∧
        (PushRow sampleEnv { sampleRouter with buffer := buf } row).2
          = (PushRow sampleEnv sampleRouter row).2)) ∧
    sampleRows.map (routeIdx sampleEnv [0] 4) = [some 2, some 1, some 2] ∧
    (pushAll sampleEnv sampleRouter sampleRows).1.streams =
      [⟨[], []⟩, ⟨[[.int 3, HashJoiner.tx]], []⟩,
       ⟨[[.int 1, HashJoiner.tx], [.int 1, HashJoiner.tz]], []⟩, ⟨[], []⟩] ∧
    (pushAll sampleEnv sampleRouter2 sampleRows).1.streams =
      [⟨[[.int 9, HashJoiner.ty]], []⟩, ⟨[[.int 3, HashJoiner.tx]], []⟩,
       ⟨[[.int 1, HashJoiner.tx], [.int 1, HashJoiner.tz]], []⟩, ⟨[], []⟩] :=
  ⟨router_determinism sampleEnv sampleEnv sampleRouter sampleRouter2 sampleRows rfl rfl rfl rfl
    rfl rfl (by decide), by decide, rfl, rfl⟩

end Router

/-!
# The UPSERT desugaring
-/

namespace Upsert

/-- The set that the first loop fills holds the keys it had and the column IDs
of the index. -/
theorem fillColSet_contains (colIDs : List Nat) :
    ∀ (set : List Nat) (x : Nat),
      (fillColSet set colIDs).contains x = (set.contains x || colIDs.contains x) := by
  induction colIDs with
  | nil => intro set x; simp [fillColSet]
  | cons c rest ih =>
    intro set x
    unfold fillColSet
    rw [ih]
    by_cases hc : set.contains c = true
    · rw [if_pos hc]
      by_cases hx : x = c
      · subst hx
        rw [hc]
        simp
      · simp [hx]
    · rw [if_neg hc]
      by_cases hx : x = c
      · subst hx
        simp
      · simp [hx]

/-- The second loop appends the expression `c = excluded.c` for every insert
column whose ID is not in the set, in order. -/
theorem appendExprs_eq (indexColSet : List Nat) (insertCols : List ColumnDescriptor) :
    ∀ acc, appendExprs indexColSet acc insertCols =
      acc ++ (insertCols.filter (fun c => !indexColSet.contains c.ID)).map setExcluded := by
  induction insertCols with
  | nil => intro acc; simp [appendExprs]
  | cons c rest ih =>
    intro acc
    unfold appendExprs
    by_cases hc : (!indexColSet.contains c.ID) = true
    · rw [if_pos hc, List.filter_cons, if_pos hc]
      simp only
      rw [ih, List.map_cons, List.append_assoc]
      rfl
    · rw [if_neg hc, List.filter_cons, if_neg hc]
      exact ih acc

/-- C24: UPSERT desugaring. When the ON CONFLICT clause is the UPSERT alias,
`upsertExprsAndIndex` returns no error, the primary index of the table as
the conflict index, and exactly one SET expression for each insert column
whose ID is not a column of the primary index, in the order of `insertCols`,
each assigning the column `c` the value `excluded.c`; a column of the primary
index gets no SET expression. -/
theorem upsert_desugaring (env : Env) (tableDesc : TableDescriptor) (onConflict : OnConflict)
    (insertCols : List ColumnDescriptor) (halias : env.IsUpsertAlias onConflict = true) :
    upsertExprsAndIndex env tableDesc onConflict insertCols =
      ((insertCols.filter
          (fun c => !tableDesc.PrimaryIndex.ColumnIDs.contains c.ID)).map setExcluded,
        some tableDesc.PrimaryIndex, none) ∧
    (∀ u ∈ (upsertExprsAndIndex env tableDesc onConflict insertCols).1,
      ∃ c ∈ insertCols, c.ID ∉ tableDesc.PrimaryIndex.ColumnIDs ∧ u = setExcluded c) ∧
    ((upsertExprsAndIndex env tableDesc onConflict insertCols).1.length =
      (insertCols.filter (fun c => !tableDesc.PrimaryIndex.ColumnIDs.contains c.ID)).length) := by
  have hres : upsertExprsAndIndex env tableDesc onConflict insertCols =
      ((insertCols.filter
          (fun c => !tableDesc.PrimaryIndex.ColumnIDs.contains c.ID)).map setExcluded,
        some tableDesc.PrimaryIndex, none) := by
    unfold upsertExprsAndIndex
    rw [if_pos halias]
    simp only
    rw [appendExprs_eq, List.nil_append]
    have hset : ∀ c : ColumnDescriptor,
        (fillColSet [] tableDesc.PrimaryIndex.ColumnIDs).contains c.ID
          = tableDesc.PrimaryIndex.ColumnIDs.contains c.ID := by
      intro c
      rw [fillColSet_contains]
      simp
    simp only [hset]
  refine ⟨hres, ?_, ?_⟩
  · intro u hu
    rw [hres] at hu
    obtain ⟨c, hc, rfl⟩ := List.mem_map.mp hu
    obtain ⟨hmem, hnot⟩ := List.mem_filter.mp hc
    exact ⟨c, hmem, by simpa using hnot, rfl⟩
  · rw [hres, List.length_map]

/-- Witness of C24: `UPSERT INTO abc VALUES (1, 2, 3)` with primary key `a`
yields `SET b = excluded.b, c = excluded.c` on the conflict index `a`. -/
theorem upsert_desugaring_witness :
    (upsertExprsAndIndex sampleEnv abcTable ⟨[], []⟩ abcCols =
      ((abcCols.filter
          (fun c => !abcTable.PrimaryIndex.ColumnIDs.contains c.ID)).map setExcluded,
        some abcTable.PrimaryIndex, none) ∧
    (∀ u ∈ (upsertExprsAndIndex sampleEnv abcTable ⟨[], []⟩ abcCols).1,
      ∃ c ∈ abcCols, c.ID ∉ abcTable.PrimaryIndex.ColumnIDs ∧ u = setExcluded c) ∧
    ((upsertExprsAndIndex sampleEnv abcTable ⟨[], []⟩ abcCols).1.length =
      (abcCols.filter (fun c => !abcTable.PrimaryIndex.ColumnIDs.contains c.ID)).length)) ∧
    upsertExprsAndIndex sampleEnv abcTable ⟨[], []⟩ abcCols =
      ([⟨false, [["b"]], .columnItem ⟨⟨"excluded"⟩, "b"⟩⟩,
        ⟨false, [["c"]], .columnItem ⟨⟨"excluded"⟩, "c"⟩⟩],
        some ⟨true, ["a"], [1]⟩, none) :=
  ⟨upsert_desugaring sampleEnv abcTable ⟨[], []⟩ abcCols rfl, by decide⟩

end Upsert
